import Mathlib

/-!
YASE: identifiers, base file, buffer pool, paged file, table, skip-list index,
log manager, lock manager and transactions.

A shallow embedding of `yase_internal.h` (PageId, RID, Transaction),
`Storage/basefile.cc` (BaseFile), `Storage/buffer_manager.cc` (BufferManager),
`Storage/file.cc` (File), `Storage/table.cc` (Table), `Index/skiplist.cc`
(SkipList), `Log/log_manager.cc` (LogManager) and `Lock/lock_manager.cc`
(LockManager, Transaction::Commit, Transaction::Abort), with the properties of
the storage-engine specification proved over it.

Conventions of the embedding:
* `uint64_t`/`uint32_t` values are natural numbers, reduced `% 2^w` where the
  C++ arithmetic can wrap.
* The compile-time constants `PAGE_SIZE` and `SKIP_LIST_MAX_LEVEL` are not
  defined in the sources at hand; they are explicit parameters.
* Byte buffers (`char *`) are lists of natural numbers.
* Latches (`pthread_rwlock_t`, `std::mutex`) guard concurrent executions only
  and are left out of the operations: every operation is modelled as run by a
  single thread, and the calls of several transactions are interleaved call by
  call. The one exception is a thread that locks a `std::mutex` it owns already
  (`ReleaseLock` reached from `AcquireLock` through `Abort`): that execution
  does not return and is `none`. A call that sleeps in `cv.wait` ends as
  `Outcome.blocked`. The latch calls of `SkipList::Scan` and `SkipList::Update`
  are given apart, as the list of calls in program order (`LatchOp`).
* `Storage/page.h` and `Storage/table.h` are not among the sources at hand:
  the layout of directory and data pages is a parameter (`PageLayout`), and so
  are the member functions of `DataPage` that `table.cc` calls
  (`DataPageOps`).
* `Log/log_manager.h` is not among the sources at hand: the sizes and byte
  images of `LogRecord` and `LSN` are a parameter (`LogLayout`), the payload
  array starts right behind the header, and the members `logbuf_size`,
  `logbuf_offset`, `current_lsn` and `durable_lsn` are natural numbers. The
  64-bit counters `ts_counter`, `current_lsn` and `durable_lsn` count
  transactions and bytes and are not reduced modulo `2^64`.
* `Transaction` objects and lock heads are addressed by their index in a list;
  `std::unordered_map` is an association list.
* Towers of the skip list live in a heap indexed by address. An execution that
  reads through a null or dangling pointer, or outside an array, is a faulting
  execution: the operation returns `none`. Loops that follow pointers carry a
  fuel bounded by the number of allocated towers.
* Level numbers and `height` are array indices below `SKIP_LIST_MAX_LEVEL` and
  are plain natural numbers.
-/

namespace yase

/-! ## Identifiers (`yase_internal.h`) -/

/-- Page ID - a 64-bit integer. -/
structure PageId where
  value : Nat
  deriving DecidableEq, Repr

/-- The constant `PageId::kInvalidValue = ~uint64_t{0}`. -/
def kInvalidValue : Nat := 2 ^ 64 - 1

/-- Default constructor `PageId() : value(kInvalidValue)`. -/
def PageId.invalid : PageId := ⟨kInvalidValue⟩

/-- Constructor `PageId(int file_id, uint32_t page_num)`:
`value = (((uint64_t)file_id) << 32UL) | (((uint64_t)page_num) << 16UL)`.
The conversion of the `int` and both shifts are taken modulo `2^64`. -/
def PageId.make (file_id : Int) (page_num : Nat) : PageId :=
  ⟨(((file_id % (2 ^ 64 : Int)).toNat <<< 32) % 2 ^ 64) |||
    (((page_num % 2 ^ 32) <<< 16) % 2 ^ 64)⟩

/-- Method `IsValid() { return value != kInvalidValue; }`. -/
def PageId.IsValid (p : PageId) : Bool := p.value != kInvalidValue

/-- Method `GetPageNum() const { return (value & 0xffffffff) >> 16; }`. -/
def PageId.GetPageNum (p : PageId) : Nat := (p.value &&& 0xffffffff) >>> 16

/-- Method `GetFileId() const { return value >> 32UL; }` (result is `uint32_t`). -/
def PageId.GetFileId (p : PageId) : Nat := (p.value >>> 32) % 2 ^ 32

/-- Record ID: same representation as `PageId`, the 16 low bits hold the slot. -/
structure RID where
  value : Nat
  deriving DecidableEq, Repr

/-- Constructor `RID(PageId page_id, uint16_t slot_id) { value = page_id.value | slot_id; }`. -/
def RID.make (page_id : PageId) (slot_id : Nat) : RID :=
  ⟨page_id.value ||| (slot_id % 2 ^ 16)⟩

/-- Default constructor `RID() { value = kInvalidValue; }`. -/
def RID.invalid : RID := ⟨kInvalidValue⟩

/-- Method `RID::GetSlotId() { return value & 0xffff; }`. -/
def RID.GetSlotId (r : RID) : Nat := r.value &&& 0xffff

/-- Method `RID::IsValid() { return value != kInvalidValue; }`. -/
def RID.IsValid (r : RID) : Bool := r.value != kInvalidValue

/-- Inherited `PageId::GetPageNum` on a RID. -/
def RID.GetPageNum (r : RID) : Nat := (r.value &&& 0xffffffff) >>> 16

/-- Inherited `PageId::GetFileId` on a RID. -/
def RID.GetFileId (r : RID) : Nat := (r.value >>> 32) % 2 ^ 32

/-! ## Base file (`Storage/basefile.cc`) -/

/-- A `BaseFile`: the descriptor `id`, the counter `page_count`, and the
content of the underlying OS file as a byte array. -/
structure BaseFile where
  id : Int
  page_count : Nat
  bytes : List Nat
  deriving DecidableEq, Repr

/-- Outcome of the system calls made by one `FlushPage`: the return value of
`fsync`, and what `pwrite` manages to write (`none` is the error return `-1`,
`some n` a write of at most `n` bytes). -/
structure SysOutcome where
  fsync_ret : Int
  pwrite_room : Option Nat
  deriving DecidableEq, Repr

/-- Constructor `BaseFile(std::string name)`: `open` with `O_CREAT|O_RDWR|O_TRUNC`
yields descriptor `fd` and an empty file; a negative descriptor aborts the
process (`none`). -/
def BaseFile.create (fd : Int) : Option BaseFile :=
  if fd < 0 then none else some ⟨fd, 0, []⟩

/-- Positional write of the first `n` bytes of `buf` at `offset`; a gap between
the end of the file and `offset` reads as zero bytes. -/
def pwriteBytes (file buf : List Nat) (n offset : Nat) : List Nat :=
  let data := buf.take n
  let base := file ++ List.replicate (offset - file.length) 0
  base.take offset ++ data ++ base.drop (offset + data.length)

/-- Positional read of up to `n` bytes at `offset`: the bytes the file holds there. -/
def preadBytes (file : List Nat) (n offset : Nat) : List Nat :=
  (file.drop offset).take n

/-- Update of a destination buffer by the bytes read, as `memcpy` does. -/
def overwrite (dst src : List Nat) : List Nat :=
  src ++ dst.drop src.length

/-- Offset computation `off_t offset = pid.GetPageNum() * PAGE_SIZE;` in
32-bit unsigned arithmetic. -/
def pageOffset (PAGE_SIZE : Nat) (pid : PageId) : Nat :=
  (pid.GetPageNum * PAGE_SIZE) % 2 ^ 32

/-- Method `BaseFile::FlushPage`. `none` is `abort()` after a failed `fsync`. -/
def BaseFile.FlushPage (PAGE_SIZE : Nat) (bf : BaseFile) (pid : PageId) (page : List Nat)
    (sys : SysOutcome) : Option (Bool × BaseFile) :=
  if !pid.IsValid then some (false, bf)
  else
    let offset := pageOffset PAGE_SIZE pid
    if sys.fsync_ret < 0 then none
    else
      match sys.pwrite_room with
      | none => some (false, bf)
      | some room =>
        let n := min room PAGE_SIZE
        some (n == PAGE_SIZE, { bf with bytes := pwriteBytes bf.bytes page n offset })

/-- Method `BaseFile::LoadPage`: returns the flag and the output buffer. -/
def BaseFile.LoadPage (PAGE_SIZE : Nat) (bf : BaseFile) (pid : PageId) (out_buf : List Nat) :
    Bool × List Nat :=
  if !pid.IsValid then (false, out_buf)
  else
    let offset := pageOffset PAGE_SIZE pid
    let got := preadBytes bf.bytes PAGE_SIZE offset
    (got.length == PAGE_SIZE, overwrite out_buf got)

/-- Method `BaseFile::CreatePage`. `page_count.fetch_add(1)` and `page_count--`
act on a `uint32_t`. -/
def BaseFile.CreatePage (PAGE_SIZE : Nat) (bf : BaseFile) (sys : SysOutcome) :
    Option (PageId × BaseFile) :=
  let pid := PageId.make bf.id bf.page_count
  let bf1 := { bf with page_count := (bf.page_count + 1) % 2 ^ 32 }
  let buffer := List.replicate PAGE_SIZE 0
  match bf1.FlushPage PAGE_SIZE pid buffer sys with
  | none => none
  | some (ok, bf2) =>
    if !ok then
      some (PageId.invalid, { bf2 with page_count := (bf2.page_count + 2 ^ 32 - 1) % 2 ^ 32 })
    else some (pid, bf2)

/-- Method `BaseFile::GetPageCount`. -/
def BaseFile.GetPageCount (bf : BaseFile) : Nat := bf.page_count

/-- Successive `CreatePage` calls, one per system outcome, collecting the
returned page ids in call order. -/
def BaseFile.CreatePages (PAGE_SIZE : Nat) : BaseFile → List SysOutcome →
    Option (List PageId × BaseFile)
  | bf, [] => some ([], bf)
  | bf, sys :: rest =>
    match bf.CreatePage PAGE_SIZE sys with
    | none => none
    | some (pid, bf1) =>
      match BaseFile.CreatePages PAGE_SIZE bf1 rest with
      | none => none
      | some (pids, bf2) => some (pid :: pids, bf2)

/-! ## Skip list (`Index/skiplist.cc`) -/

/-- A `SkipListNode *`: the null pointer, the address of one of the two dummy
towers embedded in the list, or the address of a heap-allocated tower. -/
inductive Ptr where
  | null
  | head
  | tail
  | node (addr : Nat)
  deriving DecidableEq, Repr

/-- Skip list node (tower). `key` and `payload` are the two parts of `data`:
`GetKey()` is `data`, `GetPayload()` is `data + key_size`. -/
structure SkipListNode where
  nlevels : Nat
  key_size : Nat
  payload_size : Nat
  next : List Ptr
  key : List Nat
  payload : List Nat
  deriving DecidableEq, Repr

/-- Skip list that maps keys to data entries. `heap` holds the towers allocated
by `NewNode`, indexed by address; a freed tower is `none`. -/
structure SkipList where
  key_size : Nat
  payload_size : Nat
  head : SkipListNode
  tail : SkipListNode
  height : Nat
  heap : List (Option SkipListNode)
  deriving DecidableEq, Repr

/-- Function `memcmp(a, b, n)`: zero when the first `n` bytes agree, otherwise the
difference of the first pair of bytes that differ. -/
def memcmp : List Nat → List Nat → Nat → Int
  | a :: as, b :: bs, n + 1 => if a = b then memcmp as bs n else (a : Int) - (b : Int)
  | _, _, _ => 0

/-- Function `memcpy(dst, src, n)`: the first `n` bytes of `dst` replaced by those of `src`. -/
def memcpy (dst src : List Nat) (n : Nat) : List Nat :=
  src.take n ++ dst.drop n

/-- Constructor `SkipList::SkipList(key_size, payload_size)`. -/
def SkipList.create (SKIP_LIST_MAX_LEVEL key_size payload_size : Nat) : SkipList where
  key_size := key_size
  payload_size := payload_size
  height := 1
  head := ⟨SKIP_LIST_MAX_LEVEL, key_size, payload_size,
    List.replicate SKIP_LIST_MAX_LEVEL Ptr.tail, [], []⟩
  tail := ⟨SKIP_LIST_MAX_LEVEL, key_size, payload_size,
    List.replicate SKIP_LIST_MAX_LEVEL Ptr.null, [], []⟩
  heap := []

/-- The heap tower a pointer designates, if it designates a live one. -/
def SkipList.tower (s : SkipList) : Ptr → Option SkipListNode
  | .node a =>
    match s.heap[a]? with
    | some (some n) => some n
    | _ => none
  | _ => none

/-- Dereference `p` to read or write the tower fields: the dummy towers or a
live heap tower; `none` for the null pointer and for freed memory. -/
def SkipList.deref (s : SkipList) : Ptr → Option SkipListNode
  | .null => none
  | .head => some s.head
  | .tail => some s.tail
  | .node a => s.tower (.node a)

/-- Write back the tower `p` points to. -/
def SkipList.store (s : SkipList) (p : Ptr) (n : SkipListNode) : Option SkipList :=
  match p with
  | .null => none
  | .head => some { s with head := n }
  | .tail => some { s with tail := n }
  | .node a =>
    match s.tower (.node a) with
    | none => none
    | some _ => some { s with heap := s.heap.set a (some n) }

/-- Read `p->next[i]`. -/
def SkipList.nextOf (s : SkipList) (p : Ptr) (i : Nat) : Option Ptr :=
  match s.deref p with
  | none => none
  | some n => n.next[i]?

/-- Assignment `p->next[i] = q`. -/
def SkipList.setNext (s : SkipList) (p : Ptr) (i : Nat) (q : Ptr) : Option SkipList :=
  match s.deref p with
  | none => none
  | some n => if i < n.next.length then s.store p { n with next := n.next.set i q } else none

/-- Evaluate `memcmp(p->GetKey(), key, n)` for a heap tower `p` and a possibly
null `key`; `none` when a pointer that is read does not designate key bytes. -/
def SkipList.cmpKey (s : SkipList) (p : Ptr) (key : Option (List Nat)) (n : Nat) : Option Int :=
  match s.tower p, key with
  | some t, some k => some (memcmp t.key k n)
  | _, _ => none

/-- Method `SkipList::NewNode(levels, key, payload)`: returns the new state and
the address of the new tower, null when `levels` is too high. -/
def SkipList.NewNode (SKIP_LIST_MAX_LEVEL : Nat) (s : SkipList) (levels : Nat)
    (key payload : List Nat) : SkipList × Ptr :=
  if levels > SKIP_LIST_MAX_LEVEL then (s, Ptr.null)
  else
    let newNode : SkipListNode :=
      ⟨levels, s.key_size, s.payload_size, List.replicate SKIP_LIST_MAX_LEVEL Ptr.null,
        key.take s.key_size, payload.take s.payload_size⟩
    ({ s with heap := s.heap ++ [some newNode] }, Ptr.node s.heap.length)

/-- The inner loop of every descent, at level `i`:
`while (curr->next[i] != &tail && memcmp(curr->next[i]->GetKey(), key, key_size) < 0)
   curr = curr->next[i];`
`none` when the loop faults or the fuel runs out. -/
def SkipList.walk (s : SkipList) (key : Option (List Nat)) (i : Nat) : Nat → Ptr → Option Ptr
  | 0, _ => none
  | fuel + 1, curr =>
    match s.nextOf curr i with
    | none => none
    | some nx =>
      if nx = Ptr.tail then some curr
      else
        match s.cmpKey nx key s.key_size with
        | none => none
        | some c => if c < 0 then s.walk key i fuel nx else some curr

/-- Fuel for one level of a descent: a chain without repetition visits each
allocated tower at most once. -/
def SkipList.fuel (s : SkipList) : Nat := s.heap.length + 1

/-- The descent `for (int i = local_height - 1; i >= 0; i--) { while ... }` of
`Search`, `Update` and `Scan`; the first argument is the number of levels left. -/
def SkipList.descend (s : SkipList) (key : Option (List Nat)) : Nat → Ptr → Option Ptr
  | 0, curr => some curr
  | i + 1, curr =>
    match s.walk key i s.fuel curr with
    | none => none
    | some c => s.descend key i c

/-- The descent of `Insert` and `Delete`, which records `node[i] = curr` after
each level. -/
def SkipList.descendRec (s : SkipList) (key : Option (List Nat)) :
    Nat → Ptr → List Ptr → Option (Ptr × List Ptr)
  | 0, curr, node => some (curr, node)
  | i + 1, curr, node =>
    match s.walk key i s.fuel curr with
    | none => none
    | some c => if i < node.length then s.descendRec key i c (node.set i c) else none

/-- The coin-flip loop of `Insert`:
`while ((distrib(gen)) == 0 && nodeLevel < SKIP_LIST_MAX_LEVEL) nodeLevel++;`
where `coins j` is the `j`-th value drawn. -/
def drawLevel (SKIP_LIST_MAX_LEVEL : Nat) (coins : Nat → Nat) : Nat → Nat → Nat
  | 0, nodeLevel => nodeLevel
  | fuel + 1, nodeLevel =>
    if coins (nodeLevel - 1) = 0 ∧ nodeLevel < SKIP_LIST_MAX_LEVEL then
      drawLevel SKIP_LIST_MAX_LEVEL coins fuel (nodeLevel + 1)
    else nodeLevel

/-- The loop `for (uint32_t i = nodeLevel - 1; i >= local_height; i--) node[i] = &head;`
for `local_height ≥ 1`; the first argument is `i + 1`. -/
def raiseHeads (local_height : Nat) : Nat → List Ptr → List Ptr
  | 0, node => node
  | i + 1, node =>
    if i ≥ local_height then raiseHeads local_height i (node.set i Ptr.head) else node

/-- The splicing loop of `Insert`, with `k` iterations left from level `i`:
`newNode->next[i] = node[i]->next[i]; node[i]->next[i] = newNode;
 if (i > height - 1) height++;` -/
def SkipList.spliceLoop (newNode : Ptr) (node : List Ptr) :
    Nat → Nat → SkipList → Option SkipList
  | 0, _, s => some s
  | k + 1, i, s =>
    match node[i]? with
    | none => none
    | some prev =>
      match s.nextOf prev i with
      | none => none
      | some nx =>
        match s.setNext newNode i nx with
        | none => none
        | some s1 =>
          match s1.setNext prev i newNode with
          | none => none
          | some s2 =>
            let s3 := if i > s2.height - 1 then { s2 with height := s2.height + 1 } else s2
            SkipList.spliceLoop newNode node k (i + 1) s3

/-- The test `curr != &tail && memcmp(curr->GetKey(), key, n) == 0`. -/
def SkipList.isHit (s : SkipList) (curr : Ptr) (key : Option (List Nat)) (n : Nat) :
    Option Bool :=
  if curr = Ptr.tail then some false
  else
    match s.cmpKey curr key n with
    | none => none
    | some c => some (c == 0)

/-- Body of `SkipList::Insert` once `nodeLevel` has been drawn. The local array
`node` starts uninitialised: its entries are null pointers here, so that using
one before it is assigned faults. A `height` of zero makes the first loop,
whose counter is unsigned, run away. -/
def SkipList.InsertAt (SKIP_LIST_MAX_LEVEL : Nat) (s : SkipList) (nodeLevel : Nat)
    (key payload : List Nat) : Option (Bool × SkipList) :=
  let local_height := s.height
  if local_height = 0 then none
  else
    let node0 := List.replicate SKIP_LIST_MAX_LEVEL Ptr.null
    let node1 := if nodeLevel > local_height then raiseHeads local_height nodeLevel node0 else node0
    match s.descendRec (some key) local_height Ptr.head node1 with
    | none => none
    | some (curr0, node) =>
      match s.nextOf curr0 0 with
      | none => none
      | some curr =>
        match s.isHit curr (some key) s.key_size with
        | none => none
        | some true => some (false, s)
        | some false =>
          match s.NewNode SKIP_LIST_MAX_LEVEL nodeLevel key payload with
          | (_, Ptr.null) => some (false, s)
          | (s1, newNode) =>
            match SkipList.spliceLoop newNode node nodeLevel 0 s1 with
            | none => none
            | some s2 => some (true, s2)

/-- Method `SkipList::Insert(key, payload)`; `coins` is the sequence of values
the random generator yields. `none` when the execution faults. -/
def SkipList.Insert (SKIP_LIST_MAX_LEVEL : Nat) (s : SkipList) (coins : Nat → Nat)
    (key payload : List Nat) : Option (Bool × SkipList) :=
  s.InsertAt SKIP_LIST_MAX_LEVEL (drawLevel SKIP_LIST_MAX_LEVEL coins SKIP_LIST_MAX_LEVEL 1)
    key payload

/-- Method `SkipList::Search(key, out_payload)`: the flag and the output buffer
(`none` for a null `out_payload`). With a `height` of zero the first latch
taken is `latches[local_height - 1]`, out of the array: a faulting execution. -/
def SkipList.Search (s : SkipList) (key : List Nat) (out_payload : Option (List Nat)) :
    Option (Bool × Option (List Nat)) :=
  if s.height = 0 then none
  else
    match s.descend (some key) s.height Ptr.head with
    | none => none
    | some curr0 =>
      match s.nextOf curr0 0 with
      | none => none
      | some curr =>
        match s.isHit curr (some key) s.key_size with
        | none => none
        | some false => some (false, out_payload)
        | some true =>
          match s.tower curr, out_payload with
          | none, _ => none
          | some _, none => some (true, none)
          | some t, some out => some (true, some (memcpy out t.payload t.payload_size))

/-- Method `SkipList::Update(key, payload)`. -/
def SkipList.Update (s : SkipList) (key payload : List Nat) : Option (Bool × SkipList) :=
  match s.descend (some key) s.height Ptr.head with
  | none => none
  | some curr0 =>
    match s.nextOf curr0 0 with
    | none => none
    | some curr =>
      match s.isHit curr (some key) s.key_size with
      | none => none
      | some false => some (false, s)
      | some true =>
        match s.tower curr with
        | none => none
        | some t =>
          match s.store curr { t with payload := memcpy t.payload payload s.payload_size } with
          | none => none
          | some s1 => some (true, s1)

/-- The unlinking loop of `Delete`, with `k` iterations left from level `i`:
`prev = node[i]; if (prev->next[i] == curr) prev->next[i] = curr->next[i];` -/
def SkipList.unlinkLoop (curr : Ptr) (node : List Ptr) : Nat → Nat → SkipList → Option SkipList
  | 0, _, s => some s
  | k + 1, i, s =>
    match node[i]? with
    | none => none
    | some prev =>
      match s.nextOf prev i with
      | none => none
      | some nx =>
        if nx = curr then
          match s.nextOf curr i with
          | none => none
          | some after =>
            match s.setNext prev i after with
            | none => none
            | some s1 => SkipList.unlinkLoop curr node k (i + 1) s1
        else SkipList.unlinkLoop curr node k (i + 1) s

/-- Statement `delete curr`. -/
def SkipList.free (s : SkipList) : Ptr → Option SkipList
  | .node a =>
    match s.tower (.node a) with
    | none => none
    | some _ => some { s with heap := s.heap.set a none }
  | _ => none

/-- Method `SkipList::Delete(key)`; the local array `node` starts uninitialised,
as in `Insert`. -/
def SkipList.Delete (SKIP_LIST_MAX_LEVEL : Nat) (s : SkipList) (key : List Nat) :
    Option (Bool × SkipList) :=
  let local_height := s.height
  match s.descendRec (some key) local_height Ptr.head
      (List.replicate SKIP_LIST_MAX_LEVEL Ptr.null) with
  | none => none
  | some (curr0, node) =>
    match s.nextOf curr0 0 with
    | none => none
    | some curr =>
      match s.isHit curr (some key) s.key_size with
      | none => none
      | some false => some (false, s)
      | some true =>
        match s.tower curr with
        | none => none
        | some victim =>
          match SkipList.unlinkLoop curr node victim.nlevels 0 s with
          | none => none
          | some s1 =>
            match s1.free curr with
            | none => none
            | some s2 => some (true, s2)

/-- The emitting loop of `Scan`, with `k = nkeys - scanned` iterations left:
`while (curr != &tail && scanned < nkeys) { push_back(copy of key, copy of payload); curr = curr->next[0]; }`
(`malloc` is taken to succeed). -/
def SkipList.emit (s : SkipList) :
    Nat → Ptr → List (List Nat × List Nat) → Option (List (List Nat × List Nat))
  | 0, _, out => some out
  | k + 1, curr, out =>
    if curr = Ptr.tail then some out
    else
      match s.tower curr with
      | none => none
      | some t =>
        match t.next[0]? with
        | none => none
        | some nx =>
          s.emit k nx (out ++ [(memcpy [] t.key s.key_size, memcpy [] t.payload s.payload_size)])

/-- Method `SkipList::Scan(start_key, nkeys, inclusive, out_records)`: the
records vector after the call (`none` inside for a null `out_records`); the
outer `none` is a faulting execution. -/
def SkipList.Scan (s : SkipList) (start_key : Option (List Nat)) (nkeys : Nat) (inclusive : Bool)
    (out_records : Option (List (List Nat × List Nat))) :
    Option (Option (List (List Nat × List Nat))) :=
  match out_records with
  | none => some none
  | some out =>
    if nkeys = 0 then some (some out)
    else
      match s.nextOf Ptr.head 0 with
      | none => none
      | some first =>
        if first = Ptr.tail then some (some out)
        else
          match s.descend start_key s.height Ptr.head with
          | none => none
          | some curr0 =>
            match (if start_key = none then s.nextOf Ptr.head 0 else s.nextOf curr0 0) with
            | none => none
            | some curr =>
              if curr = Ptr.tail then some (some out)
              else if !inclusive && start_key != none then
                match s.tower curr with
                | none => none
                | some t =>
                  match s.isHit curr start_key t.key_size with
                  | none => none
                  | some true =>
                    match t.next[0]? with
                    | none => none
                    | some nx =>
                      if nx = Ptr.tail then some (some out)
                      else (s.emit nkeys nx out).map some
                  | some false => (s.emit nkeys curr out).map some
              else (s.emit nkeys curr out).map some

/-- Follow `next[i]` from `p` up to `tail`, collecting the addresses of the
towers met (the traversal of the `SortedList` test). -/
def SkipList.chainFrom (s : SkipList) (i : Nat) : Nat → Ptr → Option (List Nat)
  | 0, _ => none
  | fuel + 1, p =>
    match p with
    | .tail => some []
    | .node a =>
      match s.nextOf (.node a) i with
      | none => none
      | some q => (s.chainFrom i fuel q).map (fun t => a :: t)
    | _ => none

/-- The towers linked at level `i`, from `head.next[i]` to `tail`. -/
def SkipList.level (s : SkipList) (i : Nat) : Option (List Nat) :=
  match s.nextOf Ptr.head i with
  | none => none
  | some p => s.chainFrom i s.fuel p

/-- Key stored in the tower at address `a`. -/
def SkipList.keyAt (s : SkipList) (a : Nat) : List Nat :=
  match s.tower (.node a) with
  | some t => t.key
  | none => []

/-- Payload stored in the tower at address `a`. -/
def SkipList.payloadAt (s : SkipList) (a : Nat) : List Nat :=
  match s.tower (.node a) with
  | some t => t.payload
  | none => []

/-- Height of the tower at address `a`. -/
def SkipList.levelsAt (s : SkipList) (a : Nat) : Nat :=
  match s.tower (.node a) with
  | some t => t.nlevels
  | none => 0

/-- The (key, payload) pairs on the level-0 chain, in chain order. -/
def SkipList.entries (s : SkipList) : List (List Nat × List Nat) :=
  match s.level 0 with
  | none => []
  | some l => l.map (fun a => (s.keyAt a, s.payloadAt a))

/-- The keys on the level-0 chain, in chain order. -/
def SkipList.keys (s : SkipList) : List (List Nat) :=
  s.entries.map Prod.fst

/-- One mutating call on the index. -/
inductive Op where
  | insert (coins : Nat → Nat) (key payload : List Nat)
  | update (key payload : List Nat)
  | delete (key : List Nat)

/-- Run one call; the flag is the call's return value. -/
def SkipList.step (SKIP_LIST_MAX_LEVEL : Nat) (s : SkipList) : Op → Option (Bool × SkipList)
  | .insert coins k v => s.Insert SKIP_LIST_MAX_LEVEL coins k v
  | .update k v => s.Update k v
  | .delete k => s.Delete SKIP_LIST_MAX_LEVEL k

/-- The buffers handed to a call hold at least `key_size` key bytes and
`payload_size` payload bytes. -/
def Op.WellFormed (key_size payload_size : Nat) : Op → Prop
  | .insert _ k v => key_size ≤ k.length ∧ payload_size ≤ v.length
  | .update k v => key_size ≤ k.length ∧ payload_size ≤ v.length
  | .delete k => key_size ≤ k.length

/-- The state `s` is reached from the constructor `SkipList(key_size, payload_size)`
by the calls `ops`, made one after the other. -/
inductive Trace (SKIP_LIST_MAX_LEVEL key_size payload_size : Nat) : List Op → SkipList → Prop where
  | init : Trace SKIP_LIST_MAX_LEVEL key_size payload_size []
      (SkipList.create SKIP_LIST_MAX_LEVEL key_size payload_size)
  | step (ops : List Op) (s s' : SkipList) (op : Op) (ret : Bool) :
      Trace SKIP_LIST_MAX_LEVEL key_size payload_size ops s →
      op.WellFormed key_size payload_size →
      s.step SKIP_LIST_MAX_LEVEL op = some (ret, s') →
      Trace SKIP_LIST_MAX_LEVEL key_size payload_size (ops ++ [op]) s'

/-- States reached from the constructor by sequential `Insert`, `Update` and
`Delete` calls. -/
def Reachable (SKIP_LIST_MAX_LEVEL : Nat) (s : SkipList) : Prop :=
  ∃ key_size payload_size ops, Trace SKIP_LIST_MAX_LEVEL key_size payload_size ops s

/-- The key `k` is in the list: some key on the level-0 chain agrees with it
on `key_size` bytes. -/
def SkipList.contains (s : SkipList) (k : List Nat) : Bool :=
  s.keys.any (fun e => memcmp e k s.key_size == 0)

/-- Effect of one call on the set of keys inserted and not since deleted, each
key being its first `key_size` bytes. -/
def liveStep (key_size : Nat) (m : List (List Nat)) : Op → List (List Nat)
  | .insert _ k _ => if k.take key_size ∈ m then m else m ++ [k.take key_size]
  | .update _ _ => m
  | .delete k => m.filter (fun e => e ≠ k.take key_size)

/-- The keys inserted and not since deleted by a sequence of calls. -/
def liveKeys (key_size : Nat) (ops : List Op) : List (List Nat) :=
  ops.foldl (liveStep key_size) []

/-- The entries of the list whose key is at least (inclusive) or above (not
inclusive) `start_key`, in chain order. -/
def SkipList.entriesFrom (s : SkipList) (start_key : List Nat) (inclusive : Bool) :
    List (List Nat × List Nat) :=
  s.entries.filter (fun e =>
    if inclusive then decide (0 ≤ memcmp e.1 start_key s.key_size)
    else decide (0 < memcmp e.1 start_key s.key_size))

/-- What `Scan(start_key, nkeys, inclusive, out)` is to append: the first
`nkeys` entries among those whose key is at least (inclusive) or above (not
inclusive) `start_key`. -/
def SkipList.scanRange (s : SkipList) (start_key : List Nat) (nkeys : Nat) (inclusive : Bool) :
    List (List Nat × List Nat) :=
  (s.entriesFrom start_key inclusive).take nkeys

/-! ## Predicates used to state and prove the skip-list properties -/

/-- A tower with its links blanked: what assignments to `next` leave alone. -/
def SkipListNode.strip (t : SkipListNode) : SkipListNode :=
  { t with next := List.replicate t.next.length Ptr.null }

/-- Two states that differ at most in the links of their towers and in `height`. -/
def SameData (s s' : SkipList) : Prop :=
  s'.key_size = s.key_size ∧ s'.payload_size = s.payload_size ∧
  s'.heap.length = s.heap.length ∧ s'.head.next.length = s.head.next.length ∧
  ∀ a, (s'.tower (Ptr.node a)).map SkipListNode.strip
        = (s.tower (Ptr.node a)).map SkipListNode.strip

/-- Following `next[i]` from `p` leads through the towers `ids`, one after the
other (what comes after the last one is left open). -/
def Links (s : SkipList) (i : Nat) : Ptr → List Nat → Prop
  | _, [] => True
  | p, a :: as => s.nextOf p i = some (Ptr.node a) ∧ Links s i (Ptr.node a) as

/-- Following `next[i]` from `p` leads through exactly the towers `ids` and
then reaches `tail`. -/
def Path (s : SkipList) (i : Nat) : Ptr → List Nat → Prop
  | p, [] => s.nextOf p i = some Ptr.tail
  | p, a :: as => s.nextOf p i = some (Ptr.node a) ∧ Path s i (Ptr.node a) as

/-- The last tower of `ids`, or `p` when there is none. -/
def lastPtr (p : Ptr) : List Nat → Ptr
  | [] => p
  | a :: as => lastPtr (Ptr.node a) as

/-- The first tower of `ids`, or `tail` when there is none. -/
def firstPtr : List Nat → Ptr
  | [] => Ptr.tail
  | a :: _ => Ptr.node a

/-- The towers of `L` that occupy level `i`. -/
def atLevel (s : SkipList) (i : Nat) (L : List Nat) : List Nat :=
  L.filter (fun a => decide (i < s.levelsAt a))

/-- A live tower of the right shape for a list of maximum level `M`. -/
def TowerOK (M : Nat) (s : SkipList) (a : Nat) : Prop :=
  ∃ t, s.tower (Ptr.node a) = some t ∧ 1 ≤ t.nlevels ∧ t.nlevels ≤ s.height ∧
    t.next.length = M ∧ t.key.length = s.key_size ∧ t.key_size = s.key_size ∧
    t.payload.length = s.payload_size ∧ t.payload_size = s.payload_size

/-- The state `s` represents the towers `L`, listed in level-0 order: keys are
strictly increasing along `L`, and at every level the chain from `head` to
`tail` links exactly the towers of `L` that occupy the level. -/
structure Repr (M : Nat) (s : SkipList) (L : List Nat) : Prop where
  height_pos : 1 ≤ s.height
  height_le : s.height ≤ M
  head_len : s.head.next.length = M
  towers : ∀ a ∈ L, TowerOK M s a
  sorted : L.Pairwise (fun a b => memcmp (s.keyAt a) (s.keyAt b) s.key_size < 0)
  paths : ∀ i, i < M → Path s i Ptr.head (atLevel s i L)

/-- The towers of a represented list cut at the key `k`: those of `A` are below
`k`, those of `B` are not. -/
structure Cut (M : Nat) (s : SkipList) (k : List Nat) (A B : List Nat) : Prop where
  repr : Repr M s (A ++ B)
  key_len : s.key_size ≤ k.length
  below : ∀ a ∈ A, memcmp (s.keyAt a) k s.key_size < 0
  notBelow : ∀ b ∈ B, ¬ memcmp (s.keyAt b) k s.key_size < 0

/-- The tower of `B` (towers not below `k`, in key order) that holds `k`, if any. -/
def hitOf (s : SkipList) (k : List Nat) : List Nat → Option Nat
  | [] => none
  | b :: _ => if memcmp (s.keyAt b) k s.key_size = 0 then some b else none

/-- The tower at address `a` holds the same data in `s` and `s'`, links apart. -/
def SameAt (s s' : SkipList) (a : Nat) : Prop :=
  (s'.tower (Ptr.node a)).map SkipListNode.strip = (s.tower (Ptr.node a)).map SkipListNode.strip

/-! ## Sample states -/

/-- The calls building `sampleList`: key 5 with a two-level tower, then key 3
with a one-level tower. -/
def sampleOps : List Op :=
  [Op.insert (fun _ => 0) [5] [50], Op.insert (fun _ => 1) [3] [30]]

/-- The list with one-byte keys and payloads and two levels after the first
call of `sampleOps`. -/
def sampleList1 : SkipList where
  key_size := 1
  payload_size := 1
  head := ⟨2, 1, 1, [Ptr.node 0, Ptr.node 0], [], []⟩
  tail := ⟨2, 1, 1, [Ptr.null, Ptr.null], [], []⟩
  height := 2
  heap := [some ⟨2, 1, 1, [Ptr.tail, Ptr.tail], [5], [50]⟩]

/-- The list after both calls of `sampleOps`: keys 3 and 5. -/
def sampleList : SkipList where
  key_size := 1
  payload_size := 1
  head := ⟨2, 1, 1, [Ptr.node 1, Ptr.node 0], [], []⟩
  tail := ⟨2, 1, 1, [Ptr.null, Ptr.null], [], []⟩
  height := 2
  heap := [some ⟨2, 1, 1, [Ptr.tail, Ptr.tail], [5], [50]⟩,
    some ⟨1, 1, 1, [Ptr.node 0, Ptr.null], [3], [30]⟩]

/-! ## Log manager (`Log/log_manager.cc`) -/

/-- The record kinds `LogRecord::Insert` ... `LogRecord::End`. -/
inductive LogType where
  | Insert
  | Update
  | Delete
  | Commit
  | Abort
  | End
  deriving DecidableEq

/-- The declarations of `log_manager.h` that `log_manager.cc` relies on and that
are not among the sources at hand, taken as a parameter: `sizeof(LogRecord)`,
`sizeof(LSN)`, the bytes that the constructor `LogRecord(id, type, length)`
leaves in the header, and the bytes of an `LSN` variable holding a value. -/
structure LogLayout where
  sizeofLogRecord : Nat
  sizeofLSN : Nat
  header : Nat → LogType → Nat → List Nat
  lsnBytes : Nat → List Nat

/-- The byte images have the sizes the layout announces. -/
def LogLayout.WellFormed (L : LogLayout) : Prop :=
  (∀ id ty len, (L.header id ty len).length = L.sizeofLogRecord) ∧
  (∀ lsn, (L.lsnBytes lsn).length = L.sizeofLSN)

/-- The `LogManager` object together with the content of the log file behind
`fd`. The array `logbuf` is represented by its first `logbuf_offset` bytes, the
only ones that are ever read; its capacity is `logbuf_size`. -/
structure LogManager where
  logbuf_size : Nat
  logbuf : List Nat
  logbuf_offset : Nat
  fd : Int
  durable_lsn : Nat
  current_lsn : Nat
  file : List Nat
  deriving DecidableEq

/-- Constructor `LogManager(log_filename, logbuf_mb)`: the product
`logbuf_mb * 1024 * 1024` is computed on `uint32_t`; `open` with `O_TRUNC`
yields descriptor `fd` and an empty file; a negative descriptor aborts the
process (`none`). -/
def LogManager.create (logbuf_mb : Nat) (fd : Int) : Option LogManager :=
  if fd < 0 then none
  else some {
    logbuf_size := (logbuf_mb * 1024 * 1024) % 2 ^ 32
    logbuf := []
    logbuf_offset := 0
    fd := fd
    durable_lsn := 0
    current_lsn := 0
    file := [] }

/-- Method `LogManager::Flush`. `sys.pwrite_room` is what `pwrite` can write
(`none`: it returns a negative value), `sys.fsync_ret` the result of `fsync`. -/
def LogManager.Flush (lm : LogManager) (sys : SysOutcome) : Bool × LogManager :=
  if lm.logbuf_offset = 0 then (true, lm)
  else
    match sys.pwrite_room with
    | none => (false, lm)
    | some room =>
      let bytes_written := min room lm.logbuf_offset
      let lm1 := { lm with
        file := pwriteBytes lm.file lm.logbuf bytes_written lm.durable_lsn }
      if bytes_written ≠ lm.logbuf_offset then (false, lm1)
      else if sys.fsync_ret < 0 then (false, lm1)
      else (true, { lm1 with durable_lsn := lm.current_lsn, logbuf_offset := 0, logbuf := [] })

/-- The part that the six `Log*` methods share, from the `should_flush` test to
`return true`: flush when the buffer lacks room for `log_size` bytes, then
construct the record at `logbuf + logbuf_offset`, copy `length` payload bytes
and the current LSN after it, and advance both counters by `log_size`. Writing
past the end of the array is a faulting execution (`none`). -/
def LogManager.place (L : LogLayout) (lm : LogManager) (id : Nat) (ty : LogType)
    (record : List Nat) (length log_size : Nat) (sys : SysOutcome) :
    Option (Bool × LogManager) :=
  let should_flush := decide (lm.logbuf_offset + log_size > lm.logbuf_size)
  let flushed := if should_flush then lm.Flush sys else (true, lm)
  if !flushed.1 then some (false, flushed.2)
  else
    let lm1 := flushed.2
    let bytes := L.header id ty length ++ record.take length ++ L.lsnBytes lm1.current_lsn
    if lm1.logbuf_offset + bytes.length > lm1.logbuf_size then none
    else some (true, { lm1 with
      logbuf := lm1.logbuf.take lm1.logbuf_offset ++ bytes
      current_lsn := lm1.current_lsn + log_size
      logbuf_offset := lm1.logbuf_offset + log_size })

/-- The local `uint32_t log_size = sizeof(LogRecord) + length + sizeof(LSN)`. -/
def logSize (L : LogLayout) (length : Nat) : Nat :=
  (L.sizeofLogRecord + length + L.sizeofLSN) % 2 ^ 32

/-- Method `LogManager::LogInsert(rid, record, length)`; a null `record` is
`none`. -/
def LogManager.LogInsert (L : LogLayout) (lm : LogManager) (rid : RID)
    (record : Option (List Nat)) (length : Nat) (sys : SysOutcome) :
    Option (Bool × LogManager) :=
  match record with
  | none => some (false, lm)
  | some bytes =>
    if length = 0 ∨ rid.IsValid = false then some (false, lm)
    else if logSize L length > lm.logbuf_size then some (false, lm)
    else lm.place L rid.value LogType.Insert bytes length (logSize L length) sys

/-- Method `LogManager::LogUpdate(rid, record, length)`. -/
def LogManager.LogUpdate (L : LogLayout) (lm : LogManager) (rid : RID)
    (record : Option (List Nat)) (length : Nat) (sys : SysOutcome) :
    Option (Bool × LogManager) :=
  match record with
  | none => some (false, lm)
  | some bytes =>
    if length = 0 ∨ rid.IsValid = false then some (false, lm)
    else if logSize L length > lm.logbuf_size then some (false, lm)
    else lm.place L rid.value LogType.Update bytes length (logSize L length) sys

/-- Method `LogManager::LogDelete(rid)`: no comparison of `log_size` with
`logbuf_size` here. -/
def LogManager.LogDelete (L : LogLayout) (lm : LogManager) (rid : RID) (sys : SysOutcome) :
    Option (Bool × LogManager) :=
  if rid.IsValid = false then some (false, lm)
  else lm.place L rid.value LogType.Delete [] 0 (logSize L 0) sys

/-- Method `LogManager::LogCommit(tid)`. -/
def LogManager.LogCommit (L : LogLayout) (lm : LogManager) (tid : Nat) (sys : SysOutcome) :
    Option (Bool × LogManager) :=
  lm.place L tid LogType.Commit [] 0 (logSize L 0) sys

/-- Method `LogManager::LogAbort(tid)`. -/
def LogManager.LogAbort (L : LogLayout) (lm : LogManager) (tid : Nat) (sys : SysOutcome) :
    Option (Bool × LogManager) :=
  lm.place L tid LogType.Abort [] 0 (logSize L 0) sys

/-- Method `LogManager::LogEnd(tid)`. -/
def LogManager.LogEnd (L : LogLayout) (lm : LogManager) (tid : Nat) (sys : SysOutcome) :
    Option (Bool × LogManager) :=
  lm.place L tid LogType.End [] 0 (logSize L 0) sys

/-- A call of one of the public methods of the log manager, with the outcome of
the system calls it may issue. -/
inductive LogCall where
  | insert (rid : RID) (record : Option (List Nat)) (length : Nat) (sys : SysOutcome)
  | update (rid : RID) (record : Option (List Nat)) (length : Nat) (sys : SysOutcome)
  | delete (rid : RID) (sys : SysOutcome)
  | commit (tid : Nat) (sys : SysOutcome)
  | abort (tid : Nat) (sys : SysOutcome)
  | finish (tid : Nat) (sys : SysOutcome)
  | flush (sys : SysOutcome)
  deriving DecidableEq

/-- Effect of a call: the returned flag and the next state. -/
def LogManager.call (L : LogLayout) (lm : LogManager) : LogCall → Option (Bool × LogManager)
  | LogCall.insert rid record length sys => lm.LogInsert L rid record length sys
  | LogCall.update rid record length sys => lm.LogUpdate L rid record length sys
  | LogCall.delete rid sys => lm.LogDelete L rid sys
  | LogCall.commit tid sys => lm.LogCommit L tid sys
  | LogCall.abort tid sys => lm.LogAbort L tid sys
  | LogCall.finish tid sys => lm.LogEnd L tid sys
  | LogCall.flush sys => some (lm.Flush sys)

/-- The arguments respect the C++ types: `length` is a `uint32_t` and a
non-null `record` points to at least `length` bytes. -/
def LogCall.WellFormed : LogCall → Prop
  | LogCall.insert _ record length _ =>
    length < 4294967296 ∧ ∀ bytes, record = some bytes → length ≤ bytes.length
  | LogCall.update _ record length _ =>
    length < 4294967296 ∧ ∀ bytes, record = some bytes → length ≤ bytes.length
  | _ => True

/-- A log record as the caller hands it over: kind, identifier, payload. -/
structure LogEntry where
  type : LogType
  id : Nat
  payload : List Nat
  deriving DecidableEq

/-- The record that a call appends when it returns true (none for `Flush`). -/
def LogCall.entry : LogCall → Option LogEntry
  | LogCall.insert rid (some bytes) length _ => some ⟨LogType.Insert, rid.value, bytes.take length⟩
  | LogCall.update rid (some bytes) length _ => some ⟨LogType.Update, rid.value, bytes.take length⟩
  | LogCall.delete rid _ => some ⟨LogType.Delete, rid.value, []⟩
  | LogCall.commit tid _ => some ⟨LogType.Commit, tid, []⟩
  | LogCall.abort tid _ => some ⟨LogType.Abort, tid, []⟩
  | LogCall.finish tid _ => some ⟨LogType.End, tid, []⟩
  | _ => none

/-- The records appended by a call that returned `ret`. -/
def LogCall.appended (c : LogCall) (ret : Bool) : List LogEntry :=
  if ret then c.entry.toList else []

/-- The framed record `{type, id, len, payload[len], trailing_lsn}` of the log
file format, for a record written with trailing LSN `lsn`. -/
def frame (L : LogLayout) (r : LogEntry) (lsn : Nat) : List Nat :=
  L.header r.id r.type r.payload.length ++ r.payload ++ L.lsnBytes lsn

/-- The concatenation, in order, of the framed records, the first one starting
at byte offset `start` and each one carrying as trailing LSN the byte offset at
which it starts. -/
def frames (L : LogLayout) : Nat → List LogEntry → List Nat
  | _, [] => []
  | start, r :: rs => frame L r start ++ frames L (start + (frame L r start).length) rs

/-- The states of the log manager reached from the constructor by calls of its
public methods, with the records that were appended by the calls that returned
true, in order. -/
inductive Logged (L : LogLayout) : LogManager → List LogEntry → Prop where
  | create (logbuf_mb : Nat) (fd : Int) (lm : LogManager) :
      LogManager.create logbuf_mb fd = some lm → Logged L lm []
  | call (lm : LogManager) (recs : List LogEntry) (c : LogCall) (ret : Bool)
      (lm' : LogManager) :
      Logged L lm recs → c.WellFormed → lm.call L c = some (ret, lm') →
      Logged L lm' (recs ++ c.appended ret)

/-- A layout for the examples, after the file format `{type, id:u64, len:u32,
payload, trailing_lsn:u64}`: one tag byte, the identifier on eight bytes and the
length on four, the LSN on eight, least significant byte first. -/
def sampleLayout : LogLayout where
  sizeofLogRecord := 13
  sizeofLSN := 8
  header := fun id ty len =>
    [match ty with
      | LogType.Insert => 0
      | LogType.Update => 1
      | LogType.Delete => 2
      | LogType.Commit => 3
      | LogType.Abort => 4
      | LogType.End => 5] ++
    (List.range 8).map (fun i => id / 256 ^ i % 256) ++
    (List.range 4).map (fun i => len / 256 ^ i % 256)
  lsnBytes := fun lsn => (List.range 8).map (fun i => lsn / 256 ^ i % 256)

/-! ## Lock manager and transactions (`Lock/lock_manager.h`, `Lock/lock_manager.cc`) -/

/-- The enumeration `LockRequest::Mode`. -/
inductive Mode where
  | NL
  | XL
  | SH
  deriving DecidableEq

/-- A `LockRequest`; `requester` is the address of a `Transaction`. -/
structure LockRequest where
  mode : Mode
  requester : Nat
  granted : Bool
  deriving DecidableEq

/-- A `LockHead`: the mode and the request queue. -/
structure LockHead where
  current_mode : Mode
  requests : List LockRequest
  deriving DecidableEq

/-- Constant `Transaction::kStateCommitted`. -/
def kStateCommitted : Nat := 1

/-- Constant `Transaction::kStateInProgress`. -/
def kStateInProgress : Nat := 2

/-- Constant `Transaction::kStateAborted`. -/
def kStateAborted : Nat := 3

/-- Constant `Transaction::kInvalidTimestamp = ~uint64_t{0}`. -/
def kInvalidTimestamp : Nat := 2 ^ 64 - 1

/-- A `Transaction` object (`yase_internal.h`). -/
structure Transaction where
  timestamp : Nat
  locks : List RID
  state : Nat
  deriving DecidableEq

/-- Method `Transaction::IsInProgress`. -/
def Transaction.IsInProgress (t : Transaction) : Bool := t.state == kStateInProgress

/-- Method `Transaction::IsAborted`. -/
def Transaction.IsAborted (t : Transaction) : Bool := t.state == kStateAborted

/-- Method `Transaction::IsCommitted`. -/
def Transaction.IsCommitted (t : Transaction) : Bool := t.state == kStateCommitted

/-- The process state that transactions act on: the static members
`Transaction::ts_counter` and `Transaction::active_transactions`, the
`Transaction` objects by address, the `lock_table` of the lock manager (an
association list from `RID::value` to the lock head) and the log manager. -/
structure Engine where
  ts_counter : Nat
  txs : List Transaction
  active_transactions : List Nat
  lock_table : List (Nat × LockHead)
  log : LogManager
  deriving DecidableEq

/-- The state at start-up, around a log manager: counter `ts_counter(0)`, no
transaction, an empty lock table. -/
def Engine.start (lg : LogManager) : Engine :=
  { ts_counter := 0, txs := [], active_transactions := [], lock_table := [], log := lg }

/-- Constructor `Transaction()`: the timestamp is `ts_counter.fetch_add(1)`, the
state is in progress and the object enters `active_transactions`. Returns the
address of the new object. -/
def Engine.newTransaction (e : Engine) : Nat × Engine :=
  (e.txs.length,
    { e with
      ts_counter := (e.ts_counter + 1) % 2 ^ 64
      txs := e.txs ++ [⟨e.ts_counter, [], kStateInProgress⟩]
      active_transactions := e.active_transactions ++ [e.txs.length] })

/-- Lookup `lock_table.find(rvalue)`. -/
def findHead (table : List (Nat × LockHead)) (rvalue : Nat) : Option LockHead :=
  (table.find? (fun p => p.1 == rvalue)).map (fun p => p.2)

/-- Update of the lock head that `rvalue` maps to. -/
def setHead (table : List (Nat × LockHead)) (rvalue : Nat) (h : LockHead) :
    List (Nat × LockHead) :=
  table.map (fun p => if p.1 = rvalue then (p.1, h) else p)

/-- Statement `t->locks.push_back(rid)`; a dangling `t` is a fault. -/
def pushLock (txs : List Transaction) (t : Nat) (rid : RID) : Option (List Transaction) :=
  match txs[t]? with
  | none => none
  | some x => some (txs.set t { x with locks := x.locks ++ [rid] })

/-- Assignment `state = v` in the transaction at address `t`. -/
def Engine.setState (e : Engine) (t : Nat) (v : Nat) : Engine :=
  { e with txs := e.txs.modify (fun x => { x with state := v }) t }

/-- The loop of `ReleaseLock`, lines 112-120, over the queue from `req_it` on:
grants the requests of mode SH up to the first request of another mode and
records `rid` in the list of each requester. -/
def grantShared (rid : RID) : List LockRequest → List Transaction →
    Option (List LockRequest × List Transaction)
  | [], txs => some ([], txs)
  | req :: rest, txs =>
    if req.mode = Mode.SH then
      match pushLock txs req.requester rid with
      | none => none
      | some txs1 =>
        match grantShared rid rest txs1 with
        | none => none
        | some (rest', txs2) => some ({ req with granted := true } :: rest', txs2)
    else some (req :: rest, txs)

/-- Method `LockManager::ReleaseLock(tx, rid)`. `held` is the key of the lock
head whose latch the calling thread owns, if any: locking that `std::mutex` a
second time does not return (`none`). -/
def Engine.ReleaseLock (e : Engine) (held : Option Nat) (tx : Nat) (rid : RID) :
    Option (Bool × Engine) :=
  let rvalue := rid.value
  match findHead e.lock_table rvalue with
  | none => some (false, e)
  | some lock_head =>
    if held = some rvalue then none
    else if !lock_head.requests.any (fun r => r.requester == tx) then some (false, e)
    else
      match lock_head.requests.eraseP (fun r => r.requester == tx) with
      | [] => some (true, { e with lock_table := setHead e.lock_table rvalue ⟨Mode.NL, []⟩ })
      | first :: rest =>
        if first.mode = Mode.XL then
          match pushLock e.txs first.requester rid with
          | none => none
          | some txs1 =>
            some (true, { e with
              txs := txs1
              lock_table := setHead e.lock_table rvalue
                ⟨Mode.XL, { first with granted := true } :: rest⟩ })
        else
          match grantShared rid (first :: rest) e.txs with
          | none => none
          | some (requests, txs1) =>
            some (true, { e with
              txs := txs1
              lock_table := setHead e.lock_table rvalue ⟨Mode.SH, requests⟩ })

/-- The loop `for (auto &rid : locks) ReleaseLock(this, rid)` of `Commit` and
`Abort`, from position `i` of the list on. The list is read again at each step:
entries that `ReleaseLock` appends to it meanwhile are visited too. The flag is
`all_locks_released`. -/
def Engine.releaseAll (held : Option Nat) (tx : Nat) :
    Nat → Nat → Bool → Engine → Option (Bool × Engine)
  | 0, _, _, _ => none
  | fuel + 1, i, all_locks_released, e =>
    match e.txs[tx]? with
    | none => none
    | some t =>
      match t.locks[i]? with
      | none => some (all_locks_released, e)
      | some rid =>
        match e.ReleaseLock held tx rid with
        | none => none
        | some (ok, e1) => Engine.releaseAll held tx fuel (i + 1) (all_locks_released && ok) e1

/-- Number of requests in all queues. -/
def Engine.requestCount (e : Engine) : Nat :=
  (e.lock_table.map (fun p => p.2.requests.length)).sum

/-- Fuel for `releaseAll`: every successful `ReleaseLock` removes a request and
appends at most one entry per remaining request, so the loop makes at most
`locks.length + requestCount * requestCount` calls (`releaseAll_returns`). -/
def Engine.releaseFuel (e : Engine) (tx : Nat) : Nat :=
  match e.txs[tx]? with
  | none => 1
  | some t => t.locks.length + e.requestCount * e.requestCount + 1

/-- Method `Transaction::Commit` of the transaction at address `tx`; `s1`, `s2`,
`s3` are the outcomes of the system calls under `LogCommit`, `Flush` and
`LogEnd`. -/
def Engine.Commit (L : LogLayout) (e : Engine) (tx : Nat) (s1 s2 s3 : SysOutcome) :
    Option (Bool × Engine) :=
  match e.txs[tx]? with
  | none => none
  | some t =>
    if !t.IsInProgress then some (false, e)
    else
      match e.log.LogCommit L t.timestamp s1 with
      | none => none
      | some (false, lg1) => some (false, Engine.setState { e with log := lg1 } tx kStateAborted)
      | some (true, lg1) =>
        match lg1.Flush s2 with
        | (false, lg2) => some (false, Engine.setState { e with log := lg2 } tx kStateAborted)
        | (true, lg2) =>
          match lg2.LogEnd L t.timestamp s3 with
          | none => none
          | some (false, lg3) =>
            some (false, Engine.setState { e with log := lg3 } tx kStateAborted)
          | some (true, lg3) =>
            let e1 := { e with log := lg3 }
            match Engine.releaseAll none tx (e1.releaseFuel tx) 0 true e1 with
            | none => none
            | some (all_locks_released, e2) =>
              let e3 := { e2 with active_transactions := e2.active_transactions.erase tx }
              some (all_locks_released,
                e3.setState tx (if all_locks_released then kStateCommitted else kStateAborted))

/-- Method `Transaction::Abort` of the transaction at address `tx`, called by a
thread that owns the latch of the lock head `held` (if any). Returns the
timestamp, or `kInvalidTimestamp`. -/
def Engine.Abort (L : LogLayout) (e : Engine) (held : Option Nat) (tx : Nat)
    (s1 s2 s3 : SysOutcome) : Option (Nat × Engine) :=
  match e.txs[tx]? with
  | none => none
  | some t =>
    if !t.IsInProgress then some (kInvalidTimestamp, e)
    else
      match e.log.LogAbort L t.timestamp s1 with
      | none => none
      | some (false, lg1) =>
        some (kInvalidTimestamp, Engine.setState { e with log := lg1 } tx kStateAborted)
      | some (true, lg1) =>
        match lg1.Flush s2 with
        | (false, lg2) =>
          some (kInvalidTimestamp, Engine.setState { e with log := lg2 } tx kStateAborted)
        | (true, lg2) =>
          match lg2.LogEnd L t.timestamp s3 with
          | none => none
          | some (false, lg3) =>
            some (kInvalidTimestamp, Engine.setState { e with log := lg3 } tx kStateAborted)
          | some (true, lg3) =>
            let e1 := { e with log := lg3 }
            match Engine.releaseAll held tx (e1.releaseFuel tx) 0 true e1 with
            | none => none
            | some (_, e2) =>
              let e3 := { e2 with active_transactions := e2.active_transactions.erase tx }
              some (t.timestamp, e3.setState tx kStateAborted)

/-- How a call ends: it returns a flag, it returns a number, or the calling
thread sleeps in `cv.wait` until its request is granted. -/
inductive Outcome where
  | ret (b : Bool)
  | val (n : Nat)
  | blocked
  deriving DecidableEq

/-- The conflict test of line 65: a request of mode `mode` against a granted
request of mode `held`. -/
def conflicts (mode held : Mode) : Bool :=
  mode == Mode.XL || (mode == Mode.SH && held == Mode.XL)

/-- The loop of `AcquireLock`, lines 64-71: `some true` when it reaches
`tx->Abort()`, `some false` when it runs to the end of the queue. -/
def mustAbort (txs : List Transaction) (tx : Nat) (mode : Mode) :
    List LockRequest → Option Bool
  | [] => some false
  | req :: rest =>
    if req.granted && conflicts mode req.mode then
      match txs[tx]?, txs[req.requester]? with
      | some t, some r =>
        if t.timestamp > r.timestamp then some true else mustAbort txs tx mode rest
      | _, _ => none
    else mustAbort txs tx mode rest

/-- The predicate of `cv.wait`, lines 80-84: the first request of `tx` in the
queue exists and is granted. -/
def waitDone (requests : List LockRequest) (tx : Nat) : Bool :=
  match requests.find? (fun r => r.requester == tx) with
  | some r => r.granted
  | none => false

/-- Lines 41-45 of `AcquireLock`: the lock head that `rvalue` maps to, after
`lock_table.emplace(rvalue, new LockHead())` when there was none. -/
def Engine.findOrEmplace (e : Engine) (rvalue : Nat) : LockHead × Engine :=
  match findHead e.lock_table rvalue with
  | some h => (h, e)
  | none => (⟨Mode.NL, []⟩, { e with lock_table := e.lock_table ++ [(rvalue, ⟨Mode.NL, []⟩)] })

/-- Method `LockManager::AcquireLock(tx, rid, mode, try_lock)`; `s1`, `s2`, `s3`
are the outcomes of the system calls under `tx->Abort()`, which runs while the
latch of the lock head is owned. The call that reaches `cv.wait` with a false
predicate is `Outcome.blocked`: it returns true once a `ReleaseLock` has
granted the request. -/
def Engine.AcquireLock (L : LogLayout) (e : Engine) (tx : Nat) (rid : RID) (mode : Mode)
    (try_lock : Bool) (s1 s2 s3 : SysOutcome) : Option (Outcome × Engine) :=
  if !rid.IsValid then some (Outcome.ret false, e)
  else
    let rvalue := rid.value
    let lock_head := (e.findOrEmplace rvalue).1
    let e1 := (e.findOrEmplace rvalue).2
    if try_lock && !lock_head.requests.isEmpty then some (Outcome.ret false, e1)
    else if lock_head.requests.any (fun req => req.requester == tx && req.mode == mode) then
      some (Outcome.ret true, e1)
    else
      let granted_lock := lock_head.requests.isEmpty ||
        (mode == Mode.SH && lock_head.requests.all (fun r => r.mode == Mode.SH))
      match mustAbort e1.txs tx mode lock_head.requests with
      | none => none
      | some true =>
        match e1.Abort L (some rvalue) tx s1 s2 s3 with
        | none => none
        | some (_, e2) => some (Outcome.ret false, e2)
      | some false =>
        let requests := lock_head.requests ++ [⟨mode, tx, granted_lock⟩]
        if granted_lock then
          match pushLock e1.txs tx rid with
          | none => none
          | some txs1 =>
            some (Outcome.ret true, { e1 with
              txs := txs1
              lock_table := setHead e1.lock_table rvalue ⟨mode, requests⟩ })
        else
          let e2 := { e1 with
            lock_table := setHead e1.lock_table rvalue ⟨lock_head.current_mode, requests⟩ }
          if waitDone requests tx then some (Outcome.ret true, e2)
          else some (Outcome.blocked, e2)

/-- A call on the transactional surface, with the outcomes of the system calls
it may issue. -/
inductive Call where
  | begin
  | acquire (tx : Nat) (rid : RID) (mode : Mode) (try_lock : Bool) (s1 s2 s3 : SysOutcome)
  | release (tx : Nat) (rid : RID)
  | commit (tx : Nat) (s1 s2 s3 : SysOutcome)
  | abort (tx : Nat) (s1 s2 s3 : SysOutcome)
  | log (c : LogCall)
  deriving DecidableEq

/-- Effect of a call: how it ends and the next state. -/
def Engine.call (L : LogLayout) (e : Engine) : Call → Option (Outcome × Engine)
  | Call.begin => some (Outcome.val e.newTransaction.1, e.newTransaction.2)
  | Call.acquire tx rid mode try_lock s1 s2 s3 => e.AcquireLock L tx rid mode try_lock s1 s2 s3
  | Call.release tx rid =>
    (e.ReleaseLock none tx rid).map (fun r => (Outcome.ret r.1, r.2))
  | Call.commit tx s1 s2 s3 =>
    (e.Commit L tx s1 s2 s3).map (fun r => (Outcome.ret r.1, r.2))
  | Call.abort tx s1 s2 s3 =>
    (e.Abort L none tx s1 s2 s3).map (fun r => (Outcome.val r.1, r.2))
  | Call.log c =>
    (e.log.call L c).map (fun r => (Outcome.ret r.1, { e with log := r.2 }))

/-- A sequence of calls: the list of how each ended and the last state. -/
def Engine.run (L : LogLayout) : Engine → List Call → Option (List Outcome × Engine)
  | e, [] => some ([], e)
  | e, c :: rest =>
    match e.call L c with
    | none => none
    | some (o, e1) =>
      match Engine.run L e1 rest with
      | none => none
      | some (os, e2) => some (o :: os, e2)

/-- The states reached from start-up by calls that return or block. -/
inductive Engine.Reachable (L : LogLayout) : Engine → Prop where
  | start (lg : LogManager) : Engine.Reachable L (Engine.start lg)
  | call (e : Engine) (c : Call) (o : Outcome) (e' : Engine) :
      Engine.Reachable L e → e.call L c = some (o, e') → Engine.Reachable L e'

/-- The waits-for relation: `a` has an ungranted request in some queue, and a
request of `b` precedes it there. -/
def waitsInQueue (a b : Nat) : List LockRequest → Bool
  | [] => false
  | r :: rest =>
    (r.requester == b && rest.any (fun x => x.requester == a && !x.granted)) ||
      waitsInQueue a b rest

/-- The waits-for relation over all lock heads. -/
def Engine.waitsFor (e : Engine) (a b : Nat) : Bool :=
  e.lock_table.any (fun p => waitsInQueue a b p.2.requests)

/-- The RIDs on which transaction `tx` has a granted request in some lock head. -/
def Engine.grantedRids (e : Engine) (tx : Nat) : List Nat :=
  (e.lock_table.filter
    (fun p => p.2.requests.any (fun r => r.requester == tx && r.granted))).map (fun p => p.1)

/-- Follows the specification of `release_lock`: every request of the leading
run of requests of mode SH, up to the first request of another mode, granted. -/
def grantRun (q : List LockRequest) : List LockRequest :=
  (q.takeWhile (fun r => r.mode == Mode.SH)).map (fun r => { r with granted := true }) ++
    q.dropWhile (fun r => r.mode == Mode.SH)

/-- Follows the specification of `release_lock`: the lock head once the first
request of `tx` is removed from the queue `q`. An empty queue gives mode NL; a
first request of mode XL is granted and gives mode XL; otherwise the leading
run of requests of mode SH is granted and the mode is SH. -/
def releaseLockSpec (q : List LockRequest) (tx : Nat) : LockHead :=
  match q.eraseP (fun r => r.requester == tx) with
  | [] => ⟨Mode.NL, []⟩
  | first :: rest =>
    if first.mode = Mode.XL then ⟨Mode.XL, { first with granted := true } :: rest⟩
    else ⟨Mode.SH, grantRun (first :: rest)⟩

/-! ## Predicates of the proofs about the log and the lock table -/

/-- What every reachable state of the log manager satisfies, for the records
`recs` appended so far: the bytes below `durable_lsn` in the file followed by
the bytes of the buffer are the framed records, and `current_lsn` is the
number of bytes in both. -/
def LogInv (L : LogLayout) (lm : LogManager) (recs : List LogEntry) : Prop :=
  lm.current_lsn = lm.durable_lsn + lm.logbuf_offset ∧
  lm.logbuf.length = lm.logbuf_offset ∧
  lm.logbuf_size < 4294967296 ∧
  lm.durable_lsn ≤ lm.file.length ∧
  lm.file.take lm.durable_lsn ++ lm.logbuf = frames L 0 recs

/-- No request of the list is granted. -/
def NoGrant (q : List LockRequest) : Prop := ∀ x ∈ q, x.granted = false

/-- Shape of a queue behind a request of mode SH: requests of mode SH, then
from the first request of another mode on nothing is granted. -/
def TailInv : List LockRequest → Prop
  | [] => True
  | x :: xs => if x.mode = Mode.SH then TailInv xs else NoGrant (x :: xs)

/-- Shape of a queue: behind a first request that is not of mode SH nothing is
granted; behind a first request of mode SH the shape is `TailInv`. -/
def QueueInv : List LockRequest → Prop
  | [] => True
  | r :: rest => if r.mode = Mode.SH then TailInv rest else NoGrant rest

/-- Every queue of the lock table has the shape `QueueInv`. -/
def TableInv (table : List (Nat × LockHead)) : Prop :=
  ∀ p ∈ table, QueueInv p.2.requests

/-- The requesters of all queued requests are addresses of transactions. -/
def Engine.RequestersValid (e : Engine) : Prop :=
  ∀ p ∈ e.lock_table, ∀ r ∈ p.2.requests, r.requester < e.txs.length

/-- No two entries of the lock table have the same key. -/
def Engine.KeysDistinct (e : Engine) : Prop :=
  (e.lock_table.map (fun p => p.1)).Nodup

/-- Length of the lock list of the transaction at address `t` (0 when there is none). -/
def locksLen (txs : List Transaction) (t : Nat) : Nat :=
  ((txs[t]?).map (fun x => x.locks.length)).getD 0

/-! ## Sample states of the log manager and of the lock table -/

/-- System calls that succeed: `fsync` returns 0 and `pwrite` writes all it is
given (up to a million bytes). -/
def sysOk : SysOutcome := ⟨0, some 1000000⟩

/-- System calls under which `pwrite` fails with a negative result. -/
def sysFail : SysOutcome := ⟨0, none⟩

/-- The log manager that `LogManager("log", 1)` constructs on descriptor 3. -/
def sampleLog : LogManager :=
  { logbuf_size := 1048576, logbuf := [], logbuf_offset := 0, fd := 3, durable_lsn := 0,
    current_lsn := 0, file := [] }

/-- The state after two transactions were constructed, with timestamps 0 and 1. -/
def sampleEngine : Engine :=
  { ts_counter := 2
    txs := [⟨0, [], kStateInProgress⟩, ⟨1, [], kStateInProgress⟩]
    active_transactions := [0, 1]
    lock_table := []
    log := sampleLog }

/-- Two record identifiers. -/
def ridA : RID := ⟨1⟩

/-- The second record identifier. -/
def ridB : RID := ⟨2⟩

/-- The log manager after `LogInsert(ridA, {7, 9}, 2)` on `sampleLog`. -/
def sampleLog1 : LogManager :=
  { sampleLog with
    logbuf := [0, 1, 0, 0, 0, 0, 0, 0, 0, 2, 0, 0, 0, 7, 9, 0, 0, 0, 0, 0, 0, 0, 0]
    logbuf_offset := 23
    current_lsn := 23 }

/-- The log manager after `LogCommit(5)` on `sampleLog1`. -/
def sampleLog2 : LogManager :=
  { sampleLog1 with
    logbuf := [0, 1, 0, 0, 0, 0, 0, 0, 0, 2, 0, 0, 0, 7, 9, 0, 0, 0, 0, 0, 0, 0, 0] ++
      [3, 5, 0, 0, 0, 0, 0, 0, 0, 0, 0, 0, 0, 23, 0, 0, 0, 0, 0, 0, 0]
    logbuf_offset := 44
    current_lsn := 44 }

/-- The log manager after a successful `Flush` on `sampleLog2`. -/
def sampleLog3 : LogManager :=
  { sampleLog2 with
    logbuf := []
    logbuf_offset := 0
    durable_lsn := 44
    file := [0, 1, 0, 0, 0, 0, 0, 0, 0, 2, 0, 0, 0, 7, 9, 0, 0, 0, 0, 0, 0, 0, 0] ++
      [3, 5, 0, 0, 0, 0, 0, 0, 0, 0, 0, 0, 0, 23, 0, 0, 0, 0, 0, 0, 0] }

/-- Calls after which both transactions of `sampleEngine` hold a shared lock on
`ridA`: the younger one asks first. -/
def sharedCalls : List Call :=
  [Call.begin, Call.begin,
    Call.acquire 1 ridA Mode.SH false sysOk sysOk sysOk,
    Call.acquire 0 ridA Mode.SH false sysOk sysOk sysOk]

/-- The state after `sharedCalls`. -/
def sampleShared : Engine :=
  { sampleEngine with
    txs := [⟨0, [ridA], kStateInProgress⟩, ⟨1, [ridA], kStateInProgress⟩]
    lock_table := [(1, ⟨Mode.SH, [⟨Mode.SH, 1, true⟩, ⟨Mode.SH, 0, true⟩]⟩)] }

/-- The state after `sharedCalls` and `ReleaseLock(T0, ridA)`. -/
def sampleReleased : Engine :=
  { sampleEngine with
    txs := [⟨0, [ridA], kStateInProgress⟩, ⟨1, [ridA, ridA], kStateInProgress⟩]
    lock_table := [(1, ⟨Mode.SH, [⟨Mode.SH, 1, true⟩]⟩)] }

/-- Calls after which transaction 1 holds `ridA` in mode XL and the older
transaction 0 waits for it. -/
def exclusiveCalls : List Call :=
  [Call.begin, Call.begin,
    Call.acquire 1 ridA Mode.XL false sysOk sysOk sysOk,
    Call.acquire 0 ridA Mode.XL false sysOk sysOk sysOk]

/-- The state after `exclusiveCalls`. -/
def sampleExclusive : Engine :=
  { sampleEngine with
    txs := [⟨0, [], kStateInProgress⟩, ⟨1, [ridA], kStateInProgress⟩]
    lock_table := [(1, ⟨Mode.XL, [⟨Mode.XL, 1, true⟩, ⟨Mode.XL, 0, false⟩]⟩)] }

/-- Calls after which transaction 1 holds `ridA` in mode SH and the older
transaction 0 waits for mode XL; a third transaction exists. -/
def queuedCalls : List Call :=
  [Call.begin, Call.begin, Call.begin,
    Call.acquire 1 ridA Mode.SH false sysOk sysOk sysOk,
    Call.acquire 0 ridA Mode.XL false sysOk sysOk sysOk]

/-- The state after `queuedCalls`. -/
def sampleQueued : Engine :=
  { ts_counter := 3
    txs := [⟨0, [], kStateInProgress⟩, ⟨1, [ridA], kStateInProgress⟩, ⟨2, [], kStateInProgress⟩]
    active_transactions := [0, 1, 2]
    lock_table := [(1, ⟨Mode.SH, [⟨Mode.SH, 1, true⟩, ⟨Mode.XL, 0, false⟩]⟩)]
    log := sampleLog }

/-- The state after `queuedCalls` and `AcquireLock(T2, ridA, SH)`. -/
def sampleQueued3 : Engine :=
  { sampleQueued with
    lock_table := [(1, ⟨Mode.SH,
      [⟨Mode.SH, 1, true⟩, ⟨Mode.XL, 0, false⟩, ⟨Mode.SH, 2, false⟩]⟩)] }

/-- Four transactions T0..T3 (timestamps 0..3): T3 and T2 take shared locks on
`ridA` and `ridB`, the older T0 and T1 ask for these in mode XL, then T2 and T3
each ask for a shared lock on the record of the other. -/
def deadlockCalls : List Call :=
  [Call.begin, Call.begin, Call.begin, Call.begin,
    Call.acquire 3 ridA Mode.SH false sysOk sysOk sysOk,
    Call.acquire 2 ridB Mode.SH false sysOk sysOk sysOk,
    Call.acquire 0 ridA Mode.XL false sysOk sysOk sysOk,
    Call.acquire 1 ridB Mode.XL false sysOk sysOk sysOk,
    Call.acquire 2 ridA Mode.SH false sysOk sysOk sysOk,
    Call.acquire 3 ridB Mode.SH false sysOk sysOk sysOk]

/-- The state after `deadlockCalls`. -/
def sampleDeadlock : Engine :=
  { ts_counter := 4
    txs := [⟨0, [], kStateInProgress⟩, ⟨1, [], kStateInProgress⟩,
      ⟨2, [ridB], kStateInProgress⟩, ⟨3, [ridA], kStateInProgress⟩]
    active_transactions := [0, 1, 2, 3]
    lock_table :=
      [(1, ⟨Mode.SH, [⟨Mode.SH, 3, true⟩, ⟨Mode.XL, 0, false⟩, ⟨Mode.SH, 2, false⟩]⟩),
       (2, ⟨Mode.SH, [⟨Mode.SH, 2, true⟩, ⟨Mode.XL, 1, false⟩, ⟨Mode.SH, 3, false⟩]⟩)]
    log := sampleLog }

/-- One transaction asks for `ridA` in mode SH, then in mode XL. -/
def upgradeCalls : List Call :=
  [Call.begin,
    Call.acquire 0 ridA Mode.SH false sysOk sysOk sysOk,
    Call.acquire 0 ridA Mode.XL false sysOk sysOk sysOk]

/-- The state after `upgradeCalls`. -/
def sampleUpgrade : Engine :=
  { ts_counter := 1
    txs := [⟨0, [ridA], kStateInProgress⟩]
    active_transactions := [0]
    lock_table := [(1, ⟨Mode.SH, [⟨Mode.SH, 0, true⟩, ⟨Mode.XL, 0, false⟩]⟩)]
    log := sampleLog }

/-- The state after transaction 1 of `sampleEngine` committed. -/
def sampleCommitted : Engine :=
  { sampleEngine with
    txs := [⟨0, [], kStateInProgress⟩, ⟨1, [], kStateCommitted⟩]
    active_transactions := [0]
    log := { sampleLog with
      logbuf := [5, 1, 0, 0, 0, 0, 0, 0, 0, 0, 0, 0, 0, 21, 0, 0, 0, 0, 0, 0, 0]
      logbuf_offset := 21
      durable_lsn := 21
      current_lsn := 42
      file := [3, 1, 0, 0, 0, 0, 0, 0, 0, 0, 0, 0, 0, 0, 0, 0, 0, 0, 0, 0, 0] } }

/-- The state after `Commit()` of the only transaction, constructed on
`sampleLog`, when `pwrite` fails in `Flush`. -/
def sampleFailedCommit : Engine :=
  { ts_counter := 1
    txs := [⟨0, [], kStateAborted⟩]
    active_transactions := [0]
    lock_table := []
    log := { sampleLog with
      logbuf := [3, 0, 0, 0, 0, 0, 0, 0, 0, 0, 0, 0, 0, 0, 0, 0, 0, 0, 0, 0, 0]
      logbuf_offset := 21
      current_lsn := 21 } }

/-- The state after `Abort()` of the only transaction, constructed on
`sampleLog`, when `pwrite` fails in `Flush`. -/
def sampleFailedAbort : Engine :=
  { ts_counter := 1
    txs := [⟨0, [], kStateAborted⟩]
    active_transactions := [0]
    lock_table := []
    log := { sampleLog with
      logbuf := [4, 0, 0, 0, 0, 0, 0, 0, 0, 0, 0, 0, 0, 0, 0, 0, 0, 0, 0, 0, 0]
      logbuf_offset := 21
      current_lsn := 21 } }

/-- The state `sampleShared` with a third transaction constructed before the
two requests. -/
def sampleShared3 : Engine :=
  { sampleShared with
    ts_counter := 3
    txs := [⟨0, [ridA], kStateInProgress⟩, ⟨1, [ridA], kStateInProgress⟩,
      ⟨2, [], kStateInProgress⟩]
    active_transactions := [0, 1, 2] }

/-- Calls after which transaction 1 has taken and released a shared lock on
`ridA` and the older transaction 0 holds `ridA` in mode XL. -/
def staleCalls : List Call :=
  [Call.begin, Call.begin,
    Call.acquire 1 ridA Mode.SH false sysOk sysOk sysOk,
    Call.release 1 ridA,
    Call.acquire 0 ridA Mode.XL false sysOk sysOk sysOk]

/-- The state after `staleCalls`. -/
def sampleStale : Engine :=
  { sampleEngine with
    txs := [⟨0, [ridA], kStateInProgress⟩, ⟨1, [ridA], kStateInProgress⟩]
    lock_table := [(1, ⟨Mode.XL, [⟨Mode.XL, 0, true⟩]⟩)] }

/-- The state after transaction 0 of `sampleEngine` was granted `ridA` in mode XL. -/
def sampleHeld : Engine :=
  { sampleEngine with
    txs := [⟨0, [ridA], kStateInProgress⟩, ⟨1, [], kStateInProgress⟩]
    lock_table := [(1, ⟨Mode.XL, [⟨Mode.XL, 0, true⟩]⟩)] }

/-- The state after the younger transaction 1 asked for `ridA` in mode XL in
`sampleHeld` and aborted itself. -/
def sampleDied : Engine :=
  { sampleHeld with
    txs := [⟨0, [ridA], kStateInProgress⟩, ⟨1, [], kStateAborted⟩]
    active_transactions := [0]
    log := { sampleLog with
      logbuf := [5, 1, 0, 0, 0, 0, 0, 0, 0, 0, 0, 0, 0, 21, 0, 0, 0, 0, 0, 0, 0]
      logbuf_offset := 21
      durable_lsn := 21
      current_lsn := 42
      file := [4, 1, 0, 0, 0, 0, 0, 0, 0, 0, 0, 0, 0, 0, 0, 0, 0, 0, 0, 0, 0] } }

/-! ## Buffer pool (`Storage/buffer_manager.h`, `Storage/buffer_manager.cc`) -/

/-- The structure `Page`, a frame of the pool: the dirty flag, the pin count
(a `uint16_t`), the id of the page held, and the bytes of `page_data`. -/
structure Page where
  is_dirty : Bool
  pin_count : Nat
  page_id : PageId
  page_data : List Nat
  deriving DecidableEq

/-- Constructor `Page() : is_dirty(false), pin_count(0)`; the member `page_id`
is default-constructed, and the bytes of `page_data`, which the constructor
does not set, are taken to be zero. -/
def Page.init (PAGE_SIZE : Nat) : Page :=
  { is_dirty := false, pin_count := 0, page_id := PageId.invalid,
    page_data := List.replicate PAGE_SIZE 0 }

/-- Method `IncPinCount() { pin_count += 1; }` on a `uint16_t`. -/
def Page.IncPinCount (p : Page) : Page :=
  { p with pin_count := (p.pin_count + 1) % 65536 }

/-- Method `DecPinCount() { pin_count -= 1; }` on a `uint16_t`. -/
def Page.DecPinCount (p : Page) : Page :=
  { p with pin_count := (p.pin_count + 65535) % 65536 }

/-- Method `SetDirty(bool dirty)`. -/
def Page.SetDirty (p : Page) (dirty : Bool) : Page :=
  { p with is_dirty := dirty }

/-- The `BufferManager` object together with what its pointers reach.
`page_frames` is the array allocated by the constructor. `heap` holds the
`Page` objects made by `new Page()`, by address; an entry is `none` once the
object was deleted. `page_map` and `lru` hold such addresses. `file_map`
holds, for each registered descriptor, the `BaseFile` object registered under
it (the key is the member `id` of the object). -/
structure BufferManager where
  page_count : Nat
  page_frames : List Page
  heap : List (Option Page)
  page_map : List (PageId × Nat)
  lru : List Nat
  file_map : List BaseFile
  deriving DecidableEq

/-- Constructor `BufferManager(uint32_t page_count)`. -/
def BufferManager.create (PAGE_SIZE : Nat) (page_count : Nat) : BufferManager :=
  { page_count := page_count
    page_frames := List.replicate page_count (Page.init PAGE_SIZE)
    heap := []
    page_map := []
    lru := []
    file_map := [] }

/-- The `Page` object at an address, if it is alive. -/
def BufferManager.frame (bm : BufferManager) (a : Nat) : Option Page :=
  match bm.heap[a]? with
  | some (some p) => some p
  | _ => none

/-- Assignment to the `Page` object at an address. -/
def BufferManager.store (bm : BufferManager) (a : Nat) (p : Page) : BufferManager :=
  { bm with heap := bm.heap.set a (some p) }

/-- The key under which `file_map` is consulted for a page id: the `uint32_t`
result of `GetFileId()` converted to `int`. -/
def fileKey (p : PageId) : Int :=
  if p.GetFileId < 2147483648 then (p.GetFileId : Int) else (p.GetFileId : Int) - 4294967296

/-- Lookup `file_map[key]`; `none` is the null pointer. -/
def findFile (files : List BaseFile) (key : Int) : Option BaseFile :=
  files.find? (fun bf => bf.id == key)

/-- A member function of `BaseFile` changed the object registered under its id. -/
def setFile (files : List BaseFile) (bf : BaseFile) : List BaseFile :=
  files.map (fun x => if x.id = bf.id then bf else x)

/-- Lookup `page_map.find(page_id)`; the comparator orders the keys by `value`. -/
def findPage (page_map : List (PageId × Nat)) (page_id : PageId) : Option Nat :=
  (page_map.find? (fun e => e.1 == page_id)).map (fun e => e.2)

/-- Call `page_map.erase(page_id)`. -/
def erasePage (page_map : List (PageId × Nat)) (page_id : PageId) : List (PageId × Nat) :=
  page_map.filter (fun e => e.1 != page_id)

/-- Method `BufferManager::RegisterFile(BaseFile *bf)`; `none` is the null
pointer. -/
def BufferManager.RegisterFile (bm : BufferManager) (bf : Option BaseFile) : BufferManager :=
  match bf with
  | none => bm
  | some f =>
    if bm.file_map.any (fun x => x.id == f.id) then { bm with file_map := setFile bm.file_map f }
    else { bm with file_map := bm.file_map ++ [f] }

/-- Lines 77-82 of `PinPage`: a dirty victim is written to its file when the
file is registered; the files afterwards. `none` is `abort()` in `FlushPage`. -/
def writeBack (PAGE_SIZE : Nat) (files : List BaseFile) (victim : Page) (sys : SysOutcome) :
    Option (List BaseFile) :=
  if victim.is_dirty then
    match findFile files (fileKey victim.page_id) with
    | none => some files
    | some file =>
      match file.FlushPage PAGE_SIZE victim.page_id victim.page_data sys with
      | none => none
      | some (_, file1) => some (setFile files file1)
  else some files

/-- The loop `while (!lru.empty())` of `PinPage` (lines 72-86), run on the
content of `lru`: frames are popped from the front; the first one whose pin
count is 0 is written back, erased from `page_map` and deleted. The flag is
`evicted`. `none` is a faulting execution (`abort()` in `FlushPage`, or a
dangling pointer). -/
def BufferManager.evict (PAGE_SIZE : Nat) (bm : BufferManager) (sys : SysOutcome) :
    List Nat → Option (Bool × BufferManager)
  | [] => some (false, { bm with lru := [] })
  | victim :: rest =>
    match bm.frame victim with
    | none => none
    | some v =>
      if v.pin_count = 0 then
        match writeBack PAGE_SIZE bm.file_map v sys with
        | none => none
        | some files =>
          some (true, { bm with
            file_map := files
            page_map := erasePage bm.page_map v.page_id
            heap := bm.heap.set victim none
            lru := rest })
      else BufferManager.evict PAGE_SIZE bm sys rest

/-- Lines 93-115 of `PinPage`: a new `Page` is allocated for `page_id` with pin
count 1 and entered in `page_map`; when the file is registered and `LoadPage`
succeeds the frame goes to the back of `lru`, otherwise it is taken out of
`page_map` and deleted and the result is the null pointer. -/
def BufferManager.load (PAGE_SIZE : Nat) (bm : BufferManager) (page_id : PageId) :
    Option Nat × BufferManager :=
  let new_page := bm.heap.length
  let p : Page := { (Page.init PAGE_SIZE) with page_id := page_id }.IncPinCount
  let bm1 : BufferManager := { bm with
    heap := bm.heap ++ [some p]
    page_map := bm.page_map ++ [(page_id, new_page)] }
  let failed : Option Nat × BufferManager := (none, { bm1 with
    lru := bm1.lru.filter (fun a => a != new_page)
    page_map := erasePage bm1.page_map page_id
    heap := bm1.heap.set new_page none })
  match findFile bm1.file_map (fileKey page_id) with
  | some file =>
    let r := file.LoadPage PAGE_SIZE page_id p.page_data
    if !r.1 then failed
    else (some new_page, { bm1 with
      heap := bm1.heap.set new_page (some { p with page_data := r.2 })
      lru := bm1.lru ++ [new_page] })
  | none => failed

/-- Method `BufferManager::PinPage(PageId page_id)`: the address of the frame,
or `none` for the null pointer, and the next state. `sys` is the outcome of the
system calls of the write-back of a victim. -/
def BufferManager.PinPage (PAGE_SIZE : Nat) (bm : BufferManager) (page_id : PageId)
    (sys : SysOutcome) : Option (Option Nat × BufferManager) :=
  if !page_id.IsValid then some (none, bm)
  else
    match findPage bm.page_map page_id with
    | some a =>
      match bm.frame a with
      | none => none
      | some p =>
        some (some a, { bm.store a p.IncPinCount with
          lru := bm.lru.filter (fun b => b != a) ++ [a] })
    | none =>
      if bm.page_map.length ≥ bm.page_count then
        match bm.evict PAGE_SIZE sys bm.lru with
        | none => none
        | some (evicted, bm1) =>
          if !evicted && decide (bm1.page_map.length ≥ bm1.page_count) then some (none, bm1)
          else some (bm1.load PAGE_SIZE page_id)
      else some (bm.load PAGE_SIZE page_id)

/-- Method `BufferManager::UnpinPage(Page *page)`; `none` as argument is the
null pointer, `none` as result the use of a deleted frame. -/
def BufferManager.UnpinPage (bm : BufferManager) (page : Option Nat) : Option BufferManager :=
  match page with
  | none => some bm
  | some a =>
    match bm.frame a with
    | none => none
    | some p =>
      let bm1 := bm.store a p.DecPinCount
      if p.DecPinCount.pin_count = 0 then
        if a ∈ bm.lru then some bm1 else some { bm1 with lru := bm.lru ++ [a] }
      else some bm1

/-- The first loop of the destructor `~BufferManager()` (lines 36-41), over
the array `page_frames`: the files after it. `none` is a faulting execution
(the file of a frame is not registered, or `abort()` in `FlushPage`). -/
def flushFrames (PAGE_SIZE : Nat) (sys : SysOutcome) : List Page → List BaseFile →
    Option (List BaseFile)
  | [], files => some files
  | p :: rest, files =>
    if p.is_dirty && p.page_id.IsValid then
      match findFile files (fileKey p.page_id) with
      | none => none
      | some file =>
        match file.FlushPage PAGE_SIZE p.page_id p.page_data sys with
        | none => none
        | some (_, file1) => flushFrames PAGE_SIZE sys rest (setFile files file1)
    else flushFrames PAGE_SIZE sys rest files

/-- Destructor `~BufferManager()`: after the loop over `page_frames` the
frames of `page_map` are deleted, both containers are cleared and the array is
freed; what remains is the files. -/
def BufferManager.destroy (PAGE_SIZE : Nat) (bm : BufferManager) (sys : SysOutcome) :
    Option (List BaseFile) :=
  flushFrames PAGE_SIZE sys bm.page_frames bm.file_map

/-- The caller changes the bytes of `page_data` of a frame, through the
pointer that `GetDataPage()` or `GetDirPage()` returns. -/
def BufferManager.update (bm : BufferManager) (a : Nat) (g : List Nat → List Nat) :
    Option BufferManager :=
  match bm.frame a with
  | none => none
  | some p => some (bm.store a { p with page_data := g p.page_data })

/-- The caller copies `data` to the start of `page_data` of a frame; copying
more bytes than the array has is a faulting execution. -/
def BufferManager.write (bm : BufferManager) (a : Nat) (data : List Nat) :
    Option BufferManager :=
  match bm.frame a with
  | none => none
  | some p =>
    if data.length ≤ p.page_data.length then bm.update a (fun d => overwrite d data) else none

/-- The caller calls `SetDirty(dirty)` on a frame. -/
def BufferManager.SetDirty (bm : BufferManager) (a : Nat) (dirty : Bool) :
    Option BufferManager :=
  match bm.frame a with
  | none => none
  | some p => some (bm.store a (p.SetDirty dirty))

/-- A call on the pool or on one of the registered files. -/
inductive PoolCall where
  | register (bf : BaseFile)
  | createPage (fd : Int) (sys : SysOutcome)
  | pin (page_id : PageId) (sys : SysOutcome)
  | unpin (page : Option Nat)
  | write (page : Nat) (data : List Nat)
  | setDirty (page : Nat) (dirty : Bool)
  deriving DecidableEq

/-- Effect of a call: the pointer returned by `PinPage` (`none` otherwise) and
the next state. -/
def BufferManager.call (PAGE_SIZE : Nat) (bm : BufferManager) :
    PoolCall → Option (Option Nat × BufferManager)
  | PoolCall.register bf => some (none, bm.RegisterFile (some bf))
  | PoolCall.createPage fd sys =>
    match findFile bm.file_map fd with
    | none => none
    | some file =>
      match file.CreatePage PAGE_SIZE sys with
      | none => none
      | some (_, file1) => some (none, { bm with file_map := setFile bm.file_map file1 })
  | PoolCall.pin page_id sys => bm.PinPage PAGE_SIZE page_id sys
  | PoolCall.unpin page => (bm.UnpinPage page).map (fun s => (none, s))
  | PoolCall.write page data => (bm.write page data).map (fun s => (none, s))
  | PoolCall.setDirty page dirty => (bm.SetDirty page dirty).map (fun s => (none, s))

/-- The states of the pool reached from the constructor by calls that return. -/
inductive BufferManager.Reachable (PAGE_SIZE : Nat) : BufferManager → Prop where
  | create (page_count : Nat) : BufferManager.Reachable PAGE_SIZE
      (BufferManager.create PAGE_SIZE page_count)
  | call (bm : BufferManager) (c : PoolCall) (r : Option Nat) (bm1 : BufferManager) :
      BufferManager.Reachable PAGE_SIZE bm → bm.call PAGE_SIZE c = some (r, bm1) →
      BufferManager.Reachable PAGE_SIZE bm1

/-- Calls in sequence; the pointers returned, in call order. -/
def BufferManager.run (PAGE_SIZE : Nat) : BufferManager → List PoolCall →
    Option (List (Option Nat) × BufferManager)
  | bm, [] => some ([], bm)
  | bm, c :: cs =>
    match bm.call PAGE_SIZE c with
    | none => none
    | some (r, bm1) =>
      match BufferManager.run PAGE_SIZE bm1 cs with
      | none => none
      | some (rs, bm2) => some (r :: rs, bm2)

/-- The system calls of `FlushPage` succeed: `fsync` does not fail and `pwrite`
writes the whole page. -/
def SysOutcome.Ok (sys : SysOutcome) (PAGE_SIZE : Nat) : Prop :=
  0 ≤ sys.fsync_ret ∧ ∃ room, sys.pwrite_room = some room ∧ PAGE_SIZE ≤ room

/-! ## Paged file (`Storage/file.h`, `Storage/file.cc`) -/

/-- A `DirectoryPage::Entry`, by the members that `file.cc` reads and writes. -/
structure Entry where
  free_slots : Nat
  allocated : Bool
  created : Bool
  deriving DecidableEq

/-- The declarations of `page.h` that `file.cc` relies on and that are not
among the sources at hand, taken as a parameter: the constant `PAGE_SIZE`,
`sizeof(DirectoryPage::Entry)`, the bytes of an entry and the entry that bytes
stand for, the bound of the member `free_slots`, the function
`DataPage::GetCapacity(record_size)`, the bytes that the constructor
`DataPage(record_size)` leaves in a page, and those that the assignment
`record_count = 0` leaves. -/
structure PageLayout where
  PAGE_SIZE : Nat
  sizeofEntry : Nat
  entryBytes : Entry → List Nat
  entryOf : List Nat → Entry
  slotLimit : Nat
  GetCapacity : Nat → Nat
  initDataPage : Nat → List Nat → List Nat
  clearRecordCount : List Nat → List Nat

/-- The layout is one of a program that compiles: an entry has as many bytes
as announced and is read back as written, at least one entry fits in a page,
the page size fits the 16 bits by which page numbers are shifted, and writing
to a data page keeps its size. -/
def PageLayout.WellFormed (G : PageLayout) : Prop :=
  0 < G.sizeofEntry ∧ G.sizeofEntry ≤ G.PAGE_SIZE ∧ G.PAGE_SIZE ≤ 65536 ∧
  (∀ e, (G.entryBytes e).length = G.sizeofEntry) ∧
  (∀ e, e.free_slots < G.slotLimit → G.entryOf (G.entryBytes e) = e) ∧
  (∀ bytes, (G.entryOf bytes).free_slots < G.slotLimit) ∧
  (∀ record_size, G.GetCapacity record_size < G.slotLimit) ∧
  (∀ record_size data, (G.initDataPage record_size data).length = data.length) ∧
  (∀ data, (G.clearRecordCount data).length = data.length)

/-- The local `entries_per_dir_page = PAGE_SIZE / sizeof(DirectoryPage::Entry)`. -/
def PageLayout.entries_per_dir_page (G : PageLayout) : Nat :=
  G.PAGE_SIZE / G.sizeofEntry

/-- Read of `entries[i]` in the bytes of a directory page. -/
def getEntry (G : PageLayout) (page_data : List Nat) (i : Nat) : Entry :=
  G.entryOf (preadBytes page_data G.sizeofEntry (i * G.sizeofEntry))

/-- Assignment to `entries[i]` in the bytes of a directory page. -/
def setEntry (G : PageLayout) (page_data : List Nat) (i : Nat) (e : Entry) : List Nat :=
  pwriteBytes page_data (G.entryBytes e) G.sizeofEntry (i * G.sizeofEntry)

/-- The loop that initialises a directory page (lines 33-37 and 106-110):
every entry gets `free_slots = GetCapacity(record_size)`, `allocated = false`
and `created = false`. -/
def initEntries (G : PageLayout) (record_size : Nat) (page_data : List Nat) : List Nat :=
  (List.range G.entries_per_dir_page).foldl
    (fun d i => setEntry G d i ⟨G.GetCapacity record_size, false, false⟩) page_data

/-- A `File` object: the descriptor `id` of its `BaseFile` part, the descriptor
of its member `dir`, and `record_size`. The two `BaseFile` objects are the
ones that the constructor registers with the buffer pool, and are held in
`file_map` of the pool. -/
structure File where
  id : Int
  dir : Int
  record_size : Nat
  deriving DecidableEq

/-- Call of the member function `CreatePage` of the `BaseFile` object whose
descriptor is `fd`. -/
def BufferManager.CreatePage (PAGE_SIZE : Nat) (bm : BufferManager) (fd : Int)
    (sys : SysOutcome) : Option (PageId × BufferManager) :=
  match findFile bm.file_map fd with
  | none => none
  | some file =>
    match file.CreatePage PAGE_SIZE sys with
    | none => none
    | some (pid, file1) => some (pid, { bm with file_map := setFile bm.file_map file1 })

/-- Call of `GetPageCount()` on the `BaseFile` object whose descriptor is `fd`. -/
def BufferManager.GetPageCount (bm : BufferManager) (fd : Int) : Option Nat :=
  (findFile bm.file_map fd).map (fun file => file.GetPageCount)

/-- Constructor `File(name, record_size)`: the two files are opened on the
descriptors `fd` and `fd_dir` and registered; the first directory page is
created, pinned, initialised, marked dirty and unpinned. `sysc` is the outcome
of the system calls of `CreatePage`, `sysf` that of a write-back by `PinPage`.
`none` is a faulting execution (here also the use of the null pointer that
`PinPage` may return). -/
def File.create (G : PageLayout) (bm : BufferManager) (fd fd_dir : Int) (record_size : Nat)
    (sysc sysf : SysOutcome) : Option (File × BufferManager) :=
  match BaseFile.create fd, BaseFile.create fd_dir with
  | some base, some dir =>
    let bm1 := (bm.RegisterFile (some base)).RegisterFile (some dir)
    match bm1.CreatePage G.PAGE_SIZE fd_dir sysc with
    | none => none
    | some (dir_page_id, bm2) =>
      match bm2.PinPage G.PAGE_SIZE dir_page_id sysf with
      | none => none
      | some (none, _) => none
      | some (some pinned_page, bm3) =>
        match bm3.update pinned_page (initEntries G record_size) with
        | none => none
        | some bm4 =>
          match bm4.SetDirty pinned_page true with
          | none => none
          | some bm5 =>
            match bm5.UnpinPage (some pinned_page) with
            | none => none
            | some bm6 => some (⟨fd, fd_dir, record_size⟩, bm6)
  | _, _ => none

/-- The loop of `ScavengePage` (lines 229-251) from iteration `i` on, with the
value of `current_dir_pid`; the first argument bounds the number of iterations
left. -/
def File.scavengeLoop (G : PageLayout) (f : File) (sysf : SysOutcome) :
    Nat → Nat → PageId → BufferManager → Option (PageId × BufferManager)
  | 0, _, _, _ => none
  | fuel + 1, i, current_dir_pid, bm =>
    match bm.GetPageCount f.dir with
    | none => none
    | some count =>
      if i < count then
        match bm.PinPage G.PAGE_SIZE current_dir_pid sysf with
        | none => none
        | some (none, bm1) => some (PageId.invalid, bm1)
        | some (some pinned_page, bm1) =>
          match bm1.frame pinned_page with
          | none => none
          | some p =>
            match (List.range G.entries_per_dir_page).find? (fun j =>
              (getEntry G p.page_data j).created && !(getEntry G p.page_data j).allocated) with
            | some j =>
              let e := getEntry G p.page_data j
              let allocated_pid :=
                PageId.make f.id ((i * G.entries_per_dir_page) % 4294967296 + j)
              match bm1.update pinned_page (fun d => setEntry G d j
                { e with allocated := true, free_slots := G.GetCapacity f.record_size }) with
              | none => none
              | some bm2 =>
                match bm2.SetDirty pinned_page true with
                | none => none
                | some bm3 =>
                  match bm3.UnpinPage (some pinned_page) with
                  | none => none
                  | some bm4 => some (allocated_pid, bm4)
            | none =>
              let next := PageId.make (fileKey current_dir_pid) (current_dir_pid.GetPageNum + 1)
              match bm1.UnpinPage (some pinned_page) with
              | none => none
              | some bm2 => File.scavengeLoop G f sysf fuel ((i + 1) % 4294967296) next bm2
      else some (PageId.invalid, bm)

/-- Method `File::ScavengePage()`. The loop runs at most once per directory
page, and once more to leave. -/
def File.ScavengePage (G : PageLayout) (f : File) (bm : BufferManager) (sysf : SysOutcome) :
    Option (PageId × BufferManager) :=
  match bm.GetPageCount f.dir with
  | none => none
  | some count => f.scavengeLoop G sysf (count + 1) 0 (PageId.make f.dir 0) bm

/-- Case 2 of `AllocatePage` (lines 88-142): a new data page is created and
entered in the directory. -/
def File.allocateNew (G : PageLayout) (f : File) (bm : BufferManager) (sysc sysf : SysOutcome) :
    Option (PageId × BufferManager) :=
  let entries_per_dir_page := G.entries_per_dir_page
  match bm.GetPageCount f.dir with
  | none => none
  | some dir_count =>
    let dir_page_num := dir_count / entries_per_dir_page
    let dir_page_pid := PageId.make f.dir dir_page_num
    match bm.CreatePage G.PAGE_SIZE f.id sysc with
    | none => none
    | some (data_pid, bm1) =>
      match bm1.GetPageCount f.dir with
      | none => none
      | some dir_count1 =>
        let pinned : Option (Option Nat × BufferManager) :=
          if data_pid.GetPageNum ≥ (entries_per_dir_page * dir_count1) % 4294967296 then
            match bm1.CreatePage G.PAGE_SIZE f.dir sysc with
            | none => none
            | some (new_dir_page_id, bm2) =>
              match bm2.PinPage G.PAGE_SIZE new_dir_page_id sysf with
              | none => none
              | some (none, bm3) => some (none, bm3)
              | some (some pinned_page, bm3) =>
                match bm3.update pinned_page (initEntries G f.record_size) with
                | none => none
                | some bm4 => some (some pinned_page, bm4)
          else bm1.PinPage G.PAGE_SIZE dir_page_pid sysf
        match pinned with
        | none => none
        | some (none, bm4) => some (PageId.invalid, bm4)
        | some (some pinned_page, bm4) =>
          let index := data_pid.GetPageNum % entries_per_dir_page
          match bm4.update pinned_page (fun d => setEntry G d index
            { free_slots := G.GetCapacity f.record_size, allocated := true,
              created := true }) with
          | none => none
          | some bm5 =>
            match bm5.SetDirty pinned_page true with
            | none => none
            | some bm6 =>
              match bm6.UnpinPage (some pinned_page) with
              | none => none
              | some bm7 =>
                match bm7.PinPage G.PAGE_SIZE data_pid sysf with
                | none => none
                | some (none, bm8) =>
                  match bm8.UnpinPage (some pinned_page) with
                  | none => none
                  | some bm9 => some (data_pid, bm9)
                | some (some data_page, bm8) =>
                  match bm8.update data_page (G.initDataPage f.record_size) with
                  | none => none
                  | some bm9 =>
                    match bm9.SetDirty data_page true with
                    | none => none
                    | some bm10 =>
                      match bm10.UnpinPage (some data_page) with
                      | none => none
                      | some bm11 => some (data_pid, bm11)

/-- Method `File::AllocatePage()`. -/
def File.AllocatePage (G : PageLayout) (f : File) (bm : BufferManager) (sysc sysf : SysOutcome) :
    Option (PageId × BufferManager) :=
  match f.ScavengePage G bm sysf with
  | none => none
  | some (scavengedPage, bm1) =>
    if scavengedPage.IsValid then
      match bm1.PinPage G.PAGE_SIZE scavengedPage sysf with
      | none => none
      | some (none, _) => none
      | some (some data_page, bm2) =>
        match bm2.SetDirty data_page true with
        | none => none
        | some bm3 =>
          match bm3.UnpinPage (some data_page) with
          | none => none
          | some bm4 => some (scavengedPage, bm4)
    else f.allocateNew G bm1 sysc sysf

/-- Method `File::DeallocatePage(PageId data_pid)`. Locking the mutex of a
frame that the same call has locked already does not return (`none`). -/
def File.DeallocatePage (G : PageLayout) (f : File) (bm : BufferManager) (data_pid : PageId)
    (sysf : SysOutcome) : Option (Bool × BufferManager) :=
  let entries_per_dir_page := G.entries_per_dir_page
  match bm.GetPageCount f.dir with
  | none => none
  | some dir_count =>
    let dir_limit := (entries_per_dir_page * dir_count) % 4294967296
    if data_pid.GetPageNum > dir_limit then some (false, bm)
    else
      let dir_page_num := data_pid.GetPageNum / entries_per_dir_page
      let index := data_pid.GetPageNum % entries_per_dir_page
      let dir_pid := PageId.make f.dir dir_page_num
      match bm.PinPage G.PAGE_SIZE dir_pid sysf with
      | none => none
      | some (none, bm1) => some (false, bm1)
      | some (some pinned_page, bm1) =>
        match bm1.frame pinned_page with
        | none => none
        | some p =>
          let e := getEntry G p.page_data index
          if !e.created then
            match bm1.UnpinPage (some pinned_page) with
            | none => none
            | some bm2 => some (false, bm2)
          else
            let allocated := e.allocated
            let cleared : Option BufferManager :=
              if allocated then
                match bm1.update pinned_page (fun d => setEntry G d index
                  { getEntry G d index with allocated := false }) with
                | none => none
                | some bm2 =>
                  match bm2.PinPage G.PAGE_SIZE data_pid sysf with
                  | none => none
                  | some (none, _) => none
                  | some (some data_page, bm3) =>
                    if data_page = pinned_page then none
                    else
                      match bm3.update data_page G.clearRecordCount with
                      | none => none
                      | some bm4 =>
                        match bm4.SetDirty data_page true with
                        | none => none
                        | some bm5 => bm5.UnpinPage (some data_page)
              else some bm1
            match cleared with
            | none => none
            | some bm6 =>
              match bm6.SetDirty pinned_page true with
              | none => none
              | some bm7 =>
                match bm7.UnpinPage (some pinned_page) with
                | none => none
                | some bm8 => some (allocated, bm8)

/-- Method `File::PageExists(PageId pid)`. -/
def File.PageExists (G : PageLayout) (f : File) (bm : BufferManager) (pid : PageId)
    (sysf : SysOutcome) : Option (Bool × BufferManager) :=
  let entries_per_dir_page := G.entries_per_dir_page
  let dir_page_num := pid.GetPageNum / entries_per_dir_page
  let index := pid.GetPageNum % entries_per_dir_page
  let dir_pid := PageId.make f.dir dir_page_num
  match bm.PinPage G.PAGE_SIZE dir_pid sysf with
  | none => none
  | some (none, bm1) => some (false, bm1)
  | some (some pinned_page, bm1) =>
    match bm1.frame pinned_page with
    | none => none
    | some p =>
      let exists_ := (getEntry G p.page_data index).allocated
      match bm1.UnpinPage (some pinned_page) with
      | none => none
      | some bm2 => some (exists_, bm2)

/-- A call on a paged file, or on the pool by another client of the pool, with
the outcome of the system calls it may issue: `sysc` for `CreatePage`, `sysf`
for the write-back of a victim. -/
inductive FileCall where
  | allocate (sysc sysf : SysOutcome)
  | deallocate (pid : PageId) (sysf : SysOutcome)
  | pageExists (pid : PageId) (sysf : SysOutcome)
  | scavenge (sysf : SysOutcome)
  | pin (pid : PageId) (sysf : SysOutcome)
  | unpin (page : Option Nat)
  | write (page : Nat) (data : List Nat)
  | setDirty (page : Nat) (dirty : Bool)
  deriving DecidableEq

/-- What a call returns: a page id, a flag, a frame pointer, or nothing. -/
inductive FileResult where
  | page (pid : PageId)
  | flag (b : Bool)
  | frame (a : Option Nat)
  | done
  deriving DecidableEq

/-- Effect of a call: the result and the next state. -/
def File.call (G : PageLayout) (f : File) (bm : BufferManager) :
    FileCall → Option (FileResult × BufferManager)
  | FileCall.allocate sysc sysf =>
    (f.AllocatePage G bm sysc sysf).map (fun x => (FileResult.page x.1, x.2))
  | FileCall.deallocate pid sysf =>
    (f.DeallocatePage G bm pid sysf).map (fun x => (FileResult.flag x.1, x.2))
  | FileCall.pageExists pid sysf =>
    (f.PageExists G bm pid sysf).map (fun x => (FileResult.flag x.1, x.2))
  | FileCall.scavenge sysf =>
    (f.ScavengePage G bm sysf).map (fun x => (FileResult.page x.1, x.2))
  | FileCall.pin pid sysf =>
    (bm.PinPage G.PAGE_SIZE pid sysf).map (fun x => (FileResult.frame x.1, x.2))
  | FileCall.unpin page => (bm.UnpinPage page).map (fun s => (FileResult.done, s))
  | FileCall.write page data => (bm.write page data).map (fun s => (FileResult.done, s))
  | FileCall.setDirty page dirty =>
    (bm.SetDirty page dirty).map (fun s => (FileResult.done, s))

/-- Calls in sequence; the results, in call order. -/
def File.run (G : PageLayout) (f : File) : BufferManager → List FileCall →
    Option (List FileResult × BufferManager)
  | bm, [] => some ([], bm)
  | bm, c :: cs =>
    match f.call G bm c with
    | none => none
    | some (r, bm1) =>
      match File.run G f bm1 cs with
      | none => none
      | some (rs, bm2) => some (r :: rs, bm2)

/-- The system calls by which a call creates pages succeed. -/
def FileCall.creates (G : PageLayout) : FileCall → Prop
  | FileCall.allocate sysc _ => sysc.Ok G.PAGE_SIZE
  | _ => True

/-- The states reached from the constructor of a paged file, run on a reachable
state of the pool with two distinct descriptors, by calls that return, whose
page creations succeed, and that leave at most `limit` pages in the data
file. -/
inductive File.Reachable (G : PageLayout) (limit : Nat) (f : File) : BufferManager → Prop where
  | create (bm0 : BufferManager) (record_size : Nat) (sysc sysf : SysOutcome)
      (bm : BufferManager) :
      BufferManager.Reachable G.PAGE_SIZE bm0 → f.id ≠ f.dir →
      f.id < 2147483648 → f.dir < 2147483648 →
      File.create G bm0 f.id f.dir record_size sysc sysf = some (f, bm) →
      File.Reachable G limit f bm
  | call (bm : BufferManager) (c : FileCall) (r : FileResult) (bm1 : BufferManager) :
      File.Reachable G limit f bm → c.creates G → f.call G bm c = some (r, bm1) →
      (∀ n, bm1.GetPageCount f.id = some n → n ≤ limit) →
      File.Reachable G limit f bm1

/-! ## Invariants of the buffer pool -/

/-- The containers of the pool agree: every entry of `page_map` points to a
live frame that holds the page of its key; no key occurs twice; `lru` has no
repetition and holds only frames of `page_map`; every frame of `page_map`
whose pin count is 0 is in `lru`; every live frame is in `page_map`. -/
def PoolInv (bm : BufferManager) : Prop :=
  (∀ e ∈ bm.page_map, (bm.frame e.2).map (fun p => p.page_id) = some e.1) ∧
  (bm.page_map.map (fun e => e.1)).Nodup ∧
  bm.lru.Nodup ∧
  (∀ a ∈ bm.lru, a ∈ bm.page_map.map (fun e => e.2)) ∧
  (∀ e ∈ bm.page_map, (bm.frame e.2).map (fun p => p.pin_count) = some 0 → e.2 ∈ bm.lru) ∧
  (∀ a ∈ List.range bm.heap.length, bm.frame a = none ∨ a ∈ bm.page_map.map (fun e => e.2))

/-- The pool is full: `page_map.size() >= page_count`. -/
def BufferManager.full (bm : BufferManager) : Prop :=
  bm.page_map.length ≥ bm.page_count

/-- Every cached frame has a pin count above 0. -/
def BufferManager.allPinned (bm : BufferManager) : Prop :=
  ∀ e ∈ bm.page_map, ∀ p, bm.frame e.2 = some p → 0 < p.pin_count

/-- The file of the page is registered and `LoadPage` succeeds on it. -/
def BufferManager.loads (PAGE_SIZE : Nat) (bm : BufferManager) (pid : PageId) : Prop :=
  (findFile bm.file_map (fileKey pid)).map
    (fun file => (file.LoadPage PAGE_SIZE pid (Page.init PAGE_SIZE).page_data).1) = some true

/-- Every frame holds as many bytes as a page has. -/
def Sized (PAGE_SIZE : Nat) (bm : BufferManager) : Prop :=
  ∀ a ∈ List.range bm.heap.length,
    (bm.frame a).all (fun p => decide (p.page_data.length = PAGE_SIZE)) = true

/-- The bytes of a page in its file, when the file is registered and holds the
whole page. -/
def pageBytes (PAGE_SIZE : Nat) (files : List BaseFile) (pid : PageId) : Option (List Nat) :=
  match findFile files (fileKey pid) with
  | none => none
  | some file =>
    if pageOffset PAGE_SIZE pid + PAGE_SIZE ≤ file.bytes.length then
      some (preadBytes file.bytes PAGE_SIZE (pageOffset PAGE_SIZE pid))
    else none

/-- The content of a page as the clients of the pool see it: the bytes of its
frame when it is cached, those of its file otherwise. -/
def BufferManager.view (PAGE_SIZE : Nat) (bm : BufferManager) (pid : PageId) :
    Option (List Nat) :=
  match findPage bm.page_map pid with
  | some a => (bm.frame a).map (fun p => p.page_data)
  | none => pageBytes PAGE_SIZE bm.file_map pid

/-- Two page ids name the same page of the same file. -/
def PageId.samePage (p q : PageId) : Prop :=
  fileKey p = fileKey q ∧ p.GetPageNum = q.GetPageNum

/-- A page id as `PageId(file_id, page_num)` makes it from a descriptor and a
page number that fit their fields: the 16 low bits are zero and so is the top
bit. -/
def PageId.Proper (p : PageId) : Prop :=
  p.value < 9223372036854775808 ∧ p.value % 65536 = 0

/-- A run of calls on the pool that creates no page: pins, unpins, changes of
the bytes of a frame that keep the size of a page, changes of the dirty flag. -/
inductive Quiet (PAGE_SIZE : Nat) : BufferManager → BufferManager → Prop where
  | refl (bm : BufferManager) : Quiet PAGE_SIZE bm bm
  | pin (bm : BufferManager) (pid : PageId) (sys : SysOutcome) (r : Option Nat)
      (bm1 bm2 : BufferManager) :
      bm.PinPage PAGE_SIZE pid sys = some (r, bm1) → Quiet PAGE_SIZE bm1 bm2 →
      Quiet PAGE_SIZE bm bm2
  | unpin (bm : BufferManager) (page : Option Nat) (bm1 bm2 : BufferManager) :
      bm.UnpinPage page = some bm1 → Quiet PAGE_SIZE bm1 bm2 → Quiet PAGE_SIZE bm bm2
  | update (bm : BufferManager) (a : Nat) (g : List Nat → List Nat) (bm1 bm2 : BufferManager) :
      (∀ d, d.length = PAGE_SIZE → (g d).length = PAGE_SIZE) → bm.update a g = some bm1 →
      Quiet PAGE_SIZE bm1 bm2 → Quiet PAGE_SIZE bm bm2
  | setDirty (bm : BufferManager) (a : Nat) (dirty : Bool) (bm1 bm2 : BufferManager) :
      bm.SetDirty a dirty = some bm1 → Quiet PAGE_SIZE bm1 bm2 → Quiet PAGE_SIZE bm bm2

/-- The page counts of the two files of a paged file, as the proof of the
directory invariant carries them: there is a directory page, the directory
spans the data pages, and its last page is there for a data page that
exists. -/
def File.CountInv (G : PageLayout) (f : File) (bm : BufferManager) : Prop :=
  ∃ D n, bm.GetPageCount f.dir = some D ∧ bm.GetPageCount f.id = some n ∧ 1 ≤ D ∧
    n ≤ D * G.entries_per_dir_page ∧
    (D = 1 ∨ D * G.entries_per_dir_page < n + G.entries_per_dir_page) ∧ n ≤ 65536

/-- No page of the paged file can be pinned: the pool is full, the scan of
`lru` has nothing left to evict, and no page of the file is cached. -/
def Blocked (f : File) (bm : BufferManager) : Prop :=
  bm.lru = [] ∧ bm.page_count ≤ bm.page_map.length ∧
  ∀ e ∈ bm.page_map, fileKey e.1 ≠ f.id ∧ fileKey e.1 ≠ f.dir

/-- The pool while a client holds the frames `S` pinned, once each, and no
other frame is pinned: on top of `PoolInv` and `Sized`, every cached page has
a proper id and its bytes in its file, and a frame that is neither held nor
dirty holds what the file holds. -/
def Held (PAGE_SIZE : Nat) (bm : BufferManager) (S : List Nat) : Prop :=
  PoolInv bm ∧ Sized PAGE_SIZE bm ∧ S.Nodup ∧
  (∀ s ∈ S, s ∈ bm.page_map.map (fun e => e.2)) ∧
  ∀ e ∈ bm.page_map, ∀ p ∈ bm.frame e.2,
    e.1.Proper ∧ (pageBytes PAGE_SIZE bm.file_map e.1).isSome = true ∧
    (e.2 ∈ S → p.pin_count = 1) ∧
    (e.2 ∉ S → p.pin_count = 0 ∧
      (p.is_dirty = true ∨ pageBytes PAGE_SIZE bm.file_map e.1 = some p.page_data))

/-- What the clients of the pool see of the pages in `bm` they see in `bm1`. -/
def ViewLe (PAGE_SIZE : Nat) (bm bm1 : BufferManager) : Prop :=
  ∀ q d, q.Proper → bm.view PAGE_SIZE q = some d → bm1.view PAGE_SIZE q = some d

/-- The frames `S` hold in `bm1` the pages they hold in `bm`. -/
def Kept (S : List Nat) (bm bm1 : BufferManager) : Prop :=
  ∀ k s, s ∈ S → findPage bm.page_map k = some s → findPage bm1.page_map k = some s

/-- Directory entry `n` of a paged file as its clients see it: entry
`n % E` of directory page `n / E`. -/
def File.entry (G : PageLayout) (f : File) (bm : BufferManager) (n : Nat) : Option Entry :=
  (bm.view G.PAGE_SIZE (PageId.make f.dir (n / G.entries_per_dir_page))).map
    (fun d => getEntry G d (n % G.entries_per_dir_page))

/-- The log manager that `LogManager("log", 0)` constructs on descriptor 3: its
buffer has no byte. -/
def sampleLogZero : LogManager :=
  { logbuf_size := 0, logbuf := [], logbuf_offset := 0, fd := 3, durable_lsn := 0,
    current_lsn := 0, file := [] }

/-- A page layout for the examples: pages of 16 bytes; a directory entry of 4
bytes, `free_slots` on two bytes, least significant first, then one byte for
`allocated` and one for `created`; a data page that starts with `record_size`
and `record_count` on two bytes each. -/
def samplePages : PageLayout where
  PAGE_SIZE := 16
  sizeofEntry := 4
  entryBytes := fun e =>
    [e.free_slots % 256, e.free_slots / 256 % 256, if e.allocated then 1 else 0,
      if e.created then 1 else 0]
  entryOf := fun b =>
    ⟨b.getD 0 0 % 256 + 256 * (b.getD 1 0 % 256), decide (b.getD 2 0 ≠ 0), decide (b.getD 3 0 ≠ 0)⟩
  slotLimit := 65536
  GetCapacity := fun record_size => 12 / (record_size + 1)
  initDataPage := fun record_size d =>
    overwrite d ([record_size % 256, record_size / 256 % 256, 0, 0].take d.length)
  clearRecordCount := fun d => d.take 2 ++ ([0, 0].take (d.length - 2)) ++ d.drop 4

/-- Page `n` of the file on descriptor 3. -/
def samplePid (n : Nat) : PageId := PageId.make 3 n

/-- A page of zero bytes. -/
def zeroPage : List Nat := List.replicate 16 0

/-- A page that starts with the bytes 7, 8, 9. -/
def markedPage : List Nat := [7, 8, 9] ++ List.replicate 13 0

/-- A base file on descriptor 3 with four pages of 16 zero bytes. -/
def sampleBase : BaseFile := ⟨3, 4, List.replicate 64 0⟩

/-- The file `sampleBase` after the bytes 7, 8, 9 were written to its page 0. -/
def sampleBaseMarked : BaseFile := ⟨3, 4, markedPage ++ List.replicate 48 0⟩

/-- On a pool of two frames: the file is registered, pages 0 and 1 are pinned. -/
def pinnedCalls : List PoolCall :=
  [PoolCall.register sampleBase, PoolCall.pin (samplePid 0) sysOk,
    PoolCall.pin (samplePid 1) sysOk]

/-- The pool of two frames after `pinnedCalls`. -/
def samplePinned : BufferManager :=
  { page_count := 2
    page_frames := List.replicate 2 (Page.init 16)
    heap := [some ⟨false, 1, samplePid 0, zeroPage⟩, some ⟨false, 1, samplePid 1, zeroPage⟩]
    page_map := [(samplePid 0, 0), (samplePid 1, 1)]
    lru := [0, 1]
    file_map := [sampleBase] }

/-- On a pool of two frames: pages 0 and 1 are pinned, page 1 is unpinned, page
2 is pinned (page 1 is evicted), then pages 0 and 2 are unpinned. -/
def lruCalls : List PoolCall :=
  [PoolCall.register sampleBase, PoolCall.pin (samplePid 0) sysOk,
    PoolCall.pin (samplePid 1) sysOk, PoolCall.unpin (some 1), PoolCall.pin (samplePid 2) sysOk,
    PoolCall.unpin (some 0), PoolCall.unpin (some 2)]

/-- The pool of two frames after `lruCalls`. -/
def sampleLru : BufferManager :=
  { page_count := 2
    page_frames := List.replicate 2 (Page.init 16)
    heap := [some ⟨false, 0, samplePid 0, zeroPage⟩, none, some ⟨false, 0, samplePid 2, zeroPage⟩]
    page_map := [(samplePid 0, 0), (samplePid 2, 2)]
    lru := [2, 0]
    file_map := [sampleBase] }

/-- On a pool of two frames: page 0 is pinned, modified, marked dirty and
unpinned; then page 1 is pinned and unpinned. -/
def dirtyCalls : List PoolCall :=
  [PoolCall.register sampleBase, PoolCall.pin (samplePid 0) sysOk, PoolCall.write 0 [7, 8, 9],
    PoolCall.setDirty 0 true, PoolCall.unpin (some 0), PoolCall.pin (samplePid 1) sysOk,
    PoolCall.unpin (some 1)]

/-- The pool of two frames after `dirtyCalls`. -/
def sampleDirty : BufferManager :=
  { page_count := 2
    page_frames := List.replicate 2 (Page.init 16)
    heap := [some ⟨true, 0, samplePid 0, markedPage⟩, some ⟨false, 0, samplePid 1, zeroPage⟩]
    page_map := [(samplePid 0, 0), (samplePid 1, 1)]
    lru := [0, 1]
    file_map := [sampleBase] }

/-- The state `sampleDirty` after `PinPage` of page 2, which evicts page 0. -/
def sampleWritten : BufferManager :=
  { page_count := 2
    page_frames := List.replicate 2 (Page.init 16)
    heap := [none, some ⟨false, 0, samplePid 1, zeroPage⟩, some ⟨false, 1, samplePid 2, zeroPage⟩]
    page_map := [(samplePid 1, 1), (samplePid 2, 2)]
    lru := [1, 2]
    file_map := [sampleBaseMarked] }

/-- The paged file of the examples: data on descriptor 3, directory on
descriptor 4, records of 2 bytes. -/
def sampleFile : File := ⟨3, 4, 2⟩

/-- The state after `File("f", 2)` on a pool of three frames. -/
def sampleFile0 : BufferManager :=
  { page_count := 3
    page_frames := List.replicate 3 (Page.init 16)
    heap := [some ⟨true, 0, PageId.make 4 0, [4, 0, 0, 0, 4, 0, 0, 0, 4, 0, 0, 0, 4, 0, 0, 0]⟩]
    page_map := [(PageId.make 4 0, 0)]
    lru := [0]
    file_map := [⟨3, 0, []⟩, ⟨4, 1, List.replicate 16 0⟩] }

/-- A data page as `DataPage(2)` initialises it. -/
def dataPage : List Nat := [2, 0] ++ List.replicate 14 0

/-- The state after five `AllocatePage` calls on `sampleFile0`. -/
def sampleAlloc5 : BufferManager :=
  { page_count := 3
    page_frames := List.replicate 3 (Page.init 16)
    heap := [some ⟨true, 0, PageId.make 4 0, [4, 0, 1, 1, 4, 0, 1, 1, 4, 0, 1, 1, 4, 0, 1, 1]⟩,
      none, none, none, none,
      some ⟨true, 0, PageId.make 4 1, [4, 0, 1, 1, 4, 0, 0, 0, 4, 0, 0, 0, 4, 0, 0, 0]⟩,
      some ⟨true, 0, PageId.make 3 4, dataPage⟩]
    page_map := [(PageId.make 4 0, 0), (PageId.make 4 1, 5), (PageId.make 3 4, 6)]
    lru := [0, 5, 6]
    file_map := [⟨3, 5, dataPage ++ dataPage ++ dataPage ++ dataPage ++ List.replicate 16 0⟩,
      ⟨4, 2, List.replicate 32 0⟩] }

/-- The state after a sixth `AllocatePage` call. -/
def sampleAlloc6 : BufferManager :=
  { page_count := 3
    page_frames := List.replicate 3 (Page.init 16)
    heap := [some ⟨true, 0, PageId.make 4 0, [4, 0, 1, 1, 4, 0, 1, 1, 4, 0, 1, 1, 4, 0, 1, 1]⟩,
      none, none, none, none,
      some ⟨true, 0, PageId.make 4 1, [4, 0, 1, 1, 4, 0, 0, 0, 4, 0, 0, 0, 4, 0, 0, 0]⟩,
      none,
      some ⟨true, 0, PageId.make 3 5, dataPage⟩]
    page_map := [(PageId.make 4 0, 0), (PageId.make 4 1, 5), (PageId.make 3 5, 7)]
    lru := [5, 0, 7]
    file_map := [⟨3, 6, dataPage ++ dataPage ++ dataPage ++ dataPage ++ dataPage ++
        List.replicate 16 0⟩,
      ⟨4, 2, List.replicate 32 0⟩] }

/-- A pool of one frame with a registered base file of one page on
descriptor 5. -/
def blockedPool : BufferManager :=
  { page_count := 1
    page_frames := List.replicate 1 (Page.init 16)
    heap := []
    page_map := []
    lru := []
    file_map := [⟨5, 1, List.replicate 16 0⟩] }

/-- The state after `File("f", 2)` on `blockedPool`, `PinPage` of the page of
descriptor 5 by another client, who keeps it pinned, and a failed `PinPage`. -/
def sampleBlocked : BufferManager :=
  { page_count := 1
    page_frames := List.replicate 1 (Page.init 16)
    heap := [none, some ⟨false, 1, PageId.make 5 0, List.replicate 16 0⟩]
    page_map := [(PageId.make 5 0, 1)]
    lru := []
    file_map := [⟨5, 1, List.replicate 16 0⟩, ⟨3, 0, []⟩,
      ⟨4, 1, [4, 0, 0, 0, 4, 0, 0, 0, 4, 0, 0, 0, 4, 0, 0, 0]⟩] }

/-- The state after `File("f", 2)` on `blockedPool`: directory page 0 is
cached, dirty and unpinned. -/
def sampleBlocked0 : BufferManager :=
  { page_count := 1
    page_frames := List.replicate 1 (Page.init 16)
    heap := [some ⟨true, 0, PageId.make 4 0, [4, 0, 0, 0, 4, 0, 0, 0, 4, 0, 0, 0, 4, 0, 0, 0]⟩]
    page_map := [(PageId.make 4 0, 0)]
    lru := [0]
    file_map := [⟨5, 1, List.replicate 16 0⟩, ⟨3, 0, []⟩, ⟨4, 1, List.replicate 16 0⟩] }

/-- The state after one `AllocatePage` call on `sampleFile0`. -/
def sampleAlloc1 : BufferManager :=
  { page_count := 3
    page_frames := List.replicate 3 (Page.init 16)
    heap := [some ⟨true, 0, PageId.make 4 0, [4, 0, 1, 1, 4, 0, 0, 0, 4, 0, 0, 0, 4, 0, 0, 0]⟩,
      some ⟨true, 0, PageId.make 3 0, dataPage⟩]
    page_map := [(PageId.make 4 0, 0), (PageId.make 3 0, 1)]
    lru := [0, 1]
    file_map := [⟨3, 1, List.replicate 16 0⟩, ⟨4, 1, List.replicate 16 0⟩] }

/-- A call on one of the level latches `latches[i]`: `pthread_rwlock_rdlock`,
`pthread_rwlock_wrlock` or `pthread_rwlock_unlock`. -/
inductive LatchOp where
  | rdlock (i : Nat)
  | wrlock (i : Nat)
  | unlock (i : Nat)
  deriving DecidableEq

/-- The latch calls of the descent of `Update` and `Scan` (lines 166-174 and
237-245), `for (int i = local_height - 1; i >= 0; i--) { rdlock(i); while ...;
if (i != 0) unlock(i); }`; the argument is the number of levels left. -/
def descendLatches : Nat → List LatchOp
  | 0 => []
  | i + 1 =>
    (LatchOp.rdlock i :: (if i ≠ 0 then [LatchOp.unlock i] else [])) ++ descendLatches i

/-- The latch calls of line 260 of `Scan`,
`for (int i = local_height - 1; i >= 1; --i) unlock(i);`
the argument is `i + 1`. -/
def unlockUpper : Nat → List LatchOp
  | 0 => []
  | i + 1 => if i ≥ 1 then LatchOp.unlock i :: unlockUpper i else []

/-- The latch calls of `SkipList::Scan(start_key, nkeys, inclusive,
out_records)`, in program order, along the path that `SkipList.Scan` takes
(`malloc` is taken to succeed). -/
def SkipList.ScanLatches (s : SkipList) (start_key : Option (List Nat)) (nkeys : Nat)
    (inclusive : Bool) (out_records : Option (List (List Nat × List Nat))) :
    Option (List LatchOp) :=
  match out_records with
  | none => some []
  | some out =>
    if nkeys = 0 then some []
    else
      match s.nextOf Ptr.head 0 with
      | none => none
      | some first =>
        if first = Ptr.tail then some []
        else
          match s.descend start_key s.height Ptr.head with
          | none => none
          | some curr0 =>
            let down := descendLatches s.height
            let emitted := down ++ unlockUpper s.height ++ [LatchOp.unlock 0]
            match (if start_key = none then s.nextOf Ptr.head 0 else s.nextOf curr0 0) with
            | none => none
            | some curr =>
              if curr = Ptr.tail then some (down ++ [LatchOp.unlock 0])
              else if !inclusive && start_key != none then
                match s.tower curr with
                | none => none
                | some t =>
                  match s.isHit curr start_key t.key_size with
                  | none => none
                  | some true =>
                    match t.next[0]? with
                    | none => none
                    | some nx =>
                      if nx = Ptr.tail then some (down ++ [LatchOp.unlock 0])
                      else (s.emit nkeys nx out).map (fun _ => emitted)
                  | some false => (s.emit nkeys curr out).map (fun _ => emitted)
              else (s.emit nkeys curr out).map (fun _ => emitted)

/-- The latch calls of `SkipList::Update(key, payload)`: the descent, then
`unlock(0)` on either exit. -/
def SkipList.UpdateLatches (s : SkipList) : List LatchOp :=
  descendLatches s.height ++ [LatchOp.unlock 0]

/-- The hold counters of the latches, one per level, after a sequence of
latch calls: a lock adds one, an unlock takes one off. `none` when a latch is
unlocked while its counter is 0, or lies outside the array. -/
def runLatches : List Nat → List LatchOp → Option (List Nat)
  | held, [] => some held
  | held, LatchOp.rdlock i :: rest =>
    match held[i]? with
    | none => none
    | some c => runLatches (held.set i (c + 1)) rest
  | held, LatchOp.wrlock i :: rest =>
    match held[i]? with
    | none => none
    | some c => runLatches (held.set i (c + 1)) rest
  | held, LatchOp.unlock i :: rest =>
    match held[i]? with
    | none => none
    | some c => if c = 0 then none else runLatches (held.set i (c - 1)) rest

/-- The pin count of a page: that of its frame when the page is cached, 0
otherwise. -/
def BufferManager.pinCount (bm : BufferManager) (pid : PageId) : Nat :=
  match findPage bm.page_map pid with
  | some a => ((bm.frame a).map (fun p => p.pin_count)).getD 0
  | none => 0

/-- The state after `File("f", 2)` on a pool of one frame and `PinPage` of
directory page 0 by another client of the pool, who keeps it pinned. -/
def sampleShort : BufferManager :=
  { page_count := 1
    page_frames := List.replicate 1 (Page.init 16)
    heap := [some ⟨true, 1, PageId.make 4 0, [4, 0, 0, 0, 4, 0, 0, 0, 4, 0, 0, 0, 4, 0, 0, 0]⟩]
    page_map := [(PageId.make 4 0, 0)]
    lru := [0]
    file_map := [⟨3, 0, []⟩, ⟨4, 1, List.replicate 16 0⟩] }

/-- The state after `AllocatePage` on `sampleShort`. -/
def sampleShortAfter : BufferManager :=
  { page_count := 1
    page_frames := List.replicate 1 (Page.init 16)
    heap := [some ⟨true, 0, PageId.make 4 0, [4, 0, 1, 1, 4, 0, 0, 0, 4, 0, 0, 0, 4, 0, 0, 0]⟩]
    page_map := [(PageId.make 4 0, 0)]
    lru := [0]
    file_map := [⟨3, 1, List.replicate 16 0⟩, ⟨4, 1, List.replicate 16 0⟩] }

/-- Two transactions take a shared lock on `ridA`, then commit one after the
other, all system calls succeeding. -/
def sharersCalls : List Call :=
  [Call.begin, Call.begin,
    Call.acquire 0 ridA Mode.SH false sysOk sysOk sysOk,
    Call.acquire 1 ridA Mode.SH false sysOk sysOk sysOk,
    Call.commit 0 sysOk sysOk sysOk,
    Call.commit 1 sysOk sysOk sysOk]

/-! ## Lock heads: the queue and the mode -/

/-- Shape of a queue behind a granted request of mode SH: requests of mode SH
that are granted, then from the first request of another mode on nothing is
granted. -/
def RunInv : List LockRequest → Prop
  | [] => True
  | x :: xs => if x.mode = Mode.SH then x.granted = true ∧ RunInv xs else NoGrant (x :: xs)

/-- Shape of a lock head: no request has mode NL; an empty queue goes with mode
NL; the first request of a queue is granted and has the mode of the head,
behind a first request of mode SH the shape is `RunInv`, behind another first
request nothing is granted. -/
def HeadInv (h : LockHead) : Prop :=
  (∀ x ∈ h.requests, x.mode ≠ Mode.NL) ∧
  match h.requests with
  | [] => h.current_mode = Mode.NL
  | r :: rest =>
    r.granted = true ∧ h.current_mode = r.mode ∧
      (if r.mode = Mode.SH then RunInv rest else NoGrant rest)

/-- Every head of the lock table has the shape `HeadInv`. -/
def HeadsInv (table : List (Nat × LockHead)) : Prop :=
  ∀ p ∈ table, HeadInv p.2

/-- The mode handed to `AcquireLock` is SH or XL. -/
def Call.moded : Call → Bool
  | Call.acquire _ _ mode _ _ _ _ => mode != Mode.NL
  | _ => true

/-- The states reached from start-up by calls that return or block, the
`AcquireLock` calls being made with mode SH or XL. -/
inductive Engine.Locking (L : LogLayout) : Engine → Prop where
  | start (lg : LogManager) : Engine.Locking L (Engine.start lg)
  | call (e : Engine) (c : Call) (o : Outcome) (e' : Engine) :
      Engine.Locking L e → c.moded = true → e.call L c = some (o, e') → Engine.Locking L e'

/-! ## Table (`Storage/table.cc`) -/

/-- The member functions of `DataPage` that `table.cc` calls and that are
declared in `page.h`, not among the sources at hand, taken as a parameter.
Each acts on the bytes of the page and yields, with its return value, the
bytes of the page after the call: `Insert(record, slot)` also yields the value
left in `slot`, `Read(rid, out_buf)` the content of `out_buf`. -/
structure DataPageOps where
  Insert : List Nat → List Nat → Bool × Nat × List Nat
  Read : List Nat → RID → List Nat → Bool × List Nat × List Nat
  Delete : List Nat → RID → Bool × List Nat
  Update : List Nat → RID → List Nat → Bool × List Nat

/-- Converting constructor `PageId(uint64_t value) : value(value)`, with
`LOG_IF(FATAL, !IsValid())`: the invalid value ends the process (`none`). -/
def PageId.ofValue (value : Nat) : Option PageId :=
  if (PageId.mk value).IsValid then some ⟨value⟩ else none

/-- The page id `PageId(rid.GetFileId(), rid.GetPageNum())` of `Read`,
`Delete` and `Update`; the `uint32_t` file id is converted to `int`. -/
def RID.page (rid : RID) : PageId :=
  PageId.make (fileKey ⟨rid.value⟩) rid.GetPageNum

/-- A `Table` object: its member `file`, `record_size` (a `uint32_t`) and
`next_free_pid`. -/
structure Table where
  file : File
  record_size : Nat
  next_free_pid : PageId
  deriving DecidableEq

/-- Constructor `Table(name, record_size)`: the member `file` is constructed
with `record_size` converted to `uint16_t`, then
`next_free_pid = file.AllocatePage()`. -/
def Table.create (G : PageLayout) (bm : BufferManager) (fd fd_dir : Int) (record_size : Nat)
    (sysc sysf : SysOutcome) : Option (Table × BufferManager) :=
  match File.create G bm fd fd_dir (record_size % 65536) sysc sysf with
  | none => none
  | some (f, bm1) =>
    match f.AllocatePage G bm1 sysc sysf with
    | none => none
    | some (pid, bm2) => some (⟨f, record_size, pid⟩, bm2)

/-- Method `Table::Insert(record)`, from the label `retry:` on; the first
argument bounds the number of passes through the label. `sysc` is the outcome
of the system calls of `CreatePage`, `sysf` that of a write-back by `PinPage`,
`sysl` that of a flush of the log. The result is the RID returned and the
table, the pool and the log after the call. -/
def Table.insertLoop (G : PageLayout) (D : DataPageOps) (L : LogLayout) (record : List Nat)
    (sysc sysf sysl : SysOutcome) :
    Nat → Table → BufferManager → LogManager →
      Option (RID × Table × BufferManager × LogManager)
  | 0, _, _, _ => none
  | fuel + 1, t, bm, lg =>
    let local_free_pid := t.next_free_pid
    match bm.PinPage G.PAGE_SIZE local_free_pid sysf with
    | none => none
    | some (none, bm1) => some (RID.invalid, t, bm1, lg)
    | some (some p, bm1) =>
      match bm1.frame p with
      | none => none
      | some pg =>
        let r := D.Insert pg.page_data record
        match bm1.update p (fun d => (D.Insert d record).2.2) with
        | none => none
        | some bm2 =>
          if !r.1 then
            match bm2.UnpinPage (some p) with
            | none => none
            | some bm3 =>
              if t.next_free_pid.GetFileId ≠ local_free_pid.GetFileId ∨
                  t.next_free_pid.GetPageNum ≠ local_free_pid.GetPageNum then
                Table.insertLoop G D L record sysc sysf sysl fuel t bm3 lg
              else
                match t.file.AllocatePage G bm3 sysc sysf with
                | none => none
                | some (pid, bm4) =>
                  let t1 := { t with next_free_pid := pid }
                  if !pid.IsValid then some (RID.invalid, t1, bm4, lg)
                  else Table.insertLoop G D L record sysc sysf sysl fuel t1 bm4 lg
          else
            let slot := r.2.1
            let new_rid := RID.make t.next_free_pid slot
            match lg.LogInsert L new_rid (some record) t.record_size sysl with
            | none => none
            | some (false, lg1) =>
              match bm2.UnpinPage (some p) with
              | none => none
              | some bm3 => some (RID.invalid, t, bm3, lg1)
            | some (true, lg1) =>
              match bm2.SetDirty p true with
              | none => none
              | some bm3 =>
                match bm3.UnpinPage (some p) with
                | none => none
                | some bm4 =>
                  let dir_page_num := t.next_free_pid.GetPageNum / G.entries_per_dir_page
                  let dir_pid := PageId.make t.file.dir dir_page_num
                  match bm4.PinPage G.PAGE_SIZE dir_pid sysf with
                  | none => none
                  | some (none, bm5) => some (RID.invalid, t, bm5, lg1)
                  | some (some q, bm5) =>
                    match bm5.frame q with
                    | none => none
                    | some dirp =>
                      let idx := t.next_free_pid.GetPageNum % G.entries_per_dir_page
                      let e := getEntry G dirp.page_data idx
                      if e.free_slots = 0 then
                        match bm5.UnpinPage (some q) with
                        | none => none
                        | some bm6 => some (RID.invalid, t, bm6, lg1)
                      else
                        let counted : Option BufferManager :=
                          if slot ≠ 4294967295 then
                            match bm5.update q (fun d => setEntry G d idx
                              { getEntry G d idx with
                                free_slots := (getEntry G d idx).free_slots - 1 }) with
                            | none => none
                            | some bm6 => bm6.SetDirty q true
                          else some bm5
                        match counted with
                        | none => none
                        | some bm7 =>
                          match bm7.SetDirty q true with
                          | none => none
                          | some bm8 =>
                            match bm8.UnpinPage (some q) with
                            | none => none
                            | some bm9 => some (new_rid, t, bm9, lg1)

/-- Method `Table::Insert(record)`, with at most `fuel` passes through the
label `retry:`. -/
def Table.Insert (G : PageLayout) (D : DataPageOps) (L : LogLayout) (t : Table)
    (bm : BufferManager) (lg : LogManager) (record : List Nat) (fuel : Nat)
    (sysc sysf sysl : SysOutcome) : Option (RID × Table × BufferManager × LogManager) :=
  Table.insertLoop G D L record sysc sysf sysl fuel t bm lg

/-- Method `Table::Read(rid, out_buf)`: the flag, the content of `out_buf` and
the pool after the call. The argument of `file.PageExists` is the `uint32_t`
value `rid.GetPageNum()`, converted to a `PageId` by the constructor
`PageId(uint64_t value)`. -/
def Table.Read (G : PageLayout) (D : DataPageOps) (t : Table) (bm : BufferManager) (rid : RID)
    (out_buf : List Nat) (sysf : SysOutcome) : Option (Bool × List Nat × BufferManager) :=
  if !rid.IsValid then some (false, out_buf, bm)
  else
    match PageId.ofValue rid.GetPageNum with
    | none => none
    | some checked =>
      match t.file.PageExists G bm checked sysf with
      | none => none
      | some (false, bm1) => some (false, out_buf, bm1)
      | some (true, bm1) =>
        match bm1.PinPage G.PAGE_SIZE rid.page sysf with
        | none => none
        | some (none, bm2) => some (false, out_buf, bm2)
        | some (some p, bm2) =>
          match bm2.frame p with
          | none => none
          | some pg =>
            let r := D.Read pg.page_data rid out_buf
            match bm2.update p (fun d => (D.Read d rid out_buf).2.2) with
            | none => none
            | some bm3 =>
              match bm3.UnpinPage (some p) with
              | none => none
              | some bm4 => some (r.1, r.2.1, bm4)

/-- Method `Table::Delete(rid)`. -/
def Table.Delete (G : PageLayout) (D : DataPageOps) (L : LogLayout) (t : Table)
    (bm : BufferManager) (lg : LogManager) (rid : RID) (sysf sysl : SysOutcome) :
    Option (Bool × BufferManager × LogManager) :=
  if !rid.IsValid then some (false, bm, lg)
  else
    match bm.PinPage G.PAGE_SIZE rid.page sysf with
    | none => none
    | some (none, bm1) => some (false, bm1, lg)
    | some (some p, bm1) =>
      match bm1.frame p with
      | none => none
      | some pg =>
        match lg.LogDelete L rid sysl with
        | none => none
        | some (logged, lg1) =>
          let success := logged && (D.Delete pg.page_data rid).1
          let deleted : Option BufferManager :=
            if logged then bm1.update p (fun d => (D.Delete d rid).2) else some bm1
          match deleted with
          | none => none
          | some bm2 =>
            let marked : Option BufferManager :=
              if success then bm2.SetDirty p true else some bm2
            match marked with
            | none => none
            | some bm3 =>
              match bm3.UnpinPage (some p) with
              | none => none
              | some bm4 =>
                if success then
                  let dir_page_num := rid.GetPageNum / G.entries_per_dir_page
                  let dir_pid := PageId.make t.file.dir dir_page_num
                  match bm4.PinPage G.PAGE_SIZE dir_pid sysf with
                  | none => none
                  | some (none, bm5) => some (false, bm5, lg1)
                  | some (some q, bm5) =>
                    match bm5.frame q with
                    | none => none
                    | some dirp =>
                      let idx := rid.GetPageNum % G.entries_per_dir_page
                      let e := getEntry G dirp.page_data idx
                      let counted : Option BufferManager :=
                        if e.free_slots < G.GetCapacity t.record_size then
                          bm5.update q (fun d => setEntry G d idx
                            { getEntry G d idx with
                              free_slots := ((getEntry G d idx).free_slots + 1) % G.slotLimit })
                        else some bm5
                      match counted with
                      | none => none
                      | some bm6 =>
                        match bm6.SetDirty q true with
                        | none => none
                        | some bm7 =>
                          match bm7.UnpinPage (some q) with
                          | none => none
                          | some bm8 => some (true, bm8, lg1)
                else some (false, bm4, lg1)

/-- Method `Table::Update(rid, record)`. -/
def Table.Update (G : PageLayout) (D : DataPageOps) (L : LogLayout) (t : Table)
    (bm : BufferManager) (lg : LogManager) (rid : RID) (record : List Nat)
    (sysf sysl : SysOutcome) : Option (Bool × BufferManager × LogManager) :=
  if !rid.IsValid then some (false, bm, lg)
  else
    match bm.PinPage G.PAGE_SIZE rid.page sysf with
    | none => none
    | some (none, bm1) => some (false, bm1, lg)
    | some (some p, bm1) =>
      match bm1.frame p with
      | none => none
      | some pg =>
        match lg.LogUpdate L rid (some record) t.record_size sysl with
        | none => none
        | some (logged, lg1) =>
          let success := logged && (D.Update pg.page_data rid record).1
          let updated : Option BufferManager :=
            if logged then bm1.update p (fun d => (D.Update d rid record).2) else some bm1
          match updated with
          | none => none
          | some bm2 =>
            let marked : Option BufferManager :=
              if success then bm2.SetDirty p true else some bm2
            match marked with
            | none => none
            | some bm3 =>
              match bm3.UnpinPage (some p) with
              | none => none
              | some bm4 => some (success, bm4, lg1)

/-- The state that a table acts on: the object itself, the buffer pool and
the log manager. -/
structure World where
  table : Table
  pool : BufferManager
  log : LogManager
  deriving DecidableEq

/-- A call on a table, or `DeallocatePage` on its member `file`, with the
outcomes of the system calls it may issue and, for `Insert`, the bound on the
passes through `retry:`. -/
inductive TableCall where
  | insert (record : List Nat) (fuel : Nat) (sysc sysf sysl : SysOutcome)
  | read (rid : RID) (out_buf : List Nat) (sysf : SysOutcome)
  | delete (rid : RID) (sysf sysl : SysOutcome)
  | update (rid : RID) (record : List Nat) (sysf sysl : SysOutcome)
  | deallocate (pid : PageId) (sysf : SysOutcome)
  deriving DecidableEq

/-- What a call on a table returns: a RID, or a flag with the content of the
output buffer (empty when there is none). -/
inductive TableResult where
  | rid (r : RID)
  | flag (b : Bool) (out_buf : List Nat)
  deriving DecidableEq

/-- Effect of a call: the result and the next state. -/
def World.call (G : PageLayout) (D : DataPageOps) (L : LogLayout) (w : World) :
    TableCall → Option (TableResult × World)
  | TableCall.insert record fuel sysc sysf sysl =>
    (w.table.Insert G D L w.pool w.log record fuel sysc sysf sysl).map
      (fun x => (TableResult.rid x.1, ⟨x.2.1, x.2.2.1, x.2.2.2⟩))
  | TableCall.read rid out_buf sysf =>
    (w.table.Read G D w.pool rid out_buf sysf).map
      (fun x => (TableResult.flag x.1 x.2.1, { w with pool := x.2.2 }))
  | TableCall.delete rid sysf sysl =>
    (w.table.Delete G D L w.pool w.log rid sysf sysl).map
      (fun x => (TableResult.flag x.1 [], { w with pool := x.2.1, log := x.2.2 }))
  | TableCall.update rid record sysf sysl =>
    (w.table.Update G D L w.pool w.log rid record sysf sysl).map
      (fun x => (TableResult.flag x.1 [], { w with pool := x.2.1, log := x.2.2 }))
  | TableCall.deallocate pid sysf =>
    (w.table.file.DeallocatePage G w.pool pid sysf).map
      (fun x => (TableResult.flag x.1 [], { w with pool := x.2 }))

/-- Calls in sequence; the results, in call order. -/
def World.run (G : PageLayout) (D : DataPageOps) (L : LogLayout) : World → List TableCall →
    Option (List TableResult × World)
  | w, [] => some ([], w)
  | w, c :: cs =>
    match w.call G D L c with
    | none => none
    | some (r, w1) =>
      match World.run G D L w1 cs with
      | none => none
      | some (rs, w2) => some (r :: rs, w2)

/-! ## A sample data page -/

/-- The record size in the header of a sample data page. -/
def slotSize (d : List Nat) : Nat := d.getD 0 0 + 256 * d.getD 1 0 + 1

/-- The offset of slot `i` of a sample data page: a flag byte, then the record. -/
def slotAt (d : List Nat) (i : Nat) : Nat := 4 + i * slotSize d

/-- Slot `i` of a sample data page holds a record. -/
def slotUsed (d : List Nat) (i : Nat) : Bool :=
  decide (i < 12 / slotSize d) && decide (d.getD (slotAt d i) 0 ≠ 0)

/-- Data pages for the layout `samplePages`: behind the header of four bytes
(`record_size` and `record_count`) come `12 / (record_size + 1)` slots, each a
flag byte followed by the bytes of the record. `Insert` takes the first slot
whose flag is 0. -/
def sampleData : DataPageOps where
  Insert := fun d record =>
    match (List.range (12 / slotSize d)).find? (fun i => !slotUsed d i) with
    | none => (false, 0, d)
    | some i =>
      (true, i, pwriteBytes (d.set 2 ((d.getD 2 0 + 1) % 256)) (1 :: record) (slotSize d)
        (slotAt d i))
  Read := fun d rid out_buf =>
    if slotUsed d rid.GetSlotId then
      (true, overwrite out_buf (preadBytes d (slotSize d - 1) (slotAt d rid.GetSlotId + 1)), d)
    else (false, out_buf, d)
  Delete := fun d rid =>
    if slotUsed d rid.GetSlotId then
      (true, (d.set (slotAt d rid.GetSlotId) 0).set 2 ((d.getD 2 0 + 255) % 256))
    else (false, d)
  Update := fun d rid record =>
    if slotUsed d rid.GetSlotId then
      (true, pwriteBytes d record (slotSize d - 1) (slotAt d rid.GetSlotId + 1))
    else (false, d)

/-- A record of 8 bytes. -/
def recordA : List Nat := [1, 2, 3, 4, 5, 6, 7, 8]

/-- A second record of 8 bytes. -/
def recordB : List Nat := [9, 9, 9, 9, 9, 9, 9, 9]

/-- The state after `Table("t", 8)` on a pool of three frames, with the data
file on descriptor 3, the directory on descriptor 4 and the log manager
`sampleLog`: data page 0 is allocated and empty; it takes one record. -/
def sampleWorld : World :=
  { table := ⟨⟨3, 4, 8⟩, 8, PageId.make 3 0⟩
    pool :=
      { page_count := 3
        page_frames := List.replicate 3 (Page.init 16)
        heap := [some ⟨true, 0, PageId.make 4 0, [1, 0, 1, 1, 1, 0, 0, 0, 1, 0, 0, 0, 1, 0, 0, 0]⟩,
          some ⟨true, 0, PageId.make 3 0, [8, 0] ++ List.replicate 14 0⟩]
        page_map := [(PageId.make 4 0, 0), (PageId.make 3 0, 1)]
        lru := [0, 1]
        file_map := [⟨3, 1, List.replicate 16 0⟩, ⟨4, 1, List.replicate 16 0⟩] }
    log := sampleLog }

/-- A call `Insert(recordA)` whose system calls succeed. -/
def insertA : TableCall := TableCall.insert recordA 2 sysOk sysOk sysOk

/-- A data page of `sampleWorld` that holds `recordA` in slot 0. -/
def pageA : List Nat := [8, 0, 1, 0, 1, 1, 2, 3, 4, 5, 6, 7, 8, 0, 0, 0]

/-- The member functions of `DataPage` leave the page as long as it was. -/
def DataPageOps.Sized (D : DataPageOps) (PAGE_SIZE : Nat) : Prop :=
  (∀ d record, d.length = PAGE_SIZE → (D.Insert d record).2.2.length = PAGE_SIZE) ∧
  (∀ d rid out, d.length = PAGE_SIZE → (D.Read d rid out).2.2.length = PAGE_SIZE) ∧
  (∀ d rid, d.length = PAGE_SIZE → (D.Delete d rid).2.length = PAGE_SIZE) ∧
  (∀ d rid record, d.length = PAGE_SIZE → (D.Update d rid record).2.length = PAGE_SIZE)

/-- The content of a log buffer of `2^20` bytes that is full. -/
def fullBuffer : List Nat := List.replicate 1048576 0

/-- A log manager made by `LogManager("log", 1)` whose buffer of `2^20` bytes
is full: the next append has to flush. -/
def sampleLogFull : LogManager :=
  { logbuf_size := 1048576, logbuf := fullBuffer, logbuf_offset := 1048576,
    fd := 3, durable_lsn := 0, current_lsn := 1048576, file := [] }

/-- A data page of `sampleWorld` as `DataPage(8)` initialises it. -/
def pageEmpty : List Nat := [8, 0] ++ List.replicate 14 0

/-- The RID of slot 0 of data page 0 of `sampleWorld`. -/
def ridZero : RID := RID.make (PageId.make 3 0) 0

/-! ## Invariants of a table -/

/-- A page id that, when it names a page of the data file or of the directory
of `f`, names one of the first `n` data pages or of the first `D` directory
pages. -/
def File.below (f : File) (n D : Nat) (q : PageId) : Prop :=
  (fileKey q = f.id → q.GetPageNum < n) ∧ (fileKey q = f.dir → q.GetPageNum < D)

/-- A data page of 16 bytes for records of 8 bytes, as `sampleData` reads it:
the header names the record size 8. -/
def sampleValid (d : List Nat) : Prop :=
  d.length = 16 ∧ d.getD 0 0 = 8 ∧ d.getD 1 0 = 0

/-- System calls that succeed, with a `pwrite` that takes the whole log buffer
of `2^20` bytes. -/
def sysLog : SysOutcome := ⟨0, some 1048576⟩

theorem memcmp_self (a : List Nat) (n : Nat) : memcmp a a n = 0 := by
  induction a generalizing n with
  | nil => simp [memcmp]
  | cons x xs ih =>
    cases n with
    | zero => simp [memcmp]
    | succ n => simp [memcmp, ih]

theorem memcmp_swap (a b : List Nat) (n : Nat) : memcmp b a n = -memcmp a b n := by
  induction a generalizing b n with
  | nil => cases b <;> simp [memcmp]
  | cons x xs ih =>
    cases b with
    | nil => simp [memcmp]
    | cons y ys =>
      cases n with
      | zero => simp [memcmp]
      | succ n =>
        simp only [memcmp]
        by_cases h : x = y
        · subst h
          simp [ih]
        · have h2 : ¬ y = x := fun e => h e.symm
          simp only [h, h2, if_false]
          omega

theorem memcmp_take_left (a b : List Nat) (n : Nat) : memcmp (a.take n) b n = memcmp a b n := by
  induction a generalizing b n with
  | nil => simp
  | cons x xs ih =>
    cases n with
    | zero => simp [memcmp]
    | succ n =>
      cases b with
      | nil => simp [memcmp]
      | cons y ys => simp [memcmp, List.take_succ_cons, ih]

theorem memcmp_take_right (a b : List Nat) (n : Nat) : memcmp a (b.take n) n = memcmp a b n := by
  rw [memcmp_swap, memcmp_take_left, ← memcmp_swap]

theorem memcmp_eq_zero_iff (a b : List Nat) (n : Nat) (ha : n ≤ a.length) (hb : n ≤ b.length) :
    memcmp a b n = 0 ↔ a.take n = b.take n := by
  induction n generalizing a b with
  | zero => simp [memcmp]
  | succ n ih =>
    cases a with
    | nil => simp at ha
    | cons x xs =>
      cases b with
      | nil => simp at hb
      | cons y ys =>
        simp only [List.length_cons, Nat.add_le_add_iff_right] at ha hb
        simp only [memcmp, List.take_succ_cons, List.cons.injEq]
        by_cases h : x = y
        · subst h
          simp [ih xs ys ha hb]
        · simp only [h, if_false, false_and, iff_false]
          omega

theorem memcmp_trans (a b c : List Nat) (n : Nat) (ha : n ≤ a.length) (hb : n ≤ b.length)
    (hc : n ≤ c.length) (h1 : memcmp a b n < 0) (h2 : memcmp b c n < 0) :
    memcmp a c n < 0 := by
  induction n generalizing a b c with
  | zero => simp [memcmp] at h1
  | succ n ih =>
    cases a with
    | nil => simp at ha
    | cons x xs =>
      cases b with
      | nil => simp at hb
      | cons y ys =>
        cases c with
        | nil => simp at hc
        | cons z zs =>
          simp only [List.length_cons, Nat.add_le_add_iff_right] at ha hb hc
          simp only [memcmp] at h1 h2 ⊢
          by_cases hxy : x = y
          · subst hxy
            simp only [if_true] at h1
            by_cases hxz : x = z
            · subst hxz
              simp only [if_true] at h2 ⊢
              exact ih xs ys zs ha hb hc h1 h2
            · simp only [hxz, if_false] at h2 ⊢
              exact h2
          · simp only [hxy, if_false] at h1
            by_cases hyz : y = z
            · subst hyz
              simp only [hxy, if_false]
              exact h1
            · simp only [hyz, if_false] at h2
              have hxz : ¬ x = z := by omega
              simp only [hxz, if_false]
              omega

/-- A key not below `k` stays not below `k` when it grows. -/
theorem memcmp_not_lt_of_lt (a b k : List Nat) (n : Nat) (ha : n ≤ a.length)
    (hb : n ≤ b.length) (hk : n ≤ k.length) (h1 : ¬ memcmp a k n < 0)
    (h2 : memcmp a b n < 0) : ¬ memcmp b k n < 0 :=
  fun h => h1 (memcmp_trans a b k n ha hb hk h2 h)

theorem memcmp_congr_left (a a' b : List Nat) (n : Nat) (h : a.take n = a'.take n) :
    memcmp a b n = memcmp a' b n := by
  rw [← memcmp_take_left a, ← memcmp_take_left a', h]

theorem memcmp_congr_right (a b b' : List Nat) (n : Nat) (h : b.take n = b'.take n) :
    memcmp a b n = memcmp a b' n := by
  rw [← memcmp_take_right a b, ← memcmp_take_right a b', h]

/-! ## Reading and writing towers -/

theorem SkipList.tower_lt (s : SkipList) (a : Nat) (t : SkipListNode)
    (h : s.tower (Ptr.node a) = some t) : a < s.heap.length := by
  unfold SkipList.tower at h
  by_contra hlt
  have : s.heap[a]? = none := List.getElem?_eq_none (by omega)
  simp [this] at h

theorem SkipList.tower_heap_set (s : SkipList) (a b : Nat) (x : Option SkipListNode)
    (h : a < s.heap.length) :
    ({ s with heap := s.heap.set a x } : SkipList).tower (Ptr.node b)
      = if b = a then x else s.tower (Ptr.node b) := by
  by_cases hb : b = a
  · subst hb
    simp only [SkipList.tower, List.getElem?_set, if_true, h]
    cases x <;> rfl
  · have hab : ¬ a = b := fun e => hb e.symm
    simp only [SkipList.tower, List.getElem?_set, hab, hb, if_false]

theorem SkipList.tower_heap_append (s : SkipList) (b : Nat) (t : SkipListNode) :
    ({ s with heap := s.heap ++ [some t] } : SkipList).tower (Ptr.node b)
      = if b = s.heap.length then some t else s.tower (Ptr.node b) := by
  simp only [SkipList.tower, List.getElem?_append]
  by_cases hb : b < s.heap.length
  · have : ¬ b = s.heap.length := by omega
    simp only [hb, this, if_true, if_false]
  · by_cases hb2 : b = s.heap.length
    · subst hb2
      simp
    · have h1 : [some t][b - s.heap.length]? = none := List.getElem?_eq_none (by simp; omega)
      have h2 : s.heap[b]? = none := List.getElem?_eq_none (by omega)
      simp only [hb, hb2, if_false, h1, h2]

theorem SameData.refl (s : SkipList) : SameData s s :=
  ⟨rfl, rfl, rfl, rfl, fun _ => rfl⟩

theorem SameData.trans {s1 s2 s3 : SkipList} (h12 : SameData s1 s2) (h23 : SameData s2 s3) :
    SameData s1 s3 :=
  ⟨h23.1.trans h12.1, h23.2.1.trans h12.2.1, h23.2.2.1.trans h12.2.2.1,
    h23.2.2.2.1.trans h12.2.2.2.1, fun a => (h23.2.2.2.2 a).trans (h12.2.2.2.2 a)⟩

theorem SameData.tower_data {s s' : SkipList} (h : SameData s s') (a : Nat) (t : SkipListNode)
    (ht : s.tower (Ptr.node a) = some t) :
    ∃ t', s'.tower (Ptr.node a) = some t' ∧ t'.nlevels = t.nlevels ∧ t'.key_size = t.key_size ∧
      t'.payload_size = t.payload_size ∧ t'.next.length = t.next.length ∧ t'.key = t.key ∧
      t'.payload = t.payload := by
  have h5 := h.2.2.2.2 a
  rw [ht] at h5
  cases ht' : s'.tower (Ptr.node a) with
  | none => simp [ht'] at h5
  | some t' =>
    rw [ht'] at h5
    simp only [Option.map_some', Option.some.injEq, SkipListNode.strip] at h5
    refine ⟨t', rfl, ?_⟩
    have e1 := congrArg SkipListNode.nlevels h5
    have e2 := congrArg SkipListNode.key_size h5
    have e3 := congrArg SkipListNode.payload_size h5
    have e4 := congrArg (fun n => n.next.length) h5
    have e5 := congrArg SkipListNode.key h5
    have e6 := congrArg SkipListNode.payload h5
    simp only [List.length_replicate] at e1 e2 e3 e4 e5 e6
    exact ⟨e1, e2, e3, e4, e5, e6⟩

/-- Effect of the assignment `p->next[i] = q`. -/
theorem SkipList.setNext_some (s s' : SkipList) (p : Ptr) (i : Nat) (q : Ptr)
    (h : s.setNext p i q = some s') :
    SameData s s' ∧ s'.height = s.height ∧
      ∀ r j, s'.nextOf r j = if r = p ∧ j = i then some q else s.nextOf r j := by
  unfold SkipList.setNext at h
  cases p with
  | null => simp [SkipList.deref] at h
  | head =>
    simp only [SkipList.deref] at h
    by_cases hi : i < s.head.next.length
    · simp only [hi, if_true, SkipList.store, Option.some.injEq] at h
      subst h
      refine ⟨⟨rfl, rfl, rfl, by simp, fun _ => rfl⟩, rfl, ?_⟩
      intro r j
      cases r with
      | head =>
        simp only [SkipList.nextOf, SkipList.deref, List.getElem?_set, true_and]
        by_cases hj : i = j
        · subst hj
          simp [hi]
        · have : ¬ j = i := fun e => hj e.symm
          simp [hj, this]
      | null => simp [SkipList.nextOf, SkipList.deref]
      | tail => simp [SkipList.nextOf, SkipList.deref]
      | node b => simp [SkipList.nextOf, SkipList.deref, SkipList.tower]
    · simp [hi] at h
  | tail =>
    simp only [SkipList.deref] at h
    by_cases hi : i < s.tail.next.length
    · simp only [hi, if_true, SkipList.store, Option.some.injEq] at h
      subst h
      refine ⟨⟨rfl, rfl, rfl, rfl, fun _ => rfl⟩, rfl, ?_⟩
      intro r j
      cases r with
      | tail =>
        simp only [SkipList.nextOf, SkipList.deref, List.getElem?_set, true_and]
        by_cases hj : i = j
        · subst hj
          simp [hi]
        · have : ¬ j = i := fun e => hj e.symm
          simp [hj, this]
      | null => simp [SkipList.nextOf, SkipList.deref]
      | head => simp [SkipList.nextOf, SkipList.deref]
      | node b => simp [SkipList.nextOf, SkipList.deref, SkipList.tower]
    · simp [hi] at h
  | node a =>
    simp only [SkipList.deref] at h
    cases ht : s.tower (Ptr.node a) with
    | none => simp [ht] at h
    | some t =>
      have ha := s.tower_lt a t ht
      simp only [ht] at h
      by_cases hi : i < t.next.length
      · simp only [hi, if_true, SkipList.store, ht, Option.some.injEq] at h
        subst h
        refine ⟨⟨rfl, rfl, by simp, rfl, ?_⟩, rfl, ?_⟩
        · intro b
          rw [SkipList.tower_heap_set s a b _ ha]
          by_cases hb : b = a
          · subst hb
            simp [ht, SkipListNode.strip]
          · simp [hb]
        · intro r j
          cases r with
          | node b =>
            simp only [SkipList.nextOf, SkipList.deref, Ptr.node.injEq]
            rw [SkipList.tower_heap_set s a b _ ha]
            by_cases hb : b = a
            · subst hb
              simp only [if_true, true_and, ht, List.getElem?_set]
              by_cases hj : i = j
              · subst hj
                simp [hi]
              · have : ¬ j = i := fun e => hj e.symm
                simp [hj, this]
            · simp [hb]
          | null => simp [SkipList.nextOf, SkipList.deref]
          | head => simp [SkipList.nextOf, SkipList.deref]
          | tail => simp [SkipList.nextOf, SkipList.deref]
      · simp [hi] at h

/-- The assignment `p->next[i] = q` succeeds when `p->next[i]` can be read. -/
theorem SkipList.setNext_of_nextOf (s : SkipList) (p : Ptr) (i : Nat) (q q0 : Ptr)
    (h : s.nextOf p i = some q0) : ∃ s', s.setNext p i q = some s' := by
  unfold SkipList.nextOf at h
  unfold SkipList.setNext
  cases hd : s.deref p with
  | none => simp [hd] at h
  | some n =>
    simp only [hd] at h
    have hi : i < n.next.length := by
      by_contra hlt
      have : n.next[i]? = none := List.getElem?_eq_none (by omega)
      simp [this] at h
    simp only [hi, if_true]
    cases p with
    | null => simp [SkipList.deref] at hd
    | head => exact ⟨_, rfl⟩
    | tail => exact ⟨_, rfl⟩
    | node a =>
      simp only [SkipList.deref] at hd
      simp only [SkipList.store, hd]
      exact ⟨_, rfl⟩

/-! ## Chains of towers -/

theorem lastPtr_append_cons (p : Ptr) (X : List Nat) (c : Nat) (Y : List Nat) :
    lastPtr p (X ++ c :: Y) = lastPtr (Ptr.node c) Y := by
  induction X generalizing p with
  | nil => rfl
  | cons a X ih => exact ih (Ptr.node a)

theorem lastPtr_cases (p : Ptr) (X : List Nat) :
    (X = [] ∧ lastPtr p X = p) ∨ ∃ a, a ∈ X ∧ lastPtr p X = Ptr.node a := by
  induction X generalizing p with
  | nil => exact Or.inl ⟨rfl, rfl⟩
  | cons a X ih =>
    right
    rcases ih (Ptr.node a) with ⟨_, h⟩ | ⟨b, hb, h⟩
    · exact ⟨a, List.mem_cons_self _ _, h⟩
    · exact ⟨b, List.mem_cons_of_mem _ hb, h⟩

/-- Splitting a list at the last element that passes a filter. -/
theorem lastPtr_filter (p : Ptr) (q : Nat → Bool) (A : List Nat) :
    (A.filter q = [] ∧ lastPtr p (A.filter q) = p) ∨
      ∃ A1 c X, A = A1 ++ c :: X ∧ lastPtr p (A.filter q) = Ptr.node c := by
  induction A generalizing p with
  | nil => exact Or.inl ⟨rfl, rfl⟩
  | cons a A ih =>
    by_cases hq : q a = true
    · rw [List.filter_cons_of_pos hq]
      right
      rcases ih (Ptr.node a) with ⟨h0, h⟩ | ⟨A1, c, X, hA, h⟩
      · exact ⟨[], a, A, rfl, h⟩
      · exact ⟨a :: A1, c, X, by rw [hA]; rfl, h⟩
    · rw [List.filter_cons_of_neg hq]
      rcases ih p with ⟨h0, h⟩ | ⟨A1, c, X, hA, h⟩
      · exact Or.inl ⟨h0, h⟩
      · exact Or.inr ⟨a :: A1, c, X, by rw [hA]; rfl, h⟩

theorem Path.append_iff (s : SkipList) (i : Nat) (X Y : List Nat) (p : Ptr) :
    Path s i p (X ++ Y) ↔ Links s i p X ∧ Path s i (lastPtr p X) Y := by
  induction X generalizing p with
  | nil => simp [Links, lastPtr]
  | cons a X ih =>
    rw [List.cons_append]
    simp only [Path, Links, lastPtr, ih (Ptr.node a), and_assoc]

theorem Path.first (s : SkipList) (i : Nat) (p : Ptr) (Y : List Nat) (h : Path s i p Y) :
    s.nextOf p i = some (firstPtr Y) := by
  cases Y with
  | nil => exact h
  | cons y Y => exact h.1

/-- A chain read through another state and another starting tower. -/
theorem Path.transfer (s s' : SkipList) (i : Nat) (p p' : Ptr) (Y : List Nat)
    (h : Path s i p Y) (hp : s'.nextOf p' i = s.nextOf p i)
    (hY : ∀ a ∈ Y, s'.nextOf (Ptr.node a) i = s.nextOf (Ptr.node a) i) :
    Path s' i p' Y := by
  induction Y generalizing p p' with
  | nil =>
    show s'.nextOf p' i = some Ptr.tail
    rw [hp]
    exact h
  | cons y Y ih =>
    refine ⟨by rw [hp]; exact h.1, ?_⟩
    exact ih (Ptr.node y) (Ptr.node y) h.2 (hY y (List.mem_cons_self _ _))
      (fun a ha => hY a (List.mem_cons_of_mem _ ha))

/-- Linking the tower `new` after the last tower of `X`. -/
theorem Path.splice (s s' : SkipList) (i new : Nat) (Y : List Nat) :
    ∀ (X : List Nat) (p : Ptr), Path s i p (X ++ Y) →
      (∀ r, r ≠ lastPtr p X → r ≠ Ptr.node new → s'.nextOf r i = s.nextOf r i) →
      s'.nextOf (lastPtr p X) i = some (Ptr.node new) →
      s'.nextOf (Ptr.node new) i = s.nextOf (lastPtr p X) i →
      p ≠ Ptr.node new → new ∉ X → new ∉ Y →
      (∀ a ∈ X, p ≠ Ptr.node a) → X.Nodup → (∀ y ∈ Y, Ptr.node y ≠ lastPtr p X) →
      Path s' i p (X ++ new :: Y) := by
  intro X
  induction X with
  | nil =>
    intro p hpath hfr hpred hnew hpn _ hnY _ _ hY
    simp only [lastPtr, List.nil_append] at *
    refine ⟨hpred, ?_⟩
    refine Path.transfer s s' i p (Ptr.node new) Y hpath hnew ?_
    intro a ha
    refine hfr (Ptr.node a) (hY a ha) ?_
    intro e
    rw [Ptr.node.injEq] at e
    exact hnY (e ▸ ha)
  | cons a X ih =>
    intro p hpath hfr hpred hnew hpn hnX hnY hpX hnd hY
    simp only [lastPtr, List.cons_append] at *
    obtain ⟨h1, h2⟩ := hpath
    have hane : a ≠ new := fun e => hnX (e ▸ List.mem_cons_self _ _)
    have hnX' : new ∉ X := fun h => hnX (List.mem_cons_of_mem _ h)
    have hnd' := List.nodup_cons.mp hnd
    have hplast : p ≠ lastPtr (Ptr.node a) X := by
      rcases lastPtr_cases (Ptr.node a) X with ⟨_, h⟩ | ⟨b, hb, h⟩
      · rw [h]
        exact hpX a (List.mem_cons_self _ _)
      · rw [h]
        exact hpX b (List.mem_cons_of_mem _ hb)
    refine ⟨by rw [hfr p hplast hpn]; exact h1, ?_⟩
    refine ih (Ptr.node a) h2 hfr hpred hnew ?_ hnX' hnY ?_ hnd'.2 hY
    · intro e
      rw [Ptr.node.injEq] at e
      exact hane e
    · intro b hb e
      rw [Ptr.node.injEq] at e
      exact hnd'.1 (e ▸ hb)

/-- Unlinking the tower `c` that follows the last tower of `X`. -/
theorem Path.unlink (s s' : SkipList) (i c : Nat) (Y : List Nat) :
    ∀ (X : List Nat) (p : Ptr), Path s i p (X ++ c :: Y) →
      (∀ r, r ≠ lastPtr p X → s'.nextOf r i = s.nextOf r i) →
      s'.nextOf (lastPtr p X) i = s.nextOf (Ptr.node c) i →
      (∀ a ∈ X, p ≠ Ptr.node a) → X.Nodup → (∀ y ∈ Y, Ptr.node y ≠ lastPtr p X) →
      Path s' i p (X ++ Y) := by
  intro X
  induction X with
  | nil =>
    intro p hpath hfr hpred _ _ hY
    simp only [lastPtr, List.nil_append] at *
    exact Path.transfer s s' i (Ptr.node c) p Y hpath.2 hpred
      (fun a ha => hfr (Ptr.node a) (hY a ha))
  | cons a X ih =>
    intro p hpath hfr hpred hpX hnd hY
    simp only [lastPtr, List.cons_append] at *
    obtain ⟨h1, h2⟩ := hpath
    have hnd' := List.nodup_cons.mp hnd
    have hplast : p ≠ lastPtr (Ptr.node a) X := by
      rcases lastPtr_cases (Ptr.node a) X with ⟨_, h⟩ | ⟨b, hb, h⟩
      · rw [h]
        exact hpX a (List.mem_cons_self _ _)
      · rw [h]
        exact hpX b (List.mem_cons_of_mem _ hb)
    refine ⟨by rw [hfr p hplast]; exact h1, ?_⟩
    refine ih (Ptr.node a) h2 hfr hpred ?_ hnd'.2 hY
    intro b hb e
    rw [Ptr.node.injEq] at e
    exact hnd'.1 (e ▸ hb)

/-- A chain is unchanged by a state change that leaves its links alone. -/
theorem Path.congr (s s' : SkipList) (i : Nat) (p : Ptr) (Y : List Nat) (h : Path s i p Y)
    (hp : s'.nextOf p i = s.nextOf p i)
    (hY : ∀ a ∈ Y, s'.nextOf (Ptr.node a) i = s.nextOf (Ptr.node a) i) : Path s' i p Y :=
  Path.transfer s s' i p p Y h hp hY

/-! ## The descent -/

theorem SkipList.cmpKey_node (s : SkipList) (a : Nat) (t : SkipListNode) (k : List Nat) (n : Nat)
    (h : s.tower (Ptr.node a) = some t) :
    s.cmpKey (Ptr.node a) (some k) n = some (memcmp (s.keyAt a) k n) := by
  simp [SkipList.cmpKey, SkipList.keyAt, h]

theorem TowerOK.tower {M : Nat} {s : SkipList} {a : Nat} (h : TowerOK M s a) :
    ∃ t, s.tower (Ptr.node a) = some t :=
  let ⟨t, ht, _⟩ := h
  ⟨t, ht⟩

theorem TowerOK.key_length {M : Nat} {s : SkipList} {a : Nat} (h : TowerOK M s a) :
    (s.keyAt a).length = s.key_size := by
  obtain ⟨t, ht, h1, h2, h3, h4, _⟩ := h
  simp [SkipList.keyAt, ht, h4]

theorem TowerOK.payload_length {M : Nat} {s : SkipList} {a : Nat} (h : TowerOK M s a) :
    (s.payloadAt a).length = s.payload_size := by
  obtain ⟨t, ht, h1, h2, h3, h4, h5, h6, h7⟩ := h
  simp [SkipList.payloadAt, ht, h6]

theorem TowerOK.levels {M : Nat} {s : SkipList} {a : Nat} (h : TowerOK M s a) :
    1 ≤ s.levelsAt a ∧ s.levelsAt a ≤ s.height := by
  obtain ⟨t, ht, h1, h2, _⟩ := h
  simp [SkipList.levelsAt, ht, h1, h2]

theorem TowerOK.lt {M : Nat} {s : SkipList} {a : Nat} (h : TowerOK M s a) :
    a < s.heap.length := by
  obtain ⟨t, ht, _⟩ := h
  exact s.tower_lt a t ht

/-- The inner loop stops on the last tower whose key is below `k`. -/
theorem SkipList.walk_spec (s : SkipList) (k : List Nat) (i : Nat) (Y : List Nat)
    (hY : ∀ y Y', Y = y :: Y' →
      (∃ t, s.tower (Ptr.node y) = some t) ∧ ¬ memcmp (s.keyAt y) k s.key_size < 0) :
    ∀ (X : List Nat) (p : Ptr) (fuel : Nat), Path s i p (X ++ Y) →
      (∀ a ∈ X, (∃ t, s.tower (Ptr.node a) = some t) ∧ memcmp (s.keyAt a) k s.key_size < 0) →
      X.length < fuel → s.walk (some k) i fuel p = some (lastPtr p X) := by
  intro X
  induction X with
  | nil =>
    intro p fuel hpath _ hfuel
    cases fuel with
    | zero => simp at hfuel
    | succ fuel =>
      simp only [List.nil_append] at hpath
      cases Y with
      | nil =>
        have h1 : s.nextOf p i = some Ptr.tail := hpath
        simp [SkipList.walk, h1, lastPtr]
      | cons y Y' =>
        obtain ⟨⟨t, ht⟩, hge⟩ := hY y Y' rfl
        have h1 : s.nextOf p i = some (Ptr.node y) := hpath.1
        simp [SkipList.walk, h1, s.cmpKey_node y t k _ ht, hge, lastPtr]
  | cons a X ih =>
    intro p fuel hpath hX hfuel
    cases fuel with
    | zero => simp at hfuel
    | succ fuel =>
      rw [List.cons_append] at hpath
      obtain ⟨⟨t, ht⟩, hlt⟩ := hX a (List.mem_cons_self _ _)
      have h1 : s.nextOf p i = some (Ptr.node a) := hpath.1
      simp only [SkipList.walk, h1, s.cmpKey_node a t k _ ht, hlt, if_true, lastPtr]
      simp only [reduceCtorEq, if_false]
      exact ih (Ptr.node a) fuel hpath.2 (fun b hb => hX b (List.mem_cons_of_mem _ hb))
        (by simpa using hfuel)

/-- Cutting a sorted list of towers at the key `k`. -/
theorem split_sorted (s : SkipList) (k : List Nat) (hk : s.key_size ≤ k.length) (L : List Nat)
    (hlen : ∀ a ∈ L, (s.keyAt a).length = s.key_size)
    (hs : L.Pairwise (fun a b => memcmp (s.keyAt a) (s.keyAt b) s.key_size < 0)) :
    ∃ A B, L = A ++ B ∧ (∀ a ∈ A, memcmp (s.keyAt a) k s.key_size < 0) ∧
      (∀ b ∈ B, ¬ memcmp (s.keyAt b) k s.key_size < 0) := by
  induction L with
  | nil => exact ⟨[], [], rfl, by simp, by simp⟩
  | cons a L ih =>
    have hs' := List.pairwise_cons.mp hs
    by_cases ha : memcmp (s.keyAt a) k s.key_size < 0
    · obtain ⟨A, B, hL, hA, hB⟩ := ih (fun b hb => hlen b (List.mem_cons_of_mem _ hb)) hs'.2
      refine ⟨a :: A, B, by rw [hL]; rfl, ?_, hB⟩
      intro b hb
      rcases List.mem_cons.mp hb with e | hb
      · rw [e]
        exact ha
      · exact hA b hb
    · refine ⟨[], a :: L, rfl, by simp, ?_⟩
      intro b hb
      rcases List.mem_cons.mp hb with e | hb
      · rw [e]
        exact ha
      · exact memcmp_not_lt_of_lt (s.keyAt a) (s.keyAt b) k s.key_size
          (by rw [hlen a (List.mem_cons_self _ _)])
          (by rw [hlen b (List.mem_cons_of_mem _ hb)]) hk ha (hs'.1 b hb)

theorem Repr.nodup {M : Nat} {s : SkipList} {L : List Nat} (h : Repr M s L) : L.Nodup := by
  have hs := h.sorted
  refine List.Pairwise.imp_of_mem ?_ hs
  intro a b _ _ hlt e
  rw [e, memcmp_self] at hlt
  exact absurd hlt (by decide)

theorem nodup_bounded_length (n : Nat) (L : List Nat) (hnd : L.Nodup) (hb : ∀ a ∈ L, a < n) :
    L.length ≤ n := by
  have hsub : L ⊆ List.range n := fun a ha => List.mem_range.mpr (hb a ha)
  have := (List.subperm_of_subset hnd hsub).length_le
  simpa using this

theorem Repr.length_le {M : Nat} {s : SkipList} {L : List Nat} (h : Repr M s L) :
    L.length ≤ s.heap.length :=
  nodup_bounded_length _ L h.nodup (fun a ha => (h.towers a ha).lt)

theorem atLevel_append (s : SkipList) (i : Nat) (A B : List Nat) :
    atLevel s i (A ++ B) = atLevel s i A ++ atLevel s i B := by
  simp [atLevel]

theorem atLevel_sublist (s : SkipList) (i : Nat) (A : List Nat) :
    (atLevel s i A).Sublist A := List.filter_sublist A

theorem mem_atLevel (s : SkipList) (i : Nat) (A : List Nat) (a : Nat) :
    a ∈ atLevel s i A ↔ a ∈ A ∧ i < s.levelsAt a := by
  simp [atLevel]

theorem atLevel_succ (s : SkipList) (i : Nat) (A : List Nat) :
    atLevel s (i + 1) A = (atLevel s i A).filter (fun a => decide (i + 1 < s.levelsAt a)) := by
  simp only [atLevel, List.filter_filter]
  congr 1
  funext a
  by_cases h : i + 1 < s.levelsAt a
  · have : i < s.levelsAt a := by omega
    simp [h, this]
  · simp [h]

theorem atLevel_zero {M : Nat} (s : SkipList) (A : List Nat) (h : ∀ a ∈ A, TowerOK M s a) :
    atLevel s 0 A = A := by
  unfold atLevel
  rw [List.filter_eq_self]
  intro a ha
  have := (h a ha).levels
  simp only [decide_eq_true_eq]
  omega

theorem atLevel_top {M : Nat} (s : SkipList) (A : List Nat) (i : Nat)
    (h : ∀ a ∈ A, TowerOK M s a) (hi : s.height ≤ i) : atLevel s i A = [] := by
  unfold atLevel
  rw [List.filter_eq_nil_iff]
  intro a ha
  have := (h a ha).levels
  simp only [decide_eq_true_eq]
  omega

theorem Repr.cut {M : Nat} {s : SkipList} {L : List Nat} (h : Repr M s L) (k : List Nat)
    (hk : s.key_size ≤ k.length) : ∃ A B, L = A ++ B ∧ Cut M s k A B := by
  obtain ⟨A, B, hL, hA, hB⟩ := split_sorted s k hk L
    (fun a ha => (h.towers a ha).key_length) h.sorted
  subst hL
  exact ⟨A, B, rfl, ⟨h, hk, hA, hB⟩⟩

theorem Cut.towersA {M : Nat} {s : SkipList} {k : List Nat} {A B : List Nat}
    (c : Cut M s k A B) : ∀ a ∈ A, TowerOK M s a :=
  fun a ha => c.repr.towers a (List.mem_append_left _ ha)

theorem Cut.towersB {M : Nat} {s : SkipList} {k : List Nat} {A B : List Nat}
    (c : Cut M s k A B) : ∀ b ∈ B, TowerOK M s b :=
  fun b hb => c.repr.towers b (List.mem_append_right _ hb)

theorem Cut.path {M : Nat} {s : SkipList} {k : List Nat} {A B : List Nat}
    (c : Cut M s k A B) (i : Nat) (hi : i < M) :
    Path s i Ptr.head (atLevel s i A ++ atLevel s i B) := by
  have := c.repr.paths i hi
  rwa [atLevel_append] at this

theorem Cut.lengthA {M : Nat} {s : SkipList} {k : List Nat} {A B : List Nat}
    (c : Cut M s k A B) (i : Nat) : (atLevel s i A).length < s.fuel := by
  have h1 := (atLevel_sublist s i A).length_le
  have h2 := c.repr.length_le
  simp only [List.length_append] at h2
  unfold SkipList.fuel
  omega

/-- One level of the descent: from the last tower below `k` at level `j + 1`
to the last tower below `k` at level `j`. -/
theorem Cut.walk_level {M : Nat} {s : SkipList} {k : List Nat} {A B : List Nat}
    (c : Cut M s k A B) (j : Nat) (hj : j < M) :
    s.walk (some k) j s.fuel (lastPtr Ptr.head (atLevel s (j + 1) A))
      = some (lastPtr Ptr.head (atLevel s j A)) := by
  have hp := c.path j hj
  have hY : ∀ y Y', atLevel s j B = y :: Y' →
      (∃ t, s.tower (Ptr.node y) = some t) ∧ ¬ memcmp (s.keyAt y) k s.key_size < 0 := by
    intro y Y' e
    have hy : y ∈ atLevel s j B := by rw [e]; exact List.mem_cons_self _ _
    have hyB := ((mem_atLevel s j B y).mp hy).1
    exact ⟨(c.towersB y hyB).tower, c.notBelow y hyB⟩
  have hA : ∀ a ∈ atLevel s j A,
      (∃ t, s.tower (Ptr.node a) = some t) ∧ memcmp (s.keyAt a) k s.key_size < 0 := by
    intro a ha
    have haA := ((mem_atLevel s j A a).mp ha).1
    exact ⟨(c.towersA a haA).tower, c.below a haA⟩
  rw [atLevel_succ]
  rcases lastPtr_filter Ptr.head (fun a => decide (j + 1 < s.levelsAt a)) (atLevel s j A) with
    ⟨_, h⟩ | ⟨A1, x, X, hsplit, h⟩
  · rw [h]
    exact s.walk_spec k j _ hY _ Ptr.head s.fuel hp hA (c.lengthA j)
  · rw [h, hsplit, lastPtr_append_cons]
    rw [hsplit, List.append_assoc, List.cons_append] at hp
    have hp2 := ((Path.append_iff s j A1 _ Ptr.head).mp hp).2.2
    refine s.walk_spec k j _ hY X (Ptr.node x) s.fuel hp2 ?_ ?_
    · intro a ha
      exact hA a (by rw [hsplit]; exact List.mem_append_right _ (List.mem_cons_of_mem _ ha))
    · have := c.lengthA j
      rw [hsplit] at this
      simp only [List.length_append, List.length_cons] at this
      omega

theorem Cut.descend_from {M : Nat} {s : SkipList} {k : List Nat} {A B : List Nat}
    (c : Cut M s k A B) (j : Nat) (hj : j ≤ M) :
    s.descend (some k) j (lastPtr Ptr.head (atLevel s j A))
      = some (lastPtr Ptr.head (atLevel s 0 A)) := by
  induction j with
  | zero => rfl
  | succ j ih =>
    simp only [SkipList.descend, c.walk_level j (by omega)]
    exact ih (by omega)

theorem Cut.atLevelA_zero {M : Nat} {s : SkipList} {k : List Nat} {A B : List Nat}
    (c : Cut M s k A B) : atLevel s 0 A = A := yase.atLevel_zero s A c.towersA

theorem Cut.atLevelA_top {M : Nat} {s : SkipList} {k : List Nat} {A B : List Nat}
    (c : Cut M s k A B) (i : Nat) (hi : s.height ≤ i) : atLevel s i A = [] :=
  yase.atLevel_top s A i c.towersA hi

/-- The descent of `Search`, `Update` and `Scan` ends on the last tower below `k`. -/
theorem Cut.descend {M : Nat} {s : SkipList} {k : List Nat} {A B : List Nat}
    (c : Cut M s k A B) :
    s.descend (some k) s.height Ptr.head = some (lastPtr Ptr.head A) := by
  have h := c.descend_from s.height c.repr.height_le
  rw [c.atLevelA_top s.height (Nat.le_refl _), c.atLevelA_zero] at h
  exact h

theorem Cut.descendRec_from {M : Nat} {s : SkipList} {k : List Nat} {A B : List Nat}
    (c : Cut M s k A B) (j : Nat) (hj : j ≤ M) :
    ∀ node : List Ptr, node.length = M →
      ∃ node', s.descendRec (some k) j (lastPtr Ptr.head (atLevel s j A)) node
          = some (lastPtr Ptr.head (atLevel s 0 A), node') ∧
        node'.length = M ∧
        (∀ i, i < j → node'[i]? = some (lastPtr Ptr.head (atLevel s i A))) ∧
        (∀ i, j ≤ i → node'[i]? = node[i]?) := by
  induction j with
  | zero =>
    intro node hlen
    exact ⟨node, rfl, hlen, fun i hi => absurd hi (by omega), fun _ _ => rfl⟩
  | succ j ih =>
    intro node hlen
    have hjl : j < node.length := by omega
    simp only [SkipList.descendRec, c.walk_level j (by omega), hjl, if_true]
    obtain ⟨node', h1, h2, h3, h4⟩ := ih (by omega)
      (node.set j (lastPtr Ptr.head (atLevel s j A))) (by simpa using hlen)
    refine ⟨node', h1, h2, ?_, ?_⟩
    · intro i hi
      by_cases hij : i < j
      · exact h3 i hij
      · have e : i = j := by omega
        subst e
        rw [h4 i (Nat.le_refl _)]
        simp [hjl]
    · intro i hi
      rw [h4 i (by omega)]
      exact List.getElem?_set_ne (by omega)

theorem raiseHeads_spec (local_height : Nat) :
    ∀ (n : Nat) (node : List Ptr),
      (raiseHeads local_height n node).length = node.length ∧
      ∀ i, i < node.length → (raiseHeads local_height n node)[i]?
        = if local_height ≤ i ∧ i < n then some Ptr.head else node[i]? := by
  intro n
  induction n with
  | zero =>
    intro node
    exact ⟨rfl, fun i _ => by simp [raiseHeads]⟩
  | succ n ih =>
    intro node
    unfold raiseHeads
    by_cases h : n ≥ local_height
    · simp only [h, if_true]
      obtain ⟨h1, h2⟩ := ih (node.set n Ptr.head)
      refine ⟨by simpa using h1, ?_⟩
      intro i hi
      rw [h2 i (by simpa using hi)]
      by_cases hin : i < n
      · have : ¬ n = i := by omega
        have h5 : i < n + 1 := by omega
        simp [hin, List.getElem?_set, this, h5]
      · by_cases e : i = n
        · subst e
          simp [hi, h]
        · have h3 : ¬ i < n + 1 := by omega
          have h4 : ¬ n = i := fun x => e x.symm
          simp [hin, h3, List.getElem?_set, h4]
    · simp only [h, if_false]
      refine ⟨trivial, ?_⟩
      intro i _
      have : ¬ (local_height ≤ i ∧ i < n + 1) := by omega
      simp [this]

/-! ## Splicing a new tower -/

theorem SkipList.nextOf_height (s : SkipList) (h : Nat) (r : Ptr) (j : Nat) :
    ({ s with height := h } : SkipList).nextOf r j = s.nextOf r j := by
  cases r <;> rfl

theorem SameData.set_height {s st : SkipList} (h : SameData s st) (n : Nat) :
    SameData s { st with height := n } :=
  ⟨h.1, h.2.1, h.2.2.1, h.2.2.2.1, fun a => h.2.2.2.2 a⟩

theorem Path.height_update (s : SkipList) (h : Nat) (i : Nat) (p : Ptr) (Y : List Nat)
    (hp : Path s i p Y) : Path { s with height := h } i p Y :=
  Path.congr s _ i p Y hp (s.nextOf_height h p i) (fun a _ => s.nextOf_height h (Ptr.node a) i)

theorem lastPtr_ne_node_of_not_mem (X : List Nat) (y : Nat) (h : y ∉ X) :
    Ptr.node y ≠ lastPtr Ptr.head X := by
  rcases lastPtr_cases Ptr.head X with ⟨_, e⟩ | ⟨a, ha, e⟩
  · rw [e]
    exact fun x => by cases x
  · rw [e]
    intro x
    rw [Ptr.node.injEq] at x
    exact h (x ▸ ha)

/-- The splicing loop links the tower `new` after the recorded predecessors at
the levels `i, ..., i + k - 1` and raises `height` to at least `i + k`. -/
theorem SkipList.spliceLoop_spec (M : Nat) (s0 : SkipList) (new : Nat) (node : List Ptr)
    (X Y : Nat → List Nat) (h0 : Nat) (hh0 : 1 ≤ h0)
    (hnew : ∃ t, s0.tower (Ptr.node new) = some t ∧ t.next.length = M)
    (hfresh : ∀ j, new ∉ X j ∧ new ∉ Y j ∧ (X j ++ Y j).Nodup) :
    ∀ (k i : Nat) (st : SkipList), i + k ≤ M →
      SameData s0 st → st.height = max h0 i →
      (∀ j, i ≤ j → j < i + k → node[j]? = some (lastPtr Ptr.head (X j))) →
      (∀ j, j < i → Path st j Ptr.head (X j ++ new :: Y j)) →
      (∀ j, i ≤ j → j < M → Path st j Ptr.head (X j ++ Y j)) →
      ∃ st', SkipList.spliceLoop (Ptr.node new) node k i st = some st' ∧ SameData s0 st' ∧
        st'.height = max h0 (i + k) ∧
        (∀ j, j < i + k → Path st' j Ptr.head (X j ++ new :: Y j)) ∧
        (∀ j, i + k ≤ j → j < M → Path st' j Ptr.head (X j ++ Y j)) := by
  intro k
  induction k with
  | zero =>
    intro i st _ hsd hht _ hlow hhigh
    exact ⟨st, rfl, hsd, by simpa using hht, by simpa using hlow, by simpa using hhigh⟩
  | succ k ih =>
    intro i st hik hsd hht hnode hlow hhigh
    have hiM : i < M := by omega
    have hpath := hhigh i (Nat.le_refl _) hiM
    obtain ⟨hnX, hnY, hnd⟩ := hfresh i
    have hnXY : ∀ y ∈ Y i, y ∉ X i := by
      intro y hy hx
      exact (List.nodup_append.mp hnd).2.2 hx hy
    have hn : node[i]? = some (lastPtr Ptr.head (X i)) := hnode i (Nat.le_refl _) (by omega)
    have hnx : st.nextOf (lastPtr Ptr.head (X i)) i = some (firstPtr (Y i)) :=
      Path.first st i _ _ ((Path.append_iff st i (X i) (Y i) Ptr.head).mp hpath).2
    have hpn : lastPtr Ptr.head (X i) ≠ Ptr.node new :=
      fun e => lastPtr_ne_node_of_not_mem (X i) new hnX e.symm
    obtain ⟨t, ht, htl⟩ := hnew
    obtain ⟨t', ht', _, _, _, htl', _⟩ := hsd.tower_data new t ht
    have hnn : st.nextOf (Ptr.node new) i = some t'.next[i] := by
      simp only [SkipList.nextOf, SkipList.deref, ht']
      exact List.getElem?_eq_getElem (by omega)
    obtain ⟨st1, hst1⟩ := st.setNext_of_nextOf (Ptr.node new) i (firstPtr (Y i)) _ hnn
    obtain ⟨hsd1, hh1, hn1⟩ := st.setNext_some st1 _ _ _ hst1
    have hnx1 : st1.nextOf (lastPtr Ptr.head (X i)) i = some (firstPtr (Y i)) := by
      rw [hn1]
      simp only [hpn, false_and, if_false]
      exact hnx
    obtain ⟨st2, hst2⟩ := st1.setNext_of_nextOf (lastPtr Ptr.head (X i)) i (Ptr.node new) _ hnx1
    obtain ⟨hsd2, hh2, hn2⟩ := st1.setNext_some st2 _ _ _ hst2
    have hnext : ∀ r j, st2.nextOf r j =
        if r = lastPtr Ptr.head (X i) ∧ j = i then some (Ptr.node new)
        else if r = Ptr.node new ∧ j = i then some (firstPtr (Y i)) else st.nextOf r j := by
      intro r j
      rw [hn2, hn1]
    have hlevel : Path st2 i Ptr.head (X i ++ new :: Y i) := by
      refine Path.splice st st2 i new (Y i) (X i) Ptr.head hpath ?_ ?_ ?_ (fun e => by cases e)
        hnX hnY (fun a _ e => by cases e) (List.Nodup.of_append_left hnd) ?_
      · intro r h1 h2
        rw [hnext]
        simp [h1, h2]
      · rw [hnext]
        simp
      · rw [hnext, hnx]
        have : ¬ Ptr.node new = lastPtr Ptr.head (X i) := fun e => hpn e.symm
        simp [this]
      · intro y hy
        exact lastPtr_ne_node_of_not_mem (X i) y (hnXY y hy)
    have hother : ∀ j, j ≠ i → ∀ r, st2.nextOf r j = st.nextOf r j := by
      intro j hj r
      rw [hnext]
      simp [hj]
    have hsd02 : SameData s0 st2 := (hsd.trans hsd1).trans hsd2
    have hst3 : (if i > st2.height - 1 then { st2 with height := st2.height + 1 } else st2)
        = { st2 with height := max h0 (i + 1) } := by
      have hh : st2.height = max h0 i := by rw [hh2, hh1, hht]
      by_cases hc : i > st2.height - 1
      · have : st2.height + 1 = max h0 (i + 1) := by omega
        simp only [hc, if_true, this]
      · have : st2.height = max h0 (i + 1) := by omega
        simp only [hc, if_false]
        rw [← this]
    simp only [SkipList.spliceLoop, hn, hnx, hst1, hst2, hst3]
    have hres := ih (i + 1) { st2 with height := max h0 (i + 1) } (by omega)
      (hsd02.set_height _) rfl
      (fun j h1 h2 => hnode j (by omega) (by omega))
      (fun j hj => by
        apply Path.height_update
        by_cases e : j = i
        · subst e
          exact hlevel
        · exact Path.congr st st2 j _ _ (hlow j (by omega)) (hother j e _)
            (fun a _ => hother j e _))
      (fun j h1 h2 => by
        apply Path.height_update
        exact Path.congr st st2 j _ _ (hhigh j (by omega) h2) (hother j (by omega) _)
          (fun a _ => hother j (by omega) _))
    have e : i + 1 + k = i + (k + 1) := by omega
    rw [e] at hres
    exact hres

/-! ## Where the descent lands -/

theorem Cut.maxLevel_pos {M : Nat} {s : SkipList} {k : List Nat} {A B : List Nat}
    (c : Cut M s k A B) : 0 < M := by
  have h1 := c.repr.height_pos
  have h2 := c.repr.height_le
  omega

theorem Cut.landing {M : Nat} {s : SkipList} {k : List Nat} {A B : List Nat}
    (c : Cut M s k A B) : s.nextOf (lastPtr Ptr.head A) 0 = some (firstPtr B) := by
  have hp := c.path 0 c.maxLevel_pos
  rw [c.atLevelA_zero, yase.atLevel_zero s B c.towersB] at hp
  exact Path.first s 0 _ _ ((Path.append_iff s 0 A B Ptr.head).mp hp).2

theorem Cut.isHit {M : Nat} {s : SkipList} {k : List Nat} {A B : List Nat}
    (c : Cut M s k A B) :
    s.isHit (firstPtr B) (some k) s.key_size = some (hitOf s k B).isSome := by
  cases B with
  | nil => simp [SkipList.isHit, firstPtr, hitOf]
  | cons b B' =>
    obtain ⟨t, ht⟩ := (c.towersB b (List.mem_cons_self _ _)).tower
    simp only [SkipList.isHit, firstPtr, reduceCtorEq, if_false, s.cmpKey_node b t k _ ht, hitOf]
    by_cases h : memcmp (s.keyAt b) k s.key_size = 0
    · simp [h]
    · simp [h]

theorem hitOf_some (s : SkipList) (k : List Nat) (B : List Nat) (b : Nat)
    (h : hitOf s k B = some b) :
    ∃ B', B = b :: B' ∧ memcmp (s.keyAt b) k s.key_size = 0 := by
  cases B with
  | nil => simp [hitOf] at h
  | cons x B' =>
    simp only [hitOf] at h
    by_cases hx : memcmp (s.keyAt x) k s.key_size = 0
    · simp only [hx, if_true, Option.some.injEq] at h
      subst h
      exact ⟨B', rfl, hx⟩
    · simp [hx] at h

/-- Without a hit, no tower of the list holds `k`, and every tower of `B` is
strictly above `k`. -/
theorem Cut.above_of_no_hit {M : Nat} {s : SkipList} {k : List Nat} {A B : List Nat}
    (c : Cut M s k A B) (h : hitOf s k B = none) :
    ∀ b ∈ B, 0 < memcmp (s.keyAt b) k s.key_size := by
  cases B with
  | nil => simp
  | cons x B' =>
    have hx0 : memcmp (s.keyAt x) k s.key_size ≠ 0 := by
      intro e
      simp [hitOf, e] at h
    have hx1 := c.notBelow x (List.mem_cons_self _ _)
    intro b hb
    rcases List.mem_cons.mp hb with e | hb'
    · rw [e]
      omega
    · have hb1 := c.notBelow b hb
      have hs := (List.pairwise_append.mp c.repr.sorted).2.1
      have hxb := (List.pairwise_cons.mp hs).1 b hb'
      have hlx := (c.towersB x (List.mem_cons_self _ _)).key_length
      have hlb := (c.towersB b hb).key_length
      by_contra hcon
      have hb0 : memcmp (s.keyAt b) k s.key_size = 0 := by omega
      have ht := (memcmp_eq_zero_iff _ _ _ (by omega) c.key_len).mp hb0
      have := memcmp_congr_right (s.keyAt x) (s.keyAt b) k s.key_size ht
      omega

theorem Cut.preds {M : Nat} {s : SkipList} {k : List Nat} {A B : List Nat}
    (c : Cut M s k A B) (node1 : List Ptr) (hlen : node1.length = M) :
    ∃ node, s.descendRec (some k) s.height Ptr.head node1 = some (lastPtr Ptr.head A, node) ∧
      node.length = M ∧
      (∀ i, i < s.height → node[i]? = some (lastPtr Ptr.head (atLevel s i A))) ∧
      (∀ i, s.height ≤ i → node[i]? = node1[i]?) := by
  have h := c.descendRec_from s.height c.repr.height_le node1 hlen
  rw [c.atLevelA_top s.height (Nat.le_refl _), c.atLevelA_zero] at h
  exact h

theorem Cut.nodupAB {M : Nat} {s : SkipList} {k : List Nat} {A B : List Nat}
    (c : Cut M s k A B) (i : Nat) : (atLevel s i A ++ atLevel s i B).Nodup := by
  rw [← atLevel_append]
  exact List.Nodup.sublist (atLevel_sublist s i _) c.repr.nodup

theorem Cut.lt_heap {M : Nat} {s : SkipList} {k : List Nat} {A B : List Nat}
    (c : Cut M s k A B) (a : Nat) (ha : a ∈ A ++ B) : a < s.heap.length :=
  (c.repr.towers a ha).lt

theorem Cut.fresh {M : Nat} {s : SkipList} {k : List Nat} {A B : List Nat}
    (c : Cut M s k A B) (i : Nat) :
    s.heap.length ∉ atLevel s i A ∧ s.heap.length ∉ atLevel s i B := by
  constructor
  · intro h
    have := c.lt_heap _ (List.mem_append_left _ ((mem_atLevel s i A _).mp h).1)
    omega
  · intro h
    have := c.lt_heap _ (List.mem_append_right _ ((mem_atLevel s i B _).mp h).1)
    omega

/-! ## Towers whose data is unchanged -/

theorem SameData.sameAt {s s' : SkipList} (h : SameData s s') (a : Nat) : SameAt s s' a :=
  h.2.2.2.2 a

theorem SameAt.of_tower_eq {s s' : SkipList} {a : Nat}
    (h : s'.tower (Ptr.node a) = s.tower (Ptr.node a)) : SameAt s s' a := by
  unfold SameAt
  rw [h]

theorem SameAt.trans_at {s1 s2 s3 : SkipList} {a : Nat} (h12 : SameAt s1 s2 a)
    (h23 : SameAt s2 s3 a) : SameAt s1 s3 a := by
  unfold SameAt at *
  rw [h23, h12]

theorem SameAt.symm_at {s s' : SkipList} {a : Nat} (h : SameAt s s' a) : SameAt s' s a := by
  unfold SameAt at *
  rw [h]

theorem SameAt.tower_some {s s' : SkipList} {a : Nat} (h : SameAt s s' a) (t : SkipListNode)
    (ht : s.tower (Ptr.node a) = some t) :
    ∃ t', s'.tower (Ptr.node a) = some t' ∧ t'.nlevels = t.nlevels ∧ t'.key_size = t.key_size ∧
      t'.payload_size = t.payload_size ∧ t'.next.length = t.next.length ∧ t'.key = t.key ∧
      t'.payload = t.payload := by
  unfold SameAt at h
  rw [ht] at h
  cases ht' : s'.tower (Ptr.node a) with
  | none => simp [ht'] at h
  | some t' =>
    rw [ht'] at h
    simp only [Option.map_some', Option.some.injEq, SkipListNode.strip] at h
    refine ⟨t', rfl, ?_⟩
    have e1 := congrArg SkipListNode.nlevels h
    have e2 := congrArg SkipListNode.key_size h
    have e3 := congrArg SkipListNode.payload_size h
    have e4 := congrArg (fun n => n.next.length) h
    have e5 := congrArg SkipListNode.key h
    have e6 := congrArg SkipListNode.payload h
    simp only [List.length_replicate] at e1 e2 e3 e4 e5 e6
    exact ⟨e1, e2, e3, e4, e5, e6⟩

theorem SameAt.tower_none {s s' : SkipList} {a : Nat} (h : SameAt s s' a)
    (ht : s.tower (Ptr.node a) = none) : s'.tower (Ptr.node a) = none := by
  cases ht' : s'.tower (Ptr.node a) with
  | none => rfl
  | some t' =>
    obtain ⟨t, h1, _⟩ := h.symm_at.tower_some t' ht'
    rw [ht] at h1
    exact absurd h1 (by simp)

theorem SameAt.keyAt {s s' : SkipList} {a : Nat} (h : SameAt s s' a) :
    s'.keyAt a = s.keyAt a := by
  unfold SkipList.keyAt
  cases ht : s.tower (Ptr.node a) with
  | none => rw [h.tower_none ht]
  | some t =>
    obtain ⟨t', h1, h2⟩ := h.tower_some t ht
    simp only [h1, h2.2.2.2.2.1]

theorem SameAt.payloadAt {s s' : SkipList} {a : Nat} (h : SameAt s s' a) :
    s'.payloadAt a = s.payloadAt a := by
  unfold SkipList.payloadAt
  cases ht : s.tower (Ptr.node a) with
  | none => rw [h.tower_none ht]
  | some t =>
    obtain ⟨t', h1, h2⟩ := h.tower_some t ht
    simp only [h1, h2.2.2.2.2.2]

theorem SameAt.levelsAt {s s' : SkipList} {a : Nat} (h : SameAt s s' a) :
    s'.levelsAt a = s.levelsAt a := by
  unfold SkipList.levelsAt
  cases ht : s.tower (Ptr.node a) with
  | none => rw [h.tower_none ht]
  | some t =>
    obtain ⟨t', h1, h2⟩ := h.tower_some t ht
    simp only [h1, h2.1]

theorem TowerOK.carry {M : Nat} {s s' : SkipList} {a : Nat} (h : TowerOK M s a)
    (he : SameAt s s' a) (hk : s'.key_size = s.key_size) (hp : s'.payload_size = s.payload_size)
    (hh : s.height ≤ s'.height) : TowerOK M s' a := by
  obtain ⟨t, ht, h1, h2, h3, h4, h5, h6, h7⟩ := h
  obtain ⟨t', ht', e1, e2, e3, e4, e5, e6⟩ := he.tower_some t ht
  refine ⟨t', ht', ?_, ?_, ?_, ?_, ?_, ?_, ?_⟩
  · omega
  · omega
  · omega
  · rw [e5, hk]; exact h4
  · rw [e2, hk]; exact h5
  · rw [e6, hp]; exact h6
  · rw [e3, hp]; exact h7

theorem atLevel_congr (s s' : SkipList) (i : Nat) (A : List Nat)
    (h : ∀ a ∈ A, s'.levelsAt a = s.levelsAt a) : atLevel s' i A = atLevel s i A := by
  unfold atLevel
  apply List.filter_congr
  intro a ha
  rw [h a ha]

theorem sorted_congr (s s' : SkipList) (A : List Nat) (hk : s'.key_size = s.key_size)
    (h : ∀ a ∈ A, s'.keyAt a = s.keyAt a)
    (hs : A.Pairwise (fun a b => memcmp (s.keyAt a) (s.keyAt b) s.key_size < 0)) :
    A.Pairwise (fun a b => memcmp (s'.keyAt a) (s'.keyAt b) s'.key_size < 0) := by
  refine List.Pairwise.imp_of_mem ?_ hs
  intro a b ha hb hlt
  rw [h a ha, h b hb, hk]
  exact hlt

/-- State after `NewNode` has allocated a tower. -/
theorem SkipList.NewNode_eq (M : Nat) (s : SkipList) (levels : Nat) (key payload : List Nat)
    (h : levels ≤ M) :
    s.NewNode M levels key payload =
      ({ s with heap := s.heap ++ [some ⟨levels, s.key_size, s.payload_size,
          List.replicate M Ptr.null, key.take s.key_size, payload.take s.payload_size⟩] },
        Ptr.node s.heap.length) := by
  unfold SkipList.NewNode
  have : ¬ levels > M := by omega
  simp only [this, if_false]

theorem SkipList.nextOf_heap_append (s : SkipList) (t : SkipListNode) (r : Ptr) (j : Nat)
    (hr : r ≠ Ptr.node s.heap.length) :
    ({ s with heap := s.heap ++ [some t] } : SkipList).nextOf r j = s.nextOf r j := by
  cases r with
  | null => rfl
  | head => rfl
  | tail => rfl
  | node b =>
    have hb : ¬ b = s.heap.length := fun e => hr (by rw [e])
    simp only [SkipList.nextOf, SkipList.deref, SkipList.tower_heap_append, hb, if_false]

/-! ## Insert -/

theorem Cut.insert_node_length (M : Nat) (s : SkipList) (nodeLevel : Nat) :
    (if nodeLevel > s.height then raiseHeads s.height nodeLevel (List.replicate M Ptr.null)
      else List.replicate M Ptr.null).length = M := by
  split
  · rw [(raiseHeads_spec s.height nodeLevel _).1, List.length_replicate]
  · rw [List.length_replicate]

/-- An `Insert` of a key that is present returns false and changes nothing. -/
theorem Cut.InsertAt_hit {M : Nat} {s : SkipList} {k : List Nat} {A B : List Nat}
    (c : Cut M s k A B) (nodeLevel : Nat) (v : List Nat) (b : Nat)
    (h : hitOf s k B = some b) : s.InsertAt M nodeLevel k v = some (false, s) := by
  have hne : ¬ s.height = 0 := by
    have := c.repr.height_pos
    omega
  obtain ⟨node, hd, -, -, -⟩ := c.preds _ (Cut.insert_node_length M s nodeLevel)
  unfold SkipList.InsertAt
  simp only [hne, if_false, hd, c.landing, c.isHit, h, Option.isSome_some]

/-- The predecessors recorded by `Insert` at the levels of the new tower. -/
theorem Cut.insert_preds {M : Nat} {s : SkipList} {k : List Nat} {A B : List Nat}
    (c : Cut M s k A B) (nodeLevel : Nat) (hnl : nodeLevel ≤ M) :
    ∃ node, s.descendRec (some k) s.height Ptr.head
        (if nodeLevel > s.height then raiseHeads s.height nodeLevel (List.replicate M Ptr.null)
          else List.replicate M Ptr.null) = some (lastPtr Ptr.head A, node) ∧
      ∀ i, i < nodeLevel → node[i]? = some (lastPtr Ptr.head (atLevel s i A)) := by
  obtain ⟨node, hd, hlen, hlow, hhigh⟩ := c.preds _ (Cut.insert_node_length M s nodeLevel)
  refine ⟨node, hd, ?_⟩
  intro i hi
  by_cases hih : i < s.height
  · exact hlow i hih
  · rw [hhigh i (by omega), c.atLevelA_top i (by omega)]
    have hgt : nodeLevel > s.height := by omega
    simp only [hgt, if_true, lastPtr]
    rw [(raiseHeads_spec s.height nodeLevel _).2 i (by rw [List.length_replicate]; omega)]
    have : s.height ≤ i ∧ i < nodeLevel := ⟨by omega, hi⟩
    simp only [this, and_self, if_true]

theorem atLevel_singleton (s : SkipList) (i a : Nat) :
    atLevel s i [a] = if i < s.levelsAt a then [a] else [] := by
  unfold atLevel
  by_cases h : i < s.levelsAt a
  · simp [h]
  · simp [h]

/-- An `Insert` of a key that is absent links a new tower holding the key and the
payload between the towers below the key and the towers above it. -/
theorem Cut.InsertAt_miss {M : Nat} {s : SkipList} {k : List Nat} {A B : List Nat}
    (c : Cut M s k A B) (nodeLevel : Nat) (v : List Nat) (h1 : 1 ≤ nodeLevel)
    (hnl : nodeLevel ≤ M) (hv : s.payload_size ≤ v.length) (h : hitOf s k B = none) :
    ∃ s', s.InsertAt M nodeLevel k v = some (true, s') ∧
      Repr M s' (A ++ s.heap.length :: B) ∧
      s'.key_size = s.key_size ∧ s'.payload_size = s.payload_size ∧
      s'.keyAt s.heap.length = k.take s.key_size ∧
      s'.payloadAt s.heap.length = v.take s.payload_size ∧
      (∀ a ∈ A ++ B, SameAt s s' a) := by
  have hne : ¬ s.height = 0 := by
    have := c.repr.height_pos
    omega
  obtain ⟨node, hd, hnode⟩ := c.insert_preds nodeLevel hnl
  -- the state once the tower is allocated
  let tnew : SkipListNode := ⟨nodeLevel, s.key_size, s.payload_size,
    List.replicate M Ptr.null, k.take s.key_size, v.take s.payload_size⟩
  let s1 : SkipList := { s with heap := s.heap ++ [some tnew] }
  have hs1 : s.NewNode M nodeLevel k v = (s1, Ptr.node s.heap.length) :=
    s.NewNode_eq M nodeLevel k v hnl
  have htn : s1.tower (Ptr.node s.heap.length) = some tnew := by
    show ({ s with heap := s.heap ++ [some tnew] } : SkipList).tower _ = _
    rw [SkipList.tower_heap_append]
    simp
  have hold : ∀ a ∈ A ++ B, s1.tower (Ptr.node a) = s.tower (Ptr.node a) := by
    intro a ha
    show ({ s with heap := s.heap ++ [some tnew] } : SkipList).tower _ = _
    rw [SkipList.tower_heap_append]
    have := c.lt_heap a ha
    have hne : ¬ a = s.heap.length := by omega
    simp only [hne, if_false]
  have hpaths1 : ∀ j, j < M → Path s1 j Ptr.head (atLevel s j A ++ atLevel s j B) := by
    intro j hj
    refine Path.congr s s1 j _ _ (c.path j hj) ?_ ?_
    · exact s.nextOf_heap_append tnew Ptr.head j (fun e => by cases e)
    · intro a ha
      refine s.nextOf_heap_append tnew (Ptr.node a) j ?_
      intro e
      rw [Ptr.node.injEq] at e
      rcases List.mem_append.mp ha with ha | ha
      · exact (c.fresh j).1 (e ▸ ha)
      · exact (c.fresh j).2 (e ▸ ha)
  obtain ⟨s', hloop, hsd, hht, hlow, hhigh⟩ :=
    SkipList.spliceLoop_spec M s1 s.heap.length node (fun j => atLevel s j A)
      (fun j => atLevel s j B) s.height c.repr.height_pos ⟨tnew, htn, by simp [tnew]⟩
      (fun j => ⟨(c.fresh j).1, (c.fresh j).2, c.nodupAB j⟩)
      nodeLevel 0 s1 (by omega) (SameData.refl s1) (by show s.height = _; omega)
      (fun j _ hj => hnode j (by omega)) (fun j hj => absurd hj (by omega))
      (fun j _ hj => hpaths1 j hj)
  simp only [Nat.zero_add] at hht hlow hhigh
  have hks : s'.key_size = s.key_size := hsd.1
  have hps : s'.payload_size = s.payload_size := hsd.2.1
  have hsame : ∀ a ∈ A ++ B, SameAt s s' a := fun a ha =>
    (SameAt.of_tower_eq (hold a ha)).trans_at (hsd.sameAt a)
  have hnewAt : SameAt s1 s' s.heap.length := hsd.sameAt _
  have hkey : s'.keyAt s.heap.length = k.take s.key_size := by
    rw [hnewAt.keyAt]
    simp [SkipList.keyAt, htn, tnew]
  have hpay : s'.payloadAt s.heap.length = v.take s.payload_size := by
    rw [hnewAt.payloadAt]
    simp [SkipList.payloadAt, htn, tnew]
  have hlev : s'.levelsAt s.heap.length = nodeLevel := by
    rw [hnewAt.levelsAt]
    simp [SkipList.levelsAt, htn, tnew]
  have hheight : s.height ≤ s'.height := by omega
  refine ⟨s', ?_, ?_, hks, hps, hkey, hpay, hsame⟩
  · unfold SkipList.InsertAt
    simp only [hne, if_false, hd, c.landing, c.isHit, h, Option.isSome_none, hs1, hloop]
  · constructor
    · omega
    · have := c.repr.height_le
      omega
    · rw [hsd.2.2.2.1]
      exact c.repr.head_len
    · intro a ha
      rcases List.mem_append.mp ha with ha | ha
      · exact (c.towersA a ha).carry (hsame a (List.mem_append_left _ ha)) hks hps hheight
      · rcases List.mem_cons.mp ha with e | ha
        · subst e
          obtain ⟨t', ht', e1, e2, e3, e4, e5, e6⟩ := hnewAt.tower_some tnew htn
          refine ⟨t', ht', ?_, ?_, ?_, ?_, ?_, ?_, ?_⟩
          · rw [e1]; exact h1
          · rw [e1]; show nodeLevel ≤ s'.height; omega
          · rw [e4]; simp [tnew]
          · rw [e5, hks]
            simp only [tnew, List.length_take]
            have := c.key_len
            omega
          · rw [e2, hks]
          · rw [e6, hps]
            simp only [tnew, List.length_take]
            omega
          · rw [e3, hps]
        · exact (c.towersB a ha).carry (hsame a (List.mem_append_right _ ha)) hks hps hheight
    · have hold_sorted := sorted_congr s s' (A ++ B) hks (fun a ha => (hsame a ha).keyAt)
        c.repr.sorted
      obtain ⟨hA, hB, hAB⟩ := List.pairwise_append.mp hold_sorted
      have habove := c.above_of_no_hit h
      rw [List.pairwise_append]
      refine ⟨hA, ?_, ?_⟩
      · rw [List.pairwise_cons]
        refine ⟨?_, hB⟩
        intro b hb
        rw [hkey, (hsame b (List.mem_append_right _ hb)).keyAt, hks, memcmp_take_left,
          memcmp_swap]
        have := habove b hb
        omega
      · intro a ha b hb
        rcases List.mem_cons.mp hb with e | hb
        · rw [e, hkey, (hsame a (List.mem_append_left _ ha)).keyAt, hks, memcmp_take_right]
          exact c.below a ha
        · exact hAB a ha b hb
    · intro i hi
      have hA : atLevel s' i A = atLevel s i A :=
        atLevel_congr s s' i A (fun a ha => (hsame a (List.mem_append_left _ ha)).levelsAt)
      have hB : atLevel s' i B = atLevel s i B :=
        atLevel_congr s s' i B (fun a ha => (hsame a (List.mem_append_right _ ha)).levelsAt)
      have hsplit : atLevel s' i (A ++ s.heap.length :: B)
          = atLevel s i A ++ (atLevel s' i [s.heap.length] ++ atLevel s i B) := by
        rw [atLevel_append, hA, ← List.singleton_append, atLevel_append, hB]
      rw [hsplit, atLevel_singleton, hlev]
      by_cases hin : i < nodeLevel
      · simp only [hin, if_true, List.singleton_append]
        exact hlow i hin
      · simp only [hin, if_false, List.nil_append]
        exact hhigh i (by omega) hi

/-! ## Search -/

theorem Cut.height_ne {M : Nat} {s : SkipList} {k : List Nat} {A B : List Nat}
    (c : Cut M s k A B) : ¬ s.height = 0 := by
  have := c.repr.height_pos
  omega

/-- Method `Search` finds the tower holding `k`, when there is one, and copies its payload. -/
theorem Cut.Search {M : Nat} {s : SkipList} {k : List Nat} {A B : List Nat}
    (c : Cut M s k A B) (out : Option (List Nat)) :
    s.Search k out = some
      (match hitOf s k B with
       | none => (false, out)
       | some b => (true, out.map (fun o => memcpy o (s.payloadAt b) s.payload_size))) := by
  unfold SkipList.Search
  simp only [c.height_ne, if_false, c.descend, c.landing, c.isHit]
  cases h : hitOf s k B with
  | none => simp
  | some b =>
    obtain ⟨B', hB, _⟩ := hitOf_some s k B b h
    subst hB
    obtain ⟨t, ht, _, _, _, _, _, _, hps⟩ := c.towersB b (List.mem_cons_self _ _)
    simp only [Option.isSome_some, firstPtr, ht]
    cases out with
    | none => simp
    | some o => simp [SkipList.payloadAt, ht, hps]

/-! ## The chains as lists -/

theorem firstPtr_cons (y : Nat) (Y : List Nat) : firstPtr (y :: Y) = Ptr.node y := rfl

theorem firstPtr_nil : firstPtr [] = Ptr.tail := rfl

theorem SkipList.chainFrom_spec (s : SkipList) (i : Nat) :
    ∀ (Y : List Nat) (p : Ptr) (fuel : Nat), Path s i p Y → Y.length < fuel →
      s.chainFrom i fuel (firstPtr Y) = some Y := by
  intro Y
  induction Y with
  | nil =>
    intro p fuel _ hf
    cases fuel with
    | zero => simp at hf
    | succ fuel => rfl
  | cons y Y ih =>
    intro p fuel hp hf
    cases fuel with
    | zero => simp at hf
    | succ fuel =>
      have h1 := Path.first s i _ _ hp.2
      simp only [firstPtr_cons, SkipList.chainFrom, h1]
      rw [ih (Ptr.node y) fuel hp.2 (by simpa using hf)]
      rfl

theorem Repr.level {M : Nat} {s : SkipList} {L : List Nat} (h : Repr M s L) (i : Nat)
    (hi : i < M) : s.level i = some (atLevel s i L) := by
  have hp := h.paths i hi
  have hlen : (atLevel s i L).length < s.fuel := by
    have h1 := (atLevel_sublist s i L).length_le
    have h2 := h.length_le
    unfold SkipList.fuel
    omega
  unfold SkipList.level
  rw [Path.first s i _ _ hp]
  exact s.chainFrom_spec i _ Ptr.head s.fuel hp hlen

theorem Repr.M_pos {M : Nat} {s : SkipList} {L : List Nat} (h : Repr M s L) : 0 < M := by
  have h1 := h.height_pos
  have h2 := h.height_le
  omega

theorem Repr.level_zero {M : Nat} {s : SkipList} {L : List Nat} (h : Repr M s L) :
    s.level 0 = some L := by
  rw [h.level 0 h.M_pos, atLevel_zero s L h.towers]

theorem Repr.entries {M : Nat} {s : SkipList} {L : List Nat} (h : Repr M s L) :
    s.entries = L.map (fun a => (s.keyAt a, s.payloadAt a)) := by
  unfold SkipList.entries
  rw [h.level_zero]

theorem Repr.keys {M : Nat} {s : SkipList} {L : List Nat} (h : Repr M s L) :
    s.keys = L.map s.keyAt := by
  unfold SkipList.keys
  rw [h.entries, List.map_map]
  rfl

/-! ## Scan -/

theorem memcpy_nil (src : List Nat) (n : Nat) (h : src.length = n) : memcpy [] src n = src := by
  unfold memcpy
  rw [List.take_of_length_le (by omega)]
  simp

/-- The emitting loop copies the first `n` towers of the chain it is started on. -/
theorem SkipList.emit_spec (M : Nat) (s : SkipList) :
    ∀ (Y : List Nat) (p : Ptr) (n : Nat) (out : List (List Nat × List Nat)),
      Path s 0 p Y → (∀ y ∈ Y, TowerOK M s y) →
      s.emit n (firstPtr Y) out
        = some (out ++ (Y.take n).map (fun a => (s.keyAt a, s.payloadAt a))) := by
  intro Y
  induction Y with
  | nil =>
    intro p n out _ _
    cases n <;> simp [SkipList.emit, firstPtr]
  | cons y Y ih =>
    intro p n out hp hY
    cases n with
    | zero => simp [SkipList.emit]
    | succ n =>
      obtain ⟨t, ht, _, _, _, hkl, _, hpl, _⟩ := hY y (List.mem_cons_self _ _)
      have h1 := Path.first s 0 _ _ hp.2
      have h2 : t.next[0]? = some (firstPtr Y) := by
        simpa [SkipList.nextOf, SkipList.deref, ht] using h1
      simp only [SkipList.emit, firstPtr_cons, reduceCtorEq, if_false, ht, h2]
      rw [ih (Ptr.node y) n _ hp.2 (fun z hz => hY z (List.mem_cons_of_mem _ hz))]
      simp [SkipList.keyAt, SkipList.payloadAt, ht, memcpy_nil _ _ hkl, memcpy_nil _ _ hpl]

/-- Method `Scan` from a non-null start key emits, in chain order, the towers that
are not below the key, leaving out the one that holds the key when the scan
is not inclusive. -/
theorem Cut.Scan {M : Nat} {s : SkipList} {k : List Nat} {A B : List Nat}
    (c : Cut M s k A B) (nkeys : Nat) (inclusive : Bool) (out : List (List Nat × List Nat)) :
    s.Scan (some k) nkeys inclusive (some out) = some (some (out ++
      (((if inclusive = false ∧ (hitOf s k B).isSome then B.tail else B).take nkeys).map
        (fun a => (s.keyAt a, s.payloadAt a))))) := by
  have hp0 := c.path 0 c.maxLevel_pos
  rw [c.atLevelA_zero, yase.atLevel_zero s B c.towersB] at hp0
  have hfirst := Path.first s 0 _ _ hp0
  have hpB := ((Path.append_iff s 0 A B Ptr.head).mp hp0).2
  unfold SkipList.Scan
  by_cases hn : nkeys = 0
  · subst hn
    simp
  simp only [hn, if_false, hfirst]
  by_cases hL : firstPtr (A ++ B) = Ptr.tail
  · have hLnil : A ++ B = [] := by
      cases hAB : A ++ B with
      | nil => rfl
      | cons x xs => simp [hAB, firstPtr] at hL
    have hA : A = [] := (List.append_eq_nil.mp hLnil).1
    have hB : B = [] := (List.append_eq_nil.mp hLnil).2
    subst hA hB
    simp [firstPtr]
  simp only [hL, if_false, c.descend, reduceCtorEq, c.landing]
  cases B with
  | nil => simp [firstPtr]
  | cons b B' =>
    obtain ⟨t, ht, _, _, _, _, hks, _, _⟩ := c.towersB b (List.mem_cons_self _ _)
    have hpB' : Path s 0 (Ptr.node b) B' := hpB.2
    have hnx : t.next[0]? = some (firstPtr B') := by
      simpa [SkipList.nextOf, SkipList.deref, ht] using Path.first s 0 _ _ hpB'
    have hemB := s.emit_spec M (b :: B') _ nkeys out hpB c.towersB
    have hemB' := s.emit_spec M B' _ nkeys out hpB'
      (fun z hz => c.towersB z (List.mem_cons_of_mem _ hz))
    have hhit := c.isHit
    simp only [firstPtr] at hhit hemB
    simp only [firstPtr, reduceCtorEq, if_false, ht, hks, hhit]
    cases inclusive with
    | true => simp [hemB]
    | false =>
      cases hh : hitOf s k (b :: B') with
      | none => simp [hemB]
      | some x =>
        simp only [Bool.not_false, bne_self_eq_false, Bool.and_true, Option.isSome_some,
          hnx, List.tail_cons]
        by_cases hB' : firstPtr B' = Ptr.tail
        · have : B' = [] := by
            cases B' with
            | nil => rfl
            | cons x xs => simp [firstPtr] at hB'
          subst this
          simp [firstPtr]
        · simp [hB', hemB']

/-! ## Update -/

theorem Cut.Update_miss {M : Nat} {s : SkipList} {k : List Nat} {A B : List Nat}
    (c : Cut M s k A B) (v : List Nat) (h : hitOf s k B = none) :
    s.Update k v = some (false, s) := by
  unfold SkipList.Update
  simp only [c.descend, c.landing, c.isHit, h, Option.isSome_none]

theorem memcpy_length (dst src : List Nat) (n : Nat) (hd : dst.length = n) (hs : n ≤ src.length) :
    (memcpy dst src n).length = n := by
  unfold memcpy
  simp only [List.length_append, List.length_take, List.length_drop]
  omega

theorem memcpy_full (dst src : List Nat) (n : Nat) (hd : dst.length = n) :
    memcpy dst src n = src.take n := by
  unfold memcpy
  rw [List.drop_of_length_le (by omega), List.append_nil]

/-- An `Update` of a key that is present overwrites the payload of its tower and
nothing else. -/
theorem Cut.Update_hit {M : Nat} {s : SkipList} {k : List Nat} {A B : List Nat}
    (c : Cut M s k A B) (v : List Nat) (hv : s.payload_size ≤ v.length) (b : Nat)
    (h : hitOf s k B = some b) :
    ∃ s', s.Update k v = some (true, s') ∧ Repr M s' (A ++ B) ∧
      s'.key_size = s.key_size ∧ s'.payload_size = s.payload_size ∧
      (∀ a, s'.keyAt a = s.keyAt a) ∧
      s'.payloadAt b = v.take s.payload_size ∧
      (∀ a, a ≠ b → s'.payloadAt a = s.payloadAt a) := by
  obtain ⟨B', hB, _⟩ := hitOf_some s k B b h
  subst hB
  have hhit := c.isHit
  have hland := c.landing
  rw [firstPtr_cons] at hhit hland
  rw [h] at hhit
  obtain ⟨t, ht, h1, h2, h3, h4, h5, h6, h7⟩ := c.towersB b (List.mem_cons_self _ _)
  have hb := s.tower_lt b t ht
  let t' : SkipListNode := { t with payload := memcpy t.payload v s.payload_size }
  let s' : SkipList := { s with heap := s.heap.set b (some t') }
  have htw : ∀ a, s'.tower (Ptr.node a) = if a = b then some t' else s.tower (Ptr.node a) :=
    fun a => s.tower_heap_set b a (some t') hb
  have hnext : ∀ r j, s'.nextOf r j = s.nextOf r j := by
    intro r j
    cases r with
    | null => rfl
    | head => rfl
    | tail => rfl
    | node a =>
      simp only [SkipList.nextOf, SkipList.deref, htw]
      by_cases e : a = b
      · subst e
        simp [ht, t']
      · simp [e]
  have hkey : ∀ a, s'.keyAt a = s.keyAt a := by
    intro a
    simp only [SkipList.keyAt, htw]
    by_cases e : a = b
    · subst e
      simp [ht, t']
    · simp [e]
  have hlev : ∀ a, s'.levelsAt a = s.levelsAt a := by
    intro a
    simp only [SkipList.levelsAt, htw]
    by_cases e : a = b
    · subst e
      simp [ht, t']
    · simp [e]
  have hpay : s'.payloadAt b = v.take s.payload_size := by
    simp only [SkipList.payloadAt, htw, if_true, t']
    exact memcpy_full _ _ _ h6
  have hpayo : ∀ a, a ≠ b → s'.payloadAt a = s.payloadAt a := by
    intro a e
    simp only [SkipList.payloadAt, htw, e, if_false]
  refine ⟨s', ?_, ?_, rfl, rfl, hkey, hpay, hpayo⟩
  · unfold SkipList.Update
    simp only [c.descend, hland, hhit, Option.isSome_some, ht, SkipList.store]
  · constructor
    · exact c.repr.height_pos
    · exact c.repr.height_le
    · exact c.repr.head_len
    · intro a ha
      by_cases e : a = b
      · subst e
        refine ⟨t', by rw [htw]; simp, h1, h2, h3, h4, h5, ?_, h7⟩
        exact memcpy_length _ _ _ h6 hv
      · refine (c.repr.towers a ha).carry (SameAt.of_tower_eq ?_) rfl rfl (Nat.le_refl _)
        rw [htw]
        simp [e]
    · exact sorted_congr s s' _ rfl (fun a _ => hkey a) c.repr.sorted
    · intro i hi
      rw [atLevel_congr s s' i _ (fun a _ => hlev a)]
      exact Path.congr s s' i _ _ (c.repr.paths i hi) (hnext _ _) (fun a _ => hnext _ _)

/-! ## Delete -/

/-- The unlinking loop takes the tower `c` out of the chains of the levels
`i, ..., lv - 1`. -/
theorem SkipList.unlinkLoop_spec (M : Nat) (s0 : SkipList) (c : Nat) (node : List Ptr)
    (X Y : Nat → List Nat) (lv : Nat)
    (hfresh : ∀ j, (X j ++ c :: Y j).Nodup) :
    ∀ (k i : Nat) (st : SkipList), i + k = lv → lv ≤ M →
      SameData s0 st →
      (∀ j, i ≤ j → j < lv → node[j]? = some (lastPtr Ptr.head (X j))) →
      (∀ j, j < i → Path st j Ptr.head (X j ++ Y j)) →
      (∀ j, i ≤ j → j < lv → Path st j Ptr.head (X j ++ c :: Y j)) →
      (∀ j, lv ≤ j → j < M → Path st j Ptr.head (X j ++ Y j)) →
      ∃ st', SkipList.unlinkLoop (Ptr.node c) node k i st = some st' ∧ SameData s0 st' ∧
        st'.height = st.height ∧ (∀ j, j < M → Path st' j Ptr.head (X j ++ Y j)) := by
  intro k
  induction k with
  | zero =>
    intro i st hik _ hsd _ hlow _ hhigh
    refine ⟨st, rfl, hsd, rfl, ?_⟩
    intro j hj
    by_cases h : j < i
    · exact hlow j h
    · exact hhigh j (by omega) hj
  | succ k ih =>
    intro i st hik hlv hsd hnode hlow hmid hhigh
    have hi : i < lv := by omega
    have hpath := hmid i (Nat.le_refl _) hi
    have hnd := hfresh i
    have hndX : (X i).Nodup := List.Nodup.of_append_left hnd
    have hdisj : ∀ y ∈ Y i, y ∉ X i := by
      intro y hy hx
      exact (List.nodup_append.mp hnd).2.2 hx (List.mem_cons_of_mem _ hy)
    have hn : node[i]? = some (lastPtr Ptr.head (X i)) := hnode i (Nat.le_refl _) hi
    have hsplit := ((Path.append_iff st i (X i) (c :: Y i) Ptr.head).mp hpath).2
    have hnx : st.nextOf (lastPtr Ptr.head (X i)) i = some (Ptr.node c) := hsplit.1
    have hafter : st.nextOf (Ptr.node c) i = some (firstPtr (Y i)) :=
      Path.first st i _ _ hsplit.2
    obtain ⟨st1, hst1⟩ := st.setNext_of_nextOf (lastPtr Ptr.head (X i)) i (firstPtr (Y i)) _ hnx
    obtain ⟨hsd1, hh1, hn1⟩ := st.setNext_some st1 _ _ _ hst1
    have hlevel : Path st1 i Ptr.head (X i ++ Y i) := by
      refine Path.unlink st st1 i c (Y i) (X i) Ptr.head hpath ?_ ?_ (fun a _ e => by cases e)
        hndX ?_
      · intro r hr
        rw [hn1]
        simp [hr]
      · rw [hn1, hafter]
        simp
      · intro y hy
        exact lastPtr_ne_node_of_not_mem (X i) y (hdisj y hy)
    have hother : ∀ j, j ≠ i → ∀ r, st1.nextOf r j = st.nextOf r j := by
      intro j hj r
      rw [hn1]
      simp [hj]
    simp only [SkipList.unlinkLoop, hn, hnx, if_true, hafter, hst1]
    obtain ⟨st', h1, h2, h3, h4⟩ := ih (i + 1) st1 (by omega) hlv (hsd.trans hsd1)
      (fun j h1 h2 => hnode j (by omega) h2)
      (fun j hj => by
        by_cases e : j = i
        · subst e
          exact hlevel
        · exact Path.congr st st1 j _ _ (hlow j (by omega)) (hother j e _)
            (fun a _ => hother j e _))
      (fun j h1 h2 => Path.congr st st1 j _ _ (hmid j (by omega) h2) (hother j (by omega) _)
          (fun a _ => hother j (by omega) _))
      (fun j h1 h2 => Path.congr st st1 j _ _ (hhigh j h1 h2) (hother j (by omega) _)
          (fun a _ => hother j (by omega) _))
    exact ⟨st', h1, h2, by rw [h3, hh1], h4⟩

theorem Cut.Delete_miss {M : Nat} {s : SkipList} {k : List Nat} {A B : List Nat}
    (c : Cut M s k A B) (h : hitOf s k B = none) :
    s.Delete M k = some (false, s) := by
  obtain ⟨node, hd, -, -, -⟩ := c.preds (List.replicate M Ptr.null) (List.length_replicate _ _)
  unfold SkipList.Delete
  simp only [hd, c.landing, c.isHit, h, Option.isSome_none]

theorem atLevel_cons (s : SkipList) (i a : Nat) (A : List Nat) :
    atLevel s i (a :: A) = if i < s.levelsAt a then a :: atLevel s i A else atLevel s i A := by
  unfold atLevel
  by_cases h : i < s.levelsAt a
  · simp [h]
  · simp [h]

/-- A `Delete` of a key that is present unlinks its tower from every level and
frees it; the other towers are untouched. -/
theorem Cut.Delete_hit {M : Nat} {s : SkipList} {k : List Nat} {A B' : List Nat} {b : Nat}
    (c : Cut M s k A (b :: B')) (h : hitOf s k (b :: B') = some b) :
    ∃ s', s.Delete M k = some (true, s') ∧ Repr M s' (A ++ B') ∧
      s'.key_size = s.key_size ∧ s'.payload_size = s.payload_size ∧
      (∀ a ∈ A ++ B', SameAt s s' a) := by
  obtain ⟨node, hd, hlen, hnode, -⟩ :=
    c.preds (List.replicate M Ptr.null) (List.length_replicate _ _)
  have hhit := c.isHit
  have hland := c.landing
  rw [firstPtr_cons] at hhit hland
  rw [h] at hhit
  obtain ⟨t, ht, h1, h2, h3, h4, h5, h6, h7⟩ := c.towersB b (List.mem_cons_self _ _)
  have hlvb : s.levelsAt b = t.nlevels := by simp [SkipList.levelsAt, ht]
  have hndL := c.repr.nodup
  have hbA : b ∉ A := by
    intro hb
    exact (List.nodup_append.mp hndL).2.2 hb (List.mem_cons_self _ _)
  have hbB' : b ∉ B' := (List.nodup_cons.mp (List.nodup_append.mp hndL).2.1).1
  have hfresh : ∀ j, (atLevel s j A ++ b :: atLevel s j B').Nodup := by
    intro j
    refine List.Nodup.sublist ?_ hndL
    exact List.Sublist.append (atLevel_sublist s j A)
      (List.Sublist.cons₂ b (atLevel_sublist s j B'))
  have hpathB : ∀ j, j < M → Path s j Ptr.head (atLevel s j A ++
      (if j < t.nlevels then b :: atLevel s j B' else atLevel s j B')) := by
    intro j hj
    have := c.path j hj
    rwa [atLevel_cons, hlvb] at this
  obtain ⟨s1, hloop, hsd, hht, hpaths⟩ :=
    SkipList.unlinkLoop_spec M s b node (fun j => atLevel s j A) (fun j => atLevel s j B')
      t.nlevels hfresh t.nlevels 0 s (by omega) (by have := c.repr.height_le; omega)
      (SameData.refl s)
      (fun j _ hj => hnode j (by omega))
      (fun j hj => absurd hj (by omega))
      (fun j _ hj => by
        have := hpathB j (by have := c.repr.height_le; omega)
        simpa [hj] using this)
      (fun j hj1 hj2 => by
        have := hpathB j hj2
        have hn : ¬ j < t.nlevels := by omega
        simpa [hn] using this)
  obtain ⟨t1, ht1, _⟩ := (hsd.sameAt b).tower_some t ht
  have hb1 := s1.tower_lt b t1 ht1
  let s2 : SkipList := { s1 with heap := s1.heap.set b none }
  have hfree : s1.free (Ptr.node b) = some s2 := by
    simp only [SkipList.free, ht1]
  have htw : ∀ a, s2.tower (Ptr.node a) = if a = b then none else s1.tower (Ptr.node a) :=
    fun a => s1.tower_heap_set b a none hb1
  have hnext : ∀ a j, a ≠ b → s2.nextOf (Ptr.node a) j = s1.nextOf (Ptr.node a) j := by
    intro a j e
    simp only [SkipList.nextOf, SkipList.deref, htw, e, if_false]
  have hsame : ∀ a ∈ A ++ B', SameAt s s2 a := by
    intro a ha
    have e : a ≠ b := by
      intro e
      rcases List.mem_append.mp ha with ha | ha
      · exact hbA (e ▸ ha)
      · exact hbB' (e ▸ ha)
    refine (hsd.sameAt a).trans_at (SameAt.of_tower_eq ?_)
    rw [htw]
    simp [e]
  have hks : s2.key_size = s.key_size := hsd.1
  have hps : s2.payload_size = s.payload_size := hsd.2.1
  have hh2 : s2.height = s.height := hht
  refine ⟨s2, ?_, ?_, hks, hps, hsame⟩
  · unfold SkipList.Delete
    simp only [hd, hland, hhit, Option.isSome_some, ht, hloop, hfree]
  · constructor
    · rw [hh2]; exact c.repr.height_pos
    · rw [hh2]; exact c.repr.height_le
    · show s1.head.next.length = M
      rw [hsd.2.2.2.1]
      exact c.repr.head_len
    · intro a ha
      have haL : a ∈ A ++ b :: B' := by
        rcases List.mem_append.mp ha with ha | ha
        · exact List.mem_append_left _ ha
        · exact List.mem_append_right _ (List.mem_cons_of_mem _ ha)
      exact (c.repr.towers a haL).carry (hsame a ha) hks hps (by rw [hh2])
    · have hsub : (A ++ B').Sublist (A ++ b :: B') :=
        List.Sublist.append (List.Sublist.refl A) (List.sublist_cons_self b B')
      exact sorted_congr s s2 _ hks (fun a ha => (hsame a ha).keyAt)
        (List.Pairwise.sublist hsub c.repr.sorted)
    · intro i hi
      rw [atLevel_congr s s2 i _ (fun a ha => (hsame a ha).levelsAt), atLevel_append]
      refine Path.congr s1 s2 i _ _ (hpaths i hi) rfl ?_
      intro a ha
      refine hnext a i ?_
      intro e
      rcases List.mem_append.mp ha with ha | ha
      · exact hbA (e ▸ ((mem_atLevel s i A a).mp ha).1)
      · exact hbB' (e ▸ ((mem_atLevel s i B' a).mp ha).1)

/-! ## Reachable states -/

theorem drawLevel_range (M : Nat) (coins : Nat → Nat) :
    ∀ (fuel nodeLevel : Nat), 1 ≤ nodeLevel → nodeLevel ≤ M →
      1 ≤ drawLevel M coins fuel nodeLevel ∧ drawLevel M coins fuel nodeLevel ≤ M := by
  intro fuel
  induction fuel with
  | zero =>
    intro nl h1 h2
    exact ⟨h1, h2⟩
  | succ fuel ih =>
    intro nl h1 h2
    unfold drawLevel
    split
    · rename_i hc
      exact ih (nl + 1) (by omega) (by omega)
    · exact ⟨h1, h2⟩

theorem Repr.create (M key_size payload_size : Nat) (hM : 1 ≤ M) :
    Repr M (SkipList.create M key_size payload_size) [] := by
  constructor
  · exact Nat.le_refl 1
  · exact hM
  · simp [SkipList.create]
  · intro a ha
    cases ha
  · exact List.Pairwise.nil
  · intro i hi
    show (SkipList.create M key_size payload_size).nextOf Ptr.head i = some Ptr.tail
    simp [SkipList.nextOf, SkipList.deref, SkipList.create, hi]

theorem Cut.key_of_hit {M : Nat} {s : SkipList} {k : List Nat} {A B : List Nat}
    (c : Cut M s k A B) (b : Nat) (h : hitOf s k B = some b) :
    b ∈ B ∧ s.keyAt b = k.take s.key_size := by
  obtain ⟨B', hB, h0⟩ := hitOf_some s k B b h
  have hb : b ∈ B := by rw [hB]; exact List.mem_cons_self _ _
  have hl := (c.towersB b hb).key_length
  have := (memcmp_eq_zero_iff _ _ _ (by omega) c.key_len).mp h0
  rw [List.take_of_length_le (by omega)] at this
  exact ⟨hb, this⟩

theorem Cut.cmp_ne_zero {M : Nat} {s : SkipList} {k : List Nat} {A B : List Nat}
    (c : Cut M s k A B) (h : hitOf s k B = none) :
    ∀ a ∈ A ++ B, memcmp (s.keyAt a) k s.key_size ≠ 0 := by
  intro a ha
  rcases List.mem_append.mp ha with ha | ha
  · have := c.below a ha
    omega
  · have := c.above_of_no_hit h a ha
    omega

theorem Cut.key_not_mem {M : Nat} {s : SkipList} {k : List Nat} {A B : List Nat}
    (c : Cut M s k A B) (h : hitOf s k B = none) :
    k.take s.key_size ∉ (A ++ B).map s.keyAt := by
  intro hmem
  obtain ⟨a, ha, e⟩ := List.mem_map.mp hmem
  have h0 := c.cmp_ne_zero h a ha
  rw [e, memcmp_take_left, memcmp_self] at h0
  exact h0 rfl

theorem Cut.contains_iff_hit {M : Nat} {s : SkipList} {k : List Nat} {A B : List Nat}
    (c : Cut M s k A B) : s.contains k = true ↔ (hitOf s k B).isSome = true := by
  unfold SkipList.contains
  rw [c.repr.keys, List.any_eq_true]
  constructor
  · rintro ⟨e, he, h0⟩
    obtain ⟨a, ha, rfl⟩ := List.mem_map.mp he
    cases hh : hitOf s k B with
    | some b => rfl
    | none =>
      have := c.cmp_ne_zero hh a ha
      simp only [beq_iff_eq] at h0
      exact absurd h0 this
  · intro h
    cases hh : hitOf s k B with
    | none => simp [hh] at h
    | some b =>
      obtain ⟨B', hB, h0⟩ := hitOf_some s k B b hh
      refine ⟨s.keyAt b, List.mem_map.mpr ⟨b, ?_, rfl⟩, by simpa using h0⟩
      rw [hB]
      exact List.mem_append_right _ (List.mem_cons_self _ _)

/-- Distinct towers of a represented list hold distinct keys. -/
theorem Repr.keyAt_inj {M : Nat} {s : SkipList} {L : List Nat} (h : Repr M s L) (a b : Nat)
    (ha : a ∈ L) (hb : b ∈ L) (e : s.keyAt a = s.keyAt b) : a = b := by
  by_contra hne
  have hs := h.sorted
  have key : ∀ x y, x ∈ L → y ∈ L → x ≠ y →
      memcmp (s.keyAt x) (s.keyAt y) s.key_size < 0 ∨
      memcmp (s.keyAt y) (s.keyAt x) s.key_size < 0 := by
    intro x y hx hy hxy
    have := List.Pairwise.forall_of_forall_of_flip (R := fun x y =>
      x ≠ y → (memcmp (s.keyAt x) (s.keyAt y) s.key_size < 0 ∨
        memcmp (s.keyAt y) (s.keyAt x) s.key_size < 0))
      (fun x _ hxx => absurd rfl hxx)
      (List.Pairwise.imp (fun hlt _ => Or.inl hlt) hs)
      (List.Pairwise.imp (fun hlt _ => Or.inr hlt) hs)
    exact this hx hy hxy
  rcases key a b ha hb hne with h1 | h1
  · rw [e, memcmp_self] at h1
    exact absurd h1 (by decide)
  · rw [e, memcmp_self] at h1
    exact absurd h1 (by decide)

theorem mem_liveStep (ks : Nat) (m : List (List Nat)) (op : Op) (x : List Nat) :
    x ∈ liveStep ks m op ↔
      match op with
      | .insert _ k _ => x ∈ m ∨ x = k.take ks
      | .update _ _ => x ∈ m
      | .delete k => x ∈ m ∧ x ≠ k.take ks := by
  cases op with
  | insert coins k v =>
    simp only [liveStep]
    by_cases h : k.take ks ∈ m
    · simp only [h, if_true]
      constructor
      · exact Or.inl
      · rintro (h1 | h1)
        · exact h1
        · rw [h1]; exact h
    · simp [h]
  | update k v => simp [liveStep]
  | delete k => simp [liveStep]

theorem liveStep_congr (ks : Nat) (m m' : List (List Nat)) (op : Op)
    (h : ∀ x, x ∈ m ↔ x ∈ m') : ∀ x, x ∈ liveStep ks m op ↔ x ∈ liveStep ks m' op := by
  intro x
  rw [mem_liveStep, mem_liveStep]
  cases op with
  | insert coins k v => simp only [h]
  | update k v => simp only [h]
  | delete k => simp only [h]

/-- One call on a represented list: it returns, the new state represents a
list again, and the keys of the level-0 chain follow the call. -/
theorem Repr.step {M : Nat} {s : SkipList} {L : List Nat} (h : Repr M s L) (op : Op)
    (hwf : op.WellFormed s.key_size s.payload_size) :
    ∃ ret s' L', s.step M op = some (ret, s') ∧ Repr M s' L' ∧
      s'.key_size = s.key_size ∧ s'.payload_size = s.payload_size ∧
      ∀ x, x ∈ s'.keys ↔ x ∈ liveStep s.key_size s.keys op := by
  cases op with
  | insert coins k v =>
    obtain ⟨hk, hv⟩ := hwf
    obtain ⟨A, B, hL, c⟩ := h.cut k hk
    subst hL
    obtain ⟨hl1, hl2⟩ := drawLevel_range M coins M 1 (Nat.le_refl 1) h.M_pos
    cases hh : hitOf s k B with
    | none =>
      obtain ⟨s', h1, h2, h3, h4, h5, h6, h7⟩ := c.InsertAt_miss _ v hl1 hl2 hv hh
      refine ⟨true, s', _, h1, h2, h3, h4, ?_⟩
      intro x
      rw [mem_liveStep, h2.keys, h.keys]
      simp only [List.mem_map, List.mem_append, List.mem_cons]
      constructor
      · rintro ⟨a, ha, rfl⟩
        rcases ha with ha | rfl | ha
        · exact Or.inl ⟨a, Or.inl ha, ((h7 a (List.mem_append_left _ ha)).keyAt).symm⟩
        · exact Or.inr h5
        · exact Or.inl ⟨a, Or.inr ha, ((h7 a (List.mem_append_right _ ha)).keyAt).symm⟩
      · rintro (⟨a, ha, rfl⟩ | rfl)
        · rcases ha with ha | ha
          · exact ⟨a, Or.inl ha, (h7 a (List.mem_append_left _ ha)).keyAt⟩
          · exact ⟨a, Or.inr (Or.inr ha), (h7 a (List.mem_append_right _ ha)).keyAt⟩
        · exact ⟨s.heap.length, Or.inr (Or.inl rfl), h5⟩
    | some b =>
      have h1 := c.InsertAt_hit (drawLevel M coins M 1) v b hh
      refine ⟨false, s, _, h1, h, rfl, rfl, ?_⟩
      intro x
      rw [mem_liveStep]
      obtain ⟨hb, hkb⟩ := c.key_of_hit b hh
      constructor
      · exact Or.inl
      · rintro (hx | rfl)
        · exact hx
        · rw [h.keys, ← hkb]
          exact List.mem_map.mpr ⟨b, List.mem_append_right _ hb, rfl⟩
  | update k v =>
    obtain ⟨hk, hv⟩ := hwf
    obtain ⟨A, B, hL, c⟩ := h.cut k hk
    subst hL
    cases hh : hitOf s k B with
    | none =>
      exact ⟨false, s, _, c.Update_miss v hh, h, rfl, rfl, fun x => by rw [mem_liveStep]⟩
    | some b =>
      obtain ⟨s', h1, h2, h3, h4, h5, h6, h7⟩ := c.Update_hit v hv b hh
      refine ⟨true, s', _, h1, h2, h3, h4, ?_⟩
      intro x
      rw [mem_liveStep, h2.keys, h.keys]
      simp only [List.mem_map, h5]
  | delete k =>
    have hk : s.key_size ≤ k.length := hwf
    obtain ⟨A, B, hL, c⟩ := h.cut k hk
    subst hL
    cases hh : hitOf s k B with
    | none =>
      refine ⟨false, s, _, c.Delete_miss hh, h, rfl, rfl, ?_⟩
      intro x
      rw [mem_liveStep]
      constructor
      · intro hx
        refine ⟨hx, ?_⟩
        rintro rfl
        rw [h.keys] at hx
        exact c.key_not_mem hh hx
      · exact fun hx => hx.1
    | some b =>
      obtain ⟨B', hB, h0⟩ := hitOf_some s k B b hh
      subst hB
      obtain ⟨s', h1, h2, h3, h4, h5⟩ := c.Delete_hit hh
      obtain ⟨hb, hkb⟩ := c.key_of_hit b hh
      have hndL := h.nodup
      have hbA : b ∉ A := fun hb =>
        (List.nodup_append.mp hndL).2.2 hb (List.mem_cons_self _ _)
      have hbB' : b ∉ B' := (List.nodup_cons.mp (List.nodup_append.mp hndL).2.1).1
      refine ⟨true, s', _, h1, h2, h3, h4, ?_⟩
      intro x
      rw [mem_liveStep, h2.keys, h.keys]
      simp only [List.mem_map, List.mem_append, List.mem_cons]
      constructor
      · rintro ⟨a, ha, rfl⟩
        have haL : a ∈ A ++ b :: B' := by
          rcases ha with ha | ha
          · exact List.mem_append_left _ ha
          · exact List.mem_append_right _ (List.mem_cons_of_mem _ ha)
        have hab : a ≠ b := by
          rintro rfl
          rcases ha with ha | ha
          · exact hbA ha
          · exact hbB' ha
        have hka := (h5 a (List.mem_append.mpr ha)).keyAt
        refine ⟨⟨a, ?_, hka.symm⟩, ?_⟩
        · rcases ha with ha | ha
          · exact Or.inl ha
          · exact Or.inr (Or.inr ha)
        · rw [hka, ← hkb]
          intro e
          exact hab (h.keyAt_inj a b haL (List.mem_append_right _ (List.mem_cons_self _ _)) e)
      · rintro ⟨⟨a, ha, rfl⟩, hne⟩
        have hab : a ≠ b := by
          rintro rfl
          exact hne hkb
        have ha' : a ∈ A ∨ a ∈ B' := by
          rcases ha with ha | ha | ha
          · exact Or.inl ha
          · exact absurd ha hab
          · exact Or.inr ha
        exact ⟨a, ha', (h5 a (List.mem_append.mpr ha')).keyAt⟩

/-- Every state reached from the constructor represents a list of towers, and
the keys on its level-0 chain are the keys inserted and not since deleted. -/
theorem Trace.inv {M ks ps : Nat} {ops : List Op} {s : SkipList} (hM : 1 ≤ M)
    (h : Trace M ks ps ops s) :
    ∃ L, Repr M s L ∧ s.key_size = ks ∧ s.payload_size = ps ∧
      ∀ x, x ∈ s.keys ↔ x ∈ liveKeys ks ops := by
  induction h with
  | init =>
    refine ⟨[], Repr.create M ks ps hM, rfl, rfl, ?_⟩
    intro x
    rw [(Repr.create M ks ps hM).keys]
    simp [liveKeys]
  | step ops s s' op ret _ hwf hstep ih =>
    obtain ⟨L, hr, hks, hps, hkeys⟩ := ih
    rw [← hks, ← hps] at hwf
    obtain ⟨ret', s'', L', h1, h2, h3, h4, h5⟩ := hr.step op hwf
    rw [hstep] at h1
    simp only [Option.some.injEq, Prod.mk.injEq] at h1
    obtain ⟨-, rfl⟩ := h1
    refine ⟨L', h2, by rw [h3, hks], by rw [h4, hps], ?_⟩
    intro x
    rw [h5 x, hks]
    unfold liveKeys
    rw [List.foldl_append]
    exact liveStep_congr ks _ _ op hkeys x

theorem Reachable.repr {M : Nat} {s : SkipList} (hM : 1 ≤ M) (h : Reachable M s) :
    ∃ L, Repr M s L := by
  obtain ⟨ks, ps, ops, ht⟩ := h
  obtain ⟨L, hr, _⟩ := ht.inv hM
  exact ⟨L, hr⟩

/-! ## The operations on a represented list -/

theorem Repr.contains_iff {M : Nat} {s : SkipList} {L : List Nat} (h : Repr M s L)
    (k : List Nat) (hk : s.key_size ≤ k.length) :
    s.contains k = true ↔ ∃ a ∈ L, s.keyAt a = k.take s.key_size := by
  obtain ⟨A, B, hL, c⟩ := h.cut k hk
  subst hL
  rw [c.contains_iff_hit]
  constructor
  · intro hh
    cases hb : hitOf s k B with
    | none => simp [hb] at hh
    | some b =>
      obtain ⟨h1, h2⟩ := c.key_of_hit b hb
      exact ⟨b, List.mem_append_right _ h1, h2⟩
  · rintro ⟨a, ha, e⟩
    cases hb : hitOf s k B with
    | some b => rfl
    | none =>
      exfalso
      exact c.key_not_mem hb (List.mem_map.mpr ⟨a, ha, e⟩)

theorem Repr.Search_hit {M : Nat} {s : SkipList} {L : List Nat} (h : Repr M s L)
    (k : List Nat) (hk : s.key_size ≤ k.length) (a : Nat) (ha : a ∈ L)
    (e : s.keyAt a = k.take s.key_size) (out : Option (List Nat)) :
    s.Search k out
      = some (true, out.map (fun o => memcpy o (s.payloadAt a) s.payload_size)) := by
  obtain ⟨A, B, hL, c⟩ := h.cut k hk
  subst hL
  rw [c.Search]
  cases hb : hitOf s k B with
  | none => exact absurd (List.mem_map.mpr ⟨a, ha, e⟩) (c.key_not_mem hb)
  | some b =>
    obtain ⟨h1, h2⟩ := c.key_of_hit b hb
    have : b = a := h.keyAt_inj b a (List.mem_append_right _ h1) ha (by rw [h2, e])
    subst this
    rfl

theorem Repr.Search_miss {M : Nat} {s : SkipList} {L : List Nat} (h : Repr M s L)
    (k : List Nat) (hk : s.key_size ≤ k.length) (hc : s.contains k = false)
    (out : Option (List Nat)) : s.Search k out = some (false, out) := by
  obtain ⟨A, B, hL, c⟩ := h.cut k hk
  subst hL
  rw [c.Search]
  cases hb : hitOf s k B with
  | none => rfl
  | some b =>
    have := c.contains_iff_hit.mpr (by rw [hb]; rfl)
    rw [hc] at this
    exact absurd this (by simp)

theorem memcpy_take (dst src : List Nat) (n : Nat) : memcpy dst (src.take n) n = memcpy dst src n := by
  unfold memcpy
  rw [List.take_take, Nat.min_self]

theorem Repr.InsertAt_new {M : Nat} {s : SkipList} {L : List Nat} (h : Repr M s L)
    (k v : List Nat) (hk : s.key_size ≤ k.length) (hv : s.payload_size ≤ v.length)
    (hc : s.contains k = false) (nodeLevel : Nat) (h1 : 1 ≤ nodeLevel) (h2 : nodeLevel ≤ M) :
    ∃ s', s.InsertAt M nodeLevel k v = some (true, s') ∧
      ∀ out, s'.Search k (some out) = some (true, some (memcpy out v s.payload_size)) := by
  obtain ⟨A, B, hL, c⟩ := h.cut k hk
  subst hL
  have hh : hitOf s k B = none := by
    cases hb : hitOf s k B with
    | none => rfl
    | some b =>
      have := c.contains_iff_hit.mpr (by rw [hb]; rfl)
      rw [hc] at this
      exact absurd this (by simp)
  obtain ⟨s', e1, e2, e3, e4, e5, e6, e7⟩ := c.InsertAt_miss nodeLevel v h1 h2 hv hh
  refine ⟨s', e1, ?_⟩
  intro out
  rw [e2.Search_hit k (by rw [e3]; exact hk) s.heap.length
    (List.mem_append_right _ (List.mem_cons_self _ _)) (by rw [e5, e3]) (some out), e6, e4]
  simp [memcpy_take]

theorem Repr.InsertAt_old {M : Nat} {s : SkipList} {L : List Nat} (h : Repr M s L)
    (k v : List Nat) (hk : s.key_size ≤ k.length) (hc : s.contains k = true)
    (nodeLevel : Nat) : s.InsertAt M nodeLevel k v = some (false, s) := by
  obtain ⟨A, B, hL, c⟩ := h.cut k hk
  subst hL
  have hh := c.contains_iff_hit.mp hc
  cases hb : hitOf s k B with
  | none => simp [hb] at hh
  | some b => exact c.InsertAt_hit nodeLevel v b hb

theorem Repr.Delete_spec {M : Nat} {s : SkipList} {L : List Nat} (h : Repr M s L)
    (k : List Nat) (hk : s.key_size ≤ k.length) :
    ∃ ret s', s.Delete M k = some (ret, s') ∧ (ret = true ↔ s.contains k = true) ∧
      (ret = true → ∀ out, s'.Search k out = some (false, out)) ∧ (ret = false → s' = s) := by
  obtain ⟨ret, s', L', h1, h2, h3, h4, h5⟩ := h.step (Op.delete k) hk
  have hstep : s.Delete M k = some (ret, s') := h1
  obtain ⟨A, B, hL, c⟩ := h.cut k hk
  subst hL
  cases hb : hitOf s k B with
  | none =>
    have hm := c.Delete_miss hb
    rw [hm] at hstep
    simp only [Option.some.injEq, Prod.mk.injEq] at hstep
    obtain ⟨rfl, rfl⟩ := hstep
    refine ⟨false, s, hm, ?_, by simp, fun _ => rfl⟩
    constructor
    · intro e
      exact absurd e (by simp)
    · intro e
      have := c.contains_iff_hit.mp e
      simp [hb] at this
  | some b =>
    obtain ⟨B', hB, _⟩ := hitOf_some s k B b hb
    subst hB
    obtain ⟨s2, g1, g2, g3, g4, g5⟩ := c.Delete_hit hb
    rw [g1] at hstep
    simp only [Option.some.injEq, Prod.mk.injEq] at hstep
    obtain ⟨rfl, rfl⟩ := hstep
    refine ⟨true, s2, g1, ?_, ?_, by simp⟩
    · constructor
      · intro _
        exact c.contains_iff_hit.mpr (by rw [hb]; rfl)
      · intro _
        rfl
    · intro _ out
      have hk2 : s2.key_size ≤ k.length := by rw [g3]; exact hk
      refine g2.Search_miss k hk2 ?_ out
      cases hc : s2.contains k with
      | false => rfl
      | true =>
        obtain ⟨a, ha, e⟩ := (g2.contains_iff k hk2).mp hc
        have hx : s2.keyAt a ∈ s2.keys := by
          rw [g2.keys]
          exact List.mem_map.mpr ⟨a, ha, rfl⟩
        have := (h5 (s2.keyAt a)).mp hx
        rw [mem_liveStep] at this
        rw [e, g3] at this
        exact absurd rfl this.2

theorem Repr.Update_spec {M : Nat} {s : SkipList} {L : List Nat} (h : Repr M s L)
    (k v : List Nat) (hk : s.key_size ≤ k.length) (hv : s.payload_size ≤ v.length) :
    ∃ ret s', s.Update k v = some (ret, s') ∧ (ret = true ↔ s.contains k = true) ∧
      (ret = true → ∀ out, s'.Search k (some out)
        = some (true, some (memcpy out v s.payload_size))) ∧
      (ret = false → s' = s) := by
  obtain ⟨A, B, hL, c⟩ := h.cut k hk
  subst hL
  cases hb : hitOf s k B with
  | none =>
    refine ⟨false, s, c.Update_miss v hb, ?_, by simp, fun _ => rfl⟩
    constructor
    · intro e
      exact absurd e (by simp)
    · intro e
      have := c.contains_iff_hit.mp e
      simp [hb] at this
  | some b =>
    obtain ⟨s', g1, g2, g3, g4, g5, g6, g7⟩ := c.Update_hit v hv b hb
    obtain ⟨hbB, hkb⟩ := c.key_of_hit b hb
    refine ⟨true, s', g1, ?_, ?_, by simp⟩
    · constructor
      · intro _
        exact c.contains_iff_hit.mpr (by rw [hb]; rfl)
      · intro _
        rfl
    · intro _ out
      rw [g2.Search_hit k (by rw [g3]; exact hk) b (List.mem_append_right _ hbB)
        (by rw [g5, hkb, g3]) (some out), g6, g4]
      simp [memcpy_take]

theorem Cut.above_tail_of_hit {M : Nat} {s : SkipList} {k : List Nat} {A B' : List Nat}
    {b : Nat} (c : Cut M s k A (b :: B')) (h : hitOf s k (b :: B') = some b) :
    ∀ x ∈ B', 0 < memcmp (s.keyAt x) k s.key_size := by
  intro x hx
  obtain ⟨_, _, h0⟩ := hitOf_some s k _ b h
  have hs := (List.pairwise_append.mp c.repr.sorted).2.1
  have hbx := (List.pairwise_cons.mp hs).1 x hx
  have hlb := (c.towersB b (List.mem_cons_self _ _)).key_length
  have ht := (memcmp_eq_zero_iff _ _ _ (by omega) c.key_len).mp h0
  have h1 := memcmp_congr_left (s.keyAt b) k (s.keyAt x) s.key_size ht
  have h2 := memcmp_swap k (s.keyAt x) s.key_size
  omega

/-- The towers `Scan` emits are those the range of the scan selects. -/
theorem Cut.scanRange_eq {M : Nat} {s : SkipList} {k : List Nat} {A B : List Nat}
    (c : Cut M s k A B) (nkeys : Nat) (inclusive : Bool) :
    s.scanRange k nkeys inclusive =
      ((if inclusive = false ∧ (hitOf s k B).isSome then B.tail else B).take nkeys).map
        (fun a => (s.keyAt a, s.payloadAt a)) := by
  unfold SkipList.scanRange SkipList.entriesFrom
  rw [c.repr.entries, List.filter_map, List.map_take, List.filter_append]
  congr 2
  have hA : A.filter ((fun e : List Nat × List Nat =>
      if inclusive = true then decide (0 ≤ memcmp e.1 k s.key_size)
      else decide (0 < memcmp e.1 k s.key_size)) ∘ fun a => (s.keyAt a, s.payloadAt a)) = [] := by
    rw [List.filter_eq_nil_iff]
    intro a ha
    have := c.below a ha
    cases inclusive with
    | true => simp; omega
    | false => simp; omega
  rw [hA, List.nil_append]
  cases inclusive with
  | true =>
    simp only [Bool.true_eq_false, false_and, if_false, if_true]
    rw [List.filter_eq_self]
    intro b hb
    have := c.notBelow b hb
    simp only [Function.comp_apply, decide_eq_true_eq]
    omega
  | false =>
    simp only [true_and, Bool.false_eq_true, if_false]
    cases hh : hitOf s k B with
    | none =>
      simp only [Option.isSome_none, Bool.false_eq_true, if_false]
      rw [List.filter_eq_self]
      intro b hb
      have := c.above_of_no_hit hh b hb
      simpa using this
    | some b =>
      obtain ⟨B', hB, h0⟩ := hitOf_some s k B b hh
      subst hB
      simp only [Option.isSome_some, if_true, List.tail_cons]
      rw [List.filter_cons_of_neg (by simp [h0]), List.filter_eq_self]
      intro x hx
      have := c.above_tail_of_hit hh x hx
      simpa using this

theorem Repr.Scan_spec {M : Nat} {s : SkipList} {L : List Nat} (h : Repr M s L)
    (k : List Nat) (hk : s.key_size ≤ k.length) (nkeys : Nat) (inclusive : Bool)
    (out : List (List Nat × List Nat)) :
    s.Scan (some k) nkeys inclusive (some out)
      = some (some (out ++ s.scanRange k nkeys inclusive)) := by
  obtain ⟨A, B, hL, c⟩ := h.cut k hk
  subst hL
  rw [c.Scan, c.scanRange_eq]

theorem Repr.scanRange_sorted {M : Nat} {s : SkipList} {L : List Nat} (h : Repr M s L)
    (k : List Nat) (nkeys : Nat) (inclusive : Bool) :
    ((s.scanRange k nkeys inclusive).map Prod.fst).Pairwise
      (fun a b => memcmp a b s.key_size < 0) := by
  have hsub : ((s.scanRange k nkeys inclusive).map Prod.fst).Sublist s.keys := by
    unfold SkipList.scanRange SkipList.entriesFrom SkipList.keys
    exact List.Sublist.map _ ((List.take_sublist _ _).trans (List.filter_sublist _))
  refine List.Pairwise.sublist hsub ?_
  rw [h.keys, List.pairwise_map]
  exact h.sorted

theorem Repr.scanRange_first {M : Nat} {s : SkipList} {L : List Nat} (h : Repr M s L)
    (k : List Nat) (hk : s.key_size ≤ k.length) (nkeys : Nat) (hn : 0 < nkeys)
    (hc : s.contains k = true) :
    ((s.scanRange k nkeys true).map Prod.fst).head? = some (k.take s.key_size) := by
  obtain ⟨A, B, hL, c⟩ := h.cut k hk
  subst hL
  rw [c.scanRange_eq]
  have hh := c.contains_iff_hit.mp hc
  cases hb : hitOf s k B with
  | none => simp [hb] at hh
  | some b =>
    obtain ⟨B', hB, h0⟩ := hitOf_some s k B b hb
    obtain ⟨_, hkb⟩ := c.key_of_hit b hb
    subst hB
    obtain ⟨n, rfl⟩ : ∃ n, nkeys = n + 1 := ⟨nkeys - 1, by omega⟩
    simp [hkb]

/-! ## Scan with a null start key -/

theorem SkipList.walk_null (s : SkipList) (i fuel : Nat) (p : Ptr) :
    s.walk none i fuel p = none ∨ s.walk none i fuel p = some p := by
  cases fuel with
  | zero => exact Or.inl rfl
  | succ fuel =>
    unfold SkipList.walk
    cases h : s.nextOf p i with
    | none => exact Or.inl rfl
    | some nx =>
      by_cases ht : nx = Ptr.tail
      · simp [ht]
      · have : s.cmpKey nx none s.key_size = none := by
          unfold SkipList.cmpKey
          cases s.tower nx <;> rfl
        simp [ht, this]

theorem SkipList.walk_null_fault (s : SkipList) (i : Nat) (p q : Ptr)
    (h : s.nextOf p i = some q) (hq : q ≠ Ptr.tail) : s.walk none i s.fuel p = none := by
  have : s.cmpKey q none s.key_size = none := by
    unfold SkipList.cmpKey
    cases s.tower q <;> rfl
  simp [SkipList.fuel, SkipList.walk, h, hq, this]

/-- With a null key the descent compares `head.next[0]`'s key against the null
pointer at level 0 at the latest. -/
theorem SkipList.descend_null_fault (s : SkipList) (q : Ptr)
    (h : s.nextOf Ptr.head 0 = some q) (hq : q ≠ Ptr.tail) :
    ∀ j, s.descend none (j + 1) Ptr.head = none := by
  intro j
  induction j with
  | zero => simp [SkipList.descend, s.walk_null_fault 0 Ptr.head q h hq]
  | succ j ih =>
    unfold SkipList.descend
    rcases s.walk_null (j + 1) s.fuel Ptr.head with e | e
    · rw [e]
    · rw [e]
      exact ih

/-- On a list whose level-0 chain is not empty, `Scan` with a null start key
and `nkeys > 0` never gets past the descent. -/
theorem SkipList.Scan_null_fault (s : SkipList) (q : Ptr) (hh : 1 ≤ s.height)
    (h : s.nextOf Ptr.head 0 = some q) (hq : q ≠ Ptr.tail) (nkeys : Nat) (hn : 0 < nkeys)
    (inclusive : Bool) (out : List (List Nat × List Nat)) :
    s.Scan none nkeys inclusive (some out) = none := by
  obtain ⟨j, hj⟩ : ∃ j, s.height = j + 1 := ⟨s.height - 1, by omega⟩
  have hn0 : ¬ nkeys = 0 := by omega
  unfold SkipList.Scan
  simp only [hn0, if_false, h, hq, hj, s.descend_null_fault q h hq j]

/-! ## Properties of the skip list -/

theorem sampleList1_trace : Trace 2 1 1 [Op.insert (fun _ => 0) [5] [50]] sampleList1 :=
  Trace.step [] (SkipList.create 2 1 1) sampleList1 (Op.insert (fun _ => 0) [5] [50]) true
    Trace.init ⟨by decide, by decide⟩ (by decide)

theorem sampleList_trace : Trace 2 1 1 sampleOps sampleList :=
  Trace.step [Op.insert (fun _ => 0) [5] [50]] sampleList1 sampleList
    (Op.insert (fun _ => 1) [3] [30]) true sampleList1_trace ⟨by decide, by decide⟩ (by decide)

theorem sampleList_reachable : Reachable 2 sampleList :=
  ⟨1, 1, sampleOps, sampleList_trace⟩

theorem create_reachable (M ks ps : Nat) : Reachable M (SkipList.create M ks ps) :=
  ⟨ks, ps, [], Trace.init⟩

theorem memcpy_exact (dst src : List Nat) (n : Nat) (hd : dst.length = n) (hs : src.length = n) :
    memcpy dst src n = src := by
  rw [memcpy_full dst src n hd, List.take_of_length_le (by omega)]

/-- C1: in every state reached from the empty list by `Insert`/`Update`/`Delete`
calls, for every key `k` not in the list and every payload `v`, `Insert(k, v)`
returns true and a following `Search(k, out)` returns true with the payload
bytes of `v` copied into `out` (so `out` equals `v` for buffers of exactly
`payload_size` bytes), whatever the coin flips and whatever tower level in
`[1, SKIP_LIST_MAX_LEVEL]` the insert draws. -/
theorem C1_insert_then_search (M : Nat) (hM : 1 ≤ M) (s : SkipList) (hs : Reachable M s)
    (k v : List Nat) (hk : s.key_size ≤ k.length) (hv : s.payload_size ≤ v.length)
    (hnew : s.contains k = false) :
    (∀ coins, ∃ s', s.Insert M coins k v = some (true, s') ∧
      (∀ out, s'.Search k (some out) = some (true, some (memcpy out v s.payload_size))) ∧
      (v.length = s.payload_size → ∀ out, out.length = s.payload_size →
        s'.Search k (some out) = some (true, some v))) ∧
    (∀ nodeLevel, 1 ≤ nodeLevel → nodeLevel ≤ M →
      ∃ s', s.InsertAt M nodeLevel k v = some (true, s') ∧
        ∀ out, s'.Search k (some out) = some (true, some (memcpy out v s.payload_size))) := by
  obtain ⟨L, hr⟩ := hs.repr hM
  constructor
  · intro coins
    obtain ⟨h1, h2⟩ := drawLevel_range M coins M 1 (Nat.le_refl 1) hM
    obtain ⟨s', e1, e2⟩ := hr.InsertAt_new k v hk hv hnew _ h1 h2
    refine ⟨s', e1, e2, ?_⟩
    intro hvl out hol
    rw [e2 out, memcpy_exact out v _ hol hvl]
  · intro nodeLevel h1 h2
    exact hr.InsertAt_new k v hk hv hnew nodeLevel h1 h2

/-- Instance of C1: key 4 with payload 40 inserted into `sampleList`. -/
theorem C1_insert_then_search_witness :
    ∃ s', sampleList.Insert 2 (fun _ => 1) [4] [40] = some (true, s') ∧
      s'.Search [4] (some [0]) = some (true, some [40]) := by
  obtain ⟨s', h1, _, h3⟩ := (C1_insert_then_search 2 (by decide) sampleList sampleList_reachable
    [4] [40] (by decide) (by decide) (by decide)).1 (fun _ => 1)
  exact ⟨s', h1, h3 rfl [0] rfl⟩

/-- C2: in every reachable state, for every key `k` already present,
`Insert(k, v')` returns false and leaves the whole state as it was: the same
towers in the same order at every level, the same payloads, the same height. -/
theorem C2_insert_existing (M : Nat) (hM : 1 ≤ M) (s : SkipList) (hs : Reachable M s)
    (k v' : List Nat) (hk : s.key_size ≤ k.length) (hin : s.contains k = true) :
    (∀ coins, s.Insert M coins k v' = some (false, s)) ∧
    (∀ nodeLevel, s.InsertAt M nodeLevel k v' = some (false, s)) := by
  obtain ⟨L, hr⟩ := hs.repr hM
  exact ⟨fun coins => hr.InsertAt_old k v' hk hin _, fun nl => hr.InsertAt_old k v' hk hin nl⟩

/-- Instance of C2: key 5 inserted again into `sampleList`. -/
theorem C2_insert_existing_witness :
    sampleList.Insert 2 (fun _ => 0) [5] [51] = some (false, sampleList) :=
  (C2_insert_existing 2 (by decide) sampleList sampleList_reachable [5] [51] (by decide)
    (by decide)).1 (fun _ => 0)

/-- C3: in every reachable state, `Delete(k)` returns true if and only if `k`
is in the list; after a true return `Search(k)` returns false; a false return
leaves the state unchanged. -/
theorem C3_delete (M : Nat) (hM : 1 ≤ M) (s : SkipList) (hs : Reachable M s)
    (k : List Nat) (hk : s.key_size ≤ k.length) :
    ∃ ret s', s.Delete M k = some (ret, s') ∧ (ret = true ↔ s.contains k = true) ∧
      (ret = true → ∀ out, s'.Search k out = some (false, out)) ∧ (ret = false → s' = s) := by
  obtain ⟨L, hr⟩ := hs.repr hM
  exact hr.Delete_spec k hk

/-- Instance of C3: key 5 deleted from `sampleList`. -/
theorem C3_delete_witness :
    ∃ ret s', sampleList.Delete 2 [5] = some (ret, s') ∧
      (ret = true ↔ sampleList.contains [5] = true) ∧
      (ret = true → ∀ out, s'.Search [5] out = some (false, out)) ∧
      (ret = false → s' = sampleList) :=
  C3_delete 2 (by decide) sampleList sampleList_reachable [5] (by decide)

/-- C4: in every reachable state, `Update(k, v)` returns true if and only if
`k` is in the list (so it returns false on the empty list); after a true
return `Search(k)` yields the payload bytes of `v`; a false return leaves the
state unchanged. -/
theorem C4_update (M : Nat) (hM : 1 ≤ M) (s : SkipList) (hs : Reachable M s)
    (k v : List Nat) (hk : s.key_size ≤ k.length) (hv : s.payload_size ≤ v.length) :
    (∃ ret s', s.Update k v = some (ret, s') ∧ (ret = true ↔ s.contains k = true) ∧
      (ret = true → ∀ out, s'.Search k (some out)
        = some (true, some (memcpy out v s.payload_size))) ∧
      (ret = true → v.length = s.payload_size → ∀ out, out.length = s.payload_size →
        s'.Search k (some out) = some (true, some v)) ∧
      (ret = false → s' = s)) ∧
    (SkipList.create M s.key_size s.payload_size).Update k v
      = some (false, SkipList.create M s.key_size s.payload_size) := by
  obtain ⟨L, hr⟩ := hs.repr hM
  constructor
  · obtain ⟨ret, s', h1, h2, h3, h4⟩ := hr.Update_spec k v hk hv
    refine ⟨ret, s', h1, h2, h3, ?_, h4⟩
    intro hret hvl out hol
    rw [h3 hret out, memcpy_exact out v _ hol hvl]
  · have hr0 := Repr.create M s.key_size s.payload_size hM
    obtain ⟨ret, s', h1, h2, _, h4⟩ := hr0.Update_spec k v hk hv
    have hc : (SkipList.create M s.key_size s.payload_size).contains k = false := by
      simp [SkipList.contains, hr0.keys]
    cases ret with
    | true =>
      have := h2.mp rfl
      rw [hc] at this
      exact absurd this (by simp)
    | false =>
      rw [h1, h4 rfl]

/-- Instance of C4: the payload of key 3 of `sampleList` replaced by 31. -/
theorem C4_update_witness :
    (∃ ret s', sampleList.Update [3] [31] = some (ret, s') ∧
      (ret = true ↔ sampleList.contains [3] = true) ∧
      (ret = true → ∀ out, s'.Search [3] (some out)
        = some (true, some (memcpy out [31] sampleList.payload_size))) ∧
      (ret = true → [31].length = sampleList.payload_size → ∀ out : List Nat,
        out.length = sampleList.payload_size → s'.Search [3] (some out) = some (true, some [31])) ∧
      (ret = false → s' = sampleList)) ∧
    (SkipList.create 2 sampleList.key_size sampleList.payload_size).Update [3] [31]
      = some (false, SkipList.create 2 sampleList.key_size sampleList.payload_size) :=
  C4_update 2 (by decide) sampleList sampleList_reachable [3] [31] (by decide) (by decide)

/-- C5: in every reachable state, for every non-null `start_key`, every
`nkeys` and `inclusive` flag, `Scan` appends to `out_records` exactly the
first `min(nkeys, m)` entries, in ascending key order and each with its stored
payload, of the `m` list entries whose key is `>= start_key` (inclusive) or
`> start_key` (not inclusive). The emitted keys are strictly increasing, and
when `inclusive` and `start_key` is present the first emitted key is
`start_key`. -/
theorem C5_scan (M : Nat) (hM : 1 ≤ M) (s : SkipList) (hs : Reachable M s)
    (start_key : List Nat) (hk : s.key_size ≤ start_key.length) (nkeys : Nat)
    (inclusive : Bool) (out : List (List Nat × List Nat)) :
    s.Scan (some start_key) nkeys inclusive (some out)
      = some (some (out ++ s.scanRange start_key nkeys inclusive)) ∧
    (s.scanRange start_key nkeys inclusive).length
      = min nkeys (s.entriesFrom start_key inclusive).length ∧
    ((s.scanRange start_key nkeys inclusive).map Prod.fst).Pairwise
      (fun a b => memcmp a b s.key_size < 0) ∧
    (s.entries.map Prod.fst).Pairwise (fun a b => memcmp a b s.key_size < 0) ∧
    (inclusive = true → s.contains start_key = true → 0 < nkeys →
      ((s.scanRange start_key nkeys inclusive).map Prod.fst).head?
        = some (start_key.take s.key_size)) := by
  obtain ⟨L, hr⟩ := hs.repr hM
  refine ⟨hr.Scan_spec start_key hk nkeys inclusive out, ?_,
    hr.scanRange_sorted start_key nkeys inclusive, ?_, ?_⟩
  · unfold SkipList.scanRange
    exact List.length_take _ _
  · have := hr.keys
    unfold SkipList.keys at this
    rw [this, List.pairwise_map]
    exact hr.sorted
  · intro hi hc hn
    subst hi
    exact hr.scanRange_first start_key hk nkeys hn hc

/-- Instance of C5: an inclusive scan of `sampleList` from key 3 for one key. -/
theorem C5_scan_witness :
    sampleList.Scan (some [3]) 1 true (some []) = some (some [([3], [30])]) :=
  (C5_scan 2 (by decide) sampleList sampleList_reachable [3] (by decide) 1 true []).1

/-- C6 (fails on the code): a `Scan` of the non-empty `sampleList` with a null
`start_key` hands the null pointer to `memcmp` during the descent; the model
records the faulting execution as `none`, and no entry is emitted. -/
theorem C6_scan_null_start_faults :
    sampleList.Scan none 1 true (some []) = none := by
  decide

/-- C7: in every state reached from the constructor by sequential
`Insert`/`Update`/`Delete` calls, at every level the chain from `head` to
`tail` is strictly increasing in `memcmp` order over `key_size` bytes, the
level-0 chain holds exactly the keys inserted and not since deleted, and
`head.next[i] == tail` for every `i >= height`; initially `height = 1` and
`head.next[i] == tail` for all `i`. -/
theorem C7_chain_invariant (M ks ps : Nat) (hM : 1 ≤ M) (ops : List Op) (s : SkipList)
    (h : Trace M ks ps ops s) :
    (∀ i, i < M → ∃ l, s.level i = some l ∧
      (l.map s.keyAt).Pairwise (fun a b => memcmp a b s.key_size < 0)) ∧
    (∀ x, x ∈ s.keys ↔ x ∈ liveKeys ks ops) ∧
    (∀ i, s.height ≤ i → i < M → s.nextOf Ptr.head i = some Ptr.tail) ∧
    (SkipList.create M ks ps).height = 1 ∧
    (∀ i, i < M → (SkipList.create M ks ps).nextOf Ptr.head i = some Ptr.tail) := by
  obtain ⟨L, hr, _, _, hkeys⟩ := h.inv hM
  refine ⟨?_, hkeys, ?_, rfl, ?_⟩
  · intro i hi
    refine ⟨atLevel s i L, hr.level i hi, ?_⟩
    rw [List.pairwise_map]
    exact List.Pairwise.sublist (atLevel_sublist s i L) hr.sorted
  · intro i h1 h2
    have hp := hr.paths i h2
    rw [atLevel_top s L i hr.towers h1] at hp
    exact hp
  · intro i hi
    exact (Repr.create M ks ps hM).paths i hi

/-- Instance of C7 on `sampleList`, built by `sampleOps`. -/
theorem C7_chain_invariant_witness :
    (∀ i, i < 2 → ∃ l, sampleList.level i = some l ∧
      (l.map sampleList.keyAt).Pairwise (fun a b => memcmp a b sampleList.key_size < 0)) ∧
    (∀ x, x ∈ sampleList.keys ↔ x ∈ liveKeys 1 sampleOps) ∧
    (∀ i, sampleList.height ≤ i → i < 2 → sampleList.nextOf Ptr.head i = some Ptr.tail) ∧
    (SkipList.create 2 1 1).height = 1 ∧
    (∀ i, i < 2 → (SkipList.create 2 1 1).nextOf Ptr.head i = some Ptr.tail) :=
  C7_chain_invariant 2 1 1 (by decide) sampleOps sampleList sampleList_trace

theorem toNat_mod_aux (f : Nat) (hf : f < 4294967296) :
    ((f : Int) % (2 ^ 64 : Int)).toNat = f := by
  have : ((2:Int) ^ 64) = 18446744073709551616 := by norm_num
  rw [this]
  omega

theorem PageId.make_value (f p : Nat) (hf : f < 4294967296) (hp : p < 65536) :
    (PageId.make (f : Int) p).value = 4294967296 * f + 65536 * p := by
  unfold PageId.make
  rw [toNat_mod_aux f hf, Nat.shiftLeft_eq, Nat.shiftLeft_eq]
  have h3 : 65536 * p < 2 ^ 32 := by omega
  have h4 := Nat.mul_add_lt_is_or h3 f
  have e1 : f * 2 ^ 32 % 2 ^ 64 = 2 ^ 32 * f := by omega
  have e2 : p % 2 ^ 32 * 2 ^ 16 % 2 ^ 64 = 65536 * p := by omega
  simp only [e1, e2]
  rw [← h4]

theorem and_mask32 (x : Nat) : x &&& 0xffffffff = x % 4294967296 := by
  have h := Nat.and_pow_two_sub_one_eq_mod x 32
  norm_num at h
  exact h

theorem and_mask16 (x : Nat) : x &&& 0xffff = x % 65536 := by
  have h := Nat.and_pow_two_sub_one_eq_mod x 16
  norm_num at h
  exact h

theorem RID.make_rid_value (f p slot : Nat) (hf : f < 4294967296) (hp : p < 65536)
    (hs : slot < 65536) :
    (RID.make (PageId.make (f : Int) p) slot).value = 4294967296 * f + 65536 * p + slot := by
  unfold RID.make
  rw [PageId.make_value f p hf hp]
  have hs2 : slot % 2 ^ 16 = slot := by omega
  have hs3 : slot < 2 ^ 16 := by omega
  have h4 := Nat.mul_add_lt_is_or hs3 (65536 * f + p)
  have e : 4294967296 * f + 65536 * p = 2 ^ 16 * (65536 * f + p) := by omega
  simp only [hs2, e]
  rw [← h4]

/-- C10: for `file_id` in `[0, 2^31)`, `page_num` in `[0, 2^16)` and `slot` in
`[0, 2^16)`, `PageId(file_id, page_num)` is valid and gives back its file id and
page number, and `RID(PageId(file_id, page_num), slot)` is valid and gives back
the slot, the file id and the page number. -/
theorem C10_pageid_rid_fields (file_id : Int) (page_num slot : Nat)
    (h0 : 0 ≤ file_id) (h1 : file_id < 2147483648) (hp : page_num < 65536)
    (hs : slot < 65536) :
    (PageId.make file_id page_num).IsValid = true ∧
    ((PageId.make file_id page_num).GetFileId : Int) = file_id ∧
    (PageId.make file_id page_num).GetPageNum = page_num ∧
    (RID.make (PageId.make file_id page_num) slot).IsValid = true ∧
    (RID.make (PageId.make file_id page_num) slot).GetSlotId = slot ∧
    ((RID.make (PageId.make file_id page_num) slot).GetFileId : Int) = file_id ∧
    (RID.make (PageId.make file_id page_num) slot).GetPageNum = page_num := by
  obtain ⟨f, rfl⟩ := Int.eq_ofNat_of_zero_le h0
  have hf : f < 4294967296 := by omega
  have hv := PageId.make_value f page_num hf hp
  have hr := RID.make_rid_value f page_num slot hf hp hs
  simp only [PageId.IsValid, PageId.GetFileId, PageId.GetPageNum, RID.IsValid, RID.GetSlotId,
    RID.GetFileId, RID.GetPageNum, kInvalidValue, hv, hr, and_mask32, and_mask16,
    Nat.shiftRight_eq_div_pow, bne_iff_ne, ne_eq]
  refine ⟨by omega, ?_, by omega, by omega, by omega, ?_, by omega⟩
  · have : (4294967296 * f + 65536 * page_num) / 2 ^ 32 % 2 ^ 32 = f := by omega
    rw [this]
  · have : (4294967296 * f + 65536 * page_num + slot) / 2 ^ 32 % 2 ^ 32 = f := by omega
    rw [this]

/-- Instance of C10 at file 3, page 7, slot 9. -/
theorem C10_pageid_rid_fields_witness :
    (PageId.make 3 7).IsValid = true ∧
    ((PageId.make 3 7).GetFileId : Int) = 3 ∧
    (PageId.make 3 7).GetPageNum = 7 ∧
    (RID.make (PageId.make 3 7) 9).IsValid = true ∧
    (RID.make (PageId.make 3 7) 9).GetSlotId = 9 ∧
    ((RID.make (PageId.make 3 7) 9).GetFileId : Int) = 3 ∧
    (RID.make (PageId.make 3 7) 9).GetPageNum = 7 :=
  C10_pageid_rid_fields 3 7 9 (by decide) (by decide) (by decide) (by decide)

/-! ## Base file -/

theorem pread_pwrite (file buf : List Nat) (n offset : Nat) (hn : n ≤ buf.length) :
    preadBytes (pwriteBytes file buf n offset) n offset = buf.take n := by
  unfold preadBytes pwriteBytes
  have hl : (List.take offset (file ++ List.replicate (offset - file.length) 0)).length
      = offset := by
    simp only [List.length_take, List.length_append, List.length_replicate]
    omega
  have hd : (List.take n buf).length = n := by
    simp only [List.length_take]
    omega
  simp only [List.append_assoc]
  rw [List.drop_append_of_le_length (by omega), List.drop_of_length_le (by omega),
    List.nil_append, List.take_append_of_le_length (by omega), List.take_of_length_le (by omega)]

theorem pwrite_length_at_end (file buf : List Nat) (n : Nat) (hn : n ≤ buf.length) :
    (pwriteBytes file buf n file.length).length = file.length + n := by
  unfold pwriteBytes
  simp only [Nat.sub_self, List.replicate_zero, List.append_nil, List.take_length,
    List.length_append, List.length_take, List.length_drop]
  omega

theorem pageOffset_eq (PAGE_SIZE : Nat) (hPS : PAGE_SIZE ≤ 65536) (pid : PageId) :
    pageOffset PAGE_SIZE pid = pid.GetPageNum * PAGE_SIZE := by
  unfold pageOffset
  have h : pid.GetPageNum < 65536 := by
    unfold PageId.GetPageNum
    rw [and_mask32, Nat.shiftRight_eq_div_pow]
    omega
  have : pid.GetPageNum * PAGE_SIZE ≤ 65535 * 65536 := Nat.mul_le_mul (by omega) hPS
  omega

/-- C8: with the file as a byte array, after `FlushPage(pid, Z)` returns true for
a valid `pid` and a `PAGE_SIZE`-byte buffer `Z`, `LoadPage(pid, out)` returns
true with `out == Z`; and `LoadPage(pid, out)` returns false whenever the file
holds fewer than `(pid.GetPageNum() + 1) * PAGE_SIZE` bytes or `pid` is invalid.
`PAGE_SIZE` is at most `2^16`, so that the 32-bit offset does not wrap. -/
theorem C8_flush_then_load (PAGE_SIZE : Nat) (hPS : PAGE_SIZE ≤ 65536) (bf : BaseFile)
    (pid : PageId) :
    (∀ (Z out : List Nat) (sys : SysOutcome) (bf' : BaseFile),
        pid.IsValid = true → Z.length = PAGE_SIZE → out.length = PAGE_SIZE →
        bf.FlushPage PAGE_SIZE pid Z sys = some (true, bf') →
        bf'.LoadPage PAGE_SIZE pid out = (true, Z)) ∧
    (∀ out : List Nat,
        (bf.bytes.length < (pid.GetPageNum + 1) * PAGE_SIZE ∨ pid.IsValid = false) →
        (bf.LoadPage PAGE_SIZE pid out).1 = false) := by
  constructor
  · intro Z out sys bf' hv hZ hout hflush
    unfold BaseFile.FlushPage at hflush
    simp only [hv, Bool.not_true, Bool.false_eq_true, if_false] at hflush
    split at hflush
    · exact absurd hflush (by simp)
    · cases hroom : sys.pwrite_room with
      | none => simp [hroom] at hflush
      | some room =>
        simp only [hroom, Option.some.injEq, Prod.mk.injEq, beq_iff_eq] at hflush
        obtain ⟨hmin, hbf⟩ := hflush
        subst hbf
        unfold BaseFile.LoadPage
        simp only [hv, Bool.not_true, Bool.false_eq_true, if_false, hmin]
        rw [pread_pwrite _ _ _ _ (by omega), List.take_of_length_le (by omega)]
        simp only [hZ, beq_self_eq_true, overwrite, Prod.mk.injEq, true_and]
        rw [List.drop_of_length_le (by omega), List.append_nil]
  · intro out h
    unfold BaseFile.LoadPage
    cases hv : pid.IsValid with
    | false => simp
    | true =>
      rcases h with h | h
      · simp only [Bool.not_true, Bool.false_eq_true, if_false, beq_eq_false_iff_ne, ne_eq]
        rw [pageOffset_eq PAGE_SIZE hPS]
        unfold preadBytes
        simp only [List.length_take, List.length_drop]
        have : (pid.GetPageNum + 1) * PAGE_SIZE = pid.GetPageNum * PAGE_SIZE + PAGE_SIZE := by
          ring
        rcases Nat.eq_zero_or_pos PAGE_SIZE with h0 | h0
        · subst h0
          simp at h
        · omega
      · rw [hv] at h
        exact absurd h (by simp)

/-- Instance of C8 with 4-byte pages: page 1 of file 3 written then read back,
and page 0 of an empty file failing to load. -/
theorem C8_flush_then_load_witness :
    ((4 : Nat) ≤ 65536) ∧
    (BaseFile.mk 3 2 [0, 0, 0, 0, 5, 6, 7, 8]).LoadPage 4 (PageId.make 3 1) [0, 0, 0, 0]
      = (true, [5, 6, 7, 8]) ∧
    ((BaseFile.mk 3 0 []).LoadPage 4 (PageId.mk 0) [1, 2, 3, 4]).1 = false :=
  ⟨by decide,
   (C8_flush_then_load 4 (by decide) (BaseFile.mk 3 2 [0, 0, 0, 0, 0, 0, 0, 0])
      (PageId.make 3 1)).1 [5, 6, 7, 8] [0, 0, 0, 0] ⟨0, some 4⟩ _ (by decide) rfl rfl
      (by decide),
   (C8_flush_then_load 4 (by decide) (BaseFile.mk 3 0 []) (PageId.mk 0)).2 [1, 2, 3, 4]
      (Or.inl (by decide))⟩

theorem PageId.make_valid (f c : Nat) (hf : f < 4294967296) (hc : c < 65536) :
    (PageId.make (f : Int) c).IsValid = true := by
  simp only [PageId.IsValid, PageId.make_value f c hf hc, kInvalidValue, bne_iff_ne, ne_eq]
  omega

theorem PageId.make_pageNum (f c : Nat) (hf : f < 4294967296) (hc : c < 65536) :
    (PageId.make (f : Int) c).GetPageNum = c := by
  simp only [PageId.GetPageNum, PageId.make_value f c hf hc, and_mask32,
    Nat.shiftRight_eq_div_pow]
  omega

theorem PageId.make_fileId (f c : Nat) (hf : f < 4294967296) (hc : c < 65536) :
    (PageId.make (f : Int) c).GetFileId = f := by
  simp only [PageId.GetFileId, PageId.make_value f c hf hc, Nat.shiftRight_eq_div_pow]
  omega

theorem PageId.invalid_not_valid : PageId.invalid.IsValid = false := by
  simp [PageId.invalid, PageId.IsValid]

/-- One `CreatePage` on a file holding exactly `c` pages, `c < 2^16`: if the
call returns a valid id, the id is `PageId(id, c)` and the file has grown by
one page. -/
theorem BaseFile.CreatePage_valid (PAGE_SIZE : Nat) (hPS : PAGE_SIZE ≤ 65536) (f c : Nat)
    (hf : f < 4294967296) (hc : c < 65536) (bytes : List Nat)
    (hlen : bytes.length = c * PAGE_SIZE) (sys : SysOutcome) (pid : PageId) (bf' : BaseFile)
    (h : (BaseFile.mk (f : Int) c bytes).CreatePage PAGE_SIZE sys = some (pid, bf'))
    (hv : pid.IsValid = true) :
    pid = PageId.make (f : Int) c ∧ bf'.id = (f : Int) ∧ bf'.page_count = c + 1 ∧
      bf'.bytes.length = (c + 1) * PAGE_SIZE := by
  have hvalid := PageId.make_valid f c hf hc
  have hoff : pageOffset PAGE_SIZE (PageId.make (f : Int) c) = bytes.length := by
    rw [pageOffset_eq PAGE_SIZE hPS, PageId.make_pageNum f c hf hc, hlen]
  unfold BaseFile.CreatePage BaseFile.FlushPage at h
  dsimp only at h
  simp only [hvalid, Bool.not_true, Bool.false_eq_true, if_false, hoff] at h
  by_cases hfs : sys.fsync_ret < 0
  · simp [hfs] at h
  · simp only [hfs, if_false] at h
    cases hroom : sys.pwrite_room with
    | none =>
      simp only [hroom, Bool.not_false, if_true, Option.some.injEq, Prod.mk.injEq] at h
      rw [← h.1, PageId.invalid_not_valid] at hv
      exact absurd hv (by simp)
    | some room =>
      simp only [hroom] at h
      by_cases hmin : min room PAGE_SIZE = PAGE_SIZE
      · simp only [hmin, beq_self_eq_true, Bool.not_true, Bool.false_eq_true, if_false,
          Option.some.injEq, Prod.mk.injEq] at h
        obtain ⟨h1, h2⟩ := h
        subst h2
        refine ⟨h1.symm, rfl, ?_, ?_⟩
        · show (c + 1) % 2 ^ 32 = c + 1
          omega
        · show (pwriteBytes bytes (List.replicate PAGE_SIZE 0) PAGE_SIZE bytes.length).length = _
          rw [pwrite_length_at_end _ _ _ (by simp), hlen]
          ring
      · have hb : (min room PAGE_SIZE == PAGE_SIZE) = false := by
          simp only [beq_eq_false_iff_ne, ne_eq]
          exact hmin
        simp only [hb, Bool.not_false, if_true, Option.some.injEq, Prod.mk.injEq] at h
        rw [← h.1, PageId.invalid_not_valid] at hv
        exact absurd hv (by simp)

/-- A `CreatePage` whose `fsync` succeeds and whose `pwrite` writes the whole
page, when `PageId(id, page_count)` is a valid id. -/
theorem BaseFile.CreatePage_full (PAGE_SIZE : Nat) (fd : Int) (c : Nat) (bytes : List Nat)
    (hv : (PageId.make fd c).IsValid = true) :
    (BaseFile.mk fd c bytes).CreatePage PAGE_SIZE ⟨0, some PAGE_SIZE⟩
      = some (PageId.make fd c, ⟨fd, (c + 1) % 2 ^ 32,
          pwriteBytes bytes (List.replicate PAGE_SIZE 0) PAGE_SIZE
            (pageOffset PAGE_SIZE (PageId.make fd c))⟩) := by
  unfold BaseFile.CreatePage BaseFile.FlushPage
  dsimp only
  simp [hv]

/-- Successive `CreatePage` calls that all return valid ids, on a file holding
exactly `c` pages with `c` plus the number of calls at most `2^16`. -/
theorem BaseFile.CreatePages_valid (PAGE_SIZE : Nat) (hPS : PAGE_SIZE ≤ 65536) (f : Nat)
    (hf : f < 4294967296) (outcomes : List SysOutcome) :
    ∀ (c : Nat) (bytes : List Nat) (pids : List PageId) (bf' : BaseFile),
      c + outcomes.length ≤ 65536 → bytes.length = c * PAGE_SIZE →
      BaseFile.CreatePages PAGE_SIZE (BaseFile.mk (f : Int) c bytes) outcomes
        = some (pids, bf') →
      (∀ pid ∈ pids, pid.IsValid = true) →
      pids = (List.range' c outcomes.length).map (PageId.make (f : Int)) ∧
        bf'.id = (f : Int) ∧ bf'.page_count = c + outcomes.length ∧
        bf'.bytes.length = (c + outcomes.length) * PAGE_SIZE := by
  induction outcomes with
  | nil =>
    intro c bytes pids bf' _ hlen h _
    simp only [BaseFile.CreatePages, Option.some.injEq, Prod.mk.injEq] at h
    obtain ⟨h1, h2⟩ := h
    subst h1 h2
    simp [hlen]
  | cons sys rest ih =>
    intro c bytes pids bf' hc hlen h hv
    simp only [List.length_cons] at hc
    unfold BaseFile.CreatePages at h
    cases h1 : (BaseFile.mk (f : Int) c bytes).CreatePage PAGE_SIZE sys with
    | none => simp [h1] at h
    | some r1 =>
      obtain ⟨pid, bf1⟩ := r1
      simp only [h1] at h
      cases h2 : BaseFile.CreatePages PAGE_SIZE bf1 rest with
      | none => simp [h2] at h
      | some r2 =>
        obtain ⟨pids2, bf2⟩ := r2
        simp only [h2, Option.some.injEq, Prod.mk.injEq] at h
        obtain ⟨hp, hb⟩ := h
        subst hp hb
        have hpv : pid.IsValid = true := hv pid (List.mem_cons_self _ _)
        obtain ⟨e1, e2, e3, e4⟩ := BaseFile.CreatePage_valid PAGE_SIZE hPS f c hf (by omega)
          bytes hlen sys pid bf1 h1 hpv
        obtain ⟨id1, pc1, bytes1⟩ := bf1
        simp only at e2 e3 e4
        subst e2 e3
        obtain ⟨i1, i2, i3, i4⟩ := ih (c + 1) bytes1 pids2 bf2 (by omega) e4 h2
          (fun q hq => hv q (List.mem_cons_of_mem _ hq))
        refine ⟨?_, i2, ?_, ?_⟩
        · rw [e1, i1]
          simp [List.range'_succ]
        · rw [i3, List.length_cons]
          omega
        · rw [i4, List.length_cons]
          congr 1
          omega

theorem BaseFile.CreatePages_append (PAGE_SIZE : Nat) (xs ys : List SysOutcome) :
    ∀ bf : BaseFile, BaseFile.CreatePages PAGE_SIZE bf (xs ++ ys) =
      match BaseFile.CreatePages PAGE_SIZE bf xs with
      | none => none
      | some (p1, bf1) =>
        match BaseFile.CreatePages PAGE_SIZE bf1 ys with
        | none => none
        | some (p2, bf2) => some (p1 ++ p2, bf2) := by
  induction xs with
  | nil =>
    intro bf
    simp only [List.nil_append, BaseFile.CreatePages]
    cases BaseFile.CreatePages PAGE_SIZE bf ys with
    | none => rfl
    | some r => rfl
  | cons x xs ih =>
    intro bf
    rw [List.cons_append]
    simp only [BaseFile.CreatePages]
    cases bf.CreatePage PAGE_SIZE x with
    | none => rfl
    | some r =>
      obtain ⟨pid, bf1⟩ := r
      simp only [ih bf1]
      cases BaseFile.CreatePages PAGE_SIZE bf1 xs with
      | none => rfl
      | some r1 =>
        obtain ⟨p1, b1⟩ := r1
        simp only
        cases BaseFile.CreatePages PAGE_SIZE b1 ys with
        | none => rfl
        | some r2 => rfl

theorem BaseFile.CreatePages_snoc (PAGE_SIZE : Nat) (bf : BaseFile) (xs : List SysOutcome)
    (x : SysOutcome) (pids : List PageId) (bf1 : BaseFile) (pid : PageId) (bf2 : BaseFile)
    (h1 : BaseFile.CreatePages PAGE_SIZE bf xs = some (pids, bf1))
    (h2 : bf1.CreatePage PAGE_SIZE x = some (pid, bf2)) :
    BaseFile.CreatePages PAGE_SIZE bf (xs ++ [x]) = some (pids ++ [pid], bf2) := by
  rw [BaseFile.CreatePages_append, h1]
  simp only [BaseFile.CreatePages, h2]

/-- With every `fsync` succeeding and every `pwrite` complete, `n` calls on a
file holding `c` pages, `c + n ≤ 2^16`, all return. -/
theorem BaseFile.CreatePages_full (PAGE_SIZE : Nat) (f : Nat) (hf : f < 4294967296) (n : Nat) :
    ∀ (c : Nat) (bytes : List Nat), c + n ≤ 65536 →
      ∃ pids bf', BaseFile.CreatePages PAGE_SIZE (BaseFile.mk (f : Int) c bytes)
          (List.replicate n ⟨0, some PAGE_SIZE⟩) = some (pids, bf') ∧
        ∀ pid ∈ pids, pid.IsValid = true := by
  induction n with
  | zero =>
    intro c bytes _
    exact ⟨[], _, rfl, by simp⟩
  | succ n ih =>
    intro c bytes hc
    have hv := PageId.make_valid f c hf (by omega)
    have h1 := BaseFile.CreatePage_full PAGE_SIZE (f : Int) c bytes hv
    have hc1 : (c + 1) % 2 ^ 32 = c + 1 := by omega
    rw [hc1] at h1
    obtain ⟨pids, bf2, h2, hv2⟩ := ih (c + 1) (pwriteBytes bytes (List.replicate PAGE_SIZE 0)
      PAGE_SIZE (pageOffset PAGE_SIZE (PageId.make (f : Int) c))) (by omega)
    refine ⟨PageId.make (f : Int) c :: pids, bf2, ?_, ?_⟩
    · simp only [List.replicate_succ, BaseFile.CreatePages, h1, h2]
    · intro pid hp
      rcases List.mem_cons.mp hp with hp | hp
      · rw [hp]
        exact hv
      · exact hv2 pid hp

theorem pwrite_length_inside (file buf : List Nat) (n offset : Nat) (hn : n ≤ buf.length)
    (h : offset + n ≤ file.length) :
    (pwriteBytes file buf n offset).length = file.length := by
  unfold pwriteBytes
  have e : offset - file.length = 0 := by omega
  simp only [e, List.replicate_zero, List.append_nil, List.length_append, List.length_take,
    List.length_drop]
  omega

/-- C9 (amended): for every `k ≤ 2^16`, `k` successive successful `CreatePage`
calls on a freshly constructed `BaseFile` return `k` pairwise distinct valid
PageIds whose page numbers are `0, 1, ..., k-1` in order and whose file id is
the file's id; afterwards `GetPageCount() == k` and the file is exactly
`k * PAGE_SIZE` bytes long. (`PAGE_SIZE ≤ 2^16`, descriptor below `2^31`.) -/
theorem C9_create_pages (PAGE_SIZE : Nat) (hPS : PAGE_SIZE ≤ 65536) (fd : Int)
    (hfd : fd < 2147483648) (bf0 : BaseFile) (h0 : BaseFile.create fd = some bf0)
    (outcomes : List SysOutcome) (hk : outcomes.length ≤ 65536)
    (pids : List PageId) (bf : BaseFile)
    (hrun : BaseFile.CreatePages PAGE_SIZE bf0 outcomes = some (pids, bf))
    (hok : ∀ pid ∈ pids, pid.IsValid = true) :
    pids.length = outcomes.length ∧ pids.Nodup ∧
      pids.map PageId.GetPageNum = List.range outcomes.length ∧
      (∀ pid ∈ pids, (pid.GetFileId : Int) = bf.id) ∧ bf.id = fd ∧
      bf.GetPageCount = outcomes.length ∧
      bf.bytes.length = outcomes.length * PAGE_SIZE := by
  unfold BaseFile.create at h0
  by_cases hneg : fd < 0
  · simp [hneg] at h0
  · simp only [hneg, if_false, Option.some.injEq] at h0
    subst h0
    obtain ⟨f, rfl⟩ := Int.eq_ofNat_of_zero_le (by omega : 0 ≤ fd)
    have hf : f < 4294967296 := by omega
    obtain ⟨e1, e2, e3, e4⟩ := BaseFile.CreatePages_valid PAGE_SIZE hPS f hf outcomes 0 []
      pids bf (by omega) (by simp) hrun hok
    have hmem : ∀ pid ∈ pids, ∃ c, c < outcomes.length ∧ pid = PageId.make (f : Int) c := by
      intro pid hp
      rw [e1] at hp
      obtain ⟨c, hc, rfl⟩ := List.mem_map.mp hp
      rw [List.mem_range'_1] at hc
      exact ⟨c, by omega, rfl⟩
    have hnum : pids.map PageId.GetPageNum = List.range outcomes.length := by
      rw [e1, List.map_map, List.range_eq_range']
      apply List.ext_getElem
      · simp
      · intro i h1 h2
        simp only [List.length_map, List.length_range'] at h1
        simp only [List.getElem_map, List.getElem_range', Function.comp_apply]
        rw [PageId.make_pageNum f _ hf (by omega)]
    refine ⟨by rw [e1]; simp, ?_, hnum, ?_, e2, by simpa [BaseFile.GetPageCount] using e3,
      by simpa using e4⟩
    · have hn : (pids.map PageId.GetPageNum).Nodup := by
        rw [hnum]
        exact List.nodup_range _
      exact List.Nodup.of_map _ hn
    · intro pid hp
      obtain ⟨c, hc, rfl⟩ := hmem pid hp
      rw [PageId.make_fileId f c hf (by omega), e2]

/-- Instance of C9: two pages of two bytes created in a fresh file with descriptor 3. -/
theorem C9_create_pages_witness :
    [PageId.make 3 0, PageId.make 3 1].length = 2 ∧ [PageId.make 3 0, PageId.make 3 1].Nodup ∧
      [PageId.make 3 0, PageId.make 3 1].map PageId.GetPageNum = List.range 2 ∧
      (∀ pid ∈ [PageId.make 3 0, PageId.make 3 1],
        (pid.GetFileId : Int) = (BaseFile.mk 3 2 [0, 0, 0, 0]).id) ∧
      (BaseFile.mk 3 2 [0, 0, 0, 0]).id = 3 ∧
      (BaseFile.mk 3 2 [0, 0, 0, 0]).GetPageCount = 2 ∧
      (BaseFile.mk 3 2 [0, 0, 0, 0]).bytes.length = 2 * 2 :=
  C9_create_pages 2 (by decide) 3 (by decide) (BaseFile.mk 3 0 []) (by decide)
    [⟨0, some 2⟩, ⟨0, some 2⟩] (by decide) [PageId.make 3 0, PageId.make 3 1]
    (BaseFile.mk 3 2 [0, 0, 0, 0]) (by decide) (by decide)

/-- C9 fails as stated for `k = 2^16 + 1`: with 4096-byte pages and descriptor 3,
the 65537 calls all return valid ids, but the last one carries page number 0
(the ids are not pairwise distinct, the page numbers are not `0..65536`) and
the file stays `65536 * 4096` bytes long. -/
theorem C9_counterexample :
    ∃ (pids : List PageId) (bf : BaseFile),
      (BaseFile.create 3).bind
          (fun bf0 => BaseFile.CreatePages 4096 bf0 (List.replicate 65537 ⟨0, some 4096⟩))
        = some (pids, bf) ∧
      (∀ pid ∈ pids, pid.IsValid = true) ∧
      ¬ pids.Nodup ∧
      pids.map PageId.GetPageNum ≠ List.range 65537 ∧
      bf.bytes.length ≠ 65537 * 4096 := by
  obtain ⟨pids0, bf1, hrun0, hv0⟩ :=
    BaseFile.CreatePages_full 4096 3 (by decide) 65536 0 [] (by decide)
  obtain ⟨e1, e2, e3, e4⟩ := BaseFile.CreatePages_valid 4096 (by decide) 3 (by decide)
    (List.replicate 65536 ⟨0, some 4096⟩) 0 [] pids0 bf1
    (by simp only [List.length_replicate]; decide) (by simp) hrun0
    hv0
  simp only [List.length_replicate, Nat.zero_add] at e1 e3 e4
  obtain ⟨id1, pc1, bytes1⟩ := bf1
  simp only at e2 e3 e4
  subst e2 e3
  have hlast : PageId.make ((3 : Nat) : Int) 65536 = PageId.make ((3 : Nat) : Int) 0 := by decide
  have hvl : (PageId.make ((3 : Nat) : Int) 65536).IsValid = true := by decide
  have hoffl : pageOffset 4096 (PageId.make ((3 : Nat) : Int) 65536) = 0 := by decide
  have hstep := BaseFile.CreatePage_full 4096 ((3 : Nat) : Int) 65536 bytes1 hvl
  rw [hoffl] at hstep
  refine ⟨pids0 ++ [PageId.make ((3 : Nat) : Int) 65536], ⟨((3 : Nat) : Int), (65536 + 1) % 2 ^ 32,
    pwriteBytes bytes1 (List.replicate 4096 0) 4096 0⟩, ?_, ?_, ?_, ?_, ?_⟩
  · have hsplit : List.replicate 65537 (SysOutcome.mk 0 (some 4096))
        = List.replicate 65536 (SysOutcome.mk 0 (some 4096)) ++ [SysOutcome.mk 0 (some 4096)] :=
      List.replicate_succ' 65536 _
    have hc : BaseFile.create 3 = some (BaseFile.mk ((3 : Nat) : Int) 0 []) := by decide
    rw [hc, Option.some_bind, hsplit]
    exact BaseFile.CreatePages_snoc 4096 _ _ _ _ _ _ _ hrun0 hstep
  · intro pid hp
    rcases List.mem_append.mp hp with hp | hp
    · exact hv0 pid hp
    · rw [List.mem_singleton.mp hp]
      exact hvl
  · intro hnd
    rw [List.nodup_append] at hnd
    have hmem0 : PageId.make ((3 : Nat) : Int) 0 ∈ pids0 := by
      rw [e1]
      exact List.mem_map.mpr ⟨0, by rw [List.mem_range'_1]; omega, rfl⟩
    exact hnd.2.2 hmem0 (by rw [hlast]; exact List.mem_singleton_self _)
  · intro h
    have hr : List.range 65537 = List.range 65536 ++ [65536] := List.range_succ 65536
    rw [hr, List.map_append] at h
    have := (List.append_inj' h rfl).2
    simp only [List.map_cons, List.map_nil, List.cons.injEq, and_true] at this
    rw [hlast] at this
    exact absurd this (by decide)
  · show (pwriteBytes bytes1 (List.replicate 4096 0) 4096 0).length ≠ _
    rw [pwrite_length_inside _ _ _ _ (Nat.le_of_eq (List.length_replicate _ _).symm) (by omega), e4]
    omega

/-! ## Log manager: framing and the LSN counters -/

theorem pwrite_take_before (file buf : List Nat) (n offset : Nat) (h : offset ≤ file.length) :
    (pwriteBytes file buf n offset).take offset = file.take offset := by
  unfold pwriteBytes
  have e : offset - file.length = 0 := by omega
  simp only [e, List.replicate_zero, List.append_nil, List.append_assoc]
  rw [List.take_append_of_le_length (by simp only [List.length_take]; omega)]
  rw [List.take_take, Nat.min_self]

theorem pwrite_take_through (file buf : List Nat) (n offset : Nat) (h : offset ≤ file.length)
    (hn : n ≤ buf.length) :
    (pwriteBytes file buf n offset).take (offset + n) = file.take offset ++ buf.take n := by
  unfold pwriteBytes
  have e : offset - file.length = 0 := by omega
  simp only [e, List.replicate_zero, List.append_nil]
  have hl : (file.take offset ++ buf.take n).length = offset + n := by
    simp only [List.length_append, List.length_take]
    omega
  rw [List.take_append_of_le_length (by omega), List.take_of_length_le (by omega)]

theorem pwrite_length_ge (file buf : List Nat) (n offset : Nat) :
    file.length ≤ (pwriteBytes file buf n offset).length := by
  unfold pwriteBytes
  simp only [List.length_append, List.length_take, List.length_drop, List.length_replicate]
  omega

theorem pwrite_length_through (file buf : List Nat) (n offset : Nat) (hn : n ≤ buf.length) :
    offset + n ≤ (pwriteBytes file buf n offset).length := by
  unfold pwriteBytes
  simp only [List.length_append, List.length_take, List.length_drop, List.length_replicate]
  omega

theorem frames_append (L : LogLayout) (xs ys : List LogEntry) (s : Nat) :
    frames L s (xs ++ ys) = frames L s xs ++ frames L (s + (frames L s xs).length) ys := by
  induction xs generalizing s with
  | nil => simp only [List.nil_append, frames, List.length_nil, Nat.add_zero]
  | cons x xs ih =>
    show frames L s (x :: (xs ++ ys)) = frames L s (x :: xs) ++ _
    simp only [frames, ih, List.append_assoc, List.length_append, Nat.add_assoc]

theorem frame_length (L : LogLayout) (hL : L.WellFormed) (r : LogEntry) (lsn : Nat) :
    (frame L r lsn).length = L.sizeofLogRecord + r.payload.length + L.sizeofLSN := by
  unfold frame
  simp only [List.length_append, hL.1, hL.2]

theorem LogInv.length_frames {L : LogLayout} {lm : LogManager} {recs : List LogEntry}
    (h : LogInv L lm recs) : (frames L 0 recs).length = lm.current_lsn := by
  obtain ⟨h1, h2, _, h4, h5⟩ := h
  rw [← h5, List.length_append, List.length_take, h2, h1]
  omega

theorem LogInv.durable_le {L : LogLayout} {lm : LogManager} {recs : List LogEntry}
    (h : LogInv L lm recs) : lm.durable_lsn ≤ lm.current_lsn := by
  have := h.1
  omega

theorem LogInv.of_create (L : LogLayout) (logbuf_mb : Nat) (fd : Int) (lm : LogManager)
    (h : LogManager.create logbuf_mb fd = some lm) : LogInv L lm [] := by
  unfold LogManager.create at h
  by_cases hfd : fd < 0
  · simp only [hfd, if_true] at h
    exact absurd h (by simp)
  · simp only [hfd, if_false, Option.some.injEq] at h
    subst h
    refine ⟨rfl, rfl, ?_, Nat.le_refl _, rfl⟩
    exact Nat.mod_lt _ (by decide)

/-- What `Flush` does to a state that satisfies the invariant. -/
theorem Flush_spec (L : LogLayout) (lm : LogManager) (recs : List LogEntry) (sys : SysOutcome)
    (ret : Bool) (lm' : LogManager) (h : LogInv L lm recs) (hf : lm.Flush sys = (ret, lm')) :
    LogInv L lm' recs ∧
    lm'.current_lsn = lm.current_lsn ∧
    lm'.logbuf_size = lm.logbuf_size ∧
    lm.durable_lsn ≤ lm'.durable_lsn ∧
    (ret = true → lm'.logbuf_offset = 0 ∧ lm'.durable_lsn = lm.current_lsn) ∧
    (ret = false → lm'.logbuf_offset = lm.logbuf_offset ∧
      lm'.durable_lsn = lm.durable_lsn) := by
  obtain ⟨h1, h2, h3, h4, h5⟩ := h
  unfold LogManager.Flush at hf
  by_cases h0 : lm.logbuf_offset = 0
  · rw [if_pos h0] at hf
    obtain ⟨rfl, rfl⟩ := Prod.mk.inj hf
    refine ⟨⟨h1, h2, h3, h4, h5⟩, rfl, rfl, Nat.le_refl _, fun _ => ⟨h0, ?_⟩, fun hc => ?_⟩
    · omega
    · exact absurd hc (by decide)
  · rw [if_neg h0] at hf
    cases hroom : sys.pwrite_room with
    | none =>
      rw [hroom] at hf
      obtain ⟨rfl, rfl⟩ := Prod.mk.inj hf
      exact ⟨⟨h1, h2, h3, h4, h5⟩, rfl, rfl, Nat.le_refl _, fun hc => absurd hc (by decide),
        fun _ => ⟨rfl, rfl⟩⟩
    | some room =>
      rw [hroom] at hf
      dsimp only at hf
      have hkeep : LogInv L { lm with file := (pwriteBytes lm.file lm.logbuf
          (min room lm.logbuf_offset) lm.durable_lsn) } recs := by
        refine ⟨h1, h2, h3, ?_, ?_⟩
        · exact Nat.le_trans h4 (pwrite_length_ge _ _ _ _)
        · show List.take lm.durable_lsn (pwriteBytes lm.file lm.logbuf
            (min room lm.logbuf_offset) lm.durable_lsn) ++ lm.logbuf = _
          rw [pwrite_take_before _ _ _ _ h4]
          exact h5
      by_cases hn : min room lm.logbuf_offset ≠ lm.logbuf_offset
      · rw [if_pos hn] at hf
        obtain ⟨rfl, rfl⟩ := Prod.mk.inj hf
        exact ⟨hkeep, rfl, rfl, Nat.le_refl _, fun hc => absurd hc (by decide),
          fun _ => ⟨rfl, rfl⟩⟩
      · rw [if_neg hn] at hf
        by_cases hs : sys.fsync_ret < 0
        · rw [if_pos hs] at hf
          obtain ⟨rfl, rfl⟩ := Prod.mk.inj hf
          exact ⟨hkeep, rfl, rfl, Nat.le_refl _, fun hc => absurd hc (by decide),
            fun _ => ⟨rfl, rfl⟩⟩
        · rw [if_neg hs] at hf
          obtain ⟨rfl, rfl⟩ := Prod.mk.inj hf
          have hmin : min room lm.logbuf_offset = lm.logbuf_offset := by
            by_contra hc
            exact hn hc
          refine ⟨⟨?_, rfl, h3, ?_, ?_⟩, rfl, rfl, ?_, fun _ => ⟨rfl, rfl⟩,
            fun hc => absurd hc (by decide)⟩
          · show lm.current_lsn = lm.current_lsn + 0
            omega
          · show lm.current_lsn ≤ (pwriteBytes lm.file lm.logbuf
              (min room lm.logbuf_offset) lm.durable_lsn).length
            rw [hmin, h1]
            exact pwrite_length_through _ _ _ _ (by omega)
          · show List.take lm.current_lsn (pwriteBytes lm.file lm.logbuf
              (min room lm.logbuf_offset) lm.durable_lsn) ++ [] = _
            have ht : lm.logbuf.take lm.logbuf_offset = lm.logbuf :=
              List.take_of_length_le (by omega)
            rw [hmin, h1, List.append_nil, pwrite_take_through _ _ _ _ h4 (by omega), ht]
            exact h5
          · show lm.durable_lsn ≤ lm.current_lsn
            omega

theorem logSize_exact (L : LogLayout) (length : Nat)
    (h : L.sizeofLogRecord + length + L.sizeofLSN < 4294967296) :
    logSize L length = L.sizeofLogRecord + length + L.sizeofLSN := by
  unfold logSize
  exact Nat.mod_eq_of_lt h

/-- What the shared tail of the `Log*` methods does to a state that satisfies
the invariant. -/
theorem place_spec (L : LogLayout) (hL : L.WellFormed) (lm : LogManager)
    (recs : List LogEntry) (id : Nat) (ty : LogType) (record : List Nat) (length : Nat)
    (sys : SysOutcome) (ret : Bool) (lm' : LogManager)
    (h : LogInv L lm recs) (hlen : length ≤ record.length)
    (hp : lm.place L id ty record length (logSize L length) sys = some (ret, lm')) :
    LogInv L lm' (recs ++ if ret then [⟨ty, id, record.take length⟩] else []) ∧
    lm.durable_lsn ≤ lm'.durable_lsn ∧
    lm'.logbuf_size = lm.logbuf_size ∧
    (ret = true →
      lm'.current_lsn = lm.current_lsn + (L.sizeofLogRecord + length + L.sizeofLSN)) ∧
    (ret = false → lm'.current_lsn = lm.current_lsn) := by
  unfold LogManager.place at hp
  dsimp only at hp
  cases hfl : (if decide (lm.logbuf_offset + logSize L length > lm.logbuf_size) = true
      then lm.Flush sys else (true, lm)) with
  | mk ok lm1 =>
    rw [hfl] at hp
    dsimp only at hp
    have hstep : LogInv L lm1 recs ∧ lm1.current_lsn = lm.current_lsn ∧
        lm1.logbuf_size = lm.logbuf_size ∧ lm.durable_lsn ≤ lm1.durable_lsn := by
      by_cases hc : decide (lm.logbuf_offset + logSize L length > lm.logbuf_size) = true
      · rw [if_pos hc] at hfl
        have := Flush_spec L lm recs sys ok lm1 h hfl
        exact ⟨this.1, this.2.1, this.2.2.1, this.2.2.2.1⟩
      · rw [if_neg hc] at hfl
        obtain ⟨_, rfl⟩ := Prod.mk.inj hfl
        exact ⟨h, rfl, rfl, Nat.le_refl _⟩
    obtain ⟨hinv, hcur, hsize, hdur⟩ := hstep
    cases ok with
    | false =>
      simp only [Bool.not_false, if_true, Option.some.injEq, Prod.mk.injEq] at hp
      obtain ⟨rfl, rfl⟩ := hp
      simp only [Bool.false_eq_true, if_false, List.append_nil]
      exact ⟨hinv, hdur, hsize, fun hc => absurd hc (by decide), fun _ => hcur⟩
    | true =>
      simp only [Bool.not_true, Bool.false_eq_true, if_false] at hp
      have hbytes : (L.header id ty length ++ List.take length record ++
          L.lsnBytes lm1.current_lsn).length = L.sizeofLogRecord + length + L.sizeofLSN := by
        simp only [List.length_append, hL.1, hL.2, List.length_take]
        omega
      rw [hbytes] at hp
      by_cases hov : lm1.logbuf_offset + (L.sizeofLogRecord + length + L.sizeofLSN)
          > lm1.logbuf_size
      · rw [if_pos hov] at hp
        exact absurd hp (by simp)
      · rw [if_neg hov] at hp
        simp only [Option.some.injEq, Prod.mk.injEq] at hp
        obtain ⟨rfl, rfl⟩ := hp
        obtain ⟨h1, h2, h3, h4, h5⟩ := hinv
        have hex : logSize L length = L.sizeofLogRecord + length + L.sizeofLSN :=
          logSize_exact L length (by omega)
        have hfr := LogInv.length_frames ⟨h1, h2, h3, h4, h5⟩
        have ht : lm1.logbuf.take lm1.logbuf_offset = lm1.logbuf :=
          List.take_of_length_le (by omega)
        have hpl : (List.take length record).length = length := by
          simp only [List.length_take]
          omega
        simp only [if_true]
        refine ⟨⟨?_, ?_, h3, h4, ?_⟩, hdur, hsize, fun _ => ?_, fun hc => absurd hc (by decide)⟩
        · show lm1.current_lsn + logSize L length
            = lm1.durable_lsn + (lm1.logbuf_offset + logSize L length)
          omega
        · show (lm1.logbuf.take lm1.logbuf_offset ++ (L.header id ty length ++
            List.take length record ++ L.lsnBytes lm1.current_lsn)).length
            = lm1.logbuf_offset + logSize L length
          rw [List.length_append, hbytes, ht, h2, hex]
        · show List.take lm1.durable_lsn lm1.file ++ (lm1.logbuf.take lm1.logbuf_offset ++
            (L.header id ty length ++ List.take length record ++
              L.lsnBytes lm1.current_lsn)) = _
          rw [frames_append, hfr, ← h5, ht]
          simp only [frames, frame, List.append_nil, Nat.zero_add, hpl, List.append_assoc]
        · show lm1.current_lsn + logSize L length = _
          rw [hex, hcur]

theorem LogInv.file_take {L : LogLayout} {lm : LogManager} {recs : List LogEntry}
    (h : LogInv L lm recs) (n : Nat) (hn : n ≤ lm.durable_lsn) :
    lm.file.take n = (frames L 0 recs).take n := by
  obtain ⟨_, _, _, h4, h5⟩ := h
  rw [← h5, List.take_append_of_le_length (by simp only [List.length_take]; omega),
    List.take_take, Nat.min_eq_left hn]

/-- Every call of a public method keeps the invariant, for the records extended
by the one the call appended. -/
theorem call_spec (L : LogLayout) (hL : L.WellFormed) (lm : LogManager)
    (recs : List LogEntry) (c : LogCall) (ret : Bool) (lm' : LogManager)
    (h : LogInv L lm recs) (hc : c.WellFormed) (hcall : lm.call L c = some (ret, lm')) :
    LogInv L lm' (recs ++ c.appended ret) ∧
    lm.durable_lsn ≤ lm'.durable_lsn ∧
    lm.current_lsn ≤ lm'.current_lsn ∧
    (∀ r, ret = true → c.entry = some r →
      lm'.current_lsn = lm.current_lsn + (L.sizeofLogRecord + r.payload.length + L.sizeofLSN)) := by
  have data : ∀ (rid : RID) (record : Option (List Nat)) (length : Nat) (ty : LogType)
      (sys : SysOutcome),
      (length < 4294967296 ∧ ∀ bytes, record = some bytes → length ≤ bytes.length) →
      (match record with
        | none => some (false, lm)
        | some bytes =>
          if length = 0 ∨ rid.IsValid = false then some (false, lm)
          else if logSize L length > lm.logbuf_size then some (false, lm)
          else lm.place L rid.value ty bytes length (logSize L length) sys) = some (ret, lm') →
      LogInv L lm' (recs ++ if ret then
        (match record with
          | some bytes => some (⟨ty, rid.value, bytes.take length⟩ : LogEntry)
          | none => none).toList else []) ∧
      lm.durable_lsn ≤ lm'.durable_lsn ∧
      lm.current_lsn ≤ lm'.current_lsn ∧
      (∀ r, ret = true → (match record with
          | some bytes => some (⟨ty, rid.value, bytes.take length⟩ : LogEntry)
          | none => none) = some r →
        lm'.current_lsn = lm.current_lsn +
          (L.sizeofLogRecord + r.payload.length + L.sizeofLSN)) := by
    intro rid record length ty sys hw hrun
    have same : ∀ (x : Option LogEntry), some (false, lm) = some (ret, lm') →
        LogInv L lm' (recs ++ if ret then x.toList else []) ∧
        lm.durable_lsn ≤ lm'.durable_lsn ∧ lm.current_lsn ≤ lm'.current_lsn ∧
        (∀ r, ret = true → x = some r → lm'.current_lsn = lm.current_lsn +
          (L.sizeofLogRecord + r.payload.length + L.sizeofLSN)) := by
      intro x hx
      simp only [Option.some.injEq, Prod.mk.injEq] at hx
      obtain ⟨rfl, rfl⟩ := hx
      simp only [Bool.false_eq_true, if_false, List.append_nil]
      exact ⟨h, Nat.le_refl _, Nat.le_refl _, fun _ hc => absurd hc (by decide)⟩
    cases record with
    | none => exact same _ hrun
    | some bytes =>
      dsimp only at hrun
      by_cases h1 : length = 0 ∨ rid.IsValid = false
      · rw [if_pos h1] at hrun
        exact same _ hrun
      · rw [if_neg h1] at hrun
        by_cases h2 : logSize L length > lm.logbuf_size
        · rw [if_pos h2] at hrun
          exact same _ hrun
        · rw [if_neg h2] at hrun
          have hlen := hw.2 bytes rfl
          have := place_spec L hL lm recs rid.value ty bytes length sys ret lm' h hlen hrun
          obtain ⟨p1, p2, _, p4, p5⟩ := this
          have hpl : (List.take length bytes).length = length := by
            simp only [List.length_take]
            omega
          refine ⟨?_, p2, ?_, ?_⟩
          · cases ret <;> exact p1
          · cases ret
            · rw [p5 rfl]
            · rw [p4 rfl]
              omega
          · intro r hr he
            simp only [Option.some.injEq] at he
            subst he
            rw [p4 hr, hpl]
  have ctl : ∀ (id : Nat) (ty : LogType) (sys : SysOutcome),
      lm.place L id ty [] 0 (logSize L 0) sys = some (ret, lm') →
      LogInv L lm' (recs ++ if ret then [⟨ty, id, []⟩] else []) ∧
      lm.durable_lsn ≤ lm'.durable_lsn ∧
      lm.current_lsn ≤ lm'.current_lsn ∧
      (∀ r, ret = true → some (⟨ty, id, []⟩ : LogEntry) = some r →
        lm'.current_lsn = lm.current_lsn +
          (L.sizeofLogRecord + r.payload.length + L.sizeofLSN)) := by
    intro id ty sys hrun
    have := place_spec L hL lm recs id ty [] 0 sys ret lm' h (Nat.le_refl _) hrun
    obtain ⟨p1, p2, _, p4, p5⟩ := this
    refine ⟨?_, p2, ?_, ?_⟩
    · cases ret <;> exact p1
    · cases ret
      · rw [p5 rfl]
      · rw [p4 rfl]
        omega
    · intro r hr he
      simp only [Option.some.injEq] at he
      subst he
      rw [p4 hr]
      rfl
  cases c with
  | insert rid record length sys =>
    have := data rid record length LogType.Insert sys hc hcall
    cases record <;> exact this
  | update rid record length sys =>
    have := data rid record length LogType.Update sys hc hcall
    cases record <;> exact this
  | delete rid sys =>
    have hcall : (if rid.IsValid = false then some (false, lm)
        else lm.place L rid.value LogType.Delete [] 0 (logSize L 0) sys) = some (ret, lm') := hcall
    by_cases hv : rid.IsValid = false
    · rw [if_pos hv] at hcall
      simp only [Option.some.injEq, Prod.mk.injEq] at hcall
      obtain ⟨rfl, rfl⟩ := hcall
      simp only [LogCall.appended, Bool.false_eq_true, if_false, List.append_nil]
      exact ⟨h, Nat.le_refl _, Nat.le_refl _, fun _ hc => absurd hc (by decide)⟩
    · rw [if_neg hv] at hcall
      exact ctl rid.value LogType.Delete sys hcall
  | commit tid sys => exact ctl tid LogType.Commit sys hcall
  | abort tid sys => exact ctl tid LogType.Abort sys hcall
  | finish tid sys => exact ctl tid LogType.End sys hcall
  | flush sys =>
    have hcall : some (lm.Flush sys) = some (ret, lm') := hcall
    simp only [Option.some.injEq] at hcall
    have := Flush_spec L lm recs sys ret lm' h hcall
    obtain ⟨f1, f2, _, f4, _, _⟩ := this
    simp only [LogCall.appended, LogCall.entry, Option.toList, ite_self, List.append_nil]
    refine ⟨f1, f4, ?_, fun r _ he => absurd he (by simp)⟩
    rw [f2]

/-- Every reachable state of the log manager satisfies the invariant. -/
theorem Logged.logInv {L : LogLayout} (hL : L.WellFormed) {lm : LogManager}
    {recs : List LogEntry} (h : Logged L lm recs) : LogInv L lm recs := by
  induction h with
  | create logbuf_mb fd lm hc => exact LogInv.of_create L logbuf_mb fd lm hc
  | call lm recs c ret lm' _ hw hcall ih => exact (call_spec L hL lm recs c ret lm' ih hw hcall).1

theorem sampleLayout_wf : sampleLayout.WellFormed := by
  constructor
  · intro id ty len
    simp [sampleLayout]
  · intro lsn
    simp [sampleLayout]

theorem sampleLog_logged : Logged sampleLayout sampleLog [] :=
  Logged.create 1 3 sampleLog rfl

/-- C19: in every state of the log manager reached from the constructor by
`Log*` and `Flush` calls, `durable_lsn ≤ current_lsn`; a further call (whatever
it returns) leaves a state where this holds again and decreases neither value;
and an append that returns true advances `current_lsn` by exactly
`sizeof(LogRecord)` plus the payload length plus the 8 bytes of the trailing
LSN. -/
theorem C19_lsn_counters (L : LogLayout) (hL : L.WellFormed) (hlsn : L.sizeofLSN = 8)
    (lm : LogManager) (recs : List LogEntry) (h : Logged L lm recs)
    (c : LogCall) (hc : c.WellFormed) (ret : Bool) (lm' : LogManager)
    (hcall : lm.call L c = some (ret, lm')) :
    lm.durable_lsn ≤ lm.current_lsn ∧
    lm'.durable_lsn ≤ lm'.current_lsn ∧
    lm.durable_lsn ≤ lm'.durable_lsn ∧
    lm.current_lsn ≤ lm'.current_lsn ∧
    (∀ r, ret = true → c.entry = some r →
      lm'.current_lsn = lm.current_lsn + (L.sizeofLogRecord + r.payload.length + 8)) := by
  have hinv := h.logInv hL
  obtain ⟨h1, h2, h3, h4⟩ := call_spec L hL lm recs c ret lm' hinv hc hcall
  refine ⟨hinv.durable_le, h1.durable_le, h2, h3, ?_⟩
  intro r hr he
  rw [h4 r hr he, hlsn]

theorem sampleLog1_logged :
    Logged sampleLayout sampleLog1 [⟨LogType.Insert, 1, [7, 9]⟩] :=
  Logged.call sampleLog [] (LogCall.insert ridA (some [7, 9]) 2 sysOk) true sampleLog1
    sampleLog_logged ⟨by decide, fun b hb => by
      cases hb
      decide⟩ (by decide)

theorem sampleLog2_logged :
    Logged sampleLayout sampleLog2 [⟨LogType.Insert, 1, [7, 9]⟩, ⟨LogType.Commit, 5, []⟩] :=
  Logged.call sampleLog1 _ (LogCall.commit 5 sysOk) true sampleLog2 sampleLog1_logged trivial
    (by decide)

/-- Instance of C19: `LogInsert` of a two-byte record into the fresh log
advances `current_lsn` from 0 to 13 + 2 + 8. -/
theorem C19_lsn_counters_witness :
    sampleLog.call sampleLayout (LogCall.insert ridA (some [7, 9]) 2 sysOk) =
      some (true, sampleLog1) ∧
    (sampleLog.durable_lsn ≤ sampleLog.current_lsn ∧
      sampleLog1.durable_lsn ≤ sampleLog1.current_lsn ∧
      sampleLog.durable_lsn ≤ sampleLog1.durable_lsn ∧
      sampleLog.current_lsn ≤ sampleLog1.current_lsn ∧
      ∀ r, true = true →
        (LogCall.insert ridA (some [7, 9]) 2 sysOk).entry = some r →
        sampleLog1.current_lsn = sampleLog.current_lsn + (13 + r.payload.length + 8)) :=
  ⟨by decide, C19_lsn_counters sampleLayout sampleLayout_wf rfl sampleLog [] sampleLog_logged
    (LogCall.insert ridA (some [7, 9]) 2 sysOk) ⟨by decide, fun b hb => by
      cases hb
      decide⟩ true sampleLog1 (by decide)⟩

theorem take_drop_middle (l a b c : List Nat) (n : Nat) (h : l.take n = a ++ b ++ c) :
    (l.drop a.length).take b.length = b := by
  have h1 : l = a ++ b ++ c ++ l.drop n := by
    rw [← h, List.take_append_drop]
  rw [h1]
  simp only [List.append_assoc, List.drop_left, List.take_left]

/-- C20: in every state of the log manager reached from the constructor by
`Log*` and `Flush` calls with the records `recs` appended, in that order, by
the calls that returned true, a `Flush` that returns true leaves
`durable_lsn = current_lsn` and the file bytes `[0, durable_lsn)` equal to the
concatenation of the framed records of `recs`; the framed record of each
`r` starts in the file at the byte offset that its trailing LSN holds. -/
theorem C20_log_file_content (L : LogLayout) (hL : L.WellFormed) (lm : LogManager)
    (recs : List LogEntry) (h : Logged L lm recs) (sys : SysOutcome) (lm' : LogManager)
    (hf : lm.Flush sys = (true, lm')) :
    lm'.durable_lsn = lm'.current_lsn ∧
    lm'.file.take lm'.durable_lsn = frames L 0 recs ∧
    ∀ pre r post, recs = pre ++ r :: post →
      (lm'.file.drop (frames L 0 pre).length).take
        (L.sizeofLogRecord + r.payload.length + L.sizeofLSN)
        = L.header r.id r.type r.payload.length ++ r.payload ++
          L.lsnBytes (frames L 0 pre).length := by
  have hinv := h.logInv hL
  obtain ⟨f1, f2, _, _, f5, _⟩ := Flush_spec L lm recs sys true lm' hinv hf
  obtain ⟨o, d⟩ := f5 rfl
  have hbuf : lm'.logbuf = [] := by
    have := f1.2.1
    rw [o] at this
    exact List.length_eq_zero.mp this
  have hfile : lm'.file.take lm'.durable_lsn = frames L 0 recs := by
    have := f1.2.2.2.2
    rw [hbuf, List.append_nil] at this
    exact this
  refine ⟨by rw [d, f2], hfile, ?_⟩
  intro pre r post hsplit
  have hfr : frames L 0 recs
      = frames L 0 pre ++ frame L r (frames L 0 pre).length ++
        frames L ((frames L 0 pre).length + (frame L r (frames L 0 pre).length).length) post := by
    rw [hsplit, frames_append]
    simp only [frames, Nat.zero_add, List.append_assoc]
  rw [hfr] at hfile
  have := take_drop_middle _ _ _ _ _ hfile
  rw [frame_length L hL] at this
  exact this

/-- Instance of C20: an insert and a commit record, then `Flush`. -/
theorem C20_log_file_content_witness :
    sampleLog2.Flush sysOk = (true, sampleLog3) ∧
    sampleLog3.durable_lsn = sampleLog3.current_lsn ∧
    sampleLog3.file.take sampleLog3.durable_lsn =
      frames sampleLayout 0 [⟨LogType.Insert, 1, [7, 9]⟩, ⟨LogType.Commit, 5, []⟩] ∧
    (sampleLog3.file.drop 23).take 21 =
      [3, 5, 0, 0, 0, 0, 0, 0, 0, 0, 0, 0, 0] ++ [] ++ [23, 0, 0, 0, 0, 0, 0, 0] := by
  have h := C20_log_file_content sampleLayout sampleLayout_wf sampleLog2 _ sampleLog2_logged
    sysOk sampleLog3 (by decide)
  exact ⟨by decide, h.1, h.2.1, h.2.2 [⟨LogType.Insert, 1, [7, 9]⟩] ⟨LogType.Commit, 5, []⟩ [] rfl⟩

/-! ## Transactions and the log -/

theorem ReleaseLock_log (e : Engine) (held : Option Nat) (tx : Nat) (rid : RID) (ok : Bool)
    (e' : Engine) (h : e.ReleaseLock held tx rid = some (ok, e')) : e'.log = e.log := by
  unfold Engine.ReleaseLock at h
  dsimp only at h
  cases hh : findHead e.lock_table rid.value with
  | none =>
    rw [hh] at h
    simp only [Option.some.injEq, Prod.mk.injEq] at h
    rw [← h.2]
  | some lock_head =>
    rw [hh] at h
    dsimp only at h
    by_cases hheld : held = some rid.value
    · rw [if_pos hheld] at h
      exact absurd h (by simp)
    · rw [if_neg hheld] at h
      by_cases hany : (!lock_head.requests.any (fun r => r.requester == tx)) = true
      · rw [if_pos hany] at h
        simp only [Option.some.injEq, Prod.mk.injEq] at h
        rw [← h.2]
      · rw [if_neg hany] at h
        cases hq : lock_head.requests.eraseP (fun r => r.requester == tx) with
        | nil =>
          rw [hq] at h
          simp only [Option.some.injEq, Prod.mk.injEq] at h
          rw [← h.2]
        | cons first rest =>
          rw [hq] at h
          dsimp only at h
          by_cases hx : first.mode = Mode.XL
          · rw [if_pos hx] at h
            cases hp : pushLock e.txs first.requester rid with
            | none =>
              rw [hp] at h
              exact absurd h (by simp)
            | some txs1 =>
              rw [hp] at h
              simp only [Option.some.injEq, Prod.mk.injEq] at h
              rw [← h.2]
          · rw [if_neg hx] at h
            cases hg : grantShared rid (first :: rest) e.txs with
            | none =>
              rw [hg] at h
              exact absurd h (by simp)
            | some res =>
              rw [hg] at h
              simp only [Option.some.injEq, Prod.mk.injEq] at h
              rw [← h.2]

theorem releaseAll_log (held : Option Nat) (tx : Nat) (fuel i : Nat) (b : Bool) (e : Engine)
    (ok : Bool) (e' : Engine) (h : Engine.releaseAll held tx fuel i b e = some (ok, e')) :
    e'.log = e.log := by
  induction fuel generalizing i b e with
  | zero =>
    unfold Engine.releaseAll at h
    exact absurd h (by simp)
  | succ fuel ih =>
    unfold Engine.releaseAll at h
    cases ht : e.txs[tx]? with
    | none =>
      rw [ht] at h
      exact absurd h (by simp)
    | some t =>
      rw [ht] at h
      dsimp only at h
      cases hl : t.locks[i]? with
      | none =>
        rw [hl] at h
        simp only [Option.some.injEq, Prod.mk.injEq] at h
        rw [← h.2]
      | some rid =>
        rw [hl] at h
        dsimp only at h
        cases hr : e.ReleaseLock held tx rid with
        | none =>
          rw [hr] at h
          exact absurd h (by simp)
        | some res =>
          obtain ⟨ok1, e1⟩ := res
          rw [hr] at h
          dsimp only at h
          rw [ih _ _ _ h, ReleaseLock_log e held tx rid ok1 e1 hr]

/-- The log after a `Commit` that returned true. -/
theorem Commit_log (L : LogLayout) (e : Engine) (tx : Nat) (t : Transaction)
    (ht : e.txs[tx]? = some t) (s1 s2 s3 : SysOutcome) (e' : Engine)
    (hc : e.Commit L tx s1 s2 s3 = some (true, e')) :
    ∃ lg1 lg2, e.log.LogCommit L t.timestamp s1 = some (true, lg1) ∧
      lg1.Flush s2 = (true, lg2) ∧ lg2.LogEnd L t.timestamp s3 = some (true, e'.log) := by
  unfold Engine.Commit at hc
  rw [ht] at hc
  dsimp only at hc
  by_cases hp : (!t.IsInProgress) = true
  · rw [if_pos hp] at hc
    simp at hc
  · rw [if_neg hp] at hc
    cases h1 : e.log.LogCommit L t.timestamp s1 with
    | none =>
      rw [h1] at hc
      exact absurd hc (by simp)
    | some r1 =>
      obtain ⟨ok1, lg1⟩ := r1
      rw [h1] at hc
      cases ok1 with
      | false => simp at hc
      | true =>
        dsimp only at hc
        cases h2 : lg1.Flush s2 with
        | mk ok2 lg2 =>
          rw [h2] at hc
          cases ok2 with
          | false => simp at hc
          | true =>
            dsimp only at hc
            cases h3 : lg2.LogEnd L t.timestamp s3 with
            | none =>
              rw [h3] at hc
              exact absurd hc (by simp)
            | some r3 =>
              obtain ⟨ok3, lg3⟩ := r3
              rw [h3] at hc
              cases ok3 with
              | false => simp at hc
              | true =>
                dsimp only at hc
                cases h4 : Engine.releaseAll none tx
                    (Engine.releaseFuel { e with log := lg3 } tx) 0 true
                    { e with log := lg3 } with
                | none =>
                  rw [h4] at hc
                  exact absurd hc (by simp)
                | some r4 =>
                  obtain ⟨all, e2⟩ := r4
                  rw [h4] at hc
                  simp only [Option.some.injEq, Prod.mk.injEq] at hc
                  obtain ⟨_, rfl⟩ := hc
                  have hl := releaseAll_log _ _ _ _ _ _ _ _ h4
                  refine ⟨lg1, lg2, rfl, h2, ?_⟩
                  rw [h3]
                  show some (true, lg3) = some (true, e2.log)
                  rw [hl]

/-- C17: for every state whose log manager was reached from the constructor
with the records `recs` appended, if `Commit()` of a transaction with timestamp
`ts` returns true then the log holds `recs`, then the Commit record of `ts`,
then an End record of `ts`; the framed records of `recs` and the Commit record
end at or below `durable_lsn`, and the file holds them from byte 0 on. -/
theorem C17_commit_durable (L : LogLayout) (hL : L.WellFormed) (e : Engine)
    (recs : List LogEntry) (hlog : Logged L e.log recs) (tx : Nat) (t : Transaction)
    (ht : e.txs[tx]? = some t) (s1 s2 s3 : SysOutcome) (e' : Engine)
    (hc : e.Commit L tx s1 s2 s3 = some (true, e')) :
    Logged L e'.log
      (recs ++ [⟨LogType.Commit, t.timestamp, []⟩] ++ [⟨LogType.End, t.timestamp, []⟩]) ∧
    e'.log.file.take e'.log.durable_lsn ++ e'.log.logbuf =
      frames L 0
        (recs ++ [⟨LogType.Commit, t.timestamp, []⟩] ++ [⟨LogType.End, t.timestamp, []⟩]) ∧
    (frames L 0 (recs ++ [⟨LogType.Commit, t.timestamp, []⟩])).length ≤ e'.log.durable_lsn ∧
    e'.log.file.take (frames L 0 (recs ++ [⟨LogType.Commit, t.timestamp, []⟩])).length =
      frames L 0 (recs ++ [⟨LogType.Commit, t.timestamp, []⟩]) := by
  obtain ⟨lg1, lg2, h1, h2, h3⟩ := Commit_log L e tx t ht s1 s2 s3 e' hc
  have g1 : Logged L lg1 (recs ++ [⟨LogType.Commit, t.timestamp, []⟩]) :=
    Logged.call e.log recs (LogCall.commit t.timestamp s1) true lg1 hlog trivial h1
  have g2 : Logged L lg2 (recs ++ [⟨LogType.Commit, t.timestamp, []⟩] ++ []) :=
    Logged.call lg1 _ (LogCall.flush s2) true lg2 g1 trivial (by rw [← h2]; rfl)
  rw [List.append_nil] at g2
  have g3 : Logged L e'.log
      (recs ++ [⟨LogType.Commit, t.timestamp, []⟩] ++ [⟨LogType.End, t.timestamp, []⟩]) :=
    Logged.call lg2 _ (LogCall.finish t.timestamp s3) true e'.log g2 trivial h3
  have i1 := g1.logInv hL
  have i3 := g3.logInv hL
  obtain ⟨f1, f2, _, _, f5, _⟩ := Flush_spec L lg1 _ s2 true lg2 i1 h2
  have d2 : lg2.durable_lsn = (frames L 0 (recs ++ [⟨LogType.Commit, t.timestamp, []⟩])).length := by
    rw [(f5 rfl).2, i1.length_frames]
  have d3 : lg2.durable_lsn ≤ e'.log.durable_lsn :=
    (call_spec L hL lg2 _ (LogCall.finish t.timestamp s3) true e'.log f1 trivial h3).2.1
  refine ⟨g3, i3.2.2.2.2, by omega, ?_⟩
  have hfa := frames_append L (recs ++ [(⟨LogType.Commit, t.timestamp, []⟩ : LogEntry)])
    [(⟨LogType.End, t.timestamp, []⟩ : LogEntry)] 0
  rw [i3.file_take _ (by omega), hfa, List.take_left]

/-! ## Lock queues: the shape kept by `AcquireLock` and `ReleaseLock` -/

theorem tailInv_cons (x : LockRequest) (xs : List LockRequest) :
    TailInv (x :: xs) = if x.mode = Mode.SH then TailInv xs else NoGrant (x :: xs) := rfl

theorem queueInv_cons (x : LockRequest) (xs : List LockRequest) :
    QueueInv (x :: xs) = if x.mode = Mode.SH then TailInv xs else NoGrant xs := rfl

theorem eraseP_head (p : LockRequest → Bool) (x : LockRequest) (xs : List LockRequest)
    (h : p x = true) : (x :: xs).eraseP p = xs := by
  rw [List.eraseP_cons, h]
  rfl

theorem eraseP_skip (p : LockRequest → Bool) (x : LockRequest) (xs : List LockRequest)
    (h : ¬ p x = true) : (x :: xs).eraseP p = x :: xs.eraseP p := by
  rw [List.eraseP_cons, Bool.eq_false_iff.mpr h]
  rfl

theorem NoGrant.tailInv {q : List LockRequest} (h : NoGrant q) : TailInv q := by
  induction q with
  | nil => exact trivial
  | cons x xs ih =>
    rw [tailInv_cons]
    by_cases hx : x.mode = Mode.SH
    · rw [if_pos hx]
      exact ih (fun y hy => h y (List.mem_cons_of_mem _ hy))
    · rw [if_neg hx]
      exact h

theorem TailInv.tail_rest {x : LockRequest} {xs : List LockRequest} (h : TailInv (x :: xs)) :
    TailInv xs := by
  rw [tailInv_cons] at h
  by_cases hx : x.mode = Mode.SH
  · rw [if_pos hx] at h
    exact h
  · rw [if_neg hx] at h
    exact NoGrant.tailInv (fun y hy => h y (List.mem_cons_of_mem _ hy))

theorem TailInv.queueInv {q : List LockRequest} (h : TailInv q) : QueueInv q := by
  cases q with
  | nil => exact trivial
  | cons x xs =>
    rw [tailInv_cons] at h
    rw [queueInv_cons]
    by_cases hx : x.mode = Mode.SH
    · rw [if_pos hx] at h ⊢
      exact h
    · rw [if_neg hx] at h ⊢
      exact fun y hy => h y (List.mem_cons_of_mem _ hy)

theorem QueueInv.queue_rest {x : LockRequest} {xs : List LockRequest} (h : QueueInv (x :: xs)) :
    QueueInv xs := by
  rw [queueInv_cons] at h
  by_cases hx : x.mode = Mode.SH
  · rw [if_pos hx] at h
    exact h.queueInv
  · rw [if_neg hx] at h
    exact (NoGrant.tailInv h).queueInv

theorem NoGrant.erase_noGrant {q : List LockRequest} (h : NoGrant q) (p : LockRequest → Bool) :
    NoGrant (q.eraseP p) :=
  fun y hy => h y (List.mem_of_mem_eraseP hy)

theorem TailInv.erase_tail {q : List LockRequest} (h : TailInv q) (p : LockRequest → Bool) :
    TailInv (q.eraseP p) := by
  induction q with
  | nil => exact trivial
  | cons x xs ih =>
    by_cases hp : p x = true
    · rw [eraseP_head p x xs hp]
      exact h.tail_rest
    · rw [eraseP_skip p x xs hp]
      rw [tailInv_cons] at h ⊢
      by_cases hx : x.mode = Mode.SH
      · rw [if_pos hx] at h ⊢
        exact ih h
      · rw [if_neg hx] at h ⊢
        have := NoGrant.erase_noGrant h p
        rw [eraseP_skip p x xs hp] at this
        exact this

theorem QueueInv.erase_queue {q : List LockRequest} (h : QueueInv q) (p : LockRequest → Bool) :
    QueueInv (q.eraseP p) := by
  cases q with
  | nil => exact trivial
  | cons x xs =>
    by_cases hp : p x = true
    · rw [eraseP_head p x xs hp]
      exact h.queue_rest
    · rw [eraseP_skip p x xs hp]
      rw [queueInv_cons] at h ⊢
      by_cases hx : x.mode = Mode.SH
      · rw [if_pos hx] at h ⊢
        exact h.erase_tail p
      · rw [if_neg hx] at h ⊢
        exact h.erase_noGrant p

theorem NoGrant.snoc_noGrant {q : List LockRequest} (h : NoGrant q) (m : Mode) (t : Nat) :
    NoGrant (q ++ [⟨m, t, false⟩]) := by
  intro y hy
  rcases List.mem_append.mp hy with hy | hy
  · exact h y hy
  · rw [List.mem_singleton.mp hy]

theorem TailInv.snoc_tail {q : List LockRequest} (h : TailInv q) (m : Mode) (t : Nat) :
    TailInv (q ++ [⟨m, t, false⟩]) := by
  induction q with
  | nil =>
    exact NoGrant.tailInv (fun y hy => by rw [List.mem_singleton.mp hy])
  | cons x xs ih =>
    rw [List.cons_append]
    rw [tailInv_cons] at h ⊢
    by_cases hx : x.mode = Mode.SH
    · rw [if_pos hx] at h ⊢
      exact ih h
    · rw [if_neg hx] at h ⊢
      have := NoGrant.snoc_noGrant h m t
      rw [List.cons_append] at this
      exact this

/-- Appending a request that is not granted keeps the shape. -/
theorem QueueInv.snoc_queue {q : List LockRequest} (h : QueueInv q) (m : Mode) (t : Nat) :
    QueueInv (q ++ [⟨m, t, false⟩]) := by
  cases q with
  | nil =>
    rw [List.nil_append]
    rw [queueInv_cons]
    by_cases hx : m = Mode.SH
    · rw [if_pos hx]
      exact trivial
    · rw [if_neg hx]
      exact fun y hy => absurd hy (List.not_mem_nil _)
  | cons x xs =>
    rw [List.cons_append]
    rw [queueInv_cons] at h ⊢
    by_cases hx : x.mode = Mode.SH
    · rw [if_pos hx] at h ⊢
      exact h.snoc_tail m t
    · rw [if_neg hx] at h ⊢
      exact h.snoc_noGrant m t

theorem TailInv.of_shared {q : List LockRequest} (h : ∀ x ∈ q, x.mode = Mode.SH) :
    TailInv q := by
  induction q with
  | nil => exact trivial
  | cons x xs ih =>
    rw [tailInv_cons]
    rw [if_pos (h x (List.mem_cons_self _ _))]
    exact ih (fun y hy => h y (List.mem_cons_of_mem _ hy))

/-- Appending a granted request of mode SH to a queue of requests of mode SH
keeps the shape. -/
theorem QueueInv.snoc_shared {q : List LockRequest} (h : ∀ x ∈ q, x.mode = Mode.SH) (t : Nat)
    (g : Bool) : QueueInv (q ++ [⟨Mode.SH, t, g⟩]) := by
  apply TailInv.queueInv
  apply TailInv.of_shared
  intro y hy
  rcases List.mem_append.mp hy with hy | hy
  · exact h y hy
  · rw [List.mem_singleton.mp hy]

theorem QueueInv.single (r : LockRequest) : QueueInv [r] := by
  rw [queueInv_cons]
  by_cases hx : r.mode = Mode.SH
  · rw [if_pos hx]
    exact trivial
  · rw [if_neg hx]
    exact fun y hy => absurd hy (List.not_mem_nil _)

/-- Granting the first request keeps the shape. -/
theorem QueueInv.grant_first {first : LockRequest} {rest : List LockRequest}
    (h : QueueInv (first :: rest)) : QueueInv ({ first with granted := true } :: rest) := by
  rw [queueInv_cons] at h ⊢
  exact h

theorem grantRun_nil : grantRun [] = [] := rfl

theorem grantRun_shared (x : LockRequest) (xs : List LockRequest) (h : x.mode = Mode.SH) :
    grantRun (x :: xs) = { x with granted := true } :: grantRun xs := by
  have hb : (x.mode == Mode.SH) = true := by
    rw [h]
    rfl
  unfold grantRun
  rw [List.takeWhile_cons, List.dropWhile_cons, hb]
  rfl

theorem grantRun_other (x : LockRequest) (xs : List LockRequest) (h : x.mode ≠ Mode.SH) :
    grantRun (x :: xs) = x :: xs := by
  have hb : (x.mode == Mode.SH) = false := by
    cases hm : x.mode
    · rfl
    · rfl
    · exact absurd hm h
  unfold grantRun
  rw [List.takeWhile_cons, List.dropWhile_cons, hb]
  rfl

/-- The loop over the leading requests of mode SH, as list functions. -/
theorem grantShared_requests (rid : RID) (q : List LockRequest) (txs : List Transaction)
    (q' : List LockRequest) (txs' : List Transaction)
    (h : grantShared rid q txs = some (q', txs')) : q' = grantRun q := by
  induction q generalizing txs q' txs' with
  | nil =>
    unfold grantShared at h
    simp only [Option.some.injEq, Prod.mk.injEq] at h
    rw [← h.1]
    rfl
  | cons x xs ih =>
    unfold grantShared at h
    by_cases hx : x.mode = Mode.SH
    · rw [if_pos hx] at h
      cases hp : pushLock txs x.requester rid with
      | none =>
        rw [hp] at h
        exact absurd h (by simp)
      | some txs1 =>
        rw [hp] at h
        dsimp only at h
        cases hg : grantShared rid xs txs1 with
        | none =>
          rw [hg] at h
          exact absurd h (by simp)
        | some res =>
          obtain ⟨rest', txs2⟩ := res
          rw [hg] at h
          simp only [Option.some.injEq, Prod.mk.injEq] at h
          rw [← h.1, grantRun_shared x xs hx, ih txs1 rest' txs2 hg]
    · rw [if_neg hx] at h
      simp only [Option.some.injEq, Prod.mk.injEq] at h
      rw [← h.1, grantRun_other x xs hx]

theorem TailInv.grant_tail {q : List LockRequest} (h : TailInv q) : TailInv (grantRun q) := by
  induction q with
  | nil => exact trivial
  | cons x xs ih =>
    by_cases hx : x.mode = Mode.SH
    · rw [grantRun_shared x xs hx, tailInv_cons, if_pos hx]
      exact ih h.tail_rest
    · rw [grantRun_other x xs hx]
      exact h

/-- Granting the leading requests of mode SH keeps the shape. -/
theorem QueueInv.grant_queue {q : List LockRequest} (h : QueueInv q) :
    QueueInv (grantRun q) := by
  cases q with
  | nil => exact trivial
  | cons x xs =>
    by_cases hx : x.mode = Mode.SH
    · have ht : TailInv (x :: xs) := by
        rw [queueInv_cons, if_pos hx] at h
        rw [tailInv_cons, if_pos hx]
        exact h
      exact ht.grant_tail.queueInv
    · rw [grantRun_other x xs hx]
      exact h

/-- The head that the specification of `release_lock` describes keeps the shape. -/
theorem QueueInv.release {q : List LockRequest} (h : QueueInv q) (tx : Nat) :
    QueueInv (releaseLockSpec q tx).requests := by
  unfold releaseLockSpec
  have he := h.erase_queue (fun r => r.requester == tx)
  cases hq : q.eraseP (fun r => r.requester == tx) with
  | nil => exact trivial
  | cons first rest =>
    rw [hq] at he
    dsimp only
    by_cases hx : first.mode = Mode.XL
    · rw [if_pos hx]
      exact he.grant_first
    · rw [if_neg hx]
      exact he.grant_queue

theorem TailInv.granted_shared {q : List LockRequest} (h : TailInv q) (x : LockRequest)
    (hx : x ∈ q) (hg : x.granted = true) : x.mode = Mode.SH := by
  induction q with
  | nil => exact absurd hx (List.not_mem_nil _)
  | cons y ys ih =>
    rw [tailInv_cons] at h
    by_cases hy : y.mode = Mode.SH
    · rw [if_pos hy] at h
      rcases List.mem_cons.mp hx with rfl | hx
      · exact hy
      · exact ih h hx
    · rw [if_neg hy] at h
      have := h x hx
      rw [hg] at this
      exact absurd this (by decide)

/-- In a queue of the kept shape, a granted request that is not of mode SH is
the only granted request. -/
theorem QueueInv.alone {q : List LockRequest} (h : QueueInv q) (pre post : List LockRequest)
    (r : LockRequest) (hq : q = pre ++ r :: post) (hg : r.granted = true)
    (hm : r.mode ≠ Mode.SH) : ∀ x ∈ pre ++ post, x.granted = false := by
  subst hq
  cases pre with
  | nil =>
    rw [List.nil_append] at h ⊢
    rw [queueInv_cons] at h
    rw [if_neg hm] at h
    exact h
  | cons p pre =>
    rw [List.cons_append] at h
    rw [queueInv_cons] at h
    have hr : r ∈ pre ++ r :: post := List.mem_append_right _ (List.mem_cons_self _ _)
    by_cases hp : p.mode = Mode.SH
    · rw [if_pos hp] at h
      exact absurd (h.granted_shared r hr hg) hm
    · rw [if_neg hp] at h
      have := h r hr
      rw [hg] at this
      exact absurd this (by decide)

/-! ## Lock table: what `ReleaseLock`, `Commit` and `Abort` do to it -/

theorem findHead_mem (table : List (Nat × LockHead)) (k : Nat) (h : LockHead)
    (hf : findHead table k = some h) : (k, h) ∈ table := by
  unfold findHead at hf
  cases hp : table.find? (fun p => p.1 == k) with
  | none =>
    rw [hp] at hf
    exact absurd hf (by simp)
  | some p =>
    rw [hp] at hf
    simp only [Option.map_some', Option.some.injEq] at hf
    have h1 := List.find?_some hp
    have h2 := List.mem_of_find?_eq_some hp
    have h3 : p.1 = k := by simpa using h1
    have h4 : p = (k, h) := by
      rw [← h3, ← hf]
    rw [← h4]
    exact h2

theorem findHead_none (table : List (Nat × LockHead)) (k : Nat)
    (hf : findHead table k = none) : ∀ p ∈ table, p.1 ≠ k := by
  unfold findHead at hf
  intro p hp hk
  cases hq : table.find? (fun p => p.1 == k) with
  | none =>
    have := List.find?_eq_none.mp hq p hp
    simp only [hk, beq_self_eq_true, not_true_eq_false] at this
  | some q =>
    rw [hq] at hf
    exact absurd hf (by simp)

theorem findHead_setHead (table : List (Nat × LockHead)) (k : Nat) (h0 h : LockHead)
    (hf : findHead table k = some h0) : findHead (setHead table k h) k = some h := by
  induction table with
  | nil => exact absurd hf (by simp [findHead])
  | cons p ps ih =>
    unfold findHead setHead at *
    rw [List.map_cons, List.find?_cons]
    by_cases hk : p.1 = k
    · simp only [hk, if_true, beq_self_eq_true, Option.map_some']
    · have hb : (p.1 == k) = false := beq_false_of_ne hk
      rw [List.find?_cons, hb] at hf
      simp only [hk, if_false, hb]
      exact ih hf

theorem findHead_setHead_other (table : List (Nat × LockHead)) (k k' : Nat) (h : LockHead)
    (hk : k' ≠ k) : findHead (setHead table k h) k' = findHead table k' := by
  induction table with
  | nil => rfl
  | cons p ps ih =>
    unfold findHead setHead at *
    rw [List.map_cons, List.find?_cons, List.find?_cons]
    by_cases hp : p.1 = k
    · have hb : (p.1 == k') = false := beq_false_of_ne (by rw [hp]; exact fun hc => hk hc.symm)
      simp only [hp, if_true, hb]
      have hb2 : (k == k') = false := beq_false_of_ne (fun hc => hk hc.symm)
      simp only [hb2]
      exact ih
    · simp only [hp, if_false]
      cases hb : (p.1 == k')
      · exact ih
      · rfl

theorem TableInv.set_head {table : List (Nat × LockHead)} (ht : TableInv table) (k : Nat)
    (h : LockHead) (hq : QueueInv h.requests) : TableInv (setHead table k h) := by
  intro p hp
  unfold setHead at hp
  obtain ⟨p0, hp0, rfl⟩ := List.mem_map.mp hp
  by_cases hk : p0.1 = k
  · rw [if_pos hk]
    exact hq
  · rw [if_neg hk]
    exact ht p0 hp0

theorem TableInv.find {table : List (Nat × LockHead)} (ht : TableInv table) (k : Nat)
    (h : LockHead) (hf : findHead table k = some h) : QueueInv h.requests :=
  ht (k, h) (findHead_mem table k h hf)

theorem pushLock_length (txs : List Transaction) (t : Nat) (rid : RID) (txs' : List Transaction)
    (h : pushLock txs t rid = some txs') : txs'.length = txs.length := by
  unfold pushLock at h
  cases hx : txs[t]? with
  | none =>
    rw [hx] at h
    exact absurd h (by simp)
  | some x =>
    rw [hx] at h
    simp only [Option.some.injEq] at h
    rw [← h, List.length_set]

theorem pushLock_some (txs : List Transaction) (t : Nat) (rid : RID) (ht : t < txs.length) :
    ∃ txs', pushLock txs t rid = some txs' := by
  unfold pushLock
  rw [List.getElem?_eq_getElem ht]
  exact ⟨_, rfl⟩

theorem grantShared_length (rid : RID) (q : List LockRequest) (txs : List Transaction)
    (q' : List LockRequest) (txs' : List Transaction)
    (h : grantShared rid q txs = some (q', txs')) : txs'.length = txs.length := by
  induction q generalizing txs q' txs' with
  | nil =>
    unfold grantShared at h
    simp only [Option.some.injEq, Prod.mk.injEq] at h
    rw [← h.2]
  | cons x xs ih =>
    unfold grantShared at h
    by_cases hx : x.mode = Mode.SH
    · rw [if_pos hx] at h
      cases hp : pushLock txs x.requester rid with
      | none =>
        rw [hp] at h
        exact absurd h (by simp)
      | some txs1 =>
        rw [hp] at h
        dsimp only at h
        cases hg : grantShared rid xs txs1 with
        | none =>
          rw [hg] at h
          exact absurd h (by simp)
        | some res =>
          obtain ⟨rest', txs2⟩ := res
          rw [hg] at h
          simp only [Option.some.injEq, Prod.mk.injEq] at h
          rw [← h.2, ih txs1 rest' txs2 hg, pushLock_length txs _ rid txs1 hp]
    · rw [if_neg hx] at h
      simp only [Option.some.injEq, Prod.mk.injEq] at h
      rw [← h.2]

theorem grantShared_some (rid : RID) (q : List LockRequest) (txs : List Transaction)
    (hv : ∀ r ∈ q, r.requester < txs.length) :
    ∃ q' txs', grantShared rid q txs = some (q', txs') := by
  induction q generalizing txs with
  | nil => exact ⟨_, _, rfl⟩
  | cons x xs ih =>
    unfold grantShared
    by_cases hx : x.mode = Mode.SH
    · rw [if_pos hx]
      obtain ⟨txs1, h1⟩ := pushLock_some txs x.requester rid (hv x (List.mem_cons_self _ _))
      rw [h1]
      dsimp only
      obtain ⟨q', txs2, h2⟩ := ih txs1 (fun r hr => by
        rw [pushLock_length txs _ rid txs1 h1]
        exact hv r (List.mem_cons_of_mem _ hr))
      rw [h2]
      exact ⟨_, _, rfl⟩
    · rw [if_neg hx]
      exact ⟨_, _, rfl⟩

/-- The two ways in which `ReleaseLock` returns: false with the state as it
was, when there is no lock head or no request of `tx`; true with the head that
the specification describes. -/
theorem ReleaseLock_spec (e : Engine) (held : Option Nat) (tx : Nat) (rid : RID) (ok : Bool)
    (e' : Engine) (h : e.ReleaseLock held tx rid = some (ok, e')) :
    (ok = false ∧ e' = e ∧ (findHead e.lock_table rid.value = none ∨
      ∃ hd, findHead e.lock_table rid.value = some hd ∧
        hd.requests.any (fun r => r.requester == tx) = false)) ∨
    (ok = true ∧ ∃ hd txs', findHead e.lock_table rid.value = some hd ∧
      hd.requests.any (fun r => r.requester == tx) = true ∧
      txs'.length = e.txs.length ∧
      e' = { e with
        txs := txs'
        lock_table := setHead e.lock_table rid.value (releaseLockSpec hd.requests tx) }) := by
  unfold Engine.ReleaseLock at h
  dsimp only at h
  cases hh : findHead e.lock_table rid.value with
  | none =>
    rw [hh] at h
    simp only [Option.some.injEq, Prod.mk.injEq] at h
    exact Or.inl ⟨h.1.symm, h.2.symm, Or.inl rfl⟩
  | some lock_head =>
    rw [hh] at h
    dsimp only at h
    by_cases hheld : held = some rid.value
    · rw [if_pos hheld] at h
      exact absurd h (by simp)
    · rw [if_neg hheld] at h
      cases hany : lock_head.requests.any (fun r => r.requester == tx) with
      | false =>
        rw [hany] at h
        simp only [Bool.not_false, if_true, Option.some.injEq, Prod.mk.injEq] at h
        exact Or.inl ⟨h.1.symm, h.2.symm, Or.inr ⟨lock_head, rfl, hany⟩⟩
      | true =>
        rw [hany] at h
        simp only [Bool.not_true, Bool.false_eq_true, if_false] at h
        right
        cases hq : lock_head.requests.eraseP (fun r => r.requester == tx) with
        | nil =>
          rw [hq] at h
          simp only [Option.some.injEq, Prod.mk.injEq] at h
          refine ⟨h.1.symm, lock_head, e.txs, rfl, hany, rfl, ?_⟩
          rw [← h.2]
          unfold releaseLockSpec
          rw [hq]
        | cons first rest =>
          rw [hq] at h
          dsimp only at h
          by_cases hx : first.mode = Mode.XL
          · rw [if_pos hx] at h
            cases hp : pushLock e.txs first.requester rid with
            | none =>
              rw [hp] at h
              exact absurd h (by simp)
            | some txs1 =>
              rw [hp] at h
              simp only [Option.some.injEq, Prod.mk.injEq] at h
              refine ⟨h.1.symm, lock_head, txs1, rfl, hany,
                pushLock_length _ _ _ _ hp, ?_⟩
              rw [← h.2]
              unfold releaseLockSpec
              rw [hq]
              dsimp only
              rw [if_pos hx]
          · rw [if_neg hx] at h
            cases hg : grantShared rid (first :: rest) e.txs with
            | none =>
              rw [hg] at h
              exact absurd h (by simp)
            | some res =>
              obtain ⟨requests, txs1⟩ := res
              rw [hg] at h
              simp only [Option.some.injEq, Prod.mk.injEq] at h
              refine ⟨h.1.symm, lock_head, txs1, rfl, hany,
                grantShared_length _ _ _ _ _ hg, ?_⟩
              rw [← h.2]
              unfold releaseLockSpec
              rw [hq]
              dsimp only
              rw [if_neg hx, grantShared_requests _ _ _ _ _ hg]

theorem ReleaseLock_table (e : Engine) (held : Option Nat) (tx : Nat) (rid : RID) (ok : Bool)
    (e' : Engine) (h : e.ReleaseLock held tx rid = some (ok, e'))
    (ht : TableInv e.lock_table) : TableInv e'.lock_table := by
  rcases ReleaseLock_spec e held tx rid ok e' h with ⟨_, rfl, _⟩ | ⟨_, hd, txs', hf, _, _, rfl⟩
  · exact ht
  · exact ht.set_head _ _ ((ht.find _ _ hf).release tx)

/-- A property of lock tables that `ReleaseLock` keeps is kept by the loop over
the lock list. -/
theorem releaseAll_keeps (P : List (Nat × LockHead) → Prop)
    (hP : ∀ e held tx rid ok e', Engine.ReleaseLock e held tx rid = some (ok, e') →
      P e.lock_table → P e'.lock_table)
    (held : Option Nat) (tx : Nat) (fuel i : Nat) (b : Bool) (e : Engine)
    (ok : Bool) (e' : Engine) (h : Engine.releaseAll held tx fuel i b e = some (ok, e'))
    (he : P e.lock_table) : P e'.lock_table := by
  induction fuel generalizing i b e with
  | zero =>
    unfold Engine.releaseAll at h
    exact absurd h (by simp)
  | succ fuel ih =>
    unfold Engine.releaseAll at h
    cases ht : e.txs[tx]? with
    | none =>
      rw [ht] at h
      exact absurd h (by simp)
    | some t =>
      rw [ht] at h
      dsimp only at h
      cases hl : t.locks[i]? with
      | none =>
        rw [hl] at h
        simp only [Option.some.injEq, Prod.mk.injEq] at h
        rw [← h.2]
        exact he
      | some rid =>
        rw [hl] at h
        dsimp only at h
        cases hr : e.ReleaseLock held tx rid with
        | none =>
          rw [hr] at h
          exact absurd h (by simp)
        | some res =>
          obtain ⟨ok1, e1⟩ := res
          rw [hr] at h
          dsimp only at h
          exact ih _ _ _ h (hP e held tx rid ok1 e1 hr he)

/-- The lock table after `Abort`: the one before, or the one that the loop
over the lock list leaves. -/
theorem Abort_table (L : LogLayout) (e : Engine) (held : Option Nat) (tx : Nat)
    (s1 s2 s3 : SysOutcome) (r : Nat) (e' : Engine)
    (h : e.Abort L held tx s1 s2 s3 = some (r, e')) :
    e'.lock_table = e.lock_table ∨
    ∃ lg fuel b e2, Engine.releaseAll held tx fuel 0 true { e with log := lg } = some (b, e2) ∧
      e'.lock_table = e2.lock_table := by
  unfold Engine.Abort at h
  cases ht : e.txs[tx]? with
  | none =>
    rw [ht] at h
    exact absurd h (by simp)
  | some t =>
    rw [ht] at h
    dsimp only at h
    by_cases hp : (!t.IsInProgress) = true
    · rw [if_pos hp] at h
      simp only [Option.some.injEq, Prod.mk.injEq] at h
      rw [← h.2]
      exact Or.inl rfl
    · rw [if_neg hp] at h
      cases h1 : e.log.LogAbort L t.timestamp s1 with
      | none =>
        rw [h1] at h
        exact absurd h (by simp)
      | some r1 =>
        obtain ⟨ok1, lg1⟩ := r1
        rw [h1] at h
        cases ok1 with
        | false =>
          simp only [Option.some.injEq, Prod.mk.injEq] at h
          rw [← h.2]
          exact Or.inl rfl
        | true =>
          dsimp only at h
          cases h2 : lg1.Flush s2 with
          | mk ok2 lg2 =>
            rw [h2] at h
            cases ok2 with
            | false =>
              simp only [Option.some.injEq, Prod.mk.injEq] at h
              rw [← h.2]
              exact Or.inl rfl
            | true =>
              dsimp only at h
              cases h3 : lg2.LogEnd L t.timestamp s3 with
              | none =>
                rw [h3] at h
                exact absurd h (by simp)
              | some r3 =>
                obtain ⟨ok3, lg3⟩ := r3
                rw [h3] at h
                cases ok3 with
                | false =>
                  simp only [Option.some.injEq, Prod.mk.injEq] at h
                  rw [← h.2]
                  exact Or.inl rfl
                | true =>
                  dsimp only at h
                  cases h4 : Engine.releaseAll held tx
                      (Engine.releaseFuel { e with log := lg3 } tx) 0 true
                      { e with log := lg3 } with
                  | none =>
                    rw [h4] at h
                    exact absurd h (by simp)
                  | some r4 =>
                    obtain ⟨all, e2⟩ := r4
                    rw [h4] at h
                    simp only [Option.some.injEq, Prod.mk.injEq] at h
                    rw [← h.2]
                    exact Or.inr ⟨lg3, _, all, e2, h4, rfl⟩

/-- The lock table after `Commit`: the one before, or the one that the loop
over the lock list leaves. -/
theorem Commit_table (L : LogLayout) (e : Engine) (tx : Nat)
    (s1 s2 s3 : SysOutcome) (r : Bool) (e' : Engine)
    (h : e.Commit L tx s1 s2 s3 = some (r, e')) :
    e'.lock_table = e.lock_table ∨
    ∃ lg fuel b e2, Engine.releaseAll none tx fuel 0 true { e with log := lg } = some (b, e2) ∧
      e'.lock_table = e2.lock_table := by
  unfold Engine.Commit at h
  cases ht : e.txs[tx]? with
  | none =>
    rw [ht] at h
    exact absurd h (by simp)
  | some t =>
    rw [ht] at h
    dsimp only at h
    by_cases hp : (!t.IsInProgress) = true
    · rw [if_pos hp] at h
      simp only [Option.some.injEq, Prod.mk.injEq] at h
      rw [← h.2]
      exact Or.inl rfl
    · rw [if_neg hp] at h
      cases h1 : e.log.LogCommit L t.timestamp s1 with
      | none =>
        rw [h1] at h
        exact absurd h (by simp)
      | some r1 =>
        obtain ⟨ok1, lg1⟩ := r1
        rw [h1] at h
        cases ok1 with
        | false =>
          simp only [Option.some.injEq, Prod.mk.injEq] at h
          rw [← h.2]
          exact Or.inl rfl
        | true =>
          dsimp only at h
          cases h2 : lg1.Flush s2 with
          | mk ok2 lg2 =>
            rw [h2] at h
            cases ok2 with
            | false =>
              simp only [Option.some.injEq, Prod.mk.injEq] at h
              rw [← h.2]
              exact Or.inl rfl
            | true =>
              dsimp only at h
              cases h3 : lg2.LogEnd L t.timestamp s3 with
              | none =>
                rw [h3] at h
                exact absurd h (by simp)
              | some r3 =>
                obtain ⟨ok3, lg3⟩ := r3
                rw [h3] at h
                cases ok3 with
                | false =>
                  simp only [Option.some.injEq, Prod.mk.injEq] at h
                  rw [← h.2]
                  exact Or.inl rfl
                | true =>
                  dsimp only at h
                  cases h4 : Engine.releaseAll none tx
                      (Engine.releaseFuel { e with log := lg3 } tx) 0 true
                      { e with log := lg3 } with
                  | none =>
                    rw [h4] at h
                    exact absurd h (by simp)
                  | some r4 =>
                    obtain ⟨all, e2⟩ := r4
                    rw [h4] at h
                    simp only [Option.some.injEq, Prod.mk.injEq] at h
                    rw [← h.2]
                    exact Or.inr ⟨lg3, _, all, e2, h4, rfl⟩

/-! ## Lock table: `AcquireLock` and the reachable states -/

theorem findHead_append_new (table : List (Nat × LockHead)) (k : Nat) (h : LockHead)
    (hf : findHead table k = none) : findHead (table ++ [(k, h)]) k = some h := by
  induction table with
  | nil => simp [findHead]
  | cons p ps ih =>
    unfold findHead at *
    rw [List.cons_append, List.find?_cons]
    rw [List.find?_cons] at hf
    cases hb : (p.1 == k) with
    | true =>
      rw [hb] at hf
      exact absurd hf (by simp)
    | false =>
      rw [hb] at hf
      exact ih hf

theorem findHead_append_other (table : List (Nat × LockHead)) (k k' : Nat) (h : LockHead)
    (hk : k' ≠ k) : findHead (table ++ [(k, h)]) k' = findHead table k' := by
  induction table with
  | nil =>
    have hb : (k == k') = false := beq_false_of_ne (fun hc => hk hc.symm)
    simp [findHead, hb]
  | cons p ps ih =>
    unfold findHead at *
    rw [List.cons_append, List.find?_cons, List.find?_cons]
    cases hb : (p.1 == k') with
    | true => rfl
    | false => exact ih

/-- The lock head and the state that lines 41-45 of `AcquireLock` yield. -/
theorem findOrEmplace_spec (e : Engine) (rvalue : Nat) :
    findHead (e.findOrEmplace rvalue).2.lock_table rvalue = some (e.findOrEmplace rvalue).1 ∧
    (e.findOrEmplace rvalue).2.txs = e.txs ∧
    (e.findOrEmplace rvalue).2.log = e.log ∧
    (e.findOrEmplace rvalue).2.active_transactions = e.active_transactions ∧
    (e.findOrEmplace rvalue).2.ts_counter = e.ts_counter ∧
    (findHead e.lock_table rvalue = some (e.findOrEmplace rvalue).1 ∨
      (findHead e.lock_table rvalue = none ∧ (e.findOrEmplace rvalue).1 = ⟨Mode.NL, []⟩)) ∧
    (TableInv e.lock_table → TableInv (e.findOrEmplace rvalue).2.lock_table) := by
  unfold Engine.findOrEmplace
  cases hf : findHead e.lock_table rvalue with
  | some h => exact ⟨hf, rfl, rfl, rfl, rfl, Or.inl rfl, fun ht => ht⟩
  | none =>
    refine ⟨findHead_append_new _ _ _ hf, rfl, rfl, rfl, rfl, Or.inr ⟨rfl, rfl⟩, ?_⟩
    intro ht p hp
    rcases List.mem_append.mp hp with hp | hp
    · exact ht p hp
    · rw [List.mem_singleton.mp hp]
      exact trivial

theorem setState_table (e : Engine) (t v : Nat) : (e.setState t v).lock_table = e.lock_table :=
  rfl

/-- `AcquireLock` keeps the shape of every queue. -/
theorem AcquireLock_table (L : LogLayout) (e : Engine) (tx : Nat) (rid : RID) (mode : Mode)
    (try_lock : Bool) (s1 s2 s3 : SysOutcome) (o : Outcome) (e' : Engine)
    (h : e.AcquireLock L tx rid mode try_lock s1 s2 s3 = some (o, e'))
    (ht : TableInv e.lock_table) : TableInv e'.lock_table := by
  unfold Engine.AcquireLock at h
  by_cases hv : (!rid.IsValid) = true
  · rw [if_pos hv] at h
    simp only [Option.some.injEq, Prod.mk.injEq] at h
    rw [← h.2]
    exact ht
  · rw [if_neg hv] at h
    dsimp only at h
    obtain ⟨hfind, _, _, _, _, _, hinv⟩ := findOrEmplace_spec e rid.value
    have ht1 := hinv ht
    have hq := ht1.find _ _ hfind
    generalize (e.findOrEmplace rid.value).1 = lock_head at h hfind hq
    generalize (e.findOrEmplace rid.value).2 = e1 at h hfind ht1
    by_cases h1 : (try_lock && !lock_head.requests.isEmpty) = true
    · rw [if_pos h1] at h
      simp only [Option.some.injEq, Prod.mk.injEq] at h
      rw [← h.2]
      exact ht1
    · rw [if_neg h1] at h
      by_cases h2 : lock_head.requests.any (fun req => req.requester == tx && req.mode == mode)
          = true
      · rw [if_pos h2] at h
        simp only [Option.some.injEq, Prod.mk.injEq] at h
        rw [← h.2]
        exact ht1
      · rw [if_neg h2] at h
        cases hm : mustAbort e1.txs tx mode lock_head.requests with
        | none =>
          rw [hm] at h
          exact absurd h (by simp)
        | some b =>
          rw [hm] at h
          cases b with
          | true =>
            dsimp only at h
            cases ha : e1.Abort L (some rid.value) tx s1 s2 s3 with
            | none =>
              rw [ha] at h
              exact absurd h (by simp)
            | some res =>
              obtain ⟨r, e2⟩ := res
              rw [ha] at h
              simp only [Option.some.injEq, Prod.mk.injEq] at h
              rw [← h.2]
              rcases Abort_table L e1 _ tx s1 s2 s3 r e2 ha with hs | ⟨lg, fuel, b, e3, hr, hs⟩
              · rw [hs]
                exact ht1
              · rw [hs]
                exact releaseAll_keeps TableInv ReleaseLock_table _ _ _ _ _ _ _ _ hr ht1
          | false =>
            dsimp only at h
            by_cases hg : (lock_head.requests.isEmpty ||
                (mode == Mode.SH && lock_head.requests.all (fun r => r.mode == Mode.SH))) = true
            · rw [if_pos hg] at h
              cases hp : pushLock e1.txs tx rid with
              | none =>
                rw [hp] at h
                exact absurd h (by simp)
              | some txs1 =>
                rw [hp] at h
                simp only [Option.some.injEq, Prod.mk.injEq] at h
                rw [← h.2]
                apply ht1.set_head
                rw [hg]
                rcases Bool.or_eq_true _ _ |>.mp hg with he | hs
                · have : lock_head.requests = [] := List.isEmpty_iff.mp he
                  rw [this, List.nil_append]
                  exact QueueInv.single _
                · obtain ⟨hs1, hs2⟩ := Bool.and_eq_true _ _ |>.mp hs
                  have hmode : mode = Mode.SH := by simpa using hs1
                  subst hmode
                  apply QueueInv.snoc_shared
                  intro x hx
                  have := List.all_eq_true.mp hs2 x hx
                  simpa using this
            · rw [if_neg hg] at h
              have hgf : (lock_head.requests.isEmpty ||
                (mode == Mode.SH && lock_head.requests.all (fun r => r.mode == Mode.SH))) = false :=
                Bool.eq_false_iff.mpr hg
              have hnew : TableInv (setHead e1.lock_table rid.value
                  ⟨lock_head.current_mode, lock_head.requests ++ [⟨mode, tx, false⟩]⟩) :=
                ht1.set_head _ _ (hq.snoc_queue mode tx)
              rw [hgf] at h
              by_cases hw : waitDone (lock_head.requests ++ [⟨mode, tx, false⟩]) tx = true
              · rw [if_pos hw] at h
                simp only [Option.some.injEq, Prod.mk.injEq] at h
                rw [← h.2]
                exact hnew
              · rw [if_neg hw] at h
                simp only [Option.some.injEq, Prod.mk.injEq] at h
                rw [← h.2]
                exact hnew

/-- Every call keeps the shape of every queue. -/
theorem call_table (L : LogLayout) (e : Engine) (c : Call) (o : Outcome) (e' : Engine)
    (h : e.call L c = some (o, e')) (ht : TableInv e.lock_table) : TableInv e'.lock_table := by
  cases c with
  | begin =>
    have h : some (Outcome.val e.newTransaction.1, e.newTransaction.2) = some (o, e') := h
    simp only [Option.some.injEq, Prod.mk.injEq] at h
    rw [← h.2]
    exact ht
  | acquire tx rid mode try_lock s1 s2 s3 =>
    exact AcquireLock_table L e tx rid mode try_lock s1 s2 s3 o e' h ht
  | release tx rid =>
    have h : (e.ReleaseLock none tx rid).map (fun r => (Outcome.ret r.1, r.2)) = some (o, e') := h
    cases hr : e.ReleaseLock none tx rid with
    | none =>
      rw [hr] at h
      exact absurd h (by simp)
    | some res =>
      rw [hr] at h
      simp only [Option.map_some', Option.some.injEq, Prod.mk.injEq] at h
      rw [← h.2]
      exact ReleaseLock_table e none tx rid res.1 res.2 hr ht
  | commit tx s1 s2 s3 =>
    have h : (e.Commit L tx s1 s2 s3).map (fun r => (Outcome.ret r.1, r.2)) = some (o, e') := h
    cases hr : e.Commit L tx s1 s2 s3 with
    | none =>
      rw [hr] at h
      exact absurd h (by simp)
    | some res =>
      rw [hr] at h
      simp only [Option.map_some', Option.some.injEq, Prod.mk.injEq] at h
      rw [← h.2]
      rcases Commit_table L e tx s1 s2 s3 res.1 res.2 hr with hs | ⟨lg, fuel, b, e3, hl, hs⟩
      · rw [hs]
        exact ht
      · rw [hs]
        exact releaseAll_keeps TableInv ReleaseLock_table _ _ _ _ _ _ _ _ hl ht
  | abort tx s1 s2 s3 =>
    have h : (e.Abort L none tx s1 s2 s3).map (fun r => (Outcome.val r.1, r.2)) = some (o, e') := h
    cases hr : e.Abort L none tx s1 s2 s3 with
    | none =>
      rw [hr] at h
      exact absurd h (by simp)
    | some res =>
      rw [hr] at h
      simp only [Option.map_some', Option.some.injEq, Prod.mk.injEq] at h
      rw [← h.2]
      rcases Abort_table L e none tx s1 s2 s3 res.1 res.2 hr with hs | ⟨lg, fuel, b, e3, hl, hs⟩
      · rw [hs]
        exact ht
      · rw [hs]
        exact releaseAll_keeps TableInv ReleaseLock_table _ _ _ _ _ _ _ _ hl ht
  | log c =>
    have h : (e.log.call L c).map (fun r => (Outcome.ret r.1, { e with log := r.2 }))
        = some (o, e') := h
    cases hr : e.log.call L c with
    | none =>
      rw [hr] at h
      exact absurd h (by simp)
    | some res =>
      rw [hr] at h
      simp only [Option.map_some', Option.some.injEq, Prod.mk.injEq] at h
      rw [← h.2]
      exact ht

/-- Every queue of a reachable state has the kept shape. -/
theorem Engine.Reachable.table {L : LogLayout} {e : Engine} (h : Engine.Reachable L e) :
    TableInv e.lock_table := by
  induction h with
  | start lg => exact fun p hp => absurd hp (List.not_mem_nil _)
  | call e c o e' _ hc ih => exact call_table L e c o e' hc ih

/-- C11: in every state reached from start-up by `AcquireLock`, `ReleaseLock`,
`Commit` and `Abort` calls (and constructions of transactions), in every lock
head, a granted request of mode XL is the only granted request of the queue. -/
theorem C11_exclusive_alone (L : LogLayout) (e : Engine) (h : Engine.Reachable L e)
    (rvalue : Nat) (head : LockHead) (hh : (rvalue, head) ∈ e.lock_table)
    (pre post : List LockRequest) (r : LockRequest) (hq : head.requests = pre ++ r :: post)
    (hg : r.granted = true) (hx : r.mode = Mode.XL) :
    ∀ x ∈ pre ++ post, x.granted = false :=
  (h.table (rvalue, head) hh).alone pre post r hq hg (by rw [hx]; decide)

/-! ## Sample runs -/

theorem Engine.Reachable.after_run {L : LogLayout} {e : Engine} (h : Engine.Reachable L e)
    (calls : List Call) (os : List Outcome) (e' : Engine)
    (hr : Engine.run L e calls = some (os, e')) : Engine.Reachable L e' := by
  induction calls generalizing e os with
  | nil =>
    unfold Engine.run at hr
    simp only [Option.some.injEq, Prod.mk.injEq] at hr
    rw [← hr.2]
    exact h
  | cons c rest ih =>
    unfold Engine.run at hr
    cases hc : e.call L c with
    | none =>
      rw [hc] at hr
      exact absurd hr (by simp)
    | some res =>
      obtain ⟨o, e1⟩ := res
      rw [hc] at hr
      dsimp only at hr
      cases hrest : Engine.run L e1 rest with
      | none =>
        rw [hrest] at hr
        exact absurd hr (by simp)
      | some res2 =>
        obtain ⟨os2, e2⟩ := res2
        rw [hrest] at hr
        simp only [Option.some.injEq, Prod.mk.injEq] at hr
        have he := hr.2
        subst he
        exact ih (Engine.Reachable.call e c o e1 h hc) os2 hrest

theorem sampleEngine_run :
    Engine.run sampleLayout (Engine.start sampleLog) [Call.begin, Call.begin]
      = some ([Outcome.val 0, Outcome.val 1], sampleEngine) := by
  decide

theorem sampleShared_run :
    Engine.run sampleLayout (Engine.start sampleLog) sharedCalls
      = some ([Outcome.val 0, Outcome.val 1, Outcome.ret true, Outcome.ret true], sampleShared) := by
  decide

theorem sampleExclusive_run :
    Engine.run sampleLayout (Engine.start sampleLog) exclusiveCalls
      = some ([Outcome.val 0, Outcome.val 1, Outcome.ret true, Outcome.blocked],
        sampleExclusive) := by
  decide

theorem sampleQueued_run :
    Engine.run sampleLayout (Engine.start sampleLog) queuedCalls
      = some ([Outcome.val 0, Outcome.val 1, Outcome.val 2, Outcome.ret true, Outcome.blocked],
        sampleQueued) := by
  decide

theorem sampleExclusive_reachable : Engine.Reachable sampleLayout sampleExclusive :=
  (Engine.Reachable.start sampleLog).after_run _ _ _ sampleExclusive_run

/-- Instance of C11: in `sampleExclusive` the request of transaction 1 is granted
in mode XL and the request behind it, of transaction 0, is not granted. -/
theorem C11_exclusive_alone_witness :
    (1, (⟨Mode.XL, [⟨Mode.XL, 1, true⟩, ⟨Mode.XL, 0, false⟩]⟩ : LockHead))
      ∈ sampleExclusive.lock_table ∧
    (⟨Mode.XL, 0, false⟩ : LockRequest).granted = false :=
  ⟨by decide,
    C11_exclusive_alone sampleLayout sampleExclusive sampleExclusive_reachable 1
      ⟨Mode.XL, [⟨Mode.XL, 1, true⟩, ⟨Mode.XL, 0, false⟩]⟩ (by decide) [] [⟨Mode.XL, 0, false⟩]
      ⟨Mode.XL, 1, true⟩ rfl rfl rfl ⟨Mode.XL, 0, false⟩ (by decide)⟩

/-! ## `AcquireLock` by a transaction with no request on the head -/

theorem mustAbort_no_conflict (txs : List Transaction) (tx : Nat) (mode : Mode)
    (q : List LockRequest) (h : ∀ r ∈ q, (r.granted && conflicts mode r.mode) = false) :
    mustAbort txs tx mode q = some false := by
  induction q with
  | nil => rfl
  | cons x xs ih =>
    unfold mustAbort
    rw [h x (List.mem_cons_self _ _)]
    simp only [Bool.false_eq_true, if_false]
    exact ih (fun r hr => h r (List.mem_cons_of_mem _ hr))

theorem waitDone_fresh (q : List LockRequest) (tx : Nat) (m : Mode) (g : Bool)
    (h : ∀ r ∈ q, r.requester ≠ tx) : waitDone (q ++ [⟨m, tx, g⟩]) tx = g := by
  unfold waitDone
  induction q with
  | nil => simp
  | cons x xs ih =>
    have hx : (x.requester == tx) = false := beq_false_of_ne (h x (List.mem_cons_self _ _))
    rw [List.cons_append, List.find?_cons, hx]
    exact ih (fun r hr => h r (List.mem_cons_of_mem _ hr))

theorem any_fresh (q : List LockRequest) (tx : Nat) (mode : Mode)
    (h : ∀ r ∈ q, r.requester ≠ tx) :
    q.any (fun req => req.requester == tx && req.mode == mode) = false := by
  rw [List.any_eq_false]
  intro x hx
  have : (x.requester == tx) = false := beq_false_of_ne (h x hx)
  rw [this]
  simp

/-- The queue that `AcquireLock` works on. -/
theorem findOrEmplace_requests (e : Engine) (rvalue : Nat) :
    (e.findOrEmplace rvalue).1.requests
      = ((findHead e.lock_table rvalue).map (fun h => h.requests)).getD [] := by
  unfold Engine.findOrEmplace
  cases findHead e.lock_table rvalue <;> rfl

/-- A non-try `AcquireLock` for a valid RID by a transaction that has no
request in the queue `q` of the head and finds `q` empty or, for mode SH, made
of requests of mode SH only: it returns true and leaves the request, granted,
at the end of the queue. -/
theorem AcquireLock_granted (L : LogLayout) (e : Engine) (tx : Nat) (rid : RID) (mode : Mode)
    (s1 s2 s3 : SysOutcome) (hv : rid.IsValid = true) (htx : tx < e.txs.length)
    (q : List LockRequest)
    (hq : q = ((findHead e.lock_table rid.value).map (fun h => h.requests)).getD [])
    (hno : ∀ r ∈ q, r.requester ≠ tx)
    (hg : q = [] ∨ (mode = Mode.SH ∧ ∀ r ∈ q, r.mode = Mode.SH)) :
    ∃ e', e.AcquireLock L tx rid mode false s1 s2 s3 = some (Outcome.ret true, e') ∧
      findHead e'.lock_table rid.value = some ⟨mode, q ++ [⟨mode, tx, true⟩]⟩ := by
  unfold Engine.AcquireLock
  rw [hv]
  simp only [Bool.not_true, Bool.false_eq_true, if_false, Bool.false_and]
  obtain ⟨hfind, htxs, _, _, _, _, _⟩ := findOrEmplace_spec e rid.value
  have hreq := findOrEmplace_requests e rid.value
  rw [← hq] at hreq
  generalize (e.findOrEmplace rid.value).1 = lock_head at hfind hreq
  generalize (e.findOrEmplace rid.value).2 = e1 at hfind htxs
  rw [hreq, any_fresh q tx mode hno]
  simp only [Bool.false_eq_true, if_false]
  have hgl : (q.isEmpty || (mode == Mode.SH && q.all (fun r => r.mode == Mode.SH))) = true := by
    rcases hg with rfl | ⟨rfl, hs⟩
    · rfl
    · have : q.all (fun r => r.mode == Mode.SH) = true := by
        rw [List.all_eq_true]
        intro x hx
        rw [hs x hx]
        rfl
      rw [this]
      simp
  have hma : mustAbort e1.txs tx mode q = some false := by
    apply mustAbort_no_conflict
    intro r hr
    rcases hg with rfl | ⟨rfl, hs⟩
    · exact absurd hr (List.not_mem_nil _)
    · rw [hs r hr]
      simp [conflicts]
  rw [hma, hgl]
  simp only [if_true]
  obtain ⟨txs1, hp⟩ := pushLock_some e1.txs tx rid (by rw [htxs]; exact htx)
  rw [hp]
  exact ⟨_, rfl, findHead_setHead _ _ _ _ hfind⟩

/-- A non-try `AcquireLock` for a valid RID by a transaction that has no
request in the non-empty queue `q` of the head, when `q` holds a request of
another mode than SH or the mode asked for is not SH: if the call ends, it
returns false or the caller is blocked. -/
theorem AcquireLock_not_granted (L : LogLayout) (e : Engine) (tx : Nat) (rid : RID)
    (mode : Mode) (s1 s2 s3 : SysOutcome)
    (q : List LockRequest)
    (hq : q = ((findHead e.lock_table rid.value).map (fun h => h.requests)).getD [])
    (hno : ∀ r ∈ q, r.requester ≠ tx) (hne : q ≠ [])
    (hg : mode ≠ Mode.SH ∨ ∃ r ∈ q, r.mode ≠ Mode.SH)
    (o : Outcome) (e' : Engine)
    (h : e.AcquireLock L tx rid mode false s1 s2 s3 = some (o, e')) :
    o = Outcome.ret false ∨ o = Outcome.blocked := by
  unfold Engine.AcquireLock at h
  by_cases hv : (!rid.IsValid) = true
  · rw [if_pos hv] at h
    simp only [Option.some.injEq, Prod.mk.injEq] at h
    exact Or.inl h.1.symm
  · rw [if_neg hv] at h
    simp only [Bool.false_and, Bool.false_eq_true, if_false] at h
    have hreq := findOrEmplace_requests e rid.value
    rw [← hq] at hreq
    generalize (e.findOrEmplace rid.value).1 = lock_head at h hreq
    generalize (e.findOrEmplace rid.value).2 = e1 at h
    rw [hreq, any_fresh q tx mode hno] at h
    simp only [Bool.false_eq_true, if_false] at h
    have hgl : (q.isEmpty || (mode == Mode.SH && q.all (fun r => r.mode == Mode.SH)))
        = false := by
      have h1 : q.isEmpty = false := by
        cases q with
        | nil => exact absurd rfl hne
        | cons x xs => rfl
      rw [h1, Bool.false_or]
      rcases hg with hm | ⟨r, hr, hm⟩
      · have : (mode == Mode.SH) = false := beq_false_of_ne hm
        rw [this]
        rfl
      · have : q.all (fun r => r.mode == Mode.SH) = false := by
          rw [List.all_eq_false]
          exact ⟨r, hr, by simpa using hm⟩
        rw [this]
        simp
    cases hm : mustAbort e1.txs tx mode q with
    | none =>
      rw [hm] at h
      exact absurd h (by simp)
    | some b =>
      rw [hm] at h
      cases b with
      | true =>
        dsimp only at h
        cases ha : e1.Abort L (some rid.value) tx s1 s2 s3 with
        | none =>
          rw [ha] at h
          exact absurd h (by simp)
        | some res =>
          rw [ha] at h
          simp only [Option.some.injEq, Prod.mk.injEq] at h
          exact Or.inl h.1.symm
      | false =>
        dsimp only at h
        rw [hgl] at h
        simp only [Bool.false_eq_true, if_false] at h
        rw [waitDone_fresh q tx mode false hno] at h
        simp only [Bool.false_eq_true, if_false, Option.some.injEq, Prod.mk.injEq] at h
        exact Or.inr h.1.symm

/-- C12 (amended): for a non-try `AcquireLock` on a valid RID by a transaction
with no request yet in the queue `q` of the lock head: if `q` is empty, a
request of any mode is granted immediately; if every request of `q` is of mode
SH, a request of mode SH is granted immediately, behind them; a request of mode
XL on a head with a granted request, and a request of mode SH on a head with a
granted request of mode XL, are never granted immediately (the call returns
false or blocks). -/
theorem C12_conflict_matrix (L : LogLayout) (e : Engine) (tx : Nat) (rid : RID)
    (s1 s2 s3 : SysOutcome) (hv : rid.IsValid = true) (htx : tx < e.txs.length)
    (q : List LockRequest)
    (hq : q = ((findHead e.lock_table rid.value).map (fun h => h.requests)).getD [])
    (hno : ∀ r ∈ q, r.requester ≠ tx) :
    (q = [] → ∀ mode, ∃ e',
      e.AcquireLock L tx rid mode false s1 s2 s3 = some (Outcome.ret true, e') ∧
      findHead e'.lock_table rid.value = some ⟨mode, [⟨mode, tx, true⟩]⟩) ∧
    ((∀ r ∈ q, r.mode = Mode.SH) → ∃ e',
      e.AcquireLock L tx rid Mode.SH false s1 s2 s3 = some (Outcome.ret true, e') ∧
      findHead e'.lock_table rid.value = some ⟨Mode.SH, q ++ [⟨Mode.SH, tx, true⟩]⟩) ∧
    ((∃ r ∈ q, r.granted = true) → ∀ o e',
      e.AcquireLock L tx rid Mode.XL false s1 s2 s3 = some (o, e') →
      o = Outcome.ret false ∨ o = Outcome.blocked) ∧
    ((∃ r ∈ q, r.granted = true ∧ r.mode = Mode.XL) → ∀ o e',
      e.AcquireLock L tx rid Mode.SH false s1 s2 s3 = some (o, e') →
      o = Outcome.ret false ∨ o = Outcome.blocked) := by
  refine ⟨?_, ?_, ?_, ?_⟩
  · intro he mode
    have := AcquireLock_granted L e tx rid mode s1 s2 s3 hv htx q hq hno (Or.inl he)
    rw [he, List.nil_append] at this
    exact this
  · intro hs
    exact AcquireLock_granted L e tx rid Mode.SH s1 s2 s3 hv htx q hq hno (Or.inr ⟨rfl, hs⟩)
  · intro ⟨r, hr, _⟩ o e' h
    exact AcquireLock_not_granted L e tx rid Mode.XL s1 s2 s3 q hq hno
      (List.ne_nil_of_mem hr) (Or.inl (by decide)) o e' h
  · intro ⟨r, hr, _, hm⟩ o e' h
    exact AcquireLock_not_granted L e tx rid Mode.SH s1 s2 s3 q hq hno
      (List.ne_nil_of_mem hr) (Or.inr ⟨r, hr, by rw [hm]; decide⟩) o e' h

/-- Instance of C12: in the state `sampleShared3`, where transactions 0 and 1
hold `ridA` in mode SH, transaction 2 is granted mode SH at once and is not
granted mode XL at once. -/
theorem C12_conflict_matrix_witness :
    (∃ e', sampleShared3.AcquireLock sampleLayout 2 ridA Mode.SH false sysOk sysOk sysOk
        = some (Outcome.ret true, e') ∧
      findHead e'.lock_table ridA.value = some ⟨Mode.SH,
        [⟨Mode.SH, 1, true⟩, ⟨Mode.SH, 0, true⟩] ++ [⟨Mode.SH, 2, true⟩]⟩) ∧
    (∀ o e', sampleShared3.AcquireLock sampleLayout 2 ridA Mode.XL false sysOk sysOk sysOk
        = some (o, e') → o = Outcome.ret false ∨ o = Outcome.blocked) :=
  have h := C12_conflict_matrix sampleLayout sampleShared3 2 ridA
    sysOk sysOk sysOk (by decide) (by decide) [⟨Mode.SH, 1, true⟩, ⟨Mode.SH, 0, true⟩] rfl
    (by decide)
  ⟨h.2.1 (by decide), h.2.2.1 ⟨⟨Mode.SH, 1, true⟩, by decide, rfl⟩⟩

/-- Counterexample to C12 as stated: in the reachable state `sampleQueued` the
lock head of `ridA` is held in mode SH (by transaction 1, `current_mode` is SH)
and the older transaction 0 waits for mode XL; the request of mode SH of
transaction 2, which has no request on the head, is not granted immediately:
it is queued ungranted and the caller is blocked. -/
theorem C12_counterexample :
    Engine.run sampleLayout (Engine.start sampleLog) queuedCalls
      = some ([Outcome.val 0, Outcome.val 1, Outcome.val 2, Outcome.ret true, Outcome.blocked],
        sampleQueued) ∧
    findHead sampleQueued.lock_table ridA.value
      = some ⟨Mode.SH, [⟨Mode.SH, 1, true⟩, ⟨Mode.XL, 0, false⟩]⟩ ∧
    sampleQueued.AcquireLock sampleLayout 2 ridA Mode.SH false sysOk sysOk sysOk
      = some (Outcome.blocked, sampleQueued3) ∧
    findHead sampleQueued3.lock_table ridA.value
      = some ⟨Mode.SH, [⟨Mode.SH, 1, true⟩, ⟨Mode.XL, 0, false⟩, ⟨Mode.SH, 2, false⟩]⟩ := by
  decide

/-! ## `ReleaseLock` against its specification -/

theorem any_false_iff (q : List LockRequest) (tx : Nat) :
    q.any (fun r => r.requester == tx) = false ↔ ∀ r ∈ q, r.requester ≠ tx := by
  rw [List.any_eq_false]
  constructor
  · intro h r hr hc
    exact h r hr (by rw [hc]; exact beq_self_eq_true tx)
  · intro h r hr hc
    exact h r hr (by simpa using hc)

/-- When the requesters of the queued requests are transactions, `ReleaseLock`
called outside `AcquireLock` returns. -/
theorem ReleaseLock_returns (e : Engine) (hv : e.RequestersValid) (tx : Nat) (rid : RID) :
    ∃ ok e', e.ReleaseLock none tx rid = some (ok, e') := by
  unfold Engine.ReleaseLock
  dsimp only
  cases hh : findHead e.lock_table rid.value with
  | none => exact ⟨_, _, rfl⟩
  | some lock_head =>
    dsimp only
    rw [if_neg (by simp)]
    have hvalid : ∀ r ∈ lock_head.requests.eraseP (fun r => r.requester == tx),
        r.requester < e.txs.length :=
      fun r hr => hv _ (findHead_mem _ _ _ hh) r (List.mem_of_mem_eraseP hr)
    by_cases hany : (!lock_head.requests.any (fun r => r.requester == tx)) = true
    · rw [if_pos hany]
      exact ⟨_, _, rfl⟩
    · rw [if_neg hany]
      cases hq : lock_head.requests.eraseP (fun r => r.requester == tx) with
      | nil => exact ⟨_, _, rfl⟩
      | cons first rest =>
        rw [hq] at hvalid
        dsimp only
        by_cases hx : first.mode = Mode.XL
        · rw [if_pos hx]
          obtain ⟨txs1, hp⟩ := pushLock_some e.txs first.requester rid
            (hvalid first (List.mem_cons_self _ _))
          rw [hp]
          exact ⟨_, _, rfl⟩
        · rw [if_neg hx]
          obtain ⟨q', txs1, hg⟩ := grantShared_some rid (first :: rest) e.txs hvalid
          rw [hg]
          exact ⟨_, _, rfl⟩

/-- C14: in a state whose queued requests belong to transactions,
`ReleaseLock(tx, rid)` returns; it returns false exactly when `rid` has no lock
head or `tx` has no request in its queue, and then the state is unchanged;
otherwise the lock head of `rid` becomes the one that the specification
describes (first request of `tx` removed; then mode NL for an empty queue, the
new first request granted and mode XL when it is of mode XL, else the leading
run of requests of mode SH granted and mode SH) and the other lock heads are
as before. -/
theorem C14_release_lock (e : Engine) (hv : e.RequestersValid) (tx : Nat) (rid : RID) :
    ∃ ok e', e.ReleaseLock none tx rid = some (ok, e') ∧
      (ok = false ↔ (findHead e.lock_table rid.value = none ∨
        ∃ hd, findHead e.lock_table rid.value = some hd ∧ ∀ r ∈ hd.requests, r.requester ≠ tx)) ∧
      (ok = false → e' = e) ∧
      (ok = true → ∃ hd, findHead e.lock_table rid.value = some hd ∧
        findHead e'.lock_table rid.value = some (releaseLockSpec hd.requests tx) ∧
        ∀ k, k ≠ rid.value → findHead e'.lock_table k = findHead e.lock_table k) := by
  obtain ⟨ok, e', h⟩ := ReleaseLock_returns e hv tx rid
  refine ⟨ok, e', h, ?_⟩
  rcases ReleaseLock_spec e none tx rid ok e' h with
    ⟨hok, he, hcase⟩ | ⟨hok, hd, txs', hf, hany, _, he⟩
  · refine ⟨⟨fun _ => ?_, fun _ => hok⟩, fun _ => he, fun hc => ?_⟩
    · rcases hcase with hn | ⟨hd, hf, hany⟩
      · exact Or.inl hn
      · exact Or.inr ⟨hd, hf, (any_false_iff _ _).mp hany⟩
    · rw [hok] at hc
      exact absurd hc (by decide)
  · refine ⟨⟨fun hc => ?_, fun hc => ?_⟩, fun hc => ?_, fun _ => ⟨hd, hf, ?_, ?_⟩⟩
    · rw [hok] at hc
      exact absurd hc (by decide)
    · rcases hc with hn | ⟨hd2, hf2, hno⟩
      · rw [hn] at hf
        exact absurd hf (by simp)
      · rw [hf] at hf2
        simp only [Option.some.injEq] at hf2
        subst hf2
        rw [(any_false_iff _ _).mpr hno] at hany
        exact absurd hany (by decide)
    · rw [hok] at hc
      exact absurd hc (by decide)
    · rw [he]
      exact findHead_setHead _ _ _ _ hf
    · intro k hk
      rw [he]
      exact findHead_setHead_other _ _ _ _ hk

/-- Instance of C14: in `sampleShared`, `ReleaseLock(T0, ridA)` returns true and
leaves the request of transaction 1, granted, and mode SH. -/
theorem C14_release_lock_witness :
    sampleShared.ReleaseLock none 0 ridA = some (true, sampleReleased) ∧
    findHead sampleReleased.lock_table ridA.value
      = some (releaseLockSpec [⟨Mode.SH, 1, true⟩, ⟨Mode.SH, 0, true⟩] 0) ∧
    releaseLockSpec [⟨Mode.SH, 1, true⟩, ⟨Mode.SH, 0, true⟩] 0
      = ⟨Mode.SH, [⟨Mode.SH, 1, true⟩]⟩ := by
  obtain ⟨ok, e', h, _, _, h3⟩ := C14_release_lock sampleShared
    (by unfold Engine.RequestersValid; decide) 0 ridA
  have hr : sampleShared.ReleaseLock none 0 ridA = some (true, sampleReleased) := by decide
  rw [hr] at h
  simp only [Option.some.injEq, Prod.mk.injEq] at h
  obtain ⟨rfl, rfl⟩ := h
  obtain ⟨hd, hf, hs, _⟩ := h3 rfl
  have hhd : hd = ⟨Mode.SH, [⟨Mode.SH, 1, true⟩, ⟨Mode.SH, 0, true⟩]⟩ := by
    have : findHead sampleShared.lock_table ridA.value
        = some ⟨Mode.SH, [⟨Mode.SH, 1, true⟩, ⟨Mode.SH, 0, true⟩]⟩ := by decide
    rw [this] at hf
    exact (Option.some.inj hf).symm
  subst hhd
  exact ⟨hr, hs, by decide⟩

/-! ## Runs on which the code departs from the specification -/

/-- C13 (code defect): in `sampleShared` transactions 0 and 1 hold `ridA` in
mode SH; transaction 1 (in progress, timestamp 1, no request of mode XL) asks
for mode XL. The granted request of the older transaction 0 conflicts, the loop
reaches `tx->Abort()`, and `Abort` calls `ReleaseLock(tx, ridA)` for the entry
of its lock list while `AcquireLock` owns the latch of that lock head: the call
does not return (the same `Abort` outside `AcquireLock` returns the timestamp).
The same happens in `sampleStale`, where transaction 1 has no request on the
head but an entry for `ridA` left in its lock list. With an empty lock list
(`sampleHeld`) the call returns false and the transaction is aborted. -/
theorem C13_abort_under_latch :
    Engine.run sampleLayout (Engine.start sampleLog) sharedCalls
      = some ([Outcome.val 0, Outcome.val 1, Outcome.ret true, Outcome.ret true],
        sampleShared) ∧
    sampleShared.txs[1]? = some ⟨1, [ridA], kStateInProgress⟩ ∧
    mustAbort sampleShared.txs 1 Mode.XL [⟨Mode.SH, 1, true⟩, ⟨Mode.SH, 0, true⟩] = some true ∧
    sampleShared.AcquireLock sampleLayout 1 ridA Mode.XL false sysOk sysOk sysOk = none ∧
    sampleShared.Abort sampleLayout (some ridA.value) 1 sysOk sysOk sysOk = none ∧
    (sampleShared.Abort sampleLayout none 1 sysOk sysOk sysOk).map (fun r => r.1) = some 1 ∧
    Engine.run sampleLayout (Engine.start sampleLog) staleCalls
      = some ([Outcome.val 0, Outcome.val 1, Outcome.ret true, Outcome.ret true,
        Outcome.ret true], sampleStale) ∧
    sampleStale.AcquireLock sampleLayout 1 ridA Mode.XL false sysOk sysOk sysOk = none ∧
    sampleHeld.AcquireLock sampleLayout 1 ridA Mode.XL false sysOk sysOk sysOk
      = some (Outcome.ret false, sampleDied) := by
  decide

/-- C15 (code defect): after both transactions were granted `ridA` in mode SH
and transaction 0 released it: the lock list of transaction 0 still holds
`ridA` although it has no request left, and the lock list of transaction 1
holds `ridA` twice. -/
theorem C15_lock_list_not_exact :
    Engine.run sampleLayout (Engine.start sampleLog) (sharedCalls ++ [Call.release 0 ridA])
      = some ([Outcome.val 0, Outcome.val 1, Outcome.ret true, Outcome.ret true,
        Outcome.ret true], sampleReleased) ∧
    sampleReleased.txs[0]? = some ⟨0, [ridA], kStateInProgress⟩ ∧
    sampleReleased.grantedRids 0 = [] ∧
    sampleReleased.txs[1]? = some ⟨1, [ridA, ridA], kStateInProgress⟩ ∧
    sampleReleased.grantedRids 1 = [ridA.value] := by
  decide

/-- C16 (code defect): after `deadlockCalls`, each issued by a transaction
whose earlier calls had returned, the four transactions are blocked and wait
for each other in a cycle (2 behind 0, 0 behind 3, 3 behind 1, 1 behind 2; also
2 behind 3 and 3 behind 2). After `upgradeCalls` the ungranted request of
transaction 0 stands behind its own granted request. -/
theorem C16_waits_for_cycle :
    Engine.run sampleLayout (Engine.start sampleLog) deadlockCalls
      = some ([Outcome.val 0, Outcome.val 1, Outcome.val 2, Outcome.val 3,
        Outcome.ret true, Outcome.ret true,
        Outcome.blocked, Outcome.blocked, Outcome.blocked, Outcome.blocked],
        sampleDeadlock) ∧
    sampleDeadlock.waitsFor 2 0 = true ∧ sampleDeadlock.waitsFor 0 3 = true ∧
    sampleDeadlock.waitsFor 3 1 = true ∧ sampleDeadlock.waitsFor 1 2 = true ∧
    sampleDeadlock.waitsFor 2 3 = true ∧ sampleDeadlock.waitsFor 3 2 = true ∧
    Engine.run sampleLayout (Engine.start sampleLog) upgradeCalls
      = some ([Outcome.val 0, Outcome.ret true, Outcome.ret true], sampleUpgrade) ∧
    sampleUpgrade.waitsFor 0 0 = true := by
  decide

/-- C18 (code defect): `Commit()` of an in-progress transaction when `pwrite`
fails in `Flush` returns false, and `Abort()` then returns the invalid
timestamp: the state of the transaction is aborted and the transaction is still
in the active list. -/
theorem C18_still_active_after_failure :
    Engine.run sampleLayout (Engine.start sampleLog)
        [Call.begin, Call.commit 0 sysOk sysFail sysOk]
      = some ([Outcome.val 0, Outcome.ret false], sampleFailedCommit) ∧
    sampleFailedCommit.txs[0]? = some ⟨0, [], kStateAborted⟩ ∧
    0 ∈ sampleFailedCommit.active_transactions ∧
    Engine.run sampleLayout (Engine.start sampleLog)
        [Call.begin, Call.abort 0 sysOk sysFail sysOk]
      = some ([Outcome.val 0, Outcome.val kInvalidTimestamp], sampleFailedAbort) ∧
    sampleFailedAbort.txs[0]? = some ⟨0, [], kStateAborted⟩ ∧
    0 ∈ sampleFailedAbort.active_transactions := by
  decide

/-- Instance of C17: `Commit()` of transaction 1 (timestamp 1) on the fresh
log: the Commit record is the 21 bytes of the file below `durable_lsn`, the End
record follows in the buffer. -/
theorem C17_commit_durable_witness :
    sampleEngine.Commit sampleLayout 1 sysOk sysOk sysOk = some (true, sampleCommitted) ∧
    sampleCommitted.log.file.take sampleCommitted.log.durable_lsn ++ sampleCommitted.log.logbuf
      = frames sampleLayout 0
        ([] ++ [⟨LogType.Commit, 1, []⟩] ++ [⟨LogType.End, 1, []⟩]) ∧
    (frames sampleLayout 0 ([] ++ [⟨LogType.Commit, 1, []⟩])).length
      ≤ sampleCommitted.log.durable_lsn ∧
    sampleCommitted.log.file.take (frames sampleLayout 0 ([] ++ [⟨LogType.Commit, 1, []⟩])).length
      = frames sampleLayout 0 ([] ++ [⟨LogType.Commit, 1, []⟩]) :=
  have h := C17_commit_durable sampleLayout sampleLayout_wf sampleEngine [] sampleLog_logged 1
    ⟨1, [], kStateInProgress⟩ rfl sysOk sysOk sysOk sampleCommitted (by decide)
  ⟨by decide, h.2.1, h.2.2.1, h.2.2.2⟩

/-! ## The loop over the lock list ends within its fuel -/

theorem setHead_absent (table : List (Nat × LockHead)) (k : Nat) (h : LockHead)
    (hk : ∀ p ∈ table, p.1 ≠ k) : setHead table k h = table := by
  induction table with
  | nil => rfl
  | cons p ps ih =>
    unfold setHead at *
    rw [List.map_cons, if_neg (hk p (List.mem_cons_self _ _)),
      ih (fun q hq => hk q (List.mem_cons_of_mem _ hq))]

theorem setHead_keys (table : List (Nat × LockHead)) (k : Nat) (h : LockHead) :
    (setHead table k h).map (fun p => p.1) = table.map (fun p => p.1) := by
  induction table with
  | nil => rfl
  | cons p ps ih =>
    unfold setHead at *
    rw [List.map_cons, List.map_cons, List.map_cons, ih]
    by_cases hp : p.1 = k
    · rw [if_pos hp]
    · rw [if_neg hp]

/-- Replacing the queue of one lock head changes the number of requests by
the difference of the lengths. -/
theorem requestCount_setHead (table : List (Nat × LockHead)) (k : Nat) (hd h : LockHead)
    (hn : (table.map (fun p => p.1)).Nodup) (hf : findHead table k = some hd) :
    ((setHead table k h).map (fun p => p.2.requests.length)).sum + hd.requests.length
      = (table.map (fun p => p.2.requests.length)).sum + h.requests.length := by
  induction table with
  | nil => exact absurd hf (by simp [findHead])
  | cons p ps ih =>
    rw [List.map_cons, List.nodup_cons] at hn
    by_cases hp : p.1 = k
    · have hfirst : findHead (p :: ps) k = some p.2 := by
        unfold findHead
        rw [List.find?_cons, hp, beq_self_eq_true]
        rfl
      rw [hfirst] at hf
      have hhd : p.2 = hd := Option.some.inj hf
      have habs : ∀ q ∈ ps, q.1 ≠ k := by
        intro q hq hc
        apply hn.1
        rw [hp, ← hc]
        exact List.mem_map_of_mem _ hq
      have hset : setHead (p :: ps) k h = (p.1, h) :: ps := by
        have := setHead_absent ps k h habs
        unfold setHead at *
        rw [List.map_cons, if_pos hp, this]
      rw [hset, List.map_cons, List.map_cons, List.sum_cons, List.sum_cons, ← hhd]
      show h.requests.length + _ + _ = _
      omega
    · have hb : (p.1 == k) = false := beq_false_of_ne hp
      have hrest : findHead ps k = some hd := by
        unfold findHead at hf ⊢
        rw [List.find?_cons, hb] at hf
        exact hf
      have hset : setHead (p :: ps) k h = p :: setHead ps k h := by
        unfold setHead
        rw [List.map_cons, if_neg hp]
      have := ih hn.2 hrest
      rw [hset, List.map_cons, List.map_cons, List.sum_cons, List.sum_cons]
      omega

theorem grantRun_length (q : List LockRequest) : (grantRun q).length = q.length := by
  unfold grantRun
  rw [List.length_append, List.length_map, ← List.length_append, List.takeWhile_append_dropWhile]

theorem grantRun_requesters (q : List LockRequest) :
    (grantRun q).map (fun r => r.requester) = q.map (fun r => r.requester) := by
  induction q with
  | nil => rfl
  | cons x xs ih =>
    by_cases hx : x.mode = Mode.SH
    · rw [grantRun_shared x xs hx, List.map_cons, List.map_cons, ih]
    · rw [grantRun_other x xs hx]

/-- The queue of the head that the specification of `release_lock` describes:
one request less, the same requesters. -/
theorem releaseLockSpec_requests (q : List LockRequest) (tx : Nat)
    (hany : q.any (fun r => r.requester == tx) = true) :
    (releaseLockSpec q tx).requests.length + 1 = q.length ∧
    (releaseLockSpec q tx).requests.map (fun r => r.requester)
      = (q.eraseP (fun r => r.requester == tx)).map (fun r => r.requester) := by
  have hlen : (q.eraseP (fun r => r.requester == tx)).length + 1 = q.length := by
    obtain ⟨a, ha, hpa⟩ := List.any_eq_true.mp hany
    have := List.length_eraseP_of_mem (p := fun r => r.requester == tx) ha hpa
    have hpos : 0 < q.length := List.length_pos_of_mem ha
    omega
  unfold releaseLockSpec
  cases hq : q.eraseP (fun r => r.requester == tx) with
  | nil =>
    rw [hq] at hlen
    exact ⟨hlen, rfl⟩
  | cons first rest =>
    rw [hq] at hlen
    dsimp only
    by_cases hx : first.mode = Mode.XL
    · rw [if_pos hx]
      exact ⟨hlen, rfl⟩
    · rw [if_neg hx]
      refine ⟨?_, grantRun_requesters _⟩
      show (grantRun (first :: rest)).length + 1 = q.length
      rw [grantRun_length]
      exact hlen

theorem locksLen_pushLock (txs : List Transaction) (r : Nat) (rid : RID)
    (txs' : List Transaction) (h : pushLock txs r rid = some txs') (t : Nat) :
    locksLen txs' t ≤ locksLen txs t + 1 := by
  unfold pushLock at h
  cases hx : txs[r]? with
  | none =>
    rw [hx] at h
    exact absurd h (by simp)
  | some x =>
    rw [hx] at h
    simp only [Option.some.injEq] at h
    subst h
    unfold locksLen
    by_cases hrt : r = t
    · subst hrt
      have hr : r < txs.length := by
        by_contra hc
        rw [List.getElem?_eq_none (by omega)] at hx
        exact absurd hx (by simp)
      rw [List.getElem?_set_self hr, hx]
      simp
    · rw [List.getElem?_set_ne hrt]
      omega

theorem locksLen_grantShared (rid : RID) (q : List LockRequest) (txs : List Transaction)
    (q' : List LockRequest) (txs' : List Transaction)
    (h : grantShared rid q txs = some (q', txs')) (t : Nat) :
    locksLen txs' t ≤ locksLen txs t + q.length := by
  induction q generalizing txs q' txs' with
  | nil =>
    unfold grantShared at h
    simp only [Option.some.injEq, Prod.mk.injEq] at h
    rw [← h.2]
    omega
  | cons x xs ih =>
    unfold grantShared at h
    by_cases hx : x.mode = Mode.SH
    · rw [if_pos hx] at h
      cases hp : pushLock txs x.requester rid with
      | none =>
        rw [hp] at h
        exact absurd h (by simp)
      | some txs1 =>
        rw [hp] at h
        dsimp only at h
        cases hg : grantShared rid xs txs1 with
        | none =>
          rw [hg] at h
          exact absurd h (by simp)
        | some res =>
          obtain ⟨rest', txs2⟩ := res
          rw [hg] at h
          simp only [Option.some.injEq, Prod.mk.injEq] at h
          rw [← h.2]
          have h1 := ih txs1 rest' txs2 hg
          have h2 := locksLen_pushLock txs x.requester rid txs1 hp t
          rw [List.length_cons]
          omega
    · rw [if_neg hx] at h
      simp only [Option.some.injEq, Prod.mk.injEq] at h
      rw [← h.2]
      omega

/-- A `ReleaseLock` that returns true appends fewer entries to a lock list than
the queue had requests. -/
theorem ReleaseLock_locks (e : Engine) (held : Option Nat) (tx : Nat) (rid : RID)
    (e' : Engine) (h : e.ReleaseLock held tx rid = some (true, e')) (hd : LockHead)
    (hf : findHead e.lock_table rid.value = some hd) (t : Nat) :
    locksLen e'.txs t + 1 ≤ locksLen e.txs t + hd.requests.length := by
  unfold Engine.ReleaseLock at h
  dsimp only at h
  rw [hf] at h
  dsimp only at h
  by_cases hheld : held = some rid.value
  · rw [if_pos hheld] at h
    exact absurd h (by simp)
  · rw [if_neg hheld] at h
    cases hany : hd.requests.any (fun r => r.requester == tx) with
    | false =>
      rw [hany] at h
      simp at h
    | true =>
      rw [hany] at h
      simp only [Bool.not_true, Bool.false_eq_true, if_false] at h
      have hlen : (hd.requests.eraseP (fun r => r.requester == tx)).length + 1
          = hd.requests.length := by
        obtain ⟨a, ha, hpa⟩ := List.any_eq_true.mp hany
        have := List.length_eraseP_of_mem (p := fun r => r.requester == tx) ha hpa
        have hpos : 0 < hd.requests.length := List.length_pos_of_mem ha
        omega
      cases hq : hd.requests.eraseP (fun r => r.requester == tx) with
      | nil =>
        rw [hq] at h
        simp only [Option.some.injEq, Prod.mk.injEq, true_and] at h
        rw [← h]
        show locksLen e.txs t + 1 ≤ _
        omega
      | cons first rest =>
        rw [hq] at h hlen
        dsimp only at h
        rw [List.length_cons] at hlen
        by_cases hx : first.mode = Mode.XL
        · rw [if_pos hx] at h
          cases hp : pushLock e.txs first.requester rid with
          | none =>
            rw [hp] at h
            exact absurd h (by simp)
          | some txs1 =>
            rw [hp] at h
            simp only [Option.some.injEq, Prod.mk.injEq, true_and] at h
            rw [← h]
            have := locksLen_pushLock e.txs first.requester rid txs1 hp t
            show locksLen txs1 t + 1 ≤ _
            omega
        · rw [if_neg hx] at h
          cases hg : grantShared rid (first :: rest) e.txs with
          | none =>
            rw [hg] at h
            exact absurd h (by simp)
          | some res =>
            obtain ⟨requests, txs1⟩ := res
            rw [hg] at h
            simp only [Option.some.injEq, Prod.mk.injEq, true_and] at h
            rw [← h]
            have := locksLen_grantShared rid (first :: rest) e.txs requests txs1 hg t
            rw [List.length_cons] at this
            show locksLen txs1 t + 1 ≤ _
            omega

theorem queue_le_requestCount (table : List (Nat × LockHead)) (k : Nat) (hd : LockHead)
    (hf : findHead table k = some hd) :
    hd.requests.length ≤ (table.map (fun p => p.2.requests.length)).sum := by
  have hm := findHead_mem table k hd hf
  have : hd.requests.length ∈ table.map (fun p => p.2.requests.length) :=
    List.mem_map.mpr ⟨(k, hd), hm, rfl⟩
  exact List.single_le_sum (fun _ _ => Nat.zero_le _) _ this

/-- What a `ReleaseLock` that returns true keeps and how it moves the measure
of the loop over the lock list. -/
theorem ReleaseLock_measure (e : Engine) (tx : Nat) (rid : RID) (e' : Engine)
    (hk : e.KeysDistinct) (hv : e.RequestersValid)
    (h : e.ReleaseLock none tx rid = some (true, e')) :
    e'.KeysDistinct ∧ e'.RequestersValid ∧ e'.txs.length = e.txs.length ∧
    e'.requestCount + 1 = e.requestCount ∧
    ∀ t, locksLen e'.txs t ≤ locksLen e.txs t + e'.requestCount := by
  rcases ReleaseLock_spec e none tx rid true e' h with
    ⟨hc, _⟩ | ⟨_, hd, txs', hf, hany, hlen, he⟩
  · exact absurd hc (by decide)
  · obtain ⟨hl, hreq⟩ := releaseLockSpec_requests hd.requests tx hany
    have hcount := requestCount_setHead e.lock_table rid.value hd
      (releaseLockSpec hd.requests tx) hk hf
    have hle := queue_le_requestCount e.lock_table rid.value hd hf
    have hlocks := ReleaseLock_locks e none tx rid e' h hd hf
    have hc1 : e'.requestCount + 1 = e.requestCount := by
      rw [he]
      unfold Engine.requestCount
      show ((setHead e.lock_table rid.value (releaseLockSpec hd.requests tx)).map
        (fun p => p.2.requests.length)).sum + 1 = _
      omega
    refine ⟨?_, ?_, ?_, hc1, ?_⟩
    · rw [he]
      unfold Engine.KeysDistinct
      show ((setHead e.lock_table rid.value (releaseLockSpec hd.requests tx)).map
        (fun p => p.1)).Nodup
      rw [setHead_keys]
      exact hk
    · rw [he]
      intro p hp r hr
      show r.requester < txs'.length
      rw [hlen]
      have hp : p ∈ setHead e.lock_table rid.value (releaseLockSpec hd.requests tx) := hp
      unfold setHead at hp
      obtain ⟨p0, hp0, rfl⟩ := List.mem_map.mp hp
      by_cases hkey : p0.1 = rid.value
      · rw [if_pos hkey] at hr
        have : r.requester ∈ (releaseLockSpec hd.requests tx).requests.map
            (fun r => r.requester) := List.mem_map_of_mem _ hr
        rw [hreq] at this
        obtain ⟨r0, hr0, hr0e⟩ := List.mem_map.mp this
        rw [← hr0e]
        exact hv _ (findHead_mem _ _ _ hf) r0 (List.mem_of_mem_eraseP hr0)
      · rw [if_neg hkey] at hr
        exact hv p0 hp0 r hr
    · rw [he]
      exact hlen
    · intro t
      have := hlocks t
      unfold Engine.requestCount at hc1 hle
      unfold Engine.requestCount
      omega

theorem locksLen_valid (txs : List Transaction) (tx : Nat) (t : Transaction)
    (h : txs[tx]? = some t) : locksLen txs tx = t.locks.length := by
  unfold locksLen
  rw [h]
  rfl

/-- With fuel above the measure, the loop over the lock list of a transaction
returns when it is run outside `AcquireLock`. -/
theorem releaseAll_fuel (tx : Nat) (fuel i : Nat) (b : Bool) (e : Engine)
    (hk : e.KeysDistinct) (hv : e.RequestersValid) (htx : tx < e.txs.length)
    (hfuel : (locksLen e.txs tx - i) + e.requestCount * e.requestCount + 1 ≤ fuel) :
    ∃ r, Engine.releaseAll none tx fuel i b e = some r := by
  induction fuel generalizing i b e with
  | zero => omega
  | succ fuel ih =>
    unfold Engine.releaseAll
    rw [List.getElem?_eq_getElem htx]
    dsimp only
    cases hl : (e.txs[tx]).locks[i]? with
    | none => exact ⟨_, rfl⟩
    | some rid =>
      dsimp only
      have hi : i < locksLen e.txs tx := by
        rw [locksLen_valid e.txs tx e.txs[tx] (List.getElem?_eq_getElem htx)]
        by_contra hc
        rw [List.getElem?_eq_none (by omega)] at hl
        exact absurd hl (by simp)
      obtain ⟨ok, e1, hr⟩ := ReleaseLock_returns e hv tx rid
      rw [hr]
      dsimp only
      cases ok with
      | false =>
        rcases ReleaseLock_spec e none tx rid false e1 hr with ⟨_, he, _⟩ | ⟨hc, _⟩
        · subst he
          exact ih (i + 1) _ e1 hk hv htx (by omega)
        · exact absurd hc (by decide)
      | true =>
        obtain ⟨hk1, hv1, hlen, hcount, hlocks⟩ := ReleaseLock_measure e tx rid e1 hk hv hr
        have hsq : e.requestCount * e.requestCount
            = e1.requestCount * e1.requestCount + 2 * e1.requestCount + 1 := by
          rw [← hcount]
          ring
        have := hlocks tx
        exact ih (i + 1) _ e1 hk1 hv1 (by rw [hlen]; exact htx) (by omega)

/-- The loop over the lock list, as `Commit` and `Abort` start it outside
`AcquireLock`, returns. -/
theorem releaseAll_returns (e : Engine) (hk : e.KeysDistinct) (hv : e.RequestersValid)
    (tx : Nat) (htx : tx < e.txs.length) :
    ∃ r, Engine.releaseAll none tx (e.releaseFuel tx) 0 true e = some r := by
  apply releaseAll_fuel tx _ 0 true e hk hv htx
  unfold Engine.releaseFuel
  rw [List.getElem?_eq_getElem htx]
  dsimp only
  rw [locksLen_valid e.txs tx e.txs[tx] (List.getElem?_eq_getElem htx)]
  omega

/-! ## Flush and the size of log records -/

/-- C21: `Flush()` on an empty buffer returns true and changes nothing; on a
non-empty buffer, when the positional write is complete and the barrier
succeeds, it returns true with `durable_lsn = current_lsn` and
`logbuf_offset = 0`; when the write fails or is short, or the barrier fails, it
returns false and `durable_lsn`, `current_lsn` and `logbuf_offset` keep their
values. -/
theorem C21_flush_outcomes (lm : LogManager) (sys : SysOutcome) :
    (lm.logbuf_offset = 0 → lm.Flush sys = (true, lm)) ∧
    (lm.logbuf_offset ≠ 0 →
      (∃ room, sys.pwrite_room = some room ∧ lm.logbuf_offset ≤ room) → 0 ≤ sys.fsync_ret →
      (lm.Flush sys).1 = true ∧ (lm.Flush sys).2.durable_lsn = lm.current_lsn ∧
        (lm.Flush sys).2.logbuf_offset = 0 ∧
        (lm.Flush sys).2.current_lsn = lm.current_lsn) ∧
    (lm.logbuf_offset ≠ 0 →
      (sys.pwrite_room = none ∨ (∃ room, sys.pwrite_room = some room ∧ room < lm.logbuf_offset) ∨
        sys.fsync_ret < 0) →
      (lm.Flush sys).1 = false ∧ (lm.Flush sys).2.durable_lsn = lm.durable_lsn ∧
        (lm.Flush sys).2.current_lsn = lm.current_lsn ∧
        (lm.Flush sys).2.logbuf_offset = lm.logbuf_offset) := by
  refine ⟨?_, ?_, ?_⟩
  · intro h0
    unfold LogManager.Flush
    rw [if_pos h0]
  · intro h0 hw hs
    obtain ⟨room, hroom, hle⟩ := hw
    unfold LogManager.Flush
    rw [if_neg h0, hroom]
    have hmin : min room lm.logbuf_offset = lm.logbuf_offset := Nat.min_eq_right hle
    have hns : ¬ sys.fsync_ret < 0 := not_lt.mpr hs
    simp only [hmin, ne_eq, not_true_eq_false, if_false, hns]
    exact ⟨trivial, trivial, trivial, trivial⟩
  · intro h0 hfail
    unfold LogManager.Flush
    rw [if_neg h0]
    cases hroom : sys.pwrite_room with
    | none => exact ⟨rfl, rfl, rfl, rfl⟩
    | some room =>
      simp only []
      by_cases hlt : room < lm.logbuf_offset
      · have hmin : min room lm.logbuf_offset ≠ lm.logbuf_offset := by
          rw [Nat.min_eq_left (Nat.le_of_lt hlt)]; omega
        rw [if_pos hmin]
        exact ⟨rfl, rfl, rfl, rfl⟩
      · have hmin : min room lm.logbuf_offset = lm.logbuf_offset :=
          Nat.min_eq_right (Nat.le_of_not_lt hlt)
        have hs : sys.fsync_ret < 0 := by
          rcases hfail with h | h | h
          · rw [hroom] at h; cases h
          · obtain ⟨r, hr, hr2⟩ := h
            rw [hroom] at hr
            cases hr
            exact absurd hr2 hlt
          · exact h
        simp only [hmin, ne_eq, not_true_eq_false, if_false, hs, if_true]
        exact ⟨trivial, trivial, trivial, trivial⟩

/-- The three cases of C21 at the buffer holding one insert record: a complete
write with a successful barrier, a failing write, and a failing barrier. -/
theorem C21_flush_outcomes_witness :
    ((sampleLog1.Flush sysOk).1 = true ∧ (sampleLog1.Flush sysOk).2.durable_lsn = 23 ∧
      (sampleLog1.Flush sysOk).2.logbuf_offset = 0 ∧
      (sampleLog1.Flush sysOk).2.current_lsn = 23) ∧
    ((sampleLog1.Flush sysFail).1 = false ∧ (sampleLog1.Flush sysFail).2.durable_lsn = 0 ∧
      (sampleLog1.Flush sysFail).2.current_lsn = 23 ∧
      (sampleLog1.Flush sysFail).2.logbuf_offset = 23) ∧
    sampleLog.Flush sysFail = (true, sampleLog) :=
  ⟨(C21_flush_outcomes sampleLog1 sysOk).2.1 (by decide) ⟨1000000, rfl, by decide⟩ (by decide),
   (C21_flush_outcomes sampleLog1 sysFail).2.2 (by decide) (Or.inl rfl),
   (C21_flush_outcomes sampleLog sysFail).1 rfl⟩

/-- `LogInsert` computes `log_size` on 32 bits: when the sum of the header, the
length and the LSN reaches `2^32`, the wrapped value passes the comparison with
`logbuf_size` and the record is written past the end of the buffer. -/
theorem LogInsert_wrap_fault (L : LogLayout) (hL : L.WellFormed) (lm : LogManager)
    (rid : RID) (bytes : List Nat) (length : Nat) (sys : SysOutcome)
    (hsize : lm.logbuf_size < 4294967296) (hlen : 0 < length) (hrid : rid.IsValid = true)
    (hbytes : length ≤ bytes.length)
    (hwrap : 4294967296 ≤ L.sizeofLogRecord + length + L.sizeofLSN)
    (hroom : lm.logbuf_offset + logSize L length ≤ lm.logbuf_size) :
    lm.LogInsert L rid (some bytes) length sys = none := by
  unfold LogManager.LogInsert
  have h1 : ¬ (length = 0 ∨ rid.IsValid = false) := by
    rintro (h | h)
    · omega
    · rw [hrid] at h; cases h
  have h2 : ¬ logSize L length > lm.logbuf_size := by omega
  simp only [h1, h2, if_false]
  unfold LogManager.place
  have h3 : ¬ lm.logbuf_offset + logSize L length > lm.logbuf_size := by omega
  simp only [h3, decide_False, Bool.false_eq_true, if_false, Bool.not_true]
  have hlenb : (L.header rid.value LogType.Insert length ++ bytes.take length ++
      L.lsnBytes lm.current_lsn).length = L.sizeofLogRecord + length + L.sizeofLSN := by
    rw [List.length_append, List.length_append, hL.1, hL.2, List.length_take,
      Nat.min_eq_left hbytes]
  rw [if_pos (by rw [hlenb]; omega)]

/-- C22: with a buffer of no byte (`logbuf_mb = 0`), each of `LogDelete`,
`LogCommit`, `LogAbort` and `LogEnd` finds `Flush()` successful on the empty
buffer and constructs its record past the end of the array instead of returning
false; `LogInsert` with the same buffer returns false. -/
theorem C22_control_records_unchecked :
    LogManager.create 0 3 = some sampleLogZero ∧
    logSize sampleLayout 0 > sampleLogZero.logbuf_size ∧
    sampleLogZero.LogCommit sampleLayout 5 sysOk = none ∧
    sampleLogZero.LogAbort sampleLayout 5 sysOk = none ∧
    sampleLogZero.LogEnd sampleLayout 5 sysOk = none ∧
    sampleLogZero.LogDelete sampleLayout ridA sysOk = none ∧
    sampleLogZero.LogInsert sampleLayout ridA (some [7, 9]) 2 sysOk =
      some (false, sampleLogZero) := by
  decide

/-! ## Frames of the buffer pool -/

theorem frame_eq_some (bm : BufferManager) (a : Nat) (p : Page) :
    bm.frame a = some p ↔ bm.heap[a]? = some (some p) := by
  unfold BufferManager.frame
  cases h : bm.heap[a]? with
  | none => simp
  | some o =>
    cases o with
    | none => simp
    | some q => simp

theorem frame_eq_none (bm : BufferManager) (a : Nat) :
    bm.frame a = none ↔ bm.heap[a]? = none ∨ bm.heap[a]? = some none := by
  unfold BufferManager.frame
  cases h : bm.heap[a]? with
  | none => simp
  | some o =>
    cases o with
    | none => simp
    | some q => simp

theorem frame_bound (bm : BufferManager) (a : Nat) (p : Page) (h : bm.frame a = some p) :
    a < bm.heap.length := by
  rw [frame_eq_some] at h
  by_contra hc
  rw [List.getElem?_eq_none (by omega)] at h
  cases h

theorem frame_congr (bm bm1 : BufferManager) (a : Nat) (h : bm1.heap[a]? = bm.heap[a]?) :
    bm1.frame a = bm.frame a := by
  unfold BufferManager.frame
  rw [h]

theorem frame_set_same (bm bm1 : BufferManager) (a : Nat) (o : Option Page)
    (hlt : a < bm.heap.length) (h : bm1.heap = bm.heap.set a o) : bm1.frame a = o := by
  unfold BufferManager.frame
  rw [h, List.getElem?_set_self hlt]
  cases o <;> rfl

theorem frame_set_other (bm bm1 : BufferManager) (a b : Nat) (o : Option Page)
    (hne : b ≠ a) (h : bm1.heap = bm.heap.set a o) : bm1.frame b = bm.frame b := by
  apply frame_congr
  rw [h, List.getElem?_set_ne (Ne.symm hne)]

theorem frame_append_old (bm bm1 : BufferManager) (a : Nat) (o : Option Page)
    (hlt : a < bm.heap.length) (h : bm1.heap = bm.heap ++ [o]) : bm1.frame a = bm.frame a := by
  apply frame_congr
  rw [h, List.getElem?_append_left hlt]

theorem frame_append_new (bm bm1 : BufferManager) (o : Option Page)
    (h : bm1.heap = bm.heap ++ [o]) : bm1.frame bm.heap.length = o := by
  unfold BufferManager.frame
  rw [h, List.getElem?_append_right (Nat.le_refl _)]
  simp only [Nat.sub_self, List.getElem?_cons_zero]
  cases o <;> rfl

/-! ## The map from page ids to frames -/

theorem findPage_mem (m : List (PageId × Nat)) (k : PageId) (a : Nat)
    (h : findPage m k = some a) : (k, a) ∈ m := by
  unfold findPage at h
  cases hf : m.find? (fun e => e.1 == k) with
  | none => rw [hf] at h; cases h
  | some e =>
    rw [hf] at h
    have h1 := List.find?_some hf
    have h2 := List.mem_of_find?_eq_some hf
    simp only [Option.map_some', Option.some.injEq] at h
    have h3 : e.1 = k := by simpa using h1
    have h4 : e = (k, a) := Prod.ext h3 h
    rw [← h4]
    exact h2

theorem findPage_none (m : List (PageId × Nat)) (k : PageId) :
    findPage m k = none ↔ ∀ e ∈ m, e.1 ≠ k := by
  unfold findPage
  rw [Option.map_eq_none', List.find?_eq_none]
  constructor
  · intro h e he hk
    exact h e he (by simpa using hk)
  · intro h e he hk
    exact h e he (by simpa using hk)

theorem key_unique (m : List (PageId × Nat)) (hnd : (m.map (fun e => e.1)).Nodup)
    (e e1 : PageId × Nat) (he : e ∈ m) (he1 : e1 ∈ m) (h : e.1 = e1.1) : e = e1 :=
  List.inj_on_of_nodup_map hnd he he1 h

theorem findPage_of_mem (m : List (PageId × Nat)) (hnd : (m.map (fun e => e.1)).Nodup)
    (k : PageId) (a : Nat) (h : (k, a) ∈ m) : findPage m k = some a := by
  cases hf : findPage m k with
  | none =>
    rw [findPage_none] at hf
    exact absurd rfl (hf _ h)
  | some b =>
    have hb := findPage_mem m k b hf
    have := key_unique m hnd _ _ hb h rfl
    cases this
    rfl

theorem mem_erasePage (m : List (PageId × Nat)) (k : PageId) (e : PageId × Nat) :
    e ∈ erasePage m k ↔ e ∈ m ∧ e.1 ≠ k := by
  unfold erasePage
  rw [List.mem_filter]
  simp

theorem erasePage_absent (m : List (PageId × Nat)) (k : PageId) (h : ∀ e ∈ m, e.1 ≠ k) :
    erasePage m k = m := by
  unfold erasePage
  rw [List.filter_eq_self]
  intro e he
  simpa using h e he

theorem poolInv_frame (bm : BufferManager) (h : PoolInv bm) (e : PageId × Nat)
    (he : e ∈ bm.page_map) : ∃ p, bm.frame e.2 = some p ∧ p.page_id = e.1 := by
  have h1 := h.1 e he
  cases hf : bm.frame e.2 with
  | none => rw [hf] at h1; cases h1
  | some p =>
    rw [hf] at h1
    exact ⟨p, rfl, by simpa using h1⟩

theorem poolInv_value (bm : BufferManager) (h : PoolInv bm) (e e1 : PageId × Nat)
    (he : e ∈ bm.page_map) (he1 : e1 ∈ bm.page_map) (hv : e.2 = e1.2) : e = e1 := by
  obtain ⟨p, hp, hk⟩ := poolInv_frame bm h e he
  obtain ⟨p1, hp1, hk1⟩ := poolInv_frame bm h e1 he1
  rw [hv, hp1] at hp
  cases hp
  exact key_unique _ h.2.1 e e1 he he1 (by rw [← hk, ← hk1])

theorem poolInv_live (bm : BufferManager) (h : PoolInv bm) (a : Nat) (p : Page)
    (hp : bm.frame a = some p) : (p.page_id, a) ∈ bm.page_map := by
  have hlt := frame_bound bm a p hp
  rcases h.2.2.2.2.2 a (List.mem_range.mpr hlt) with h1 | h1
  · rw [hp] at h1; cases h1
  · rw [List.mem_map] at h1
    obtain ⟨e, he, hea⟩ := h1
    obtain ⟨q, hq, hk⟩ := poolInv_frame bm h e he
    rw [hea, hp] at hq
    cases hq
    have : e = (p.page_id, a) := Prod.ext hk.symm hea
    rw [← this]
    exact he

theorem poolInv_lru_frame (bm : BufferManager) (h : PoolInv bm) (a : Nat) (ha : a ∈ bm.lru) :
    ∃ p, bm.frame a = some p ∧ (p.page_id, a) ∈ bm.page_map := by
  have h1 := h.2.2.2.1 a ha
  rw [List.mem_map] at h1
  obtain ⟨e, he, hea⟩ := h1
  obtain ⟨q, hq, hk⟩ := poolInv_frame bm h e he
  rw [hea] at hq
  exact ⟨q, hq, poolInv_live bm h a q hq⟩

/-- The pool that the constructor makes satisfies the invariant. -/
theorem poolInv_create (PAGE_SIZE page_count : Nat) :
    PoolInv (BufferManager.create PAGE_SIZE page_count) := by
  unfold PoolInv BufferManager.create
  simp

/-- A change of the files leaves the invariant in place. -/
theorem poolInv_files (bm : BufferManager) (files : List BaseFile) (h : PoolInv bm) :
    PoolInv { bm with file_map := files } := h

/-- Assignment to a live frame that keeps its page id, together with a change
of `lru` that keeps the other frames and has the frame when its pin count is 0. -/
theorem poolInv_store (bm : BufferManager) (h : PoolInv bm) (a : Nat) (p q : Page)
    (lru1 : List Nat) (hp : bm.frame a = some p) (hid : q.page_id = p.page_id)
    (hnd : lru1.Nodup) (hsub : ∀ x ∈ lru1, x ∈ bm.lru ∨ x = a)
    (hkeep : ∀ x ∈ bm.lru, x ≠ a → x ∈ lru1) (hzero : q.pin_count = 0 → a ∈ lru1) :
    PoolInv { bm.store a q with lru := lru1 } := by
  have hlt := frame_bound bm a p hp
  have hmem := poolInv_live bm h a p hp
  have hsame : ({ bm.store a q with lru := lru1 } : BufferManager).frame a = some q :=
    frame_set_same bm _ a (some q) hlt rfl
  have hother : ∀ b, b ≠ a → ({ bm.store a q with lru := lru1 } : BufferManager).frame b
      = bm.frame b := fun b hb => frame_set_other bm _ a b (some q) hb rfl
  refine ⟨?_, h.2.1, hnd, ?_, ?_, ?_⟩
  · intro e he
    have he1 : e ∈ bm.page_map := he
    by_cases hea : e.2 = a
    · rw [hea, hsame]
      obtain ⟨p1, hp1, hk⟩ := poolInv_frame bm h e he1
      rw [hea, hp] at hp1
      cases hp1
      simp only [Option.map_some', hid, hk]
    · rw [hother _ hea]
      exact h.1 e he1
  · intro x hx
    rcases hsub x hx with h1 | h1
    · exact h.2.2.2.1 x h1
    · rw [h1, List.mem_map]
      exact ⟨_, hmem, rfl⟩
  · intro e he hz
    have he1 : e ∈ bm.page_map := he
    by_cases hea : e.2 = a
    · rw [hea, hsame] at hz
      rw [hea]
      exact hzero (by simpa using hz)
    · rw [hother _ hea] at hz
      exact hkeep _ (h.2.2.2.2.1 e he1 hz) hea
  · intro x hx
    have hx1 : x ∈ List.range bm.heap.length := by
      rw [List.mem_range] at hx ⊢
      have : ({ bm.store a q with lru := lru1 } : BufferManager).heap.length
          = bm.heap.length := List.length_set _ _ _
      omega
    by_cases hxa : x = a
    · right
      rw [hxa, List.mem_map]
      exact ⟨_, hmem, rfl⟩
    · rw [hother _ hxa]
      exact h.2.2.2.2.2 x hx1

/-! ## Eviction and loading -/

/-- The scan of `lru`: either every frame met is pinned and the list ends up
empty, or the first frame with pin count 0 is written back and evicted, and
the frames before it are dropped from the list. -/
theorem evict_scan (PAGE_SIZE : Nat) (bm : BufferManager) (sys : SysOutcome) (l : List Nat)
    (hl : ∀ a ∈ l, ∃ p, bm.frame a = some p) :
    ((∀ a ∈ l, ∀ p, bm.frame a = some p → p.pin_count ≠ 0) ∧
      bm.evict PAGE_SIZE sys l = some (false, { bm with lru := [] })) ∨
    (∃ pre v rest pv, l = pre ++ v :: rest ∧
      (∀ a ∈ pre, ∀ p, bm.frame a = some p → p.pin_count ≠ 0) ∧
      bm.frame v = some pv ∧ pv.pin_count = 0 ∧
      (writeBack PAGE_SIZE bm.file_map pv sys = none → bm.evict PAGE_SIZE sys l = none) ∧
      (∀ files, writeBack PAGE_SIZE bm.file_map pv sys = some files →
        bm.evict PAGE_SIZE sys l = some (true, { bm with
          file_map := files
          page_map := erasePage bm.page_map pv.page_id
          heap := bm.heap.set v none
          lru := rest }))) := by
  induction l with
  | nil =>
    left
    exact ⟨fun a ha => absurd ha (List.not_mem_nil a), rfl⟩
  | cons v rest ih =>
    obtain ⟨pv, hpv⟩ := hl v (List.mem_cons_self _ _)
    have hrest : ∀ a ∈ rest, ∃ p, bm.frame a = some p :=
      fun a ha => hl a (List.mem_cons_of_mem _ ha)
    by_cases hz : pv.pin_count = 0
    · right
      refine ⟨[], v, rest, pv, rfl, fun a ha => absurd ha (List.not_mem_nil a), hpv, hz, ?_, ?_⟩
      · intro hw
        unfold BufferManager.evict
        simp only [hpv, hz, if_true, hw]
      · intro files hw
        unfold BufferManager.evict
        simp only [hpv, hz, if_true, hw]
    · have hstep : bm.evict PAGE_SIZE sys (v :: rest) = bm.evict PAGE_SIZE sys rest := by
        conv => lhs; unfold BufferManager.evict
        simp only [hpv, hz, if_false]
      rcases ih hrest with ⟨h1, h2⟩ | ⟨pre, w, rest1, pw, h1, h2, h3, h4, h5, h6⟩
      · left
        refine ⟨?_, by rw [hstep, h2]⟩
        intro a ha p hp
        rcases List.mem_cons.mp ha with h | h
        · rw [h, hpv] at hp
          cases hp
          exact hz
        · exact h1 a h p hp
      · right
        refine ⟨v :: pre, w, rest1, pw, by rw [h1]; rfl, ?_, h3, h4, ?_, ?_⟩
        · intro a ha p hp
          rcases List.mem_cons.mp ha with h | h
          · rw [h, hpv] at hp
            cases hp
            exact hz
          · exact h2 a h p hp
        · intro hw
          rw [hstep]
          exact h5 hw
        · intro files hw
          rw [hstep]
          exact h6 files hw

/-- The invariant after an eviction. -/
theorem poolInv_evicted (bm : BufferManager) (h : PoolInv bm) (pre rest : List Nat) (v : Nat)
    (pv : Page) (files : List BaseFile) (hl : bm.lru = pre ++ v :: rest)
    (hpre : ∀ a ∈ pre, ∀ p, bm.frame a = some p → p.pin_count ≠ 0)
    (hv : bm.frame v = some pv) :
    PoolInv { bm with
      file_map := files
      page_map := erasePage bm.page_map pv.page_id
      heap := bm.heap.set v none
      lru := rest } := by
  have hlt := frame_bound bm v pv hv
  have hmem := poolInv_live bm h v pv hv
  have hnd : (pre ++ v :: rest).Nodup := by rw [← hl]; exact h.2.2.1
  have hvrest : v ∉ rest := by
    have := (List.nodup_append.mp hnd).2.1
    exact (List.nodup_cons.mp this).1
  have hother : ∀ b, b ≠ v → ({ bm with
      file_map := files
      page_map := erasePage bm.page_map pv.page_id
      heap := bm.heap.set v none
      lru := rest } : BufferManager).frame b = bm.frame b :=
    fun b hb => frame_set_other bm _ v b none hb rfl
  have hkey : ∀ e ∈ bm.page_map, e.1 ≠ pv.page_id → e.2 ≠ v := by
    intro e he hk hev
    have := poolInv_value bm h e (pv.page_id, v) he hmem hev
    rw [this] at hk
    exact hk rfl
  have hval : ∀ e ∈ bm.page_map, e.2 ≠ v → e.1 ≠ pv.page_id := by
    intro e he hev hk
    have := key_unique _ h.2.1 e (pv.page_id, v) he hmem hk
    rw [this] at hev
    exact hev rfl
  refine ⟨?_, ?_, ?_, ?_, ?_, ?_⟩
  · intro e he
    have he1 := (mem_erasePage _ _ _).mp he
    rw [hother _ (hkey e he1.1 he1.2)]
    exact h.1 e he1.1
  · have : List.Sublist ((erasePage bm.page_map pv.page_id).map (fun e => e.1))
        (bm.page_map.map (fun e => e.1)) :=
      List.Sublist.map _ (List.filter_sublist _)
    exact List.Nodup.sublist this h.2.1
  · exact (List.nodup_cons.mp (List.nodup_append.mp hnd).2.1).2
  · intro x hx
    have hx1 : x ∈ bm.lru := by
      rw [hl]
      exact List.mem_append_right _ (List.mem_cons_of_mem _ hx)
    have h1 := h.2.2.2.1 x hx1
    rw [List.mem_map] at h1 ⊢
    obtain ⟨e, he, hex⟩ := h1
    refine ⟨e, (mem_erasePage _ _ _).mpr ⟨he, hval e he ?_⟩, hex⟩
    rw [hex]
    intro hxv
    rw [hxv] at hx
    exact hvrest hx
  · intro e he hz
    have he1 := (mem_erasePage _ _ _).mp he
    have hev := hkey e he1.1 he1.2
    rw [hother _ hev] at hz
    have h1 := h.2.2.2.2.1 e he1.1 hz
    rw [hl] at h1
    rcases List.mem_append.mp h1 with h2 | h2
    · obtain ⟨p, hp, _⟩ := poolInv_frame bm h e he1.1
      rw [hp] at hz
      exact absurd (by simpa using hz) (hpre _ h2 p hp)
    · rcases List.mem_cons.mp h2 with h3 | h3
      · exact absurd h3 hev
      · exact h3
  · intro x hx
    have hx1 : x ∈ List.range bm.heap.length := by
      rw [List.mem_range] at hx ⊢
      have : (bm.heap.set v none).length = bm.heap.length := List.length_set _ _ _
      have hx2 : x < (bm.heap.set v none).length := hx
      omega
    by_cases hxv : x = v
    · left
      rw [hxv]
      exact frame_set_same bm _ v none hlt rfl
    · rw [hother _ hxv]
      rcases h.2.2.2.2.2 x hx1 with h1 | h1
      · exact Or.inl h1
      · right
        rw [List.mem_map] at h1 ⊢
        obtain ⟨e, he, hex⟩ := h1
        exact ⟨e, (mem_erasePage _ _ _).mpr ⟨he, hval e he (by rw [hex]; exact hxv)⟩, hex⟩

/-- The invariant after a scan that met only pinned frames. -/
theorem poolInv_scanned (bm : BufferManager) (h : PoolInv bm)
    (hall : ∀ a ∈ bm.lru, ∀ p, bm.frame a = some p → p.pin_count ≠ 0) :
    PoolInv { bm with lru := [] } := by
  refine ⟨h.1, h.2.1, List.nodup_nil, fun a ha => absurd ha (List.not_mem_nil a), ?_, h.2.2.2.2.2⟩
  intro e he hz
  have he1 : e ∈ bm.page_map := he
  have hz1 : (bm.frame e.2).map (fun p => p.pin_count) = some 0 := hz
  have h1 := h.2.2.2.2.1 e he1 hz1
  obtain ⟨p, hp, _⟩ := poolInv_frame bm h e he1
  rw [hp] at hz1
  exact absurd (by simpa using hz1) (hall _ h1 p hp)

theorem set_append_last (l : List (Option Page)) (x y : Option Page) :
    (l ++ [x]).set l.length y = l ++ [y] := by
  induction l with
  | nil => rfl
  | cons a t ih =>
    simp only [List.cons_append, List.length_cons, List.set_cons_succ, ih]

theorem poolInv_lru_bound (bm : BufferManager) (h : PoolInv bm) : bm.heap.length ∉ bm.lru := by
  intro hm
  obtain ⟨p, hp, _⟩ := poolInv_lru_frame bm h _ hm
  exact absurd (frame_bound bm _ p hp) (Nat.lt_irrefl _)

/-- A load that succeeds: the new frame holds the bytes read, has pin count 1
and is the last of `lru`. -/
theorem load_ok (PAGE_SIZE : Nat) (bm : BufferManager) (pid : PageId) (file : BaseFile)
    (hf : findFile bm.file_map (fileKey pid) = some file)
    (hload : (file.LoadPage PAGE_SIZE pid (Page.init PAGE_SIZE).page_data).1 = true) :
    bm.load PAGE_SIZE pid = (some bm.heap.length, { bm with
      heap := bm.heap ++ [some ⟨false, 1, pid,
        (file.LoadPage PAGE_SIZE pid (Page.init PAGE_SIZE).page_data).2⟩]
      page_map := bm.page_map ++ [(pid, bm.heap.length)]
      lru := bm.lru ++ [bm.heap.length] }) := by
  unfold BufferManager.load
  simp only [hf]
  have hd : ({ (Page.init PAGE_SIZE) with page_id := pid } : Page).IncPinCount.page_data
      = (Page.init PAGE_SIZE).page_data := rfl
  rw [hd, hload]
  simp only [Bool.not_true, Bool.false_eq_true, if_false, set_append_last]
  rfl

/-- A load that fails: the frame allocated for it is deleted again. -/
theorem load_fail (PAGE_SIZE : Nat) (bm : BufferManager) (h : PoolInv bm) (pid : PageId)
    (hmiss : findPage bm.page_map pid = none) (hno : ¬ bm.loads PAGE_SIZE pid) :
    bm.load PAGE_SIZE pid = (none, { bm with heap := bm.heap ++ [none] }) := by
  have hm : erasePage (bm.page_map ++ [(pid, bm.heap.length)]) pid = bm.page_map := by
    unfold erasePage
    rw [List.filter_append]
    have h1 := erasePage_absent bm.page_map pid ((findPage_none _ _).mp hmiss)
    unfold erasePage at h1
    rw [h1]
    simp
  have hlru : bm.lru.filter (fun a => a != bm.heap.length) = bm.lru := by
    rw [List.filter_eq_self]
    intro a ha
    have := poolInv_lru_bound bm h
    have hne : a ≠ bm.heap.length := fun hc => this (hc ▸ ha)
    simpa using hne
  unfold BufferManager.load
  simp only [hm, hlru, set_append_last]
  unfold BufferManager.loads at hno
  cases hf : findFile bm.file_map (fileKey pid) with
  | none => rfl
  | some file =>
    rw [hf] at hno
    simp only [Option.map_some', Option.some.injEq] at hno
    have hd : ({ (Page.init PAGE_SIZE) with page_id := pid } : Page).IncPinCount.page_data
        = (Page.init PAGE_SIZE).page_data := rfl
    simp only [hd]
    have hb : (file.LoadPage PAGE_SIZE pid (Page.init PAGE_SIZE).page_data).1 = false := by
      cases hx : (file.LoadPage PAGE_SIZE pid (Page.init PAGE_SIZE).page_data).1
      · rfl
      · exact absurd hx hno
    rw [hb]
    rfl

/-- The invariant after a load that succeeds. -/
theorem poolInv_loaded (bm : BufferManager) (h : PoolInv bm) (pid : PageId) (q : Page)
    (hmiss : findPage bm.page_map pid = none) (hq : q.page_id = pid) :
    PoolInv { bm with
      heap := bm.heap ++ [some q]
      page_map := bm.page_map ++ [(pid, bm.heap.length)]
      lru := bm.lru ++ [bm.heap.length] } := by
  have hold : ∀ b, b < bm.heap.length → ({ bm with
      heap := bm.heap ++ [some q]
      page_map := bm.page_map ++ [(pid, bm.heap.length)]
      lru := bm.lru ++ [bm.heap.length] } : BufferManager).frame b = bm.frame b :=
    fun b hb => frame_append_old bm _ b (some q) hb rfl
  have hnew : ({ bm with
      heap := bm.heap ++ [some q]
      page_map := bm.page_map ++ [(pid, bm.heap.length)]
      lru := bm.lru ++ [bm.heap.length] } : BufferManager).frame bm.heap.length = some q :=
    frame_append_new bm _ (some q) rfl
  have hlt : ∀ e ∈ bm.page_map, e.2 < bm.heap.length := by
    intro e he
    obtain ⟨p, hp, _⟩ := poolInv_frame bm h e he
    exact frame_bound bm _ p hp
  have hkeys := (findPage_none _ _).mp hmiss
  refine ⟨?_, ?_, ?_, ?_, ?_, ?_⟩
  · intro e he
    rcases List.mem_append.mp he with h1 | h1
    · rw [hold _ (hlt e h1)]
      exact h.1 e h1
    · rw [List.mem_singleton] at h1
      rw [h1, hnew]
      simp only [Option.map_some', hq]
  · show ((bm.page_map ++ [(pid, bm.heap.length)]).map (fun e => e.1)).Nodup
    rw [List.map_append, List.nodup_append]
    refine ⟨h.2.1, List.nodup_singleton _, ?_⟩
    intro k hk hk1
    simp only [List.map_cons, List.map_nil, List.mem_singleton] at hk1
    rw [List.mem_map] at hk
    obtain ⟨e, he, hek⟩ := hk
    exact hkeys e he (by rw [hek, hk1])
  · show (bm.lru ++ [bm.heap.length]).Nodup
    rw [List.nodup_append]
    refine ⟨h.2.2.1, List.nodup_singleton _, ?_⟩
    intro a ha ha1
    rw [List.mem_singleton] at ha1
    exact poolInv_lru_bound bm h (ha1 ▸ ha)
  · intro a ha
    show a ∈ (bm.page_map ++ [(pid, bm.heap.length)]).map (fun e => e.2)
    rw [List.map_append, List.mem_append]
    rcases List.mem_append.mp ha with h1 | h1
    · exact Or.inl (h.2.2.2.1 a h1)
    · right
      rw [List.mem_singleton] at h1
      simp [h1]
  · intro e he hz
    show e.2 ∈ bm.lru ++ [bm.heap.length]
    rcases List.mem_append.mp he with h1 | h1
    · rw [hold _ (hlt e h1)] at hz
      exact List.mem_append_left _ (h.2.2.2.2.1 e h1 hz)
    · rw [List.mem_singleton] at h1
      rw [h1]
      exact List.mem_append_right _ (List.mem_singleton_self _)
  · intro x hx
    have hx1 : x < bm.heap.length + 1 := by
      have := List.mem_range.mp hx
      simpa using this
    show _ ∨ x ∈ (bm.page_map ++ [(pid, bm.heap.length)]).map (fun e => e.2)
    rw [List.map_append, List.mem_append]
    by_cases hxl : x < bm.heap.length
    · rw [hold _ hxl]
      rcases h.2.2.2.2.2 x (List.mem_range.mpr hxl) with h1 | h1
      · exact Or.inl h1
      · exact Or.inr (Or.inl h1)
    · have : x = bm.heap.length := by omega
      right; right
      simp [this]

/-- The invariant after a load that fails. -/
theorem poolInv_unloaded (bm : BufferManager) (h : PoolInv bm) :
    PoolInv { bm with heap := bm.heap ++ [none] } := by
  have hold : ∀ b, b < bm.heap.length →
      ({ bm with heap := bm.heap ++ [none] } : BufferManager).frame b = bm.frame b :=
    fun b hb => frame_append_old bm _ b none hb rfl
  have hnew : ({ bm with heap := bm.heap ++ [none] } : BufferManager).frame bm.heap.length
      = none := frame_append_new bm _ none rfl
  have hlt : ∀ e ∈ bm.page_map, e.2 < bm.heap.length := by
    intro e he
    obtain ⟨p, hp, _⟩ := poolInv_frame bm h e he
    exact frame_bound bm _ p hp
  refine ⟨?_, h.2.1, h.2.2.1, h.2.2.2.1, ?_, ?_⟩
  · intro e he
    have he1 : e ∈ bm.page_map := he
    rw [hold _ (hlt e he1)]
    exact h.1 e he1
  · intro e he hz
    have he1 : e ∈ bm.page_map := he
    rw [hold _ (hlt e he1)] at hz
    exact h.2.2.2.2.1 e he1 hz
  · intro x hx
    have hx1 : x < bm.heap.length + 1 := by
      have := List.mem_range.mp hx
      simpa using this
    by_cases hxl : x < bm.heap.length
    · rw [hold _ hxl]
      exact h.2.2.2.2.2 x (List.mem_range.mpr hxl)
    · have : x = bm.heap.length := by omega
      left
      rw [this]
      exact hnew

/-! ## The registered files -/

theorem findFile_setFile (files : List BaseFile) (f1 : BaseFile) (k : Int) :
    findFile (setFile files f1) k
      = (findFile files k).map (fun x => if x.id = f1.id then f1 else x) := by
  unfold findFile setFile
  induction files with
  | nil => rfl
  | cons x t ih =>
    have hid : (if x.id = f1.id then f1 else x).id = x.id := by
      split
      · next h => exact h.symm
      · rfl
    simp only [List.map_cons, List.find?_cons, hid]
    cases hb : (x.id == k)
    · exact ih
    · rfl

theorem findFile_id (files : List BaseFile) (k : Int) (f : BaseFile)
    (h : findFile files k = some f) : f.id = k := by
  unfold findFile at h
  have := List.find?_some h
  simpa using this

theorem findFile_mem (files : List BaseFile) (k : Int) (f : BaseFile)
    (h : findFile files k = some f) : f ∈ files := by
  unfold findFile at h
  exact List.mem_of_find?_eq_some h

theorem setFile_ids (files : List BaseFile) (f1 : BaseFile) :
    (setFile files f1).map (fun x => x.id) = files.map (fun x => x.id) := by
  unfold setFile
  rw [List.map_map]
  apply List.map_congr_left
  intro x _
  simp only [Function.comp]
  split
  · next h => exact h.symm
  · rfl

theorem FlushPage_meta (PAGE_SIZE : Nat) (bf : BaseFile) (pid : PageId) (page : List Nat)
    (sys : SysOutcome) (b : Bool) (bf1 : BaseFile)
    (h : bf.FlushPage PAGE_SIZE pid page sys = some (b, bf1)) :
    bf1.id = bf.id ∧ bf1.page_count = bf.page_count ∧ bf.bytes.length ≤ bf1.bytes.length := by
  unfold BaseFile.FlushPage at h
  split at h
  · cases h
    exact ⟨rfl, rfl, Nat.le_refl _⟩
  · simp only [] at h
    split at h
    · cases h
    · split at h
      · cases h
        exact ⟨rfl, rfl, Nat.le_refl _⟩
      · cases h
        exact ⟨rfl, rfl, pwrite_length_ge _ _ _ _⟩

theorem FlushPage_returns (PAGE_SIZE : Nat) (bf : BaseFile) (pid : PageId) (page : List Nat)
    (sys : SysOutcome) (hs : 0 ≤ sys.fsync_ret) :
    ∃ b bf1, bf.FlushPage PAGE_SIZE pid page sys = some (b, bf1) := by
  unfold BaseFile.FlushPage
  split
  · exact ⟨_, _, rfl⟩
  · simp only []
    rw [if_neg (not_lt.mpr hs)]
    cases sys.pwrite_room with
    | none => exact ⟨_, _, rfl⟩
    | some room => exact ⟨_, _, rfl⟩

/-- What the write-back of a victim does to the files: nothing, or one
registered file is replaced by its state after `FlushPage`. -/
theorem writeBack_cases (PAGE_SIZE : Nat) (files : List BaseFile) (v : Page) (sys : SysOutcome)
    (files1 : List BaseFile) (h : writeBack PAGE_SIZE files v sys = some files1) :
    files1 = files ∨ ∃ file b file1, v.is_dirty = true ∧
      findFile files (fileKey v.page_id) = some file ∧
      file.FlushPage PAGE_SIZE v.page_id v.page_data sys = some (b, file1) ∧
      files1 = setFile files file1 := by
  unfold writeBack at h
  split at h
  · next hd =>
    split at h
    · cases h; exact Or.inl rfl
    · next file hf =>
      split at h
      · cases h
      · next b file1 hfl =>
        cases h
        exact Or.inr ⟨file, b, file1, hd, hf, hfl, rfl⟩
  · cases h; exact Or.inl rfl

theorem writeBack_returns (PAGE_SIZE : Nat) (files : List BaseFile) (v : Page) (sys : SysOutcome)
    (hs : 0 ≤ sys.fsync_ret) : ∃ files1, writeBack PAGE_SIZE files v sys = some files1 := by
  unfold writeBack
  split
  · split
    · exact ⟨_, rfl⟩
    · next file hf =>
      obtain ⟨b, bf1, hb⟩ := FlushPage_returns PAGE_SIZE file v.page_id v.page_data sys hs
      rw [hb]
      exact ⟨_, rfl⟩
  · exact ⟨_, rfl⟩

theorem LoadPage_flag (PAGE_SIZE : Nat) (bf : BaseFile) (pid : PageId) (buf : List Nat) :
    (bf.LoadPage PAGE_SIZE pid buf).1 = true ↔
      pid.IsValid = true ∧ pageOffset PAGE_SIZE pid + PAGE_SIZE ≤ bf.bytes.length ∨
      pid.IsValid = true ∧ PAGE_SIZE = 0 := by
  unfold BaseFile.LoadPage preadBytes
  cases hv : pid.IsValid
  · simp
  · simp only [Bool.not_true, Bool.false_eq_true, if_false, beq_iff_eq, List.length_take,
      List.length_drop, true_and]
    omega

/-- A write-back does not make a page unreadable. -/
theorem loads_writeBack (PAGE_SIZE : Nat) (bm : BufferManager) (pid : PageId) (v : Page)
    (sys : SysOutcome) (files1 : List BaseFile) (h : bm.loads PAGE_SIZE pid)
    (hw : writeBack PAGE_SIZE bm.file_map v sys = some files1) (bm1 : BufferManager)
    (hbm1 : bm1.file_map = files1) : bm1.loads PAGE_SIZE pid := by
  unfold BufferManager.loads at h ⊢
  rw [hbm1]
  rcases writeBack_cases PAGE_SIZE _ v sys files1 hw with h1 | ⟨file, b, file1, _, hf, hfl, h1⟩
  · rw [h1]; exact h
  · rw [h1, findFile_setFile]
    cases hk : findFile bm.file_map (fileKey pid) with
    | none => rw [hk] at h; cases h
    | some g =>
      rw [hk] at h
      simp only [Option.map_some', Option.some.injEq] at h ⊢
      by_cases hg : g.id = file1.id
      · rw [if_pos hg]
        have hm := FlushPage_meta PAGE_SIZE file v.page_id v.page_data sys b file1 hfl
        have hgf : g = file := by
          have h1 := findFile_id _ _ _ hk
          have h2 := findFile_id _ _ _ hf
          have h3 : fileKey pid = fileKey v.page_id := by rw [← h1, hg, hm.1, h2]
          rw [h3, hf] at hk
          cases hk
          rfl
        rw [hgf] at h
        rw [LoadPage_flag] at h ⊢
        rcases h with ⟨h2, h3⟩ | h2
        · exact Or.inl ⟨h2, Nat.le_trans h3 hm.2.2⟩
        · exact Or.inr h2
      · rw [if_neg hg]
        exact h

/-! ## `PinPage` and `UnpinPage` keep the invariant -/

theorem loads_iff (PAGE_SIZE : Nat) (bm : BufferManager) (pid : PageId) :
    bm.loads PAGE_SIZE pid ↔ ∃ file, findFile bm.file_map (fileKey pid) = some file ∧
      (file.LoadPage PAGE_SIZE pid (Page.init PAGE_SIZE).page_data).1 = true := by
  unfold BufferManager.loads
  cases findFile bm.file_map (fileKey pid) with
  | none => simp
  | some file => simp

/-- The two outcomes of the allocation of a frame for an uncached page. -/
theorem load_cases (PAGE_SIZE : Nat) (bm : BufferManager) (h : PoolInv bm) (pid : PageId)
    (hmiss : findPage bm.page_map pid = none) :
    (∃ file, findFile bm.file_map (fileKey pid) = some file ∧
      (file.LoadPage PAGE_SIZE pid (Page.init PAGE_SIZE).page_data).1 = true ∧
      bm.load PAGE_SIZE pid = (some bm.heap.length, { bm with
        heap := bm.heap ++ [some ⟨false, 1, pid,
          (file.LoadPage PAGE_SIZE pid (Page.init PAGE_SIZE).page_data).2⟩]
        page_map := bm.page_map ++ [(pid, bm.heap.length)]
        lru := bm.lru ++ [bm.heap.length] })) ∨
    (¬ bm.loads PAGE_SIZE pid ∧
      bm.load PAGE_SIZE pid = (none, { bm with heap := bm.heap ++ [none] })) := by
  by_cases hl : bm.loads PAGE_SIZE pid
  · left
    obtain ⟨file, hf, hflag⟩ := (loads_iff _ _ _).mp hl
    exact ⟨file, hf, hflag, load_ok PAGE_SIZE bm pid file hf hflag⟩
  · right
    exact ⟨hl, load_fail PAGE_SIZE bm h pid hmiss hl⟩

theorem poolInv_load (PAGE_SIZE : Nat) (bm : BufferManager) (h : PoolInv bm) (pid : PageId)
    (hmiss : findPage bm.page_map pid = none) : PoolInv (bm.load PAGE_SIZE pid).2 := by
  rcases load_cases PAGE_SIZE bm h pid hmiss with ⟨file, _, _, h3⟩ | ⟨_, h2⟩
  · rw [h3]
    exact poolInv_loaded bm h pid _ hmiss rfl
  · rw [h2]
    exact poolInv_unloaded bm h

theorem PinPage_invalid (PAGE_SIZE : Nat) (bm : BufferManager) (pid : PageId)
    (sys : SysOutcome) (hv : pid.IsValid = false) :
    bm.PinPage PAGE_SIZE pid sys = some (none, bm) := by
  unfold BufferManager.PinPage
  simp only [hv, Bool.not_false, if_true]

/-- A hit: the pin count goes up by one and the frame moves to the back of `lru`. -/
theorem PinPage_hit (PAGE_SIZE : Nat) (bm : BufferManager) (pid : PageId) (sys : SysOutcome)
    (a : Nat) (p : Page) (hv : pid.IsValid = true) (hf : findPage bm.page_map pid = some a)
    (hp : bm.frame a = some p) :
    bm.PinPage PAGE_SIZE pid sys = some (some a, { bm.store a p.IncPinCount with
      lru := bm.lru.filter (fun b => b != a) ++ [a] }) := by
  unfold BufferManager.PinPage
  simp only [hv, Bool.not_true, Bool.false_eq_true, if_false, hf, hp]

/-- A miss on a pool that is not full. -/
theorem PinPage_room (PAGE_SIZE : Nat) (bm : BufferManager) (pid : PageId) (sys : SysOutcome)
    (hv : pid.IsValid = true) (hf : findPage bm.page_map pid = none)
    (hroom : ¬ bm.page_map.length ≥ bm.page_count) :
    bm.PinPage PAGE_SIZE pid sys = some (bm.load PAGE_SIZE pid) := by
  unfold BufferManager.PinPage
  simp only [hv, Bool.not_true, Bool.false_eq_true, if_false, hf, hroom]

/-- A miss on a full pool: the three outcomes of the scan. -/
theorem PinPage_full (PAGE_SIZE : Nat) (bm : BufferManager) (h : PoolInv bm) (pid : PageId)
    (sys : SysOutcome) (hv : pid.IsValid = true) (hf : findPage bm.page_map pid = none)
    (hfull : bm.page_map.length ≥ bm.page_count) :
    ((∀ a ∈ bm.lru, ∀ p, bm.frame a = some p → p.pin_count ≠ 0) ∧
      bm.PinPage PAGE_SIZE pid sys = some (none, { bm with lru := [] })) ∨
    (∃ pre v rest pv, bm.lru = pre ++ v :: rest ∧
      (∀ a ∈ pre, ∀ p, bm.frame a = some p → p.pin_count ≠ 0) ∧
      bm.frame v = some pv ∧ pv.pin_count = 0 ∧
      (writeBack PAGE_SIZE bm.file_map pv sys = none → bm.PinPage PAGE_SIZE pid sys = none) ∧
      (∀ files, writeBack PAGE_SIZE bm.file_map pv sys = some files →
        bm.PinPage PAGE_SIZE pid sys = some (({ bm with
          file_map := files
          page_map := erasePage bm.page_map pv.page_id
          heap := bm.heap.set v none
          lru := rest } : BufferManager).load PAGE_SIZE pid))) := by
  have hlive : ∀ a ∈ bm.lru, ∃ p, bm.frame a = some p := by
    intro a ha
    obtain ⟨p, hp, _⟩ := poolInv_lru_frame bm h a ha
    exact ⟨p, hp⟩
  have hunf : bm.PinPage PAGE_SIZE pid sys =
      match bm.evict PAGE_SIZE sys bm.lru with
      | none => none
      | some (evicted, bm1) =>
        if !evicted && decide (bm1.page_map.length ≥ bm1.page_count) then some (none, bm1)
        else some (bm1.load PAGE_SIZE pid) := by
    unfold BufferManager.PinPage
    simp only [hv, Bool.not_true, Bool.false_eq_true, if_false, hf, hfull, if_true]
  rcases evict_scan PAGE_SIZE bm sys bm.lru hlive with ⟨h1, h2⟩ |
    ⟨pre, v, rest, pv, h1, h2, h3, h4, h5, h6⟩
  · left
    refine ⟨h1, ?_⟩
    rw [hunf, h2]
    have : decide (bm.page_map.length ≥ bm.page_count) = true := by simpa using hfull
    simp only [Bool.not_false, Bool.true_and, this, if_true]
  · right
    refine ⟨pre, v, rest, pv, h1, h2, h3, h4, ?_, ?_⟩
    · intro hw
      rw [hunf, h5 hw]
    · intro files hw
      rw [hunf, h6 files hw]
      simp only [Bool.not_true, Bool.false_and, Bool.false_eq_true, if_false]

theorem erasePage_miss (m : List (PageId × Nat)) (k pid : PageId)
    (h : findPage m pid = none) : findPage (erasePage m k) pid = none := by
  rw [findPage_none] at h ⊢
  intro e he
  exact h e ((mem_erasePage _ _ _).mp he).1

/-- `PinPage` keeps the invariant. -/
theorem poolInv_PinPage (PAGE_SIZE : Nat) (bm : BufferManager) (h : PoolInv bm) (pid : PageId)
    (sys : SysOutcome) (r : Option Nat) (bm1 : BufferManager)
    (hpin : bm.PinPage PAGE_SIZE pid sys = some (r, bm1)) : PoolInv bm1 := by
  cases hv : pid.IsValid with
  | false =>
    rw [PinPage_invalid PAGE_SIZE bm pid sys hv] at hpin
    cases hpin
    exact h
  | true =>
    cases hf : findPage bm.page_map pid with
    | some a =>
      have hmem := findPage_mem _ _ _ hf
      obtain ⟨p, hp, _⟩ := poolInv_frame bm h _ hmem
      rw [PinPage_hit PAGE_SIZE bm pid sys a p hv hf hp] at hpin
      cases hpin
      apply poolInv_store bm h a p p.IncPinCount _ hp rfl
      · rw [List.nodup_append]
        refine ⟨List.Nodup.filter _ h.2.2.1, List.nodup_singleton _, ?_⟩
        intro x hx hx1
        rw [List.mem_singleton] at hx1
        rw [List.mem_filter] at hx
        simp [hx1] at hx
      · intro x hx
        rcases List.mem_append.mp hx with h1 | h1
        · exact Or.inl (List.mem_filter.mp h1).1
        · exact Or.inr (List.mem_singleton.mp h1)
      · intro x hx hne
        apply List.mem_append_left
        rw [List.mem_filter]
        exact ⟨hx, by simpa using hne⟩
      · intro _
        exact List.mem_append_right _ (List.mem_singleton_self _)
    | none =>
      by_cases hfull : bm.page_map.length ≥ bm.page_count
      · rcases PinPage_full PAGE_SIZE bm h pid sys hv hf hfull with ⟨h1, h2⟩ |
          ⟨pre, v, rest, pv, h1, h2, h3, h4, h5, h6⟩
        · rw [h2] at hpin
          cases hpin
          exact poolInv_scanned bm h h1
        · cases hw : writeBack PAGE_SIZE bm.file_map pv sys with
          | none => rw [h5 hw] at hpin; cases hpin
          | some files =>
            rw [h6 files hw] at hpin
            have hb : (_ : BufferManager) = bm1 := congrArg Prod.snd (Option.some.inj hpin)
            rw [← hb]
            exact poolInv_load PAGE_SIZE _ (poolInv_evicted bm h pre rest v pv files h1 h2 h3) pid
              (erasePage_miss _ _ _ hf)
      · rw [PinPage_room PAGE_SIZE bm pid sys hv hf hfull] at hpin
        have hb : (bm.load PAGE_SIZE pid).2 = bm1 := congrArg Prod.snd (Option.some.inj hpin)
        rw [← hb]
        exact poolInv_load PAGE_SIZE bm h pid hf

theorem dec_page_id (p : Page) : p.DecPinCount.page_id = p.page_id := by
  unfold Page.DecPinCount
  simp only []

theorem UnpinPage_live (bm : BufferManager) (a : Nat) (p : Page) (hp : bm.frame a = some p) :
    bm.UnpinPage (some a) =
      if p.DecPinCount.pin_count = 0 then
        if a ∈ bm.lru then some (bm.store a p.DecPinCount)
        else some { bm.store a p.DecPinCount with lru := bm.lru ++ [a] }
      else some (bm.store a p.DecPinCount) := by
  unfold BufferManager.UnpinPage
  simp only [hp]

theorem UnpinPage_dead (bm : BufferManager) (a : Nat) (hp : bm.frame a = none) :
    bm.UnpinPage (some a) = none := by
  unfold BufferManager.UnpinPage
  simp only [hp]

/-- `UnpinPage` keeps the invariant. -/
theorem poolInv_UnpinPage (bm : BufferManager) (h : PoolInv bm) (page : Option Nat)
    (bm1 : BufferManager) (hun : bm.UnpinPage page = some bm1) : PoolInv bm1 := by
  cases page with
  | none => cases hun; exact h
  | some a =>
    cases hp : bm.frame a with
    | none => rw [UnpinPage_dead bm a hp] at hun; cases hun
    | some p =>
      rw [UnpinPage_live bm a p hp] at hun
      have hstore : bm.store a p.DecPinCount
          = { bm.store a p.DecPinCount with lru := bm.lru } := rfl
      by_cases hz : p.DecPinCount.pin_count = 0
      · rw [if_pos hz] at hun
        by_cases hin : a ∈ bm.lru
        · rw [if_pos hin] at hun
          cases hun
          rw [hstore]
          exact poolInv_store bm h a p p.DecPinCount bm.lru hp (dec_page_id p) h.2.2.1
            (fun x hx => Or.inl hx) (fun x hx _ => hx) (fun _ => hin)
        · rw [if_neg hin] at hun
          cases hun
          apply poolInv_store bm h a p p.DecPinCount _ hp (dec_page_id p)
          · rw [List.nodup_append]
            refine ⟨h.2.2.1, List.nodup_singleton _, ?_⟩
            intro x hx hx1
            rw [List.mem_singleton] at hx1
            exact hin (hx1 ▸ hx)
          · intro x hx
            rcases List.mem_append.mp hx with h1 | h1
            · exact Or.inl h1
            · exact Or.inr (List.mem_singleton.mp h1)
          · intro x hx _
            exact List.mem_append_left _ hx
          · intro _
            exact List.mem_append_right _ (List.mem_singleton_self _)
      · rw [if_neg hz] at hun
        cases hun
        rw [hstore]
        exact poolInv_store bm h a p p.DecPinCount bm.lru hp (dec_page_id p) h.2.2.1
          (fun x hx => Or.inl hx) (fun x hx _ => hx) (fun hc => absurd hc hz)

/-- A change of the bytes or of the dirty flag of a frame keeps the invariant. -/
theorem poolInv_frame_edit (bm : BufferManager) (h : PoolInv bm) (a : Nat) (p q : Page)
    (hp : bm.frame a = some p) (hid : q.page_id = p.page_id) (hpin : q.pin_count = p.pin_count) :
    PoolInv (bm.store a q) := by
  have hstore : bm.store a q = { bm.store a q with lru := bm.lru } := rfl
  rw [hstore]
  apply poolInv_store bm h a p q bm.lru hp hid h.2.2.1 (fun x hx => Or.inl hx)
    (fun x hx _ => hx)
  intro hz
  have hmem := poolInv_live bm h a p hp
  have := h.2.2.2.2.1 _ hmem
  rw [hp] at this
  exact this (by simp only [Option.map_some', ← hpin, hz])

theorem poolInv_update (bm : BufferManager) (h : PoolInv bm) (a : Nat)
    (g : List Nat → List Nat) (bm1 : BufferManager) (hu : bm.update a g = some bm1) :
    PoolInv bm1 := by
  unfold BufferManager.update at hu
  cases hp : bm.frame a with
  | none => rw [hp] at hu; cases hu
  | some p =>
    rw [hp] at hu
    cases hu
    exact poolInv_frame_edit bm h a p _ hp rfl rfl

theorem write_update (bm : BufferManager) (a : Nat) (data : List Nat) (bm1 : BufferManager)
    (hu : bm.write a data = some bm1) :
    bm.update a (fun d => overwrite d data) = some bm1 ∧
      ∃ p, bm.frame a = some p ∧ data.length ≤ p.page_data.length := by
  unfold BufferManager.write at hu
  cases hp : bm.frame a with
  | none => rw [hp] at hu; cases hu
  | some p =>
    rw [hp] at hu
    simp only [] at hu
    by_cases hl : data.length ≤ p.page_data.length
    · rw [if_pos hl] at hu
      exact ⟨hu, p, rfl, hl⟩
    · rw [if_neg hl] at hu
      cases hu

theorem poolInv_SetDirty (bm : BufferManager) (h : PoolInv bm) (a : Nat) (dirty : Bool)
    (bm1 : BufferManager) (hu : bm.SetDirty a dirty = some bm1) : PoolInv bm1 := by
  unfold BufferManager.SetDirty at hu
  cases hp : bm.frame a with
  | none => rw [hp] at hu; cases hu
  | some p =>
    rw [hp] at hu
    cases hu
    exact poolInv_frame_edit bm h a p _ hp rfl rfl

theorem poolInv_RegisterFile (bm : BufferManager) (h : PoolInv bm) (bf : Option BaseFile) :
    PoolInv (bm.RegisterFile bf) := by
  unfold BufferManager.RegisterFile
  cases bf with
  | none => exact h
  | some f =>
    simp only []
    split
    · exact poolInv_files bm _ h
    · exact poolInv_files bm _ h

theorem poolInv_call (PAGE_SIZE : Nat) (bm : BufferManager) (h : PoolInv bm) (c : PoolCall)
    (r : Option Nat) (bm1 : BufferManager) (hc : bm.call PAGE_SIZE c = some (r, bm1)) :
    PoolInv bm1 := by
  cases c with
  | register bf =>
    have hc1 : some (none, bm.RegisterFile (some bf)) = some (r, bm1) := hc
    cases hc1
    exact poolInv_RegisterFile bm h _
  | createPage fd sys =>
    have hc1 : (match findFile bm.file_map fd with
      | none => none
      | some file =>
        match file.CreatePage PAGE_SIZE sys with
        | none => none
        | some (_, file1) =>
          some ((none : Option Nat), { bm with file_map := setFile bm.file_map file1 }))
        = some (r, bm1) := hc
    split at hc1
    · cases hc1
    · split at hc1
      · cases hc1
      · cases hc1
        exact poolInv_files bm _ h
  | pin page_id sys => exact poolInv_PinPage PAGE_SIZE bm h page_id sys r bm1 hc
  | unpin page =>
    have hc1 : (bm.UnpinPage page).map (fun s => ((none : Option Nat), s)) = some (r, bm1) := hc
    cases hu : bm.UnpinPage page with
    | none => rw [hu] at hc1; cases hc1
    | some s =>
      rw [hu] at hc1
      cases hc1
      exact poolInv_UnpinPage bm h page _ hu
  | write page data =>
    have hc1 : (bm.write page data).map (fun s => ((none : Option Nat), s)) = some (r, bm1) := hc
    cases hu : bm.write page data with
    | none => rw [hu] at hc1; cases hc1
    | some s =>
      rw [hu] at hc1
      cases hc1
      exact poolInv_update bm h page _ _ (write_update bm page data _ hu).1
  | setDirty page dirty =>
    have hc1 : (bm.SetDirty page dirty).map (fun s => ((none : Option Nat), s))
        = some (r, bm1) := hc
    cases hu : bm.SetDirty page dirty with
    | none => rw [hu] at hc1; cases hc1
    | some s =>
      rw [hu] at hc1
      cases hc1
      exact poolInv_SetDirty bm h page dirty _ hu

/-- Every reachable state of the pool satisfies the invariant. -/
theorem poolInv_reachable (PAGE_SIZE : Nat) (bm : BufferManager)
    (h : BufferManager.Reachable PAGE_SIZE bm) : PoolInv bm := by
  induction h with
  | create page_count => exact poolInv_create PAGE_SIZE page_count
  | call bm c r bm1 _ hc ih => exact poolInv_call PAGE_SIZE bm ih c r bm1 hc

/-! ## When `PinPage` fails -/

theorem reachable_run (PAGE_SIZE : Nat) (cs : List PoolCall) :
    ∀ (bm : BufferManager) (rs : List (Option Nat)) (bm1 : BufferManager),
      BufferManager.Reachable PAGE_SIZE bm → bm.run PAGE_SIZE cs = some (rs, bm1) →
      BufferManager.Reachable PAGE_SIZE bm1 := by
  induction cs with
  | nil =>
    intro bm rs bm1 h hr
    have hr1 : some (([] : List (Option Nat)), bm) = some (rs, bm1) := hr
    cases hr1
    exact h
  | cons c cs ih =>
    intro bm rs bm1 h hr
    have hr1 : (match bm.call PAGE_SIZE c with
      | none => none
      | some (r, bm2) =>
        match BufferManager.run PAGE_SIZE bm2 cs with
        | none => none
        | some (rs, bm3) => some (r :: rs, bm3)) = some (rs, bm1) := hr
    cases hc : bm.call PAGE_SIZE c with
    | none => rw [hc] at hr1; cases hr1
    | some x =>
      obtain ⟨r, bm2⟩ := x
      rw [hc] at hr1
      simp only [] at hr1
      cases hrun : BufferManager.run PAGE_SIZE bm2 cs with
      | none => rw [hrun] at hr1; cases hr1
      | some y =>
        obtain ⟨rs2, bm3⟩ := y
        rw [hrun] at hr1
        cases hr1
        exact ih bm2 _ _ (BufferManager.Reachable.call bm c r bm2 h hc) hrun

/-- On a state that satisfies the invariant, a miss on a page that loads is
null exactly when the pool is full of pinned frames. -/
theorem PinPage_null_iff (PAGE_SIZE : Nat) (bm : BufferManager) (pid : PageId)
    (sys : SysOutcome) (h : PoolInv bm)
    (hv : pid.IsValid = true) (hmiss : findPage bm.page_map pid = none)
    (hload : bm.loads PAGE_SIZE pid) :
    (∀ r bm1, bm.PinPage PAGE_SIZE pid sys = some (r, bm1) →
      (r = none ↔ bm.full ∧ bm.allPinned)) ∧
    (0 ≤ sys.fsync_ret → ∃ r bm1, bm.PinPage PAGE_SIZE pid sys = some (r, bm1)) ∧
    ((∃ e ∈ bm.page_map, ∃ p, bm.frame e.2 = some p ∧ p.pin_count = 0) →
      ∀ r bm1, bm.PinPage PAGE_SIZE pid sys = some (r, bm1) → r ≠ none) := by
  have hloaded : ∀ (b : BufferManager), PoolInv b → findPage b.page_map pid = none →
      b.loads PAGE_SIZE pid → (b.load PAGE_SIZE pid).1 ≠ none := by
    intro b hb hm hl
    rcases load_cases PAGE_SIZE b hb pid hm with ⟨file, _, _, h3⟩ | ⟨h1, _⟩
    · rw [h3]
      exact fun hc => Option.noConfusion hc
    · exact absurd hl h1
  have main : (∀ r bm1, bm.PinPage PAGE_SIZE pid sys = some (r, bm1) →
      (r = none ↔ bm.full ∧ bm.allPinned)) ∧
      (0 ≤ sys.fsync_ret → ∃ r bm1, bm.PinPage PAGE_SIZE pid sys = some (r, bm1)) := by
    by_cases hfull : bm.page_map.length ≥ bm.page_count
    · rcases PinPage_full PAGE_SIZE bm h pid sys hv hmiss hfull with ⟨h1, h2⟩ |
        ⟨pre, v, rest, pv, h1, h2, h3, h4, h5, h6⟩
      · refine ⟨?_, fun _ => ⟨_, _, h2⟩⟩
        intro r bm1 hpin
        rw [h2] at hpin
        cases hpin
        refine ⟨fun _ => ⟨hfull, ?_⟩, fun _ => rfl⟩
        intro e he p hp
        by_contra hz
        have hz0 : p.pin_count = 0 := by omega
        have := h.2.2.2.2.1 e he (by rw [hp]; simp only [Option.map_some', hz0])
        exact h1 _ this p hp hz0
      · have hnot : ¬ bm.allPinned := by
          intro hall
          have := hall _ (poolInv_live bm h v pv h3) pv h3
          omega
        refine ⟨?_, ?_⟩
        · intro r bm1 hpin
          cases hw : writeBack PAGE_SIZE bm.file_map pv sys with
          | none => rw [h5 hw] at hpin; cases hpin
          | some files =>
            rw [h6 files hw] at hpin
            have hr : (_ : Option Nat) = r := congrArg Prod.fst (Option.some.inj hpin)
            have hne := hloaded _ (poolInv_evicted bm h pre rest v pv files h1 h2 h3)
              (erasePage_miss _ _ _ hmiss)
              (loads_writeBack PAGE_SIZE bm pid pv sys files hload hw _ rfl)
            rw [hr] at hne
            exact ⟨fun hc => absurd hc hne, fun hc => absurd hc.2 hnot⟩
        · intro hs
          obtain ⟨files, hw⟩ := writeBack_returns PAGE_SIZE bm.file_map pv sys hs
          exact ⟨_, _, h6 files hw⟩
    · have hp := PinPage_room PAGE_SIZE bm pid sys hv hmiss hfull
      refine ⟨?_, fun _ => ⟨_, _, hp⟩⟩
      intro r bm1 hpin
      rw [hp] at hpin
      have hr : (bm.load PAGE_SIZE pid).1 = r := congrArg Prod.fst (Option.some.inj hpin)
      have hne := hloaded bm h hmiss hload
      rw [hr] at hne
      exact ⟨fun hc => absurd hc hne, fun hc => absurd hc.1 hfull⟩
  refine ⟨main.1, main.2, ?_⟩
  intro hex r bm1 hpin hr
  obtain ⟨e, he, p, hp, hz⟩ := hex
  have := ((main.1 r bm1 hpin).mp hr).2 e he p hp
  omega

/-- C24: in every state of the pool reached from the constructor by calls that
return, `PinPage` of a valid page id that is not cached, whose file is
registered and whose load succeeds, returns the null pointer exactly when the
pool is full and every cached frame has a pin count above 0; it returns
whenever the write-back of a victim does not abort; and it returns a frame
whenever some cached frame has pin count 0. -/
theorem C24_pin_fails_iff_all_pinned (PAGE_SIZE : Nat) (bm : BufferManager) (pid : PageId)
    (sys : SysOutcome) (hreach : BufferManager.Reachable PAGE_SIZE bm)
    (hv : pid.IsValid = true) (hmiss : findPage bm.page_map pid = none)
    (hload : bm.loads PAGE_SIZE pid) :
    (∀ r bm1, bm.PinPage PAGE_SIZE pid sys = some (r, bm1) →
      (r = none ↔ bm.full ∧ bm.allPinned)) ∧
    (0 ≤ sys.fsync_ret → ∃ r bm1, bm.PinPage PAGE_SIZE pid sys = some (r, bm1)) ∧
    ((∃ e ∈ bm.page_map, ∃ p, bm.frame e.2 = some p ∧ p.pin_count = 0) →
      ∀ r bm1, bm.PinPage PAGE_SIZE pid sys = some (r, bm1) → r ≠ none) :=
  PinPage_null_iff PAGE_SIZE bm pid sys (poolInv_reachable PAGE_SIZE bm hreach) hv hmiss hload

/-! ## Pages in files -/

/-- A positional write leaves the bytes outside its range as they are. -/
theorem getElem?_pwrite (file buf : List Nat) (n o j : Nat) (hn : n ≤ buf.length)
    (hj : j < file.length) (hout : j < o ∨ o + n ≤ j) :
    (pwriteBytes file buf n o)[j]? = file[j]? := by
  unfold pwriteBytes
  have hd : (List.take n buf).length = n := by
    rw [List.length_take]; omega
  simp only [hd]
  have hb : (file ++ List.replicate (o - file.length) 0).length = file.length + (o - file.length) := by
    rw [List.length_append, List.length_replicate]
  have hbase : (file ++ List.replicate (o - file.length) 0)[j]? = file[j]? :=
    List.getElem?_append_left hj
  rcases hout with h | h
  · rw [List.append_assoc, List.getElem?_append_left (by rw [List.length_take, hb]; omega),
      List.getElem?_take_of_lt h, hbase]
  · have hl : (List.take o (file ++ List.replicate (o - file.length) 0) ++ List.take n buf).length
        = o + n := by
      rw [List.length_append, List.length_take, hb, hd]; omega
    rw [List.getElem?_append_right (by rw [hl]; exact h), hl, List.getElem?_drop]
    have : o + n + (j - (o + n)) = j := by omega
    rw [this, hbase]

theorem pread_pwrite_other (file buf : List Nat) (n o m o1 : Nat) (hn : n ≤ buf.length)
    (hin : o1 + m ≤ file.length) (hdis : o1 + m ≤ o ∨ o + n ≤ o1) :
    preadBytes (pwriteBytes file buf n o) m o1 = preadBytes file m o1 := by
  unfold preadBytes
  apply List.ext_getElem?
  intro i
  rw [List.getElem?_take, List.getElem?_take]
  by_cases hi : i < m
  · rw [if_pos hi, if_pos hi, List.getElem?_drop, List.getElem?_drop]
    exact getElem?_pwrite file buf n o (o1 + i) hn (by omega) (by omega)
  · rw [if_neg hi, if_neg hi]

theorem pread_length (file : List Nat) (n o : Nat) (h : o + n ≤ file.length) :
    (preadBytes file n o).length = n := by
  unfold preadBytes
  rw [List.length_take, List.length_drop]
  omega

theorem pwrite_length_within (file buf : List Nat) (n o : Nat) (hn : n ≤ buf.length)
    (h : o + n ≤ file.length) : (pwriteBytes file buf n o).length = file.length :=
  pwrite_length_inside file buf n o hn h

/-- `FlushPage` of a valid page when the system calls succeed. -/
theorem FlushPage_ok (PAGE_SIZE : Nat) (bf : BaseFile) (pid : PageId) (page : List Nat)
    (sys : SysOutcome) (hv : pid.IsValid = true) (hs : sys.Ok PAGE_SIZE) :
    bf.FlushPage PAGE_SIZE pid page sys = some (true,
      { bf with bytes := pwriteBytes bf.bytes page PAGE_SIZE (pageOffset PAGE_SIZE pid) }) := by
  obtain ⟨h1, room, h2, h3⟩ := hs
  unfold BaseFile.FlushPage
  simp only [hv, Bool.not_true, Bool.false_eq_true, if_false, not_lt.mpr h1, h2,
    Nat.min_eq_right h3, beq_self_eq_true]

theorem getFileId_eq (pid : PageId) (h : pid.value < 18446744073709551616) :
    pid.GetFileId = pid.value / 4294967296 := by
  unfold PageId.GetFileId
  rw [Nat.shiftRight_eq_div_pow]
  omega

theorem getPageNum_eq (pid : PageId) : pid.GetPageNum = pid.value % 4294967296 / 65536 := by
  unfold PageId.GetPageNum
  rw [and_mask32, Nat.shiftRight_eq_div_pow]

/-- A proper page id is determined by its file and its page number. -/
theorem proper_ext (p q : PageId) (hp : p.Proper) (hq : q.Proper) (h : p.samePage q) :
    p = q := by
  obtain ⟨h1, h2⟩ := h
  unfold fileKey at h1
  rw [getFileId_eq p (by have := hp.1; omega), getFileId_eq q (by have := hq.1; omega)] at h1
  rw [getPageNum_eq, getPageNum_eq] at h2
  have hp1 := hp.1
  have hp2 := hp.2
  have hq1 := hq.1
  have hq2 := hq.2
  have e1 : p.value / 4294967296 < 2147483648 := by omega
  have e2 : q.value / 4294967296 < 2147483648 := by omega
  rw [if_pos e1, if_pos e2] at h1
  have e3 : p.value / 4294967296 = q.value / 4294967296 := by exact_mod_cast h1
  have : p.value = q.value := by omega
  cases p; cases q
  simp only at this
  rw [this]

theorem proper_valid (p : PageId) (hp : p.Proper) : p.IsValid = true := by
  have := hp.1
  simp only [PageId.IsValid, kInvalidValue, bne_iff_ne, ne_eq]
  omega

/-- The page ids that the constructor makes from a descriptor below `2^31` and
a page number below `2^16` are proper. -/
theorem make_proper (f c : Nat) (hf : f < 2147483648) (hc : c < 65536) :
    (PageId.make (f : Int) c).Proper := by
  unfold PageId.Proper
  rw [PageId.make_value f c (by omega) hc]
  omega

theorem make_fileKey (f c : Nat) (hf : f < 2147483648) (hc : c < 65536) :
    fileKey (PageId.make (f : Int) c) = (f : Int) := by
  unfold fileKey
  rw [PageId.make_fileId f c (by omega) hc, if_pos hf]

theorem pageBytes_some (PAGE_SIZE : Nat) (files : List BaseFile) (pid : PageId) (d : List Nat) :
    pageBytes PAGE_SIZE files pid = some d ↔
      ∃ file, findFile files (fileKey pid) = some file ∧
        pageOffset PAGE_SIZE pid + PAGE_SIZE ≤ file.bytes.length ∧
        d = preadBytes file.bytes PAGE_SIZE (pageOffset PAGE_SIZE pid) := by
  unfold pageBytes
  cases hf : findFile files (fileKey pid) with
  | none => simp
  | some file =>
    simp only [Option.some.injEq, exists_eq_left']
    by_cases hl : pageOffset PAGE_SIZE pid + PAGE_SIZE ≤ file.bytes.length
    · rw [if_pos hl]
      simp only [Option.some.injEq, hl, true_and]
      exact eq_comm
    · rw [if_neg hl]
      simp [hl]

theorem pageBytes_length (PAGE_SIZE : Nat) (files : List BaseFile) (pid : PageId) (d : List Nat)
    (h : pageBytes PAGE_SIZE files pid = some d) : d.length = PAGE_SIZE := by
  obtain ⟨file, _, h2, h3⟩ := (pageBytes_some _ _ _ _).mp h
  rw [h3]
  exact pread_length _ _ _ h2

/-- The write-back of a victim leaves the pages of the files that do not lie
where the victim lies as they are, when they were there before. -/
theorem pageBytes_writeBack (PAGE_SIZE : Nat) (hPS : PAGE_SIZE ≤ 65536) (files : List BaseFile)
    (v : Page) (sys : SysOutcome) (files1 : List BaseFile) (q : PageId) (d : List Nat)
    (hlen : v.page_data.length = PAGE_SIZE)
    (hw : writeBack PAGE_SIZE files v sys = some files1)
    (hq : ¬ q.samePage v.page_id) (hd : pageBytes PAGE_SIZE files q = some d) :
    pageBytes PAGE_SIZE files1 q = some d := by
  rcases writeBack_cases PAGE_SIZE files v sys files1 hw with h1 | ⟨file, b, file1, _, hf, hfl, h1⟩
  · rw [h1]; exact hd
  · obtain ⟨g, hg1, hg2, hg3⟩ := (pageBytes_some _ _ _ _).mp hd
    rw [pageBytes_some]
    have hm := FlushPage_meta PAGE_SIZE file v.page_id v.page_data sys b file1 hfl
    rw [h1, findFile_setFile, hg1]
    by_cases hid : g.id = file1.id
    · refine ⟨file1, by simp only [Option.map_some', if_pos hid], ?_, ?_⟩
      · have hgf : g = file := by
          have e1 := findFile_id _ _ _ hg1
          have e2 := findFile_id _ _ _ hf
          have e3 : fileKey q = fileKey v.page_id := by rw [← e1, hid, hm.1, e2]
          rw [e3, hf] at hg1
          cases hg1
          rfl
        rw [hgf] at hg2
        exact Nat.le_trans hg2 hm.2.2
      · have e1 := findFile_id _ _ _ hg1
        have e2 := findFile_id _ _ _ hf
        have e3 : fileKey q = fileKey v.page_id := by rw [← e1, hid, hm.1, e2]
        have hgf : g = file := by
          rw [e3, hf] at hg1
          cases hg1
          rfl
        rw [hgf] at hg2 hg3
        have hnum : q.GetPageNum ≠ v.page_id.GetPageNum := fun hc => hq ⟨e3, hc⟩
        rw [hg3]
        unfold BaseFile.FlushPage at hfl
        split at hfl
        · cases hfl; rfl
        · simp only [] at hfl
          split at hfl
          · cases hfl
          · split at hfl
            · cases hfl; rfl
            · next room hroom =>
              cases hfl
              simp only []
              rw [pageOffset_eq PAGE_SIZE hPS q, pageOffset_eq PAGE_SIZE hPS v.page_id] at *
              symm
              apply pread_pwrite_other
              · rw [hlen]; exact Nat.min_le_right _ _
              · exact hg2
              · have hmin : min room PAGE_SIZE ≤ PAGE_SIZE := Nat.min_le_right _ _
                rcases Nat.lt_or_gt_of_ne hnum with h | h
                · left
                  have : (q.GetPageNum + 1) * PAGE_SIZE ≤ v.page_id.GetPageNum * PAGE_SIZE :=
                    Nat.mul_le_mul_right _ h
                  rw [Nat.add_mul] at this
                  omega
                · right
                  have : (v.page_id.GetPageNum + 1) * PAGE_SIZE ≤ q.GetPageNum * PAGE_SIZE :=
                    Nat.mul_le_mul_right _ h
                  rw [Nat.add_mul] at this
                  omega
    · exact ⟨g, by simp only [Option.map_some', if_neg hid], hg2, hg3⟩

/-- The write-back of a dirty victim whose file is registered puts its bytes
in the file, when the system calls succeed. -/
theorem pageBytes_written (PAGE_SIZE : Nat) (files : List BaseFile) (v : Page)
    (sys : SysOutcome) (files1 : List BaseFile) (hv : v.page_id.IsValid = true)
    (hlen : v.page_data.length = PAGE_SIZE) (hdirty : v.is_dirty = true)
    (hreg : (findFile files (fileKey v.page_id)).isSome = true) (hs : sys.Ok PAGE_SIZE)
    (hw : writeBack PAGE_SIZE files v sys = some files1) :
    pageBytes PAGE_SIZE files1 v.page_id = some v.page_data := by
  cases hf : findFile files (fileKey v.page_id) with
  | none => rw [hf] at hreg; cases hreg
  | some file =>
    unfold writeBack at hw
    rw [if_pos hdirty, hf] at hw
    simp only [FlushPage_ok PAGE_SIZE file v.page_id v.page_data sys hv hs] at hw
    cases hw
    rw [pageBytes_some]
    refine ⟨{ file with bytes :=
      (pwriteBytes file.bytes v.page_data PAGE_SIZE (pageOffset PAGE_SIZE v.page_id)) },
      ?_, ?_, ?_⟩
    · rw [findFile_setFile, hf]
      simp only [Option.map_some', if_true]
    · simp only []
      have := pwrite_length_through file.bytes v.page_data PAGE_SIZE (pageOffset PAGE_SIZE v.page_id)
        (by rw [hlen])
      exact this
    · simp only []
      rw [pread_pwrite _ _ _ _ (by rw [hlen]), ← hlen, List.take_length]

/-! ## The size of the frames, and the two steps of a miss -/

theorem sized_frame (PAGE_SIZE : Nat) (bm : BufferManager) (h : Sized PAGE_SIZE bm) (a : Nat)
    (p : Page) (hp : bm.frame a = some p) : p.page_data.length = PAGE_SIZE := by
  have := h a (List.mem_range.mpr (frame_bound bm a p hp))
  rw [hp] at this
  simpa using this

theorem sized_intro (PAGE_SIZE : Nat) (bm : BufferManager)
    (h : ∀ a p, bm.frame a = some p → p.page_data.length = PAGE_SIZE) : Sized PAGE_SIZE bm := by
  intro a _
  cases hp : bm.frame a with
  | none => rfl
  | some p => simpa using h a p hp

theorem sized_store (PAGE_SIZE : Nat) (bm : BufferManager) (h : Sized PAGE_SIZE bm) (a : Nat)
    (q : Page) (lru1 : List Nat) (hq : q.page_data.length = PAGE_SIZE)
    (hlt : a < bm.heap.length) :
    Sized PAGE_SIZE { bm.store a q with lru := lru1 } := by
  apply sized_intro
  intro b p hp
  by_cases hb : b = a
  · rw [hb, frame_set_same bm _ a (some q) hlt rfl] at hp
    cases hp
    exact hq
  · rw [frame_set_other bm _ a b (some q) hb rfl] at hp
    exact sized_frame PAGE_SIZE bm h b p hp

theorem sized_evicted (PAGE_SIZE : Nat) (bm : BufferManager) (h : Sized PAGE_SIZE bm)
    (bm1 : BufferManager) (v : Nat) (hh : bm1.heap = bm.heap.set v none)
    (hlt : v < bm.heap.length) : Sized PAGE_SIZE bm1 := by
  apply sized_intro
  intro b p hp
  by_cases hb : b = v
  · rw [hb, frame_set_same bm _ v none hlt hh] at hp
    cases hp
  · rw [frame_set_other bm _ v b none hb hh] at hp
    exact sized_frame PAGE_SIZE bm h b p hp

theorem sized_append (PAGE_SIZE : Nat) (bm : BufferManager) (h : Sized PAGE_SIZE bm)
    (bm1 : BufferManager) (o : Option Page) (hh : bm1.heap = bm.heap ++ [o])
    (ho : ∀ q, o = some q → q.page_data.length = PAGE_SIZE) : Sized PAGE_SIZE bm1 := by
  apply sized_intro
  intro b p hp
  have hb := frame_bound bm1 b p hp
  rw [hh, List.length_append, List.length_singleton] at hb
  by_cases hlt : b < bm.heap.length
  · rw [frame_append_old bm _ b o hlt hh] at hp
    exact sized_frame PAGE_SIZE bm h b p hp
  · have : b = bm.heap.length := by omega
    rw [this, frame_append_new bm _ o hh] at hp
    exact ho p hp

theorem sized_heap (PAGE_SIZE : Nat) (bm bm1 : BufferManager) (h : Sized PAGE_SIZE bm)
    (hh : bm1.heap = bm.heap) : Sized PAGE_SIZE bm1 := by
  apply sized_intro
  intro b p hp
  rw [frame_congr bm bm1 b (by rw [hh])] at hp
  exact sized_frame PAGE_SIZE bm h b p hp

/-- What `LoadPage` puts in a buffer of one page when it succeeds. -/
theorem LoadPage_data (PAGE_SIZE : Nat) (bf : BaseFile) (pid : PageId) (buf : List Nat)
    (hbuf : buf.length = PAGE_SIZE) (hflag : (bf.LoadPage PAGE_SIZE pid buf).1 = true) :
    (bf.LoadPage PAGE_SIZE pid buf).2 = preadBytes bf.bytes PAGE_SIZE (pageOffset PAGE_SIZE pid) ∧
    (preadBytes bf.bytes PAGE_SIZE (pageOffset PAGE_SIZE pid)).length = PAGE_SIZE := by
  unfold BaseFile.LoadPage at hflag ⊢
  cases hv : pid.IsValid
  · rw [hv] at hflag
    simp at hflag
  · rw [hv] at hflag
    simp only [Bool.not_true, Bool.false_eq_true, if_false, beq_iff_eq] at hflag ⊢
    refine ⟨?_, hflag⟩
    unfold overwrite
    rw [hflag, List.drop_of_length_le (by omega), List.append_nil]

theorem init_length (PAGE_SIZE : Nat) : (Page.init PAGE_SIZE).page_data.length = PAGE_SIZE := by
  unfold Page.init
  simp only [List.length_replicate]

/-- A page is loaded exactly when its file holds it. -/
theorem loads_pageBytes (PAGE_SIZE : Nat) (hPS : PAGE_SIZE ≤ 65536) (bm : BufferManager)
    (pid : PageId) (hv : pid.IsValid = true) :
    bm.loads PAGE_SIZE pid ↔ ∃ d, pageBytes PAGE_SIZE bm.file_map pid = some d := by
  rw [loads_iff]
  constructor
  · rintro ⟨file, hf, hflag⟩
    refine ⟨preadBytes file.bytes PAGE_SIZE (pageOffset PAGE_SIZE pid), ?_⟩
    rw [pageBytes_some]
    refine ⟨file, hf, ?_, rfl⟩
    rcases (LoadPage_flag _ _ _ _).mp hflag with ⟨_, h2⟩ | ⟨_, h2⟩
    · exact h2
    · rw [pageOffset_eq PAGE_SIZE hPS, h2]
      omega
  · rintro ⟨d, hd⟩
    obtain ⟨file, hf, h2, _⟩ := (pageBytes_some _ _ _ _).mp hd
    exact ⟨file, hf, (LoadPage_flag _ _ _ _).mpr (Or.inl ⟨hv, h2⟩)⟩

/-- The frame that a successful load makes holds the bytes of the page in its
file. -/
theorem load_data (PAGE_SIZE : Nat) (bm : BufferManager) (pid : PageId) (d : List Nat)
    (hv : pid.IsValid = true) (hd : pageBytes PAGE_SIZE bm.file_map pid = some d) :
    bm.load PAGE_SIZE pid = (some bm.heap.length, { bm with
      heap := bm.heap ++ [some ⟨false, 1, pid, d⟩]
      page_map := bm.page_map ++ [(pid, bm.heap.length)]
      lru := bm.lru ++ [bm.heap.length] }) := by
  obtain ⟨file, hf, h2, h3⟩ := (pageBytes_some _ _ _ _).mp hd
  have hflag : (file.LoadPage PAGE_SIZE pid (Page.init PAGE_SIZE).page_data).1 = true :=
    (LoadPage_flag _ _ _ _).mpr (Or.inl ⟨hv, h2⟩)
  rw [load_ok PAGE_SIZE bm pid file hf hflag,
    (LoadPage_data PAGE_SIZE file pid _ (init_length PAGE_SIZE) hflag).1, h3]

theorem load_file_map (PAGE_SIZE : Nat) (bm : BufferManager) (pid : PageId) :
    (bm.load PAGE_SIZE pid).2.file_map = bm.file_map := by
  unfold BufferManager.load
  simp only []
  split
  · split <;> rfl
  · rfl

theorem load_page_count (PAGE_SIZE : Nat) (bm : BufferManager) (pid : PageId) :
    (bm.load PAGE_SIZE pid).2.page_count = bm.page_count := by
  unfold BufferManager.load
  simp only []
  split
  · split <;> rfl
  · rfl

theorem sized_load (PAGE_SIZE : Nat) (bm : BufferManager) (h : PoolInv bm)
    (hs : Sized PAGE_SIZE bm) (pid : PageId) (hmiss : findPage bm.page_map pid = none) :
    Sized PAGE_SIZE (bm.load PAGE_SIZE pid).2 := by
  rcases load_cases PAGE_SIZE bm h pid hmiss with ⟨file, _, h2, h3⟩ | ⟨_, h2⟩
  · rw [h3]
    apply sized_append PAGE_SIZE bm hs _ _ rfl
    intro q hq
    cases hq
    simp only []
    rw [(LoadPage_data PAGE_SIZE file pid _ (init_length PAGE_SIZE) h2).1]
    exact (LoadPage_data PAGE_SIZE file pid _ (init_length PAGE_SIZE) h2).2
  · rw [h2]
    exact sized_append PAGE_SIZE bm hs _ none rfl (fun q hq => Option.noConfusion hq)

/-- A miss that returns: either every frame of a full pool is pinned and the
result is null, or a frame is loaded, on the state itself when the pool is not
full, on the state after the eviction of the first unpinned frame of `lru`
otherwise. -/
theorem PinPage_miss (PAGE_SIZE : Nat) (bm : BufferManager) (h : PoolInv bm) (pid : PageId)
    (sys : SysOutcome) (r : Option Nat) (bm1 : BufferManager) (hv : pid.IsValid = true)
    (hmiss : findPage bm.page_map pid = none)
    (hpin : bm.PinPage PAGE_SIZE pid sys = some (r, bm1)) :
    (r = none ∧ bm1 = { bm with lru := [] } ∧ bm.full ∧ bm.allPinned) ∨
    (¬ bm.full ∧ bm.load PAGE_SIZE pid = (r, bm1)) ∨
    (∃ pre v rest pv files, bm.full ∧ bm.lru = pre ++ v :: rest ∧
      (∀ a ∈ pre, ∀ p, bm.frame a = some p → p.pin_count ≠ 0) ∧
      bm.frame v = some pv ∧ pv.pin_count = 0 ∧
      writeBack PAGE_SIZE bm.file_map pv sys = some files ∧
      ({ bm with
        file_map := files
        page_map := erasePage bm.page_map pv.page_id
        heap := bm.heap.set v none
        lru := rest } : BufferManager).load PAGE_SIZE pid = (r, bm1)) := by
  by_cases hfull : bm.page_map.length ≥ bm.page_count
  · rcases PinPage_full PAGE_SIZE bm h pid sys hv hmiss hfull with ⟨h1, h2⟩ |
      ⟨pre, v, rest, pv, h1, h2, h3, h4, h5, h6⟩
    · left
      rw [h2] at hpin
      cases hpin
      refine ⟨rfl, rfl, hfull, ?_⟩
      intro e he p hp
      by_contra hz
      have hz0 : p.pin_count = 0 := by omega
      have := h.2.2.2.2.1 e he (by rw [hp]; simp only [Option.map_some', hz0])
      exact h1 _ this p hp hz0
    · right; right
      cases hw : writeBack PAGE_SIZE bm.file_map pv sys with
      | none => rw [h5 hw] at hpin; cases hpin
      | some files =>
        rw [h6 files hw] at hpin
        exact ⟨pre, v, rest, pv, files, hfull, h1, h2, h3, h4, hw, Option.some.inj hpin⟩
  · right; left
    rw [PinPage_room PAGE_SIZE bm pid sys hv hmiss hfull] at hpin
    exact ⟨hfull, Option.some.inj hpin⟩

/-- `PinPage` keeps the size of the frames. -/
theorem sized_PinPage (PAGE_SIZE : Nat) (bm : BufferManager) (h : PoolInv bm)
    (hs : Sized PAGE_SIZE bm) (pid : PageId) (sys : SysOutcome) (r : Option Nat)
    (bm1 : BufferManager) (hpin : bm.PinPage PAGE_SIZE pid sys = some (r, bm1)) :
    Sized PAGE_SIZE bm1 := by
  cases hv : pid.IsValid with
  | false =>
    rw [PinPage_invalid PAGE_SIZE bm pid sys hv] at hpin
    cases hpin
    exact hs
  | true =>
    cases hf : findPage bm.page_map pid with
    | some a =>
      have hmem := findPage_mem _ _ _ hf
      obtain ⟨p, hp, _⟩ := poolInv_frame bm h _ hmem
      rw [PinPage_hit PAGE_SIZE bm pid sys a p hv hf hp] at hpin
      cases hpin
      exact sized_store PAGE_SIZE bm hs a _ _ (sized_frame PAGE_SIZE bm hs a p hp)
        (frame_bound bm a p hp)
    | none =>
      rcases PinPage_miss PAGE_SIZE bm h pid sys r bm1 hv hf hpin with ⟨_, h2, _⟩ | ⟨_, h2⟩ |
        ⟨pre, v, rest, pv, files, _, h1, h2, h3, _, _, h6⟩
      · rw [h2]
        exact sized_heap PAGE_SIZE bm _ hs rfl
      · have hb : (bm.load PAGE_SIZE pid).2 = bm1 := congrArg Prod.snd h2
        rw [← hb]
        exact sized_load PAGE_SIZE bm h hs pid hf
      · have hb : (_ : BufferManager) = bm1 := congrArg Prod.snd h6
        rw [← hb]
        exact sized_load PAGE_SIZE _ (poolInv_evicted bm h pre rest v pv files h1 h2 h3)
          (sized_evicted PAGE_SIZE bm hs _ v rfl (frame_bound bm v pv h3)) pid
          (erasePage_miss _ _ _ hf)

theorem sized_UnpinPage (PAGE_SIZE : Nat) (bm : BufferManager) (hs : Sized PAGE_SIZE bm)
    (page : Option Nat) (bm1 : BufferManager) (hun : bm.UnpinPage page = some bm1) :
    Sized PAGE_SIZE bm1 := by
  cases page with
  | none => cases hun; exact hs
  | some a =>
    cases hp : bm.frame a with
    | none => rw [UnpinPage_dead bm a hp] at hun; cases hun
    | some p =>
      rw [UnpinPage_live bm a p hp] at hun
      have hq : p.DecPinCount.page_data.length = PAGE_SIZE := by
        have : p.DecPinCount.page_data = p.page_data := by
          unfold Page.DecPinCount
          simp only []
        rw [this]
        exact sized_frame PAGE_SIZE bm hs a p hp
      have hlt := frame_bound bm a p hp
      split at hun
      · split at hun
        · cases hun
          exact sized_store PAGE_SIZE bm hs a _ bm.lru hq hlt
        · cases hun
          exact sized_store PAGE_SIZE bm hs a _ _ hq hlt
      · cases hun
        exact sized_store PAGE_SIZE bm hs a _ bm.lru hq hlt

theorem sized_update (PAGE_SIZE : Nat) (bm : BufferManager) (hs : Sized PAGE_SIZE bm) (a : Nat)
    (g : List Nat → List Nat) (bm1 : BufferManager)
    (hg : ∀ p, bm.frame a = some p → (g p.page_data).length = p.page_data.length)
    (hu : bm.update a g = some bm1) : Sized PAGE_SIZE bm1 := by
  unfold BufferManager.update at hu
  cases hp : bm.frame a with
  | none => rw [hp] at hu; cases hu
  | some p =>
    rw [hp] at hu
    cases hu
    exact sized_store PAGE_SIZE bm hs a _ bm.lru
      (by simp only []; rw [hg p hp]; exact sized_frame PAGE_SIZE bm hs a p hp)
      (frame_bound bm a p hp)

theorem sized_SetDirty (PAGE_SIZE : Nat) (bm : BufferManager) (hs : Sized PAGE_SIZE bm) (a : Nat)
    (dirty : Bool) (bm1 : BufferManager) (hu : bm.SetDirty a dirty = some bm1) :
    Sized PAGE_SIZE bm1 := by
  unfold BufferManager.SetDirty at hu
  cases hp : bm.frame a with
  | none => rw [hp] at hu; cases hu
  | some p =>
    rw [hp] at hu
    cases hu
    exact sized_store PAGE_SIZE bm hs a _ bm.lru (sized_frame PAGE_SIZE bm hs a p hp)
      (frame_bound bm a p hp)

theorem overwrite_length (dst src : List Nat) (h : src.length ≤ dst.length) :
    (overwrite dst src).length = dst.length := by
  unfold overwrite
  rw [List.length_append, List.length_drop]
  omega

theorem sized_call (PAGE_SIZE : Nat) (bm : BufferManager) (h : PoolInv bm)
    (hs : Sized PAGE_SIZE bm) (c : PoolCall) (r : Option Nat) (bm1 : BufferManager)
    (hc : bm.call PAGE_SIZE c = some (r, bm1)) : Sized PAGE_SIZE bm1 := by
  cases c with
  | register bf =>
    have hc1 : some (none, bm.RegisterFile (some bf)) = some (r, bm1) := hc
    cases hc1
    apply sized_heap PAGE_SIZE bm _ hs
    unfold BufferManager.RegisterFile
    simp only []
    split <;> rfl
  | createPage fd sys =>
    have hc1 : (match findFile bm.file_map fd with
      | none => none
      | some file =>
        match file.CreatePage PAGE_SIZE sys with
        | none => none
        | some (_, file1) =>
          some ((none : Option Nat), { bm with file_map := setFile bm.file_map file1 }))
        = some (r, bm1) := hc
    split at hc1
    · cases hc1
    · split at hc1
      · cases hc1
      · cases hc1
        exact sized_heap PAGE_SIZE bm _ hs rfl
  | pin page_id sys => exact sized_PinPage PAGE_SIZE bm h hs page_id sys r bm1 hc
  | unpin page =>
    have hc1 : (bm.UnpinPage page).map (fun s => ((none : Option Nat), s)) = some (r, bm1) := hc
    cases hu : bm.UnpinPage page with
    | none => rw [hu] at hc1; cases hc1
    | some s =>
      rw [hu] at hc1
      cases hc1
      exact sized_UnpinPage PAGE_SIZE bm hs page _ hu
  | write page data =>
    have hc1 : (bm.write page data).map (fun s => ((none : Option Nat), s)) = some (r, bm1) := hc
    cases hu : bm.write page data with
    | none => rw [hu] at hc1; cases hc1
    | some s =>
      rw [hu] at hc1
      cases hc1
      obtain ⟨h1, p, hp, hl⟩ := write_update bm page data _ hu
      apply sized_update PAGE_SIZE bm hs page _ _ _ h1
      intro p1 hp1
      rw [hp] at hp1
      cases hp1
      exact overwrite_length _ _ hl
  | setDirty page dirty =>
    have hc1 : (bm.SetDirty page dirty).map (fun s => ((none : Option Nat), s))
        = some (r, bm1) := hc
    cases hu : bm.SetDirty page dirty with
    | none => rw [hu] at hc1; cases hc1
    | some s =>
      rw [hu] at hc1
      cases hc1
      exact sized_SetDirty PAGE_SIZE bm hs page dirty _ hu

/-- In every reachable state of the pool the frames hold one page each. -/
theorem sized_reachable (PAGE_SIZE : Nat) (bm : BufferManager)
    (h : BufferManager.Reachable PAGE_SIZE bm) : Sized PAGE_SIZE bm := by
  induction h with
  | create page_count =>
    apply sized_intro
    intro a p hp
    have := frame_bound _ a p hp
    simp [BufferManager.create] at this
  | call bm c r bm1 hr hc ih =>
    exact sized_call PAGE_SIZE bm (poolInv_reachable PAGE_SIZE bm hr) ih c r bm1 hc

/-! ## Write-back of a dirty page and its return to the pool -/

theorem findPage_append_some (m : List (PageId × Nat)) (k : PageId) (a : Nat)
    (e : PageId × Nat) (h : findPage m k = some a) : findPage (m ++ [e]) k = some a := by
  unfold findPage at h ⊢
  rw [List.find?_append]
  cases hf : m.find? (fun x => x.1 == k) with
  | none => rw [hf] at h; cases h
  | some x =>
    rw [hf] at h
    simpa using h

/-- The page map after a load keeps what it had. -/
theorem load_keeps (PAGE_SIZE : Nat) (bm : BufferManager) (h : PoolInv bm) (pid k : PageId)
    (a : Nat) (hmiss : findPage bm.page_map pid = none) (hk : findPage bm.page_map k = some a) :
    findPage (bm.load PAGE_SIZE pid).2.page_map k = some a := by
  rcases load_cases PAGE_SIZE bm h pid hmiss with ⟨file, _, _, h3⟩ | ⟨_, h2⟩
  · rw [h3]
    exact findPage_append_some _ _ _ _ hk
  · rw [h2]
    exact hk

theorem erasePage_keeps (m : List (PageId × Nat)) (hnd : (m.map (fun e => e.1)).Nodup)
    (k k1 : PageId) (a : Nat) (hk : findPage m k = some a) (hne : k ≠ k1) :
    findPage (erasePage m k1) k = some a := by
  have hmem := findPage_mem _ _ _ hk
  apply findPage_of_mem
  · exact List.Nodup.sublist (List.Sublist.map _ (List.filter_sublist _)) hnd
  · exact (mem_erasePage _ _ _).mpr ⟨hmem, hne⟩

/-- The first half of the round trip: when `PinPage` evicts a dirty frame
whose file is registered, the file holds the bytes of the frame afterwards. -/
theorem evicted_written (PAGE_SIZE : Nat) (bm : BufferManager) (pid other : PageId) (a : Nat)
    (p : Page) (sys : SysOutcome) (r : Option Nat) (bm1 : BufferManager)
    (h : PoolInv bm) (hs : Sized PAGE_SIZE bm) (hv : pid.IsValid = true)
    (hcached : findPage bm.page_map pid = some a) (hp : bm.frame a = some p)
    (hdirty : p.is_dirty = true)
    (hreg : (findFile bm.file_map (fileKey pid)).isSome = true) (hsys : sys.Ok PAGE_SIZE)
    (hpin : bm.PinPage PAGE_SIZE other sys = some (r, bm1))
    (hev : findPage bm1.page_map pid = none) :
    pageBytes PAGE_SIZE bm1.file_map pid = some p.page_data := by
  cases hvo : other.IsValid with
  | false =>
    rw [PinPage_invalid PAGE_SIZE bm other sys hvo] at hpin
    cases hpin
    rw [hcached] at hev
    cases hev
  | true =>
    cases hf : findPage bm.page_map other with
    | some b =>
      have hmem := findPage_mem _ _ _ hf
      obtain ⟨q, hq, _⟩ := poolInv_frame bm h _ hmem
      rw [PinPage_hit PAGE_SIZE bm other sys b q hvo hf hq] at hpin
      cases hpin
      have : findPage bm.page_map pid = none := hev
      rw [hcached] at this
      cases this
    | none =>
      rcases PinPage_miss PAGE_SIZE bm h other sys r bm1 hvo hf hpin with ⟨_, h2, _⟩ | ⟨_, h2⟩ |
        ⟨pre, v, rest, pv, files, _, h1, h2, h3, _, h5, h6⟩
      · rw [h2] at hev
        have : findPage bm.page_map pid = none := hev
        rw [hcached] at this
        cases this
      · have hb : (bm.load PAGE_SIZE other).2 = bm1 := congrArg Prod.snd h2
        rw [← hb, load_keeps PAGE_SIZE bm h other pid a hf hcached] at hev
        cases hev
      · have hinv0 := poolInv_evicted bm h pre rest v pv files h1 h2 h3
        have hb : (_ : BufferManager) = bm1 := congrArg Prod.snd h6
        have hkey : pid = pv.page_id := by
          by_contra hne
          have hk := erasePage_keeps bm.page_map h.2.1 pid pv.page_id a hcached hne
          rw [← hb, load_keeps PAGE_SIZE _ hinv0 other pid a
            (erasePage_miss _ _ _ hf) hk] at hev
          cases hev
        have hva : (pv.page_id, v) = (pid, a) :=
          key_unique _ h.2.1 _ _ (poolInv_live bm h v pv h3) (findPage_mem _ _ _ hcached)
            hkey.symm
        have hv2 : v = a := congrArg Prod.snd hva
        rw [hv2, hp] at h3
        cases h3
        rw [← hb, load_file_map]
        simp only []
        have := pageBytes_written PAGE_SIZE bm.file_map p sys files (by rw [← hkey]; exact hv)
          (sized_frame PAGE_SIZE bm hs a p hp) hdirty (by rw [← hkey]; exact hreg) hsys h5
        rw [← hkey] at this
        exact this

/-- The second half of the round trip: a frame that `PinPage` makes for an
uncached page holds the bytes that the file had for it, when no cached page id
names the same page of the same file. -/
theorem miss_loads_file (PAGE_SIZE : Nat) (hPS : PAGE_SIZE ≤ 65536) (bm : BufferManager)
    (pid : PageId) (d : List Nat) (sys : SysOutcome) (r : Option Nat) (bm1 : BufferManager)
    (h : PoolInv bm) (hs : Sized PAGE_SIZE bm) (hv : pid.IsValid = true)
    (hmiss : findPage bm.page_map pid = none)
    (hd : pageBytes PAGE_SIZE bm.file_map pid = some d)
    (halias : ∀ e ∈ bm.page_map, ¬ pid.samePage e.1)
    (hpin : bm.PinPage PAGE_SIZE pid sys = some (r, bm1)) :
    (r = none ∧ bm.full ∧ bm.allPinned) ∨
    ∃ a, r = some a ∧ bm1.frame a = some ⟨false, 1, pid, d⟩ := by
  rcases PinPage_miss PAGE_SIZE bm h pid sys r bm1 hv hmiss hpin with ⟨h1, _, h3, h4⟩ |
    ⟨_, h2⟩ | ⟨pre, v, rest, pv, files, _, h1, h2, h3, _, h5, h6⟩
  · exact Or.inl ⟨h1, h3, h4⟩
  · right
    rw [load_data PAGE_SIZE bm pid d hv hd] at h2
    have hr : some bm.heap.length = r := congrArg Prod.fst h2
    have hb : (_ : BufferManager) = bm1 := congrArg Prod.snd h2
    refine ⟨bm.heap.length, hr.symm, ?_⟩
    rw [← hb]
    exact frame_append_new bm _ _ rfl
  · right
    have hal : ¬ pid.samePage pv.page_id := halias (pv.page_id, v) (poolInv_live bm h v pv h3)
    have hd0 : pageBytes PAGE_SIZE files pid = some d :=
      pageBytes_writeBack PAGE_SIZE hPS bm.file_map pv sys files pid d
        (sized_frame PAGE_SIZE bm hs v pv h3) h5 hal hd
    rw [load_data PAGE_SIZE _ pid d hv hd0] at h6
    have hr : some _ = r := congrArg Prod.fst h6
    have hb : (_ : BufferManager) = bm1 := congrArg Prod.snd h6
    refine ⟨_, hr.symm, ?_⟩
    rw [← hb]
    exact frame_append_new _ _ _ rfl

/-- C25: in a reachable state of the pool, let a cached frame of a valid page
whose file is registered be dirty, with bytes `page_data`. If a `PinPage` whose
write-back system calls succeed evicts this frame, then afterwards the file
holds `page_data` for the page; and in every reachable state where the page is
not cached, its file holds `page_data` for it and no cached page id names the
same page of the same file, a `PinPage` of the page id returns, unless the pool
is full of pinned frames, a frame whose bytes are `page_data`, and it does
return when the write-back does not abort. (`PAGE_SIZE` is at most `2^16`.) -/
theorem C25_write_back_round_trip (PAGE_SIZE : Nat) (hPS : PAGE_SIZE ≤ 65536)
    (bm : BufferManager) (pid other : PageId) (a : Nat) (p : Page) (sys : SysOutcome)
    (r : Option Nat) (bm1 : BufferManager)
    (hreach : BufferManager.Reachable PAGE_SIZE bm) (hv : pid.IsValid = true)
    (hcached : findPage bm.page_map pid = some a) (hp : bm.frame a = some p)
    (hdirty : p.is_dirty = true)
    (hreg : (findFile bm.file_map (fileKey pid)).isSome = true) (hsys : sys.Ok PAGE_SIZE)
    (hpin : bm.PinPage PAGE_SIZE other sys = some (r, bm1))
    (hev : findPage bm1.page_map pid = none) :
    pageBytes PAGE_SIZE bm1.file_map pid = some p.page_data ∧
    ∀ bm2 sys2, BufferManager.Reachable PAGE_SIZE bm2 →
      findPage bm2.page_map pid = none →
      pageBytes PAGE_SIZE bm2.file_map pid = some p.page_data →
      (∀ e ∈ bm2.page_map, ¬ pid.samePage e.1) →
      (∀ r2 bm3, bm2.PinPage PAGE_SIZE pid sys2 = some (r2, bm3) →
        (r2 = none ∧ bm2.full ∧ bm2.allPinned) ∨
        ∃ a2 p2, r2 = some a2 ∧ bm3.frame a2 = some p2 ∧ p2.page_data = p.page_data) ∧
      (0 ≤ sys2.fsync_ret → ∃ r2 bm3, bm2.PinPage PAGE_SIZE pid sys2 = some (r2, bm3)) := by
  refine ⟨evicted_written PAGE_SIZE bm pid other a p sys r bm1
    (poolInv_reachable PAGE_SIZE bm hreach) (sized_reachable PAGE_SIZE bm hreach) hv hcached hp
    hdirty hreg hsys hpin hev, ?_⟩
  intro bm2 sys2 hreach2 hmiss2 hd2 halias
  have hinv2 := poolInv_reachable PAGE_SIZE bm2 hreach2
  refine ⟨?_, ?_⟩
  · intro r2 bm3 hpin2
    rcases miss_loads_file PAGE_SIZE hPS bm2 pid p.page_data sys2 r2 bm3 hinv2
      (sized_reachable PAGE_SIZE bm2 hreach2) hv hmiss2 hd2 halias hpin2 with h1 | ⟨a2, h1, h2⟩
    · exact Or.inl h1
    · exact Or.inr ⟨a2, _, h1, h2, rfl⟩
  · exact (PinPage_null_iff PAGE_SIZE bm2 pid sys2 hinv2 hv hmiss2
      ((loads_pageBytes PAGE_SIZE hPS bm2 pid hv).mpr ⟨_, hd2⟩)).2.1

/-! ## Examples on a pool of two frames -/

theorem samplePinned_run :
    (BufferManager.create 16 2).run 16 pinnedCalls = some ([none, some 0, some 1], samplePinned) := by
  decide

theorem sampleLru_run :
    (BufferManager.create 16 2).run 16 lruCalls
      = some ([none, some 0, some 1, none, some 2, none, none], sampleLru) := by
  decide

theorem sampleDirty_run :
    (BufferManager.create 16 2).run 16 dirtyCalls
      = some ([none, some 0, none, none, none, some 1, none], sampleDirty) := by
  decide

theorem sampleWritten_pin :
    sampleDirty.PinPage 16 (samplePid 2) sysOk = some (some 2, sampleWritten) := by
  decide

/-- The example of the specification: on a pool of two frames, pin and unpin
page 0, pin and unpin page 1, then pin page 2: page 0 is evicted. -/
theorem eviction_example :
    ((BufferManager.create 16 2).run 16
      [PoolCall.register sampleBase, PoolCall.pin (samplePid 0) sysOk, PoolCall.unpin (some 0),
        PoolCall.pin (samplePid 1) sysOk, PoolCall.unpin (some 1),
        PoolCall.pin (samplePid 2) sysOk]).map (fun x => x.2.page_map)
      = some [(samplePid 1, 1), (samplePid 2, 2)] := by
  decide

/-- C23: on a pool of two frames, after `PinPage(P0)`, `PinPage(P1)`,
`UnpinPage(P1)`, `PinPage(P2)` (which evicts P1), `UnpinPage(P0)` and
`UnpinPage(P2)`, both cached frames have pin count 0, and P0 was last pinned
before P2; `PinPage(P3)` then evicts P2 and keeps P0. -/
theorem C23_eviction_not_lru :
    (BufferManager.create 16 2).run 16 lruCalls
      = some ([none, some 0, some 1, none, some 2, none, none], sampleLru) ∧
    sampleLru.frame 0 = some ⟨false, 0, samplePid 0, zeroPage⟩ ∧
    sampleLru.frame 2 = some ⟨false, 0, samplePid 2, zeroPage⟩ ∧
    (sampleLru.PinPage 16 (samplePid 3) sysOk).map (fun x => (x.1, x.2.page_map))
      = some (some 3, [(samplePid 0, 0), (samplePid 3, 3)]) := by
  decide

/-- C26: on a pool of two frames, page 0 is pinned, modified, marked dirty and
unpinned; the destructor then leaves the file as it was, with zero bytes in
page 0, although the cached frame of page 0 is dirty and holds other bytes. -/
theorem C26_teardown_skips_cached_frames :
    (BufferManager.create 16 2).run 16 dirtyCalls
      = some ([none, some 0, none, none, none, some 1, none], sampleDirty) ∧
    findPage sampleDirty.page_map (samplePid 0) = some 0 ∧
    sampleDirty.frame 0 = some ⟨true, 0, samplePid 0, markedPage⟩ ∧
    sampleDirty.destroy 16 sysOk = some [sampleBase] ∧
    pageBytes 16 [sampleBase] (samplePid 0) = some zeroPage ∧
    markedPage ≠ zeroPage := by
  decide

theorem samplePinned_reachable : BufferManager.Reachable 16 samplePinned :=
  reachable_run 16 pinnedCalls _ _ _ (BufferManager.Reachable.create 2) samplePinned_run

theorem sampleDirty_reachable : BufferManager.Reachable 16 sampleDirty :=
  reachable_run 16 dirtyCalls _ _ _ (BufferManager.Reachable.create 2) sampleDirty_run

/-- C24 at the pool of two frames that both are pinned: `PinPage` of page 2
is null exactly when the pool is full of pinned frames. -/
theorem C24_pin_fails_iff_all_pinned_witness :
    BufferManager.Reachable 16 samplePinned ∧ (samplePid 2).IsValid = true ∧
    findPage samplePinned.page_map (samplePid 2) = none ∧
    samplePinned.loads 16 (samplePid 2) ∧
    ((∀ r bm1, samplePinned.PinPage 16 (samplePid 2) sysOk = some (r, bm1) →
      (r = none ↔ samplePinned.full ∧ samplePinned.allPinned)) ∧
    (0 ≤ sysOk.fsync_ret → ∃ r bm1, samplePinned.PinPage 16 (samplePid 2) sysOk = some (r, bm1)) ∧
    ((∃ e ∈ samplePinned.page_map, ∃ p, samplePinned.frame e.2 = some p ∧ p.pin_count = 0) →
      ∀ r bm1, samplePinned.PinPage 16 (samplePid 2) sysOk = some (r, bm1) → r ≠ none)) :=
  ⟨samplePinned_reachable, by decide, by decide, by unfold BufferManager.loads; decide,
    C24_pin_fails_iff_all_pinned 16 samplePinned (samplePid 2) sysOk samplePinned_reachable
      (by decide) (by decide) (by unfold BufferManager.loads; decide)⟩

/-- C25 at the pool of two frames where page 0 is dirty and `PinPage` of page
2 evicts it. -/
theorem C25_write_back_round_trip_witness :
    sampleDirty.PinPage 16 (samplePid 2) sysOk = some (some 2, sampleWritten) ∧
    findPage sampleWritten.page_map (samplePid 0) = none ∧
    (pageBytes 16 sampleWritten.file_map (samplePid 0) = some markedPage ∧
    ∀ bm2 sys2, BufferManager.Reachable 16 bm2 →
      findPage bm2.page_map (samplePid 0) = none →
      pageBytes 16 bm2.file_map (samplePid 0) = some markedPage →
      (∀ e ∈ bm2.page_map, ¬ (samplePid 0).samePage e.1) →
      (∀ r2 bm3, bm2.PinPage 16 (samplePid 0) sys2 = some (r2, bm3) →
        (r2 = none ∧ bm2.full ∧ bm2.allPinned) ∨
        ∃ a2 p2, r2 = some a2 ∧ bm3.frame a2 = some p2 ∧ p2.page_data = markedPage) ∧
      (0 ≤ sys2.fsync_ret → ∃ r2 bm3, bm2.PinPage 16 (samplePid 0) sys2 = some (r2, bm3))) :=
  ⟨sampleWritten_pin, by decide,
    C25_write_back_round_trip 16 (by decide) sampleDirty (samplePid 0) (samplePid 2) 0
      ⟨true, 0, samplePid 0, markedPage⟩ sysOk (some 2) sampleWritten sampleDirty_reachable
      (by decide) (by decide) (by decide) rfl (by decide) ⟨by decide, 1000000, rfl, by decide⟩
      sampleWritten_pin (by decide)⟩

/-! ## Examples on a paged file -/

theorem sampleFile0_create :
    File.create samplePages (BufferManager.create 16 3) 3 4 2 sysOk sysOk
      = some (sampleFile, sampleFile0) := by
  decide

set_option maxRecDepth 100000 in
theorem sampleAlloc5_run :
    sampleFile.run samplePages sampleFile0 (List.replicate 5 (FileCall.allocate sysOk sysOk))
      = some ([FileResult.page (PageId.make 3 0), FileResult.page (PageId.make 3 1),
        FileResult.page (PageId.make 3 2), FileResult.page (PageId.make 3 3),
        FileResult.page (PageId.make 3 4)], sampleAlloc5) := by
  decide

set_option maxRecDepth 100000 in
/-- C27: with four entries per directory page, the sixth `AllocatePage` on a
new file creates data page 5 and returns its id; the entry it writes is entry
1 of directory page 0, which stood for data page 1; entry 1 of directory page
1 stays not created and not allocated, and `PageExists` of the returned id is
false. -/
theorem C27_wrong_directory_page :
    File.create samplePages (BufferManager.create 16 3) 3 4 2 sysOk sysOk
      = some (sampleFile, sampleFile0) ∧
    sampleFile.run samplePages sampleFile0 (List.replicate 5 (FileCall.allocate sysOk sysOk))
      = some ([FileResult.page (PageId.make 3 0), FileResult.page (PageId.make 3 1),
        FileResult.page (PageId.make 3 2), FileResult.page (PageId.make 3 3),
        FileResult.page (PageId.make 3 4)], sampleAlloc5) ∧
    sampleFile.AllocatePage samplePages sampleAlloc5 sysOk sysOk
      = some (PageId.make 3 5, sampleAlloc6) ∧
    samplePages.entries_per_dir_page = 4 ∧
    (sampleAlloc6.view 16 (PageId.make 4 (5 / 4))).map (fun d => getEntry samplePages d (5 % 4))
      = some ⟨4, false, false⟩ ∧
    (sampleFile.PageExists samplePages sampleAlloc6 (PageId.make 3 5) sysOk).map (fun x => x.1)
      = some false := by
  decide

/-! ## The calls on a paged file as runs of calls on the pool -/

theorem quiet_trans (PAGE_SIZE : Nat) (bm bm1 bm2 : BufferManager)
    (h1 : Quiet PAGE_SIZE bm bm1) (h2 : Quiet PAGE_SIZE bm1 bm2) : Quiet PAGE_SIZE bm bm2 := by
  induction h1 with
  | refl _ => exact h2
  | pin b pid sys r b1 b2 hp _ ih => exact Quiet.pin b pid sys r b1 bm2 hp (ih h2)
  | unpin b page b1 b2 hp _ ih => exact Quiet.unpin b page b1 bm2 hp (ih h2)
  | update b a g b1 b2 hg hp _ ih => exact Quiet.update b a g b1 bm2 hg hp (ih h2)
  | setDirty b a d b1 b2 hp _ ih => exact Quiet.setDirty b a d b1 bm2 hp (ih h2)

theorem entries_mul_le (G : PageLayout) : G.entries_per_dir_page * G.sizeofEntry ≤ G.PAGE_SIZE :=
  Nat.div_mul_le_self _ _

theorem entries_pos (G : PageLayout) (hG : G.WellFormed) : 0 < G.entries_per_dir_page :=
  Nat.div_pos hG.2.1 hG.1

theorem entries_le (G : PageLayout) (hG : G.WellFormed) : G.entries_per_dir_page ≤ 65536 :=
  Nat.le_trans (Nat.div_le_self _ _) hG.2.2.1

theorem setEntry_length (G : PageLayout) (hG : G.WellFormed) (d : List Nat) (i : Nat)
    (e : Entry) (hi : i < G.entries_per_dir_page) (hd : d.length = G.PAGE_SIZE) :
    (setEntry G d i e).length = G.PAGE_SIZE := by
  unfold setEntry
  rw [pwrite_length_inside _ _ _ _ (by rw [hG.2.2.2.1 e]), hd]
  rw [hd]
  have h1 := entries_mul_le G
  have h2 : (i + 1) * G.sizeofEntry ≤ G.entries_per_dir_page * G.sizeofEntry :=
    Nat.mul_le_mul_right _ hi
  rw [Nat.add_mul, Nat.one_mul] at h2
  omega

theorem initEntries_length (G : PageLayout) (hG : G.WellFormed) (record_size : Nat)
    (d : List Nat) (hd : d.length = G.PAGE_SIZE) :
    (initEntries G record_size d).length = G.PAGE_SIZE := by
  unfold initEntries
  have : ∀ (l : List Nat) (d : List Nat), (∀ i ∈ l, i < G.entries_per_dir_page) →
      d.length = G.PAGE_SIZE →
      (l.foldl (fun d i => setEntry G d i ⟨G.GetCapacity record_size, false, false⟩) d).length
        = G.PAGE_SIZE := by
    intro l
    induction l with
    | nil => intro d _ hd; exact hd
    | cons x t ih =>
      intro d hl hd
      rw [List.foldl_cons]
      exact ih _ (fun i hi => hl i (List.mem_cons_of_mem _ hi))
        (setEntry_length G hG d x _ (hl x (List.mem_cons_self _ _)) hd)
  exact this _ d (fun i hi => List.mem_range.mp hi) hd

/-- The loop of `ScavengePage` is a run of pins, unpins and changes of frames. -/
theorem scavengeLoop_quiet (G : PageLayout) (hG : G.WellFormed) (f : File) (sysf : SysOutcome) :
    ∀ (fuel i : Nat) (cur : PageId) (bm : BufferManager) (pid : PageId) (bm1 : BufferManager),
      f.scavengeLoop G sysf fuel i cur bm = some (pid, bm1) → Quiet G.PAGE_SIZE bm bm1 := by
  intro fuel
  induction fuel with
  | zero =>
    intro i cur bm pid bm1 h
    unfold File.scavengeLoop at h
    cases h
  | succ fuel ih =>
    intro i cur bm pid bm1 h
    unfold File.scavengeLoop at h
    split at h
    · cases h
    · next count hc =>
      split at h
      · split at h
        · cases h
        · next b1 hp =>
          cases h
          exact Quiet.pin bm cur sysf none _ _ hp (Quiet.refl _)
        · next a b1 hp =>
          split at h
          · cases h
          · next p hfr =>
            split at h
            · next j hj =>
              simp only [] at h
              split at h
              · cases h
              · next b2 hu =>
                split at h
                · cases h
                · next b3 hd =>
                  split at h
                  · cases h
                  · next b4 hun =>
                    cases h
                    have hjlt : j < G.entries_per_dir_page :=
                      List.mem_range.mp (List.mem_of_find?_eq_some hj)
                    exact Quiet.pin bm cur sysf (some a) b1 _ hp
                      (Quiet.update b1 a _ b2 _
                        (fun d hd => setEntry_length G hG d j _ hjlt hd) hu
                        (Quiet.setDirty b2 a true b3 _ hd
                          (Quiet.unpin b3 (some a) _ _ hun (Quiet.refl _))))
            · simp only [] at h
              split at h
              · cases h
              · next b2 hun =>
                exact Quiet.pin bm cur sysf (some a) b1 _ hp
                  (Quiet.unpin b1 (some a) b2 _ hun (ih _ _ _ _ _ h))
      · cases h
        exact Quiet.refl _

theorem ScavengePage_quiet (G : PageLayout) (hG : G.WellFormed) (f : File) (sysf : SysOutcome)
    (bm : BufferManager) (pid : PageId) (bm1 : BufferManager)
    (h : f.ScavengePage G bm sysf = some (pid, bm1)) : Quiet G.PAGE_SIZE bm bm1 := by
  unfold File.ScavengePage at h
  split at h
  · cases h
  · exact scavengeLoop_quiet G hG f sysf _ _ _ _ _ _ h

theorem PageExists_quiet (G : PageLayout) (f : File) (sysf : SysOutcome)
    (bm : BufferManager) (pid : PageId) (r : Bool) (bm1 : BufferManager)
    (h : f.PageExists G bm pid sysf = some (r, bm1)) : Quiet G.PAGE_SIZE bm bm1 := by
  unfold File.PageExists at h
  simp only [] at h
  split at h
  · cases h
  · next b1 hp =>
    cases h
    exact Quiet.pin bm _ sysf none _ _ hp (Quiet.refl _)
  · next a b1 hp =>
    split at h
    · cases h
    · split at h
      · cases h
      · next b2 hun =>
        cases h
        exact Quiet.pin bm _ sysf (some a) b1 _ hp (Quiet.unpin b1 (some a) _ _ hun (Quiet.refl _))

theorem mod_entries_lt (G : PageLayout) (hG : G.WellFormed) (n : Nat) :
    n % G.entries_per_dir_page < G.entries_per_dir_page :=
  Nat.mod_lt _ (entries_pos G hG)

theorem DeallocatePage_quiet (G : PageLayout) (hG : G.WellFormed) (f : File) (sysf : SysOutcome)
    (bm : BufferManager) (pid : PageId) (r : Bool) (bm1 : BufferManager)
    (h : f.DeallocatePage G bm pid sysf = some (r, bm1)) : Quiet G.PAGE_SIZE bm bm1 := by
  unfold File.DeallocatePage at h
  simp only [] at h
  split at h
  · cases h
  · split at h
    · cases h
      exact Quiet.refl _
    · split at h
      · cases h
      · next b1 hp =>
        cases h
        exact Quiet.pin bm _ sysf none _ _ hp (Quiet.refl _)
      · next a b1 hp =>
        split at h
        · cases h
        · next p hfr =>
          split at h
          · split at h
            · cases h
            · next b2 hun =>
              cases h
              exact Quiet.pin bm _ sysf (some a) b1 _ hp
                (Quiet.unpin b1 (some a) _ _ hun (Quiet.refl _))
          · split at h
            · cases h
            · next b6 hcl =>
              split at h
              · cases h
              · next b7 hd =>
                split at h
                · cases h
                · next b8 hun =>
                  cases h
                  have htail : Quiet G.PAGE_SIZE b6 bm1 :=
                    Quiet.setDirty b6 a true b7 _ hd (Quiet.unpin b7 (some a) _ _ hun (Quiet.refl _))
                  refine Quiet.pin bm _ sysf (some a) b1 _ hp ?_
                  split at hcl
                  · split at hcl
                    · cases hcl
                    · next b2 hu =>
                      split at hcl
                      · cases hcl
                      · cases hcl
                      · next dp b3 hp2 =>
                        split at hcl
                        · cases hcl
                        · split at hcl
                          · cases hcl
                          · next b4 hu2 =>
                            split at hcl
                            · cases hcl
                            · next b5 hd2 =>
                              exact Quiet.update b1 a _ b2 _
                                (fun d hd => setEntry_length G hG d _ _
                                  (mod_entries_lt G hG _) hd) hu
                                (Quiet.pin b2 _ sysf (some dp) b3 _ hp2
                                  (Quiet.update b3 dp _ b4 _
                                    (fun d hd => by rw [hG.2.2.2.2.2.2.2.2 d]; exact hd) hu2
                                    (Quiet.setDirty b4 dp true b5 _ hd2
                                      (Quiet.unpin b5 (some dp) _ _ hcl htail))))
                  · cases hcl
                    exact htail

/-! ## What `AllocatePage` does to the page counts -/

/-- Case 2 of `AllocatePage` creates one data page, then one directory page
when the test of line 98 asks for it, and otherwise runs pins, unpins and
changes of frames. -/
theorem allocateNew_shape (G : PageLayout) (hG : G.WellFormed) (f : File)
    (sysc sysf : SysOutcome) (bm : BufferManager) (pid : PageId) (bm9 : BufferManager)
    (h : f.allocateNew G bm sysc sysf = some (pid, bm9)) :
    ∃ dir_count data_pid bm1 dir_count1, bm.GetPageCount f.dir = some dir_count ∧
      bm.CreatePage G.PAGE_SIZE f.id sysc = some (data_pid, bm1) ∧
      bm1.GetPageCount f.dir = some dir_count1 ∧
      ((data_pid.GetPageNum ≥ (G.entries_per_dir_page * dir_count1) % 4294967296 ∧
          ∃ new_pid bm2, bm1.CreatePage G.PAGE_SIZE f.dir sysc = some (new_pid, bm2) ∧
            Quiet G.PAGE_SIZE bm2 bm9) ∨
        (¬ data_pid.GetPageNum ≥ (G.entries_per_dir_page * dir_count1) % 4294967296 ∧
          Quiet G.PAGE_SIZE bm1 bm9)) := by
  unfold File.allocateNew at h
  simp only [] at h
  split at h
  · cases h
  · next dir_count hdc =>
    split at h
    · cases h
    · next data_pid bm1 hcp =>
      split at h
      · cases h
      · next dir_count1 hdc1 =>
        refine ⟨dir_count, data_pid, bm1, dir_count1, hdc, hcp, hdc1, ?_⟩
        have tail : ∀ (pinned_page : Nat) (bm4 : BufferManager),
            (match bm4.update pinned_page (fun d => setEntry G d
                (data_pid.GetPageNum % G.entries_per_dir_page)
                { free_slots := G.GetCapacity f.record_size, allocated := true,
                  created := true }) with
              | none => none
              | some bm5 =>
                match bm5.SetDirty pinned_page true with
                | none => none
                | some bm6 =>
                  match bm6.UnpinPage (some pinned_page) with
                  | none => none
                  | some bm7 =>
                    match bm7.PinPage G.PAGE_SIZE data_pid sysf with
                    | none => none
                    | some (none, bm8) =>
                      match bm8.UnpinPage (some pinned_page) with
                      | none => none
                      | some bm9 => some (data_pid, bm9)
                    | some (some data_page, bm8) =>
                      match bm8.update data_page (G.initDataPage f.record_size) with
                      | none => none
                      | some bm9 =>
                        match bm9.SetDirty data_page true with
                        | none => none
                        | some bm10 =>
                          match bm10.UnpinPage (some data_page) with
                          | none => none
                          | some bm11 => some (data_pid, bm11)) = some (pid, bm9) →
            Quiet G.PAGE_SIZE bm4 bm9 := by
          intro pinned_page bm4 ht
          split at ht
          · cases ht
          · next bm5 hu =>
            split at ht
            · cases ht
            · next bm6 hd =>
              split at ht
              · cases ht
              · next bm7 hun =>
                refine Quiet.update bm4 pinned_page _ bm5 _
                  (fun d hd => setEntry_length G hG d _ _ (mod_entries_lt G hG _) hd) hu
                  (Quiet.setDirty bm5 pinned_page true bm6 _ hd
                    (Quiet.unpin bm6 (some pinned_page) bm7 _ hun ?_))
                split at ht
                · cases ht
                · next bm8 hp =>
                  split at ht
                  · cases ht
                  · next b9 hun2 =>
                    cases ht
                    exact Quiet.pin bm7 _ sysf none bm8 _ hp
                      (Quiet.unpin bm8 (some pinned_page) _ _ hun2 (Quiet.refl _))
                · next data_page bm8 hp =>
                  split at ht
                  · cases ht
                  · next b9 hu2 =>
                    split at ht
                    · cases ht
                    · next b10 hd2 =>
                      split at ht
                      · cases ht
                      · next b11 hun2 =>
                        cases ht
                        exact Quiet.pin bm7 _ sysf (some data_page) bm8 _ hp
                          (Quiet.update bm8 data_page _ b9 _
                            (fun d hd => by rw [hG.2.2.2.2.2.2.2.1 f.record_size d]; exact hd) hu2
                            (Quiet.setDirty b9 data_page true b10 _ hd2
                              (Quiet.unpin b10 (some data_page) _ _ hun2 (Quiet.refl _))))
        by_cases hc : data_pid.GetPageNum ≥ (G.entries_per_dir_page * dir_count1) % 4294967296
        · left
          refine ⟨hc, ?_⟩
          rw [if_pos hc] at h
          cases hcd : bm1.CreatePage G.PAGE_SIZE f.dir sysc with
          | none => rw [hcd] at h; cases h
          | some x =>
            obtain ⟨new_pid, bm2⟩ := x
            rw [hcd] at h
            refine ⟨new_pid, bm2, rfl, ?_⟩
            simp only [] at h
            cases hp : bm2.PinPage G.PAGE_SIZE new_pid sysf with
            | none => rw [hp] at h; cases h
            | some y =>
              obtain ⟨r, bm3⟩ := y
              rw [hp] at h
              cases r with
              | none =>
                simp only [] at h
                cases h
                exact Quiet.pin bm2 new_pid sysf none _ _ hp (Quiet.refl _)
              | some pinned_page =>
                simp only [] at h
                cases hu : bm3.update pinned_page (initEntries G f.record_size) with
                | none => rw [hu] at h; cases h
                | some bm4 =>
                  rw [hu] at h
                  simp only [] at h
                  exact Quiet.pin bm2 new_pid sysf (some pinned_page) bm3 _ hp
                    (Quiet.update bm3 pinned_page _ bm4 _
                      (fun d hd => initEntries_length G hG f.record_size d hd) hu
                      (tail pinned_page bm4 h))
        · right
          refine ⟨hc, ?_⟩
          rw [if_neg hc] at h
          cases hp : bm1.PinPage G.PAGE_SIZE
              (PageId.make f.dir (dir_count / G.entries_per_dir_page)) sysf with
          | none => rw [hp] at h; cases h
          | some y =>
            obtain ⟨r, bm3⟩ := y
            rw [hp] at h
            cases r with
            | none =>
              simp only [] at h
              cases h
              exact Quiet.pin bm1 _ sysf none _ _ hp (Quiet.refl _)
            | some pinned_page =>
              simp only [] at h
              exact Quiet.pin bm1 _ sysf (some pinned_page) bm3 _ hp (tail pinned_page bm3 h)

/-- `AllocatePage` scavenges; when a page was scavenged nothing is created. -/
theorem AllocatePage_shape (G : PageLayout) (hG : G.WellFormed) (f : File)
    (sysc sysf : SysOutcome) (bm : BufferManager) (pid : PageId) (bm9 : BufferManager)
    (h : f.AllocatePage G bm sysc sysf = some (pid, bm9)) :
    Quiet G.PAGE_SIZE bm bm9 ∨
    ∃ bm0, Quiet G.PAGE_SIZE bm bm0 ∧ f.allocateNew G bm0 sysc sysf = some (pid, bm9) := by
  unfold File.AllocatePage at h
  split at h
  · cases h
  · next sp bm1 hs =>
    have hq := ScavengePage_quiet G hG f sysf bm sp bm1 hs
    split at h
    · left
      split at h
      · cases h
      · cases h
      · next a bm2 hp =>
        split at h
        · cases h
        · next bm3 hd =>
          split at h
          · cases h
          · next bm4 hun =>
            cases h
            exact quiet_trans _ _ _ _ hq (Quiet.pin bm1 _ sysf (some a) bm2 _ hp
              (Quiet.setDirty bm2 a true bm3 _ hd (Quiet.unpin bm3 (some a) _ _ hun (Quiet.refl _))))
    · right
      exact ⟨bm1, hq, h⟩

/-! ## Page counts along calls that create no page -/

theorem writeBack_counts (PAGE_SIZE : Nat) (files : List BaseFile) (v : Page) (sys : SysOutcome)
    (files1 : List BaseFile) (h : writeBack PAGE_SIZE files v sys = some files1) (k : Int) :
    (findFile files1 k).map (fun x => x.page_count)
      = (findFile files k).map (fun x => x.page_count) := by
  rcases writeBack_cases PAGE_SIZE files v sys files1 h with h1 | ⟨file, b, file1, _, hf, hfl, h1⟩
  · rw [h1]
  · rw [h1, findFile_setFile]
    have hm := FlushPage_meta PAGE_SIZE file v.page_id v.page_data sys b file1 hfl
    cases hk : findFile files k with
    | none => rfl
    | some g =>
      simp only [Option.map_some', Option.some.injEq]
      by_cases hid : g.id = file1.id
      · rw [if_pos hid]
        have e1 := findFile_id _ _ _ hk
        have e2 := findFile_id _ _ _ hf
        have e3 : k = fileKey v.page_id := by rw [← e1, hid, hm.1, e2]
        rw [e3, hf] at hk
        cases hk
        exact hm.2.1
      · rw [if_neg hid]

theorem evict_counts (PAGE_SIZE : Nat) (bm : BufferManager) (sys : SysOutcome) :
    ∀ (l : List Nat) (b : Bool) (bm1 : BufferManager),
      bm.evict PAGE_SIZE sys l = some (b, bm1) →
      (∀ k, bm1.GetPageCount k = bm.GetPageCount k) ∧ bm1.page_count = bm.page_count := by
  intro l
  induction l with
  | nil =>
    intro b bm1 h
    unfold BufferManager.evict at h
    cases h
    exact ⟨fun _ => rfl, rfl⟩
  | cons v rest ih =>
    intro b bm1 h
    unfold BufferManager.evict at h
    split at h
    · cases h
    · next pv hv =>
      split at h
      · split at h
        · cases h
        · next files hw =>
          cases h
          refine ⟨fun k => ?_, rfl⟩
          exact writeBack_counts PAGE_SIZE bm.file_map pv sys files hw k
      · exact ih b bm1 h

theorem PinPage_counts (PAGE_SIZE : Nat) (bm : BufferManager) (pid : PageId) (sys : SysOutcome)
    (r : Option Nat) (bm1 : BufferManager) (h : bm.PinPage PAGE_SIZE pid sys = some (r, bm1)) :
    (∀ k, bm1.GetPageCount k = bm.GetPageCount k) ∧ bm1.page_count = bm.page_count := by
  have hload : ∀ (b : BufferManager), (∀ k, (b.load PAGE_SIZE pid).2.GetPageCount k
      = b.GetPageCount k) ∧ (b.load PAGE_SIZE pid).2.page_count = b.page_count := by
    intro b
    refine ⟨fun k => ?_, load_page_count PAGE_SIZE b pid⟩
    unfold BufferManager.GetPageCount
    rw [load_file_map]
  unfold BufferManager.PinPage at h
  split at h
  · cases h
    exact ⟨fun _ => rfl, rfl⟩
  · split at h
    · split at h
      · cases h
      · cases h
        exact ⟨fun _ => rfl, rfl⟩
    · split at h
      · split at h
        · cases h
        · next evicted bm0 he =>
          have h0 := evict_counts PAGE_SIZE bm sys _ _ _ he
          split at h
          · cases h
            exact h0
          · have hb : (bm0.load PAGE_SIZE pid).2 = bm1 := congrArg Prod.snd (Option.some.inj h)
            rw [← hb]
            exact ⟨fun k => by rw [(hload bm0).1 k, h0.1 k], by rw [(hload bm0).2, h0.2]⟩
      · have hb : (bm.load PAGE_SIZE pid).2 = bm1 := congrArg Prod.snd (Option.some.inj h)
        rw [← hb]
        exact hload bm

theorem UnpinPage_files (bm : BufferManager) (page : Option Nat) (bm1 : BufferManager)
    (h : bm.UnpinPage page = some bm1) :
    bm1.file_map = bm.file_map ∧ bm1.page_count = bm.page_count ∧
      bm1.page_map = bm.page_map := by
  cases page with
  | none => cases h; exact ⟨rfl, rfl, rfl⟩
  | some a =>
    cases hp : bm.frame a with
    | none => rw [UnpinPage_dead bm a hp] at h; cases h
    | some p =>
      rw [UnpinPage_live bm a p hp] at h
      split at h
      · split at h <;> · cases h; exact ⟨rfl, rfl, rfl⟩
      · cases h; exact ⟨rfl, rfl, rfl⟩

theorem update_files (bm : BufferManager) (a : Nat) (g : List Nat → List Nat)
    (bm1 : BufferManager) (h : bm.update a g = some bm1) :
    bm1.file_map = bm.file_map ∧ bm1.page_count = bm.page_count ∧
      bm1.page_map = bm.page_map ∧ bm1.lru = bm.lru := by
  unfold BufferManager.update at h
  split at h
  · cases h
  · cases h; exact ⟨rfl, rfl, rfl, rfl⟩

theorem SetDirty_files (bm : BufferManager) (a : Nat) (dirty : Bool)
    (bm1 : BufferManager) (h : bm.SetDirty a dirty = some bm1) :
    bm1.file_map = bm.file_map ∧ bm1.page_count = bm.page_count ∧
      bm1.page_map = bm.page_map ∧ bm1.lru = bm.lru := by
  unfold BufferManager.SetDirty at h
  split at h
  · cases h
  · cases h; exact ⟨rfl, rfl, rfl, rfl⟩

/-- A run that creates no page leaves the page counts of the files and the
capacity of the pool as they are. -/
theorem quiet_counts (PAGE_SIZE : Nat) (bm bm1 : BufferManager) (h : Quiet PAGE_SIZE bm bm1) :
    (∀ k, bm1.GetPageCount k = bm.GetPageCount k) ∧ bm1.page_count = bm.page_count := by
  induction h with
  | refl _ => exact ⟨fun _ => rfl, rfl⟩
  | pin b pid sys r b1 b2 hp _ ih =>
    have h0 := PinPage_counts PAGE_SIZE b pid sys r b1 hp
    exact ⟨fun k => by rw [ih.1 k, h0.1 k], by rw [ih.2, h0.2]⟩
  | unpin b page b1 b2 hp _ ih =>
    have h0 := UnpinPage_files b page b1 hp
    refine ⟨fun k => ?_, by rw [ih.2, h0.2.1]⟩
    rw [ih.1 k]
    unfold BufferManager.GetPageCount
    rw [h0.1]
  | update b a g b1 b2 _ hp _ ih =>
    have h0 := update_files b a g b1 hp
    refine ⟨fun k => ?_, by rw [ih.2, h0.2.1]⟩
    rw [ih.1 k]
    unfold BufferManager.GetPageCount
    rw [h0.1]
  | setDirty b a d b1 b2 hp _ ih =>
    have h0 := SetDirty_files b a d b1 hp
    refine ⟨fun k => ?_, by rw [ih.2, h0.2.1]⟩
    rw [ih.1 k]
    unfold BufferManager.GetPageCount
    rw [h0.1]

/-- A run that creates no page keeps the invariant of the pool and the size of
the frames. -/
theorem quiet_inv (PAGE_SIZE : Nat) (bm bm1 : BufferManager) (h : Quiet PAGE_SIZE bm bm1) :
    PoolInv bm → Sized PAGE_SIZE bm → PoolInv bm1 ∧ Sized PAGE_SIZE bm1 := by
  induction h with
  | refl _ => exact fun h1 h2 => ⟨h1, h2⟩
  | pin b pid sys r b1 b2 hp _ ih =>
    intro h1 h2
    exact ih (poolInv_PinPage PAGE_SIZE b h1 pid sys r b1 hp)
      (sized_PinPage PAGE_SIZE b h1 h2 pid sys r b1 hp)
  | unpin b page b1 b2 hp _ ih =>
    intro h1 h2
    exact ih (poolInv_UnpinPage b h1 page b1 hp) (sized_UnpinPage PAGE_SIZE b h2 page b1 hp)
  | update b a g b1 b2 hg hp _ ih =>
    intro h1 h2
    refine ih (poolInv_update b h1 a g b1 hp) (sized_update PAGE_SIZE b h2 a g b1 ?_ hp)
    intro p hfr
    have := sized_frame PAGE_SIZE b h2 a p hfr
    rw [hg _ this, this]
  | setDirty b a d b1 b2 hp _ ih =>
    intro h1 h2
    exact ih (poolInv_SetDirty b h1 a d b1 hp) (sized_SetDirty PAGE_SIZE b h2 a d b1 hp)

/-- `CreatePage` on a registered file when the system calls succeed and the
new page id is valid: the id is made of the descriptor and the page count, the
count goes up by one and the other files keep theirs. -/
theorem CreatePage_counts (PAGE_SIZE : Nat) (bm : BufferManager) (fd : Int) (sys : SysOutcome)
    (pid : PageId) (bm1 : BufferManager) (n : Nat) (hs : sys.Ok PAGE_SIZE)
    (hn : bm.GetPageCount fd = some n) (hv : (PageId.make fd n).IsValid = true)
    (h : bm.CreatePage PAGE_SIZE fd sys = some (pid, bm1)) :
    pid = PageId.make fd n ∧ bm1.GetPageCount fd = some ((n + 1) % 4294967296) ∧
    (∀ k, k ≠ fd → bm1.GetPageCount k = bm.GetPageCount k) ∧
    bm1.page_count = bm.page_count ∧ bm1.page_map = bm.page_map ∧ bm1.heap = bm.heap ∧
    bm1.lru = bm.lru := by
  unfold BufferManager.GetPageCount at hn
  unfold BufferManager.CreatePage at h
  cases hf : findFile bm.file_map fd with
  | none => rw [hf] at hn; cases hn
  | some file =>
    rw [hf] at hn h
    simp only [Option.map_some', Option.some.injEq, BaseFile.GetPageCount] at hn
    have hid := findFile_id _ _ _ hf
    simp only [] at h
    unfold BaseFile.CreatePage at h
    simp only [] at h
    rw [hid, hn] at h
    rw [FlushPage_ok PAGE_SIZE _ (PageId.make fd n) _ sys hv hs] at h
    simp only [Bool.not_true, Bool.false_eq_true, if_false, Option.some.injEq,
      Prod.mk.injEq] at h
    obtain ⟨h1, h2⟩ := h
    refine ⟨h1.symm, ?_, ?_, ?_, ?_, ?_, ?_⟩
    · rw [← h2]
      unfold BufferManager.GetPageCount
      simp only [findFile_setFile, hf, Option.map_some', hid, if_true, BaseFile.GetPageCount]
      norm_num
    · intro k hk
      rw [← h2]
      unfold BufferManager.GetPageCount
      simp only [findFile_setFile]
      cases hg : findFile bm.file_map k with
      | none => rfl
      | some g =>
        have := findFile_id _ _ _ hg
        simp only [Option.map_some', this, hk, if_false]
    · rw [← h2]
    · rw [← h2]
    · rw [← h2]
    · rw [← h2]

/-! ## The directory spans the data pages -/

theorem findFile_register (bm : BufferManager) (bf : BaseFile) (k : Int) :
    findFile (bm.RegisterFile (some bf)).file_map k
      = if k = bf.id then some bf else findFile bm.file_map k := by
  unfold BufferManager.RegisterFile
  simp only []
  by_cases hany : bm.file_map.any (fun x => x.id == bf.id) = true
  · rw [if_pos hany]
    simp only [findFile_setFile]
    by_cases hk : k = bf.id
    · rw [if_pos hk, hk]
      have : (findFile bm.file_map bf.id).isSome = true := by
        unfold findFile
        rw [List.find?_isSome]
        rw [List.any_eq_true] at hany
        exact hany
      cases hf : findFile bm.file_map bf.id with
      | none => rw [hf] at this; cases this
      | some g =>
        have := findFile_id _ _ _ hf
        simp only [Option.map_some', this, if_true]
    · rw [if_neg hk]
      cases hf : findFile bm.file_map k with
      | none => rfl
      | some g =>
        have := findFile_id _ _ _ hf
        have hne : ¬ g.id = bf.id := by rw [this]; exact hk
        simp only [Option.map_some', hne, if_false]
  · rw [if_neg hany]
    show findFile (bm.file_map ++ [bf]) k = _
    unfold findFile
    rw [List.find?_append]
    by_cases hk : k = bf.id
    · rw [if_pos hk, hk]
      have : bm.file_map.find? (fun x => x.id == bf.id) = none := by
        rw [List.find?_eq_none]
        intro x hx hc
        exact hany (List.any_eq_true.mpr ⟨x, hx, hc⟩)
      rw [this]
      simp
    · rw [if_neg hk]
      have : [bf].find? (fun x => x.id == k) = none := by
        rw [List.find?_eq_none]
        intro x hx hc
        rw [List.mem_singleton] at hx
        rw [hx] at hc
        have hc1 : bf.id = k := by simpa using hc
        exact hk hc1.symm
      rw [this]
      simp

/-- `CreatePage` of a base file that returns a valid id. -/
theorem CreatePage_valid_id (PAGE_SIZE : Nat) (bm : BufferManager) (fd : Int)
    (sys : SysOutcome) (pid : PageId) (bm1 : BufferManager) (n : Nat)
    (hn : bm.GetPageCount fd = some n) (hv : pid.IsValid = true)
    (h : bm.CreatePage PAGE_SIZE fd sys = some (pid, bm1)) :
    pid = PageId.make fd n ∧ bm1.GetPageCount fd = some ((n + 1) % 4294967296) ∧
    (∀ k, k ≠ fd → bm1.GetPageCount k = bm.GetPageCount k) := by
  unfold BufferManager.GetPageCount at hn
  unfold BufferManager.CreatePage at h
  cases hf : findFile bm.file_map fd with
  | none => rw [hf] at hn; cases hn
  | some file =>
    rw [hf] at hn h
    simp only [Option.map_some', Option.some.injEq, BaseFile.GetPageCount] at hn
    have hid := findFile_id _ _ _ hf
    simp only [] at h
    cases hc : file.CreatePage PAGE_SIZE sys with
    | none => rw [hc] at h; cases h
    | some x =>
      obtain ⟨pid1, file1⟩ := x
      rw [hc] at h
      simp only [Option.some.injEq, Prod.mk.injEq] at h
      obtain ⟨h1, h2⟩ := h
      rw [h1] at hc
      unfold BaseFile.CreatePage at hc
      simp only [] at hc
      split at hc
      · cases hc
      · next ok bf2 hfl =>
        have hm := FlushPage_meta _ _ _ _ _ _ _ hfl
        split at hc
        · simp only [Option.some.injEq, Prod.mk.injEq] at hc
          rw [← hc.1] at hv
          rw [PageId.invalid_not_valid] at hv
          cases hv
        · simp only [Option.some.injEq, Prod.mk.injEq] at hc
          obtain ⟨hc1, hc2⟩ := hc
          have hfid : file1.id = fd := by rw [← hc2, hm.1]; exact hid
          have hfc : file1.page_count = (n + 1) % 4294967296 := by
            rw [← hc2, hm.2.1, ← hn]
            norm_num
          refine ⟨by rw [← hc1, hid, hn], ?_, ?_⟩
          · rw [← h2]
            unfold BufferManager.GetPageCount
            simp only [findFile_setFile, hf, Option.map_some', hid, hfid, if_true,
              BaseFile.GetPageCount, hfc]
          · intro k hk
            rw [← h2]
            unfold BufferManager.GetPageCount
            simp only [findFile_setFile]
            cases hg : findFile bm.file_map k with
            | none => rfl
            | some g =>
              have := findFile_id _ _ _ hg
              simp only [Option.map_some', this, hfid, hk, if_false]

/-- The constructor registers the two files, creates the first directory page
and then runs pins, unpins and changes of frames. -/
theorem create_shape (G : PageLayout) (hG : G.WellFormed) (bm0 : BufferManager)
    (fd fd_dir : Int) (record_size : Nat) (sysc sysf : SysOutcome) (f : File)
    (bm : BufferManager)
    (h : File.create G bm0 fd fd_dir record_size sysc sysf = some (f, bm)) :
    f = ⟨fd, fd_dir, record_size⟩ ∧ 0 ≤ fd ∧ 0 ≤ fd_dir ∧
    ∃ pid bm2, ((bm0.RegisterFile (some ⟨fd, 0, []⟩)).RegisterFile
        (some ⟨fd_dir, 0, []⟩)).CreatePage G.PAGE_SIZE fd_dir sysc = some (pid, bm2) ∧
      pid.IsValid = true ∧ Quiet G.PAGE_SIZE bm2 bm := by
  unfold File.create at h
  unfold BaseFile.create at h
  by_cases h1 : fd < 0
  · simp only [h1, if_true] at h
    cases h
  · by_cases h2 : fd_dir < 0
    · simp only [h1, h2, if_true, if_false] at h
      cases h
    · simp only [h1, h2, if_false] at h
      split at h
      · cases h
      · next pid bm2 hc =>
        cases hv : pid.IsValid with
        | false =>
          rw [PinPage_invalid _ _ _ _ hv] at h
          cases h
        | true =>
          split at h
          · cases h
          · cases h
          · next a bm3 hp =>
            split at h
            · cases h
            · next bm4 hu =>
              split at h
              · cases h
              · next bm5 hd =>
                split at h
                · cases h
                · next bm6 hun =>
                  simp only [Option.some.injEq, Prod.mk.injEq] at h
                  refine ⟨h.1.symm, by omega, by omega, pid, bm2, hc, hv, ?_⟩
                  rw [← h.2]
                  exact Quiet.pin bm2 pid sysf (some a) bm3 _ hp
                    (Quiet.update bm3 a _ bm4 _
                      (fun d hd => initEntries_length G hG record_size d hd) hu
                      (Quiet.setDirty bm4 a true bm5 _ hd
                        (Quiet.unpin bm5 (some a) bm6 _ hun (Quiet.refl _))))

theorem make_valid_int (fd : Int) (n : Nat) (h0 : 0 ≤ fd) (h1 : fd < 2147483648)
    (hn : n < 65536) : (PageId.make fd n).IsValid = true ∧ (PageId.make fd n).GetPageNum = n := by
  obtain ⟨k, hk⟩ := Int.eq_ofNat_of_zero_le h0
  rw [hk] at h1 ⊢
  have hk1 : k < 4294967296 := by omega
  exact ⟨PageId.make_valid k n hk1 hn, PageId.make_pageNum k n hk1 hn⟩

/-- Every id that the constructor `PageId(file_id, page_num)` makes is valid:
its low bits are zero. -/
theorem make_is_valid (fd : Int) (n : Nat) : (PageId.make fd n).IsValid = true := by
  unfold PageId.IsValid PageId.make kInvalidValue
  simp only [bne_iff_ne, ne_eq]
  intro hc
  have h1 : ((fd % (2 ^ 64 : Int)).toNat <<< 32 % 2 ^ 64 ||| (n % 2 ^ 32) <<< 16 % 2 ^ 64) % 2
      = 1 := by
    rw [hc]
    norm_num
  rw [Nat.or_mod_two_eq_one, Nat.shiftLeft_eq, Nat.shiftLeft_eq] at h1
  rcases h1 with h | h <;> omega

/-- The constructor establishes the invariant of the page counts. -/
theorem countInv_create (G : PageLayout) (hG : G.WellFormed) (bm0 : BufferManager)
    (f : File) (record_size : Nat) (sysc sysf : SysOutcome) (bm : BufferManager)
    (hne : f.id ≠ f.dir)
    (h : File.create G bm0 f.id f.dir record_size sysc sysf = some (f, bm)) :
    f.CountInv G bm := by
  obtain ⟨_, _, _, pid, bm2, hc, hv, hq⟩ := create_shape G hG bm0 _ _ _ _ _ f bm h
  have hdir : ((bm0.RegisterFile (some ⟨f.id, 0, []⟩)).RegisterFile
      (some ⟨f.dir, 0, []⟩)).GetPageCount f.dir = some 0 := by
    unfold BufferManager.GetPageCount
    rw [findFile_register]
    simp only [if_true, Option.map_some', BaseFile.GetPageCount]
  have hdata : ((bm0.RegisterFile (some ⟨f.id, 0, []⟩)).RegisterFile
      (some ⟨f.dir, 0, []⟩)).GetPageCount f.id = some 0 := by
    unfold BufferManager.GetPageCount
    rw [findFile_register, if_neg hne, findFile_register]
    simp only [if_true, Option.map_some', BaseFile.GetPageCount]
  obtain ⟨_, h2, h3⟩ := CreatePage_valid_id G.PAGE_SIZE _ f.dir sysc pid bm2 0 hdir hv hc
  have hq1 := quiet_counts G.PAGE_SIZE bm2 bm hq
  refine ⟨1, 0, ?_, ?_, Nat.le_refl _, Nat.zero_le _, Or.inl rfl, Nat.zero_le _⟩
  · rw [hq1.1, h2]
  · rw [hq1.1, h3 _ hne, hdata]

/-- A run that creates no page keeps the invariant of the page counts. -/
theorem countInv_quiet (G : PageLayout) (f : File) (bm bm1 : BufferManager)
    (hq : Quiet G.PAGE_SIZE bm bm1) (h : f.CountInv G bm) : f.CountInv G bm1 := by
  obtain ⟨D, n, h1, h2, h3⟩ := h
  have hq1 := quiet_counts G.PAGE_SIZE bm bm1 hq
  exact ⟨D, n, by rw [hq1.1, h1], by rw [hq1.1, h2], h3⟩

/-- Case 2 of `AllocatePage` keeps the invariant of the page counts, as long as
the data file had fewer than `2^16` pages. -/
theorem countInv_allocateNew (G : PageLayout) (hG : G.WellFormed) (f : File)
    (sysc sysf : SysOutcome) (bm : BufferManager) (pid : PageId) (bm9 : BufferManager)
    (hne : f.id ≠ f.dir) (hid0 : 0 ≤ f.id) (hid1 : f.id < 2147483648)
    (hdir0 : 0 ≤ f.dir) (hdir1 : f.dir < 2147483648) (hs : sysc.Ok G.PAGE_SIZE)
    (hinv : f.CountInv G bm)
    (hlim : ∀ n, bm9.GetPageCount f.id = some n → n ≤ 65536)
    (h : f.allocateNew G bm sysc sysf = some (pid, bm9)) : f.CountInv G bm9 := by
  obtain ⟨D, n, hD, hn, hD1, hcov, hlast, hn1⟩ := hinv
  obtain ⟨dc, data_pid, bm1, dc1, hdc, hcp, hdc1, hcases⟩ :=
    allocateNew_shape G hG f sysc sysf bm pid bm9 h
  rw [hD] at hdc
  cases hdc
  have hE := entries_pos G hG
  have hEle := entries_le G hG
  have hv := make_is_valid f.id n
  obtain ⟨e1, e2c, e3c⟩ := CreatePage_counts G.PAGE_SIZE bm f.id sysc data_pid bm1 n hs hn hv hcp
  have e3 : bm1.GetPageCount f.dir = some D := by rw [e3c.1 _ (Ne.symm hne), hD]
  rw [e3] at hdc1
  cases hdc1
  have hc9 : bm9.GetPageCount f.id = some ((n + 1) % 4294967296) := by
    rcases hcases with ⟨_, new_pid, bm2, hcd, hq⟩ | ⟨_, hq⟩
    · rw [(quiet_counts _ _ _ hq).1]
      obtain ⟨_, _, e5⟩ := CreatePage_counts G.PAGE_SIZE bm1 f.dir sysc new_pid bm2 D hs e3
        (make_is_valid f.dir D) hcd
      rw [e5.1 _ hne, e2c]
    · rw [(quiet_counts _ _ _ hq).1, e2c]
  have hlt : n < 65536 := by
    have := hlim _ hc9
    omega
  have e2 : bm1.GetPageCount f.id = some (n + 1) := by
    rw [e2c]
    have : (n + 1) % 4294967296 = n + 1 := by omega
    rw [this]
  have hpn : data_pid.GetPageNum = n := by
    rw [e1]
    exact (make_valid_int f.id n hid0 hid1 hlt).2
  have hbound : G.entries_per_dir_page * D < 4294967296 := by
    rw [Nat.mul_comm]
    rcases hlast with h1 | h1
    · rw [h1]; omega
    · omega
  rw [hpn, Nat.mod_eq_of_lt hbound, Nat.mul_comm] at hcases
  rcases hcases with ⟨hge, new_pid, bm2, hcd, hq⟩ | ⟨hlt2, hq⟩
  · have hDn : D ≤ n := Nat.le_trans (Nat.le_mul_of_pos_right D hE) hge
    have hvd := make_valid_int f.dir D hdir0 hdir1 (by omega)
    obtain ⟨_, e5, e6⟩ := CreatePage_counts G.PAGE_SIZE bm1 f.dir sysc new_pid bm2 D hs e3
      hvd.1 hcd
    have hq1 := quiet_counts G.PAGE_SIZE bm2 bm9 hq
    refine ⟨D + 1, n + 1, ?_, ?_, by omega, ?_, ?_, by omega⟩
    · rw [hq1.1, e5]
      have : (D + 1) % 4294967296 = D + 1 := by omega
      rw [this]
    · rw [hq1.1, e6.1 _ hne, e2]
    · rw [Nat.add_mul, Nat.one_mul]; omega
    · right
      rw [Nat.add_mul, Nat.one_mul]; omega
  · have hq1 := quiet_counts G.PAGE_SIZE bm1 bm9 hq
    refine ⟨D, n + 1, by rw [hq1.1, e3], by rw [hq1.1, e2], hD1, by omega, ?_, by omega⟩
    rcases hlast with h1 | h1
    · exact Or.inl h1
    · right; omega

/-! ## The invariant of the page counts in every reachable state -/

theorem countInv_files (G : PageLayout) (f : File) (bm bm1 : BufferManager)
    (hf : bm1.file_map = bm.file_map) (h : f.CountInv G bm) : f.CountInv G bm1 := by
  obtain ⟨D, n, h1, h2, h3⟩ := h
  refine ⟨D, n, ?_, ?_, h3⟩
  · unfold BufferManager.GetPageCount at h1 ⊢
    rw [hf]; exact h1
  · unfold BufferManager.GetPageCount at h2 ⊢
    rw [hf]; exact h2

theorem map_eq_some_pair {α β γ : Type} (o : Option (α × β)) (g : α × β → γ × β) (r : γ)
    (b : β) (hg : ∀ x, (g x).2 = x.2) (h : o.map g = some (r, b)) :
    ∃ a, o = some (a, b) := by
  cases o with
  | none => cases h
  | some x =>
    obtain ⟨a, b1⟩ := x
    simp only [Option.map_some', Option.some.injEq] at h
    have h1 := hg (a, b1)
    rw [h] at h1
    have h2 : b = b1 := h1
    exact ⟨a, by rw [h2]⟩

/-- In the states reached while the data file has at most `2^16` pages, the
descriptors are those of two distinct open files and the page counts satisfy
their invariant. -/
theorem countInv_reachable (G : PageLayout) (hG : G.WellFormed) (f : File)
    (bm : BufferManager) (h : File.Reachable G 65536 f bm) :
    (f.id ≠ f.dir ∧ 0 ≤ f.id ∧ f.id < 2147483648 ∧ 0 ≤ f.dir ∧ f.dir < 2147483648) ∧
    f.CountInv G bm := by
  induction h with
  | create bm0 record_size sysc sysf bm _ hne h1 h2 hc =>
    obtain ⟨_, h3, h4, _⟩ := create_shape G hG bm0 _ _ _ _ _ f bm hc
    exact ⟨⟨hne, h3, h1, h4, h2⟩, countInv_create G hG bm0 f record_size sysc sysf bm hne hc⟩
  | call bm c r bm1 _ hcr hc hlim ih =>
    refine ⟨ih.1, ?_⟩
    obtain ⟨⟨hne, h0, h1, h2, h3⟩, hinv⟩ := ih
    cases c with
    | allocate sysc sysf =>
      obtain ⟨pid, hp⟩ := map_eq_some_pair (f.AllocatePage G bm sysc sysf) _ r bm1
        (fun _ => rfl) hc
      rcases AllocatePage_shape G hG f sysc sysf bm pid bm1 hp with hq | ⟨bm0, hq, hn⟩
      · exact countInv_quiet G f bm bm1 hq hinv
      · exact countInv_allocateNew G hG f sysc sysf bm0 pid bm1 hne h0 h1 h2 h3 hcr
          (countInv_quiet G f bm bm0 hq hinv) hlim hn
    | deallocate pid sysf =>
      obtain ⟨b, hp⟩ := map_eq_some_pair (f.DeallocatePage G bm pid sysf) _ r bm1
        (fun _ => rfl) hc
      exact countInv_quiet G f bm bm1 (DeallocatePage_quiet G hG f sysf bm pid b bm1 hp) hinv
    | pageExists pid sysf =>
      obtain ⟨b, hp⟩ := map_eq_some_pair (f.PageExists G bm pid sysf) _ r bm1
        (fun _ => rfl) hc
      exact countInv_quiet G f bm bm1 (PageExists_quiet G f sysf bm pid b bm1 hp) hinv
    | scavenge sysf =>
      obtain ⟨pid, hp⟩ := map_eq_some_pair (f.ScavengePage G bm sysf) _ r bm1
        (fun _ => rfl) hc
      exact countInv_quiet G f bm bm1 (ScavengePage_quiet G hG f sysf bm pid bm1 hp) hinv
    | pin pid sysf =>
      obtain ⟨a, hp⟩ := map_eq_some_pair (bm.PinPage G.PAGE_SIZE pid sysf) _ r bm1
        (fun _ => rfl) hc
      exact countInv_quiet G f bm bm1 (Quiet.pin bm pid sysf a bm1 _ hp (Quiet.refl _)) hinv
    | unpin page =>
      have hc1 : (bm.UnpinPage page).map (fun s => (FileResult.done, s)) = some (r, bm1) := hc
      cases hu : bm.UnpinPage page with
      | none => rw [hu] at hc1; cases hc1
      | some s =>
        rw [hu] at hc1
        cases hc1
        exact countInv_files G f bm _ (UnpinPage_files bm page _ hu).1 hinv
    | write page data =>
      have hc1 : (bm.write page data).map (fun s => (FileResult.done, s)) = some (r, bm1) := hc
      cases hu : bm.write page data with
      | none => rw [hu] at hc1; cases hc1
      | some s =>
        rw [hu] at hc1
        cases hc1
        exact countInv_files G f bm _ (update_files bm page _ _ (write_update bm page data _ hu).1).1
          hinv
    | setDirty page dirty =>
      have hc1 : (bm.SetDirty page dirty).map (fun s => (FileResult.done, s))
          = some (r, bm1) := hc
      cases hu : bm.SetDirty page dirty with
      | none => rw [hu] at hc1; cases hc1
      | some s =>
        rw [hu] at hc1
        cases hc1
        exact countInv_files G f bm _ (SetDirty_files bm page dirty _ hu).1 hinv

/-- C30 (amended): for every paged file, after construction and after every
call of `AllocatePage`, `DeallocatePage`, `PageExists`, `ScavengePage` and of
the pool by other clients (page creation I/O succeeding), as long as the data
file has at most `2^16` pages, with `E` the number of entries per directory
page: `dir.page_count * E >= data.page_count`. -/
theorem C30_directory_spans_data (G : PageLayout) (hG : G.WellFormed) (f : File)
    (bm : BufferManager) (h : File.Reachable G 65536 f bm) :
    ∃ D n, bm.GetPageCount f.dir = some D ∧ bm.GetPageCount f.id = some n ∧
      D * G.entries_per_dir_page ≥ n := by
  obtain ⟨_, D, n, h1, h2, _, h3, _⟩ := countInv_reachable G hG f bm h
  exact ⟨D, n, h1, h2, h3⟩

theorem samplePages_wf : samplePages.WellFormed := by
  refine ⟨by decide, by decide, by decide, fun e => rfl, ?_, ?_, ?_, ?_, ?_⟩
  · intro e he
    obtain ⟨fs, a, c⟩ := e
    have he1 : fs < 65536 := he
    show (⟨[fs % 256, fs / 256 % 256, if a then 1 else 0, if c then 1 else 0].getD 0 0 % 256 +
        256 * ([fs % 256, fs / 256 % 256, if a then 1 else 0, if c then 1 else 0].getD 1 0 % 256),
      decide ([fs % 256, fs / 256 % 256, if a then 1 else 0, if c then 1 else 0].getD 2 0 ≠ 0),
      decide ([fs % 256, fs / 256 % 256, if a then 1 else 0, if c then 1 else 0].getD 3 0 ≠ 0)⟩
        : Entry) = ⟨fs, a, c⟩
    have e1 : fs % 256 % 256 + 256 * (fs / 256 % 256 % 256) = fs := by omega
    cases a <;> cases c <;> simp [List.getD] <;> omega
  · intro bytes
    show bytes.getD 0 0 % 256 + 256 * (bytes.getD 1 0 % 256) < 65536
    omega
  · intro record_size
    show 12 / (record_size + 1) < 65536
    have : 12 / (record_size + 1) ≤ 12 := Nat.div_le_self _ _
    omega
  · intro record_size d
    show (overwrite d ([record_size % 256, record_size / 256 % 256, 0, 0].take d.length)).length
      = d.length
    apply overwrite_length
    rw [List.length_take]
    exact Nat.min_le_left _ _
  · intro d
    show (d.take 2 ++ ([0, 0].take (d.length - 2)) ++ d.drop 4).length = d.length
    simp only [List.length_append, List.length_take, List.length_drop, List.length_cons,
      List.length_nil]
    omega

/-! ## Allocation in a pool where no page can be pinned -/

theorem make_fileKey_int (fd : Int) (n : Nat) (h0 : 0 ≤ fd) (h1 : fd < 2147483648)
    (hn : n < 65536) : fileKey (PageId.make fd n) = fd := by
  obtain ⟨k, hk⟩ := Int.eq_ofNat_of_zero_le h0
  rw [hk] at h1 ⊢
  exact make_fileKey k n (by omega) hn

/-- In a blocked pool `PinPage` of a page of the file is null and changes
nothing. -/
theorem PinPage_blocked (PAGE_SIZE : Nat) (f : File) (bm : BufferManager) (pid : PageId)
    (sys : SysOutcome) (hb : Blocked f bm) (hv : pid.IsValid = true)
    (hk : fileKey pid = f.id ∨ fileKey pid = f.dir) :
    bm.PinPage PAGE_SIZE pid sys = some (none, bm) := by
  obtain ⟨h1, h2, h3⟩ := hb
  have hmiss : findPage bm.page_map pid = none := by
    rw [findPage_none]
    intro e he hc
    have := h3 e he
    rw [hc] at this
    rcases hk with h | h
    · exact this.1 h
    · exact this.2 h
  have hbm : ({ bm with lru := [] } : BufferManager) = bm := by
    cases bm
    simp only at h1
    simp only [h1]
  unfold BufferManager.PinPage
  simp only [hv, Bool.not_true, Bool.false_eq_true, if_false, hmiss, ge_iff_le, h2, if_true, h1]
  unfold BufferManager.evict
  simp only [Bool.not_false, Bool.true_and, decide_eq_true_eq, h2, if_true, hbm]

theorem CreatePage_returns (PAGE_SIZE : Nat) (bm : BufferManager) (fd : Int)
    (sys : SysOutcome) (n : Nat) (hs : sys.Ok PAGE_SIZE) (hn : bm.GetPageCount fd = some n) :
    ∃ bm1, bm.CreatePage PAGE_SIZE fd sys = some (PageId.make fd n, bm1) := by
  unfold BufferManager.GetPageCount at hn
  unfold BufferManager.CreatePage
  cases hf : findFile bm.file_map fd with
  | none => rw [hf] at hn; cases hn
  | some file =>
    rw [hf] at hn
    simp only [Option.map_some', Option.some.injEq, BaseFile.GetPageCount] at hn
    have hid := findFile_id _ _ _ hf
    simp only []
    unfold BaseFile.CreatePage
    simp only []
    rw [hid, hn, FlushPage_ok PAGE_SIZE _ (PageId.make fd n) _ sys (make_is_valid fd n) hs]
    exact ⟨_, rfl⟩

theorem blocked_of_eq (f : File) (bm bm1 : BufferManager) (hb : Blocked f bm)
    (h1 : bm1.page_count = bm.page_count) (h2 : bm1.page_map = bm.page_map)
    (h3 : bm1.lru = bm.lru) : Blocked f bm1 := by
  unfold Blocked
  rw [h1, h2, h3]
  exact hb

/-- In a blocked pool `ScavengePage` finds nothing. -/
theorem ScavengePage_blocked (G : PageLayout) (f : File) (bm : BufferManager)
    (sysf : SysOutcome) (D : Nat) (hb : Blocked f bm)
    (hdir0 : 0 ≤ f.dir) (hdir1 : f.dir < 2147483648)
    (hD : bm.GetPageCount f.dir = some D) (hD1 : 1 ≤ D) :
    f.ScavengePage G bm sysf = some (PageId.invalid, bm) := by
  have hpin := PinPage_blocked G.PAGE_SIZE f bm (PageId.make f.dir 0) sysf hb
    (make_is_valid _ _) (Or.inr (make_fileKey_int f.dir 0 hdir0 hdir1 (by decide)))
  unfold File.ScavengePage
  rw [hD]
  simp only []
  unfold File.scavengeLoop
  rw [hD]
  have : 0 < D := hD1
  simp only [this, if_true, hpin]

/-- In a blocked pool case 2 of `AllocatePage` creates the data page, and the
directory page when the test of line 98 asks for it, and returns an invalid
id. -/
theorem allocateNew_blocked (G : PageLayout) (f : File) (bm : BufferManager)
    (sysc sysf : SysOutcome) (D n : Nat) (hb : Blocked f bm) (hne : f.id ≠ f.dir)
    (hdir0 : 0 ≤ f.dir) (hdir1 : f.dir < 2147483648) (hs : sysc.Ok G.PAGE_SIZE)
    (hD : bm.GetPageCount f.dir = some D) (hn : bm.GetPageCount f.id = some n)
    (hDlt : D < 65536) :
    ∃ bm9, f.allocateNew G bm sysc sysf = some (PageId.invalid, bm9) ∧ Blocked f bm9 ∧
      bm9.GetPageCount f.id = some ((n + 1) % 4294967296) ∧
      bm9.GetPageCount f.dir = some
        (if (PageId.make f.id n).GetPageNum ≥ (G.entries_per_dir_page * D) % 4294967296
          then (D + 1) % 4294967296 else D) := by
  obtain ⟨bm1, hcp⟩ := CreatePage_returns G.PAGE_SIZE bm f.id sysc n hs hn
  obtain ⟨_, e2, e3, e4, e5, _, e7⟩ := CreatePage_counts G.PAGE_SIZE bm f.id sysc _ bm1 n hs hn
    (make_is_valid _ _) hcp
  have hD1 : bm1.GetPageCount f.dir = some D := by rw [e3 _ (Ne.symm hne), hD]
  have hb1 : Blocked f bm1 := blocked_of_eq f bm bm1 hb e4 e5 e7
  unfold File.allocateNew
  simp only [hD, hcp, hD1]
  by_cases hc : (PageId.make f.id n).GetPageNum ≥ (G.entries_per_dir_page * D) % 4294967296
  · obtain ⟨bm2, hcd⟩ := CreatePage_returns G.PAGE_SIZE bm1 f.dir sysc D hs hD1
    obtain ⟨_, d2, d3, d4, d5, _, d7⟩ := CreatePage_counts G.PAGE_SIZE bm1 f.dir sysc _ bm2 D hs
      hD1 (make_is_valid _ _) hcd
    have hb2 : Blocked f bm2 := blocked_of_eq f bm1 bm2 hb1 d4 d5 d7
    have hpin := PinPage_blocked G.PAGE_SIZE f bm2 (PageId.make f.dir D) sysf hb2
      (make_is_valid _ _) (Or.inr (make_fileKey_int f.dir D hdir0 hdir1 hDlt))
    simp only [hc, if_true, hcd, hpin]
    exact ⟨bm2, rfl, hb2, by rw [d3 _ hne, e2], d2⟩
  · have hpin := PinPage_blocked G.PAGE_SIZE f bm1
      (PageId.make f.dir (D / G.entries_per_dir_page)) sysf hb1 (make_is_valid _ _)
      (Or.inr (make_fileKey_int f.dir _ hdir0 hdir1
        (Nat.lt_of_le_of_lt (Nat.div_le_self _ _) hDlt)))
    simp only [hc, if_false, hpin]
    exact ⟨bm1, rfl, hb1, e2, hD1⟩

/-- In a blocked pool `AllocatePage` returns an invalid id after it has
created the data page. -/
theorem AllocatePage_blocked (G : PageLayout) (f : File) (bm : BufferManager)
    (sysc sysf : SysOutcome) (D n : Nat) (hb : Blocked f bm) (hne : f.id ≠ f.dir)
    (hdir0 : 0 ≤ f.dir) (hdir1 : f.dir < 2147483648) (hs : sysc.Ok G.PAGE_SIZE)
    (hD : bm.GetPageCount f.dir = some D) (hn : bm.GetPageCount f.id = some n)
    (hD1 : 1 ≤ D) (hDlt : D < 65536) :
    ∃ bm9, f.AllocatePage G bm sysc sysf = some (PageId.invalid, bm9) ∧ Blocked f bm9 ∧
      bm9.GetPageCount f.id = some ((n + 1) % 4294967296) ∧
      bm9.GetPageCount f.dir = some
        (if (PageId.make f.id n).GetPageNum ≥ (G.entries_per_dir_page * D) % 4294967296
          then (D + 1) % 4294967296 else D) := by
  obtain ⟨bm9, h1, h2⟩ := allocateNew_blocked G f bm sysc sysf D n hb hne hdir0 hdir1 hs hD hn hDlt
  refine ⟨bm9, ?_, h2⟩
  unfold File.AllocatePage
  rw [ScavengePage_blocked G f bm sysf D hb hdir0 hdir1 hD hD1]
  simp only [PageId.invalid_not_valid, Bool.false_eq_true, if_false]
  exact h1

/-! ## The directory after `2^16 + 1` allocations -/

theorem blockedPool_run :
    BufferManager.run 16 (BufferManager.create 16 1)
      [PoolCall.register ⟨5, 0, []⟩, PoolCall.createPage 5 sysOk]
      = some ([none, none], blockedPool) := by
  decide

theorem sampleBlocked0_create :
    File.create samplePages blockedPool 3 4 2 sysOk sysOk = some (sampleFile, sampleBlocked0) := by
  decide

theorem sampleBlocked_pin0 :
    sampleFile.call samplePages sampleBlocked0 (FileCall.pin (PageId.make 5 0) sysOk)
      = some (FileResult.frame (some 1), { sampleBlocked with lru := [1] }) := by
  decide

theorem sampleBlocked_pin1 :
    sampleFile.call samplePages { sampleBlocked with lru := [1] }
        (FileCall.pin (PageId.make 5 1) sysOk)
      = some (FileResult.frame none, sampleBlocked) := by
  decide

/-- The blocked sample state is reached by the constructor of the paged file
and two `PinPage` calls of another client of the pool. -/
theorem sampleBlocked_reachable (limit : Nat) :
    File.Reachable samplePages limit sampleFile sampleBlocked := by
  have h0 : File.Reachable samplePages limit sampleFile sampleBlocked0 :=
    File.Reachable.create blockedPool 2 sysOk sysOk sampleBlocked0
      (reachable_run 16 _ _ _ _ (BufferManager.Reachable.create 1) blockedPool_run)
      (by decide) (by decide) (by decide) sampleBlocked0_create
  have h1 := File.Reachable.call _ (FileCall.pin (PageId.make 5 0) sysOk) _ _ h0 trivial
    sampleBlocked_pin0
    (by
      intro n hn
      have : n = 0 := by
        have h := hn.symm.trans (by decide : BufferManager.GetPageCount _ sampleFile.id = some 0)
        exact Option.some.inj h
      omega)
  exact File.Reachable.call _ (FileCall.pin (PageId.make 5 1) sysOk) _ _ h1 trivial
    sampleBlocked_pin1
    (by
      intro n hn
      have : n = 0 := by
        have h := hn.symm.trans (by decide : BufferManager.GetPageCount _ sampleFile.id = some 0)
        exact Option.some.inj h
      omega)

theorem sampleBlocked_blocked : Blocked sampleFile sampleBlocked := by
  unfold Blocked
  decide

/-- After `k ≤ 2^16` calls of `AllocatePage` on the blocked sample state the
data file has `k` pages and the directory the least number of pages that
covers them. -/
theorem blocked_steps (k : Nat) (hk : k ≤ 65536) :
    ∃ bm D, File.Reachable samplePages 65537 sampleFile bm ∧ Blocked sampleFile bm ∧
      bm.GetPageCount sampleFile.dir = some D ∧ bm.GetPageCount sampleFile.id = some k ∧
      1 ≤ D ∧ k ≤ D * 4 ∧ (D = 1 ∨ D * 4 < k + 4) := by
  induction k with
  | zero =>
    exact ⟨sampleBlocked, 1, sampleBlocked_reachable 65537, sampleBlocked_blocked, by decide,
      by decide, by omega, by omega, Or.inl rfl⟩
  | succ k ih =>
    obtain ⟨bm, D, hr, hb, hD, hn, hD1, hle, hlt⟩ := ih (by omega)
    have hs : sysOk.Ok samplePages.PAGE_SIZE := ⟨by decide, 1000000, rfl, by decide⟩
    obtain ⟨bm9, hcall, hb9, hn9, hD9⟩ := AllocatePage_blocked samplePages sampleFile bm sysOk
      sysOk D k hb (by decide) (by decide) (by decide) hs hD hn hD1 (by omega)
    have hnum : (PageId.make sampleFile.id k).GetPageNum = k :=
      PageId.make_pageNum 3 k (by decide) (by omega)
    have hE : samplePages.entries_per_dir_page = 4 := by decide
    rw [hnum, hE] at hD9
    have hk1 : (k + 1) % 4294967296 = k + 1 := by omega
    rw [hk1] at hn9
    have hreach : File.Reachable samplePages 65537 sampleFile bm9 :=
      File.Reachable.call bm (FileCall.allocate sysOk sysOk) (FileResult.page PageId.invalid) bm9
        hr hs (by
          show (sampleFile.AllocatePage samplePages bm sysOk sysOk).map _ = _
          rw [hcall]
          rfl)
        (by
          intro n h
          rw [hn9] at h
          have := Option.some.inj h
          omega)
    by_cases hc : k ≥ (4 * D) % 4294967296
    · rw [if_pos hc] at hD9
      have hD9' : (D + 1) % 4294967296 = D + 1 := by omega
      rw [hD9'] at hD9
      exact ⟨bm9, D + 1, hreach, hb9, hD9, hn9, by omega, by omega, by omega⟩
    · rw [if_neg hc] at hD9
      exact ⟨bm9, D, hreach, hb9, hD9, hn9, hD1, by omega, by omega⟩

/-- C30 fails as stated once the data file has `2^16` pages: the next data
page has page number `2^16`, which the 16-bit field of its id holds as 0, so
the test of line 98 adds no directory page and the data file has one page
more than the `2^14` directory pages of four entries cover. -/
theorem C30_counterexample :
    ∃ bm, File.Reachable samplePages 65537 sampleFile bm ∧
      ∃ D n, bm.GetPageCount sampleFile.dir = some D ∧ bm.GetPageCount sampleFile.id = some n ∧
        D * samplePages.entries_per_dir_page < n := by
  obtain ⟨bm, D, hr, hb, hD, hn, hD1, hle, hlt⟩ := blocked_steps 65536 (le_refl _)
  have hs : sysOk.Ok samplePages.PAGE_SIZE := ⟨by decide, 1000000, rfl, by decide⟩
  obtain ⟨bm9, hcall, hb9, hn9, hD9⟩ := AllocatePage_blocked samplePages sampleFile bm sysOk
    sysOk D 65536 hb (by decide) (by decide) (by decide) hs hD hn hD1 (by omega)
  have hnum : (PageId.make sampleFile.id 65536).GetPageNum = 0 := by decide
  have hE : samplePages.entries_per_dir_page = 4 := by decide
  have hDv : D = 16384 := by omega
  rw [hnum, hE, hDv] at hD9
  have hD9' : bm9.GetPageCount sampleFile.dir = some 16384 := hD9
  have hn9' : bm9.GetPageCount sampleFile.id = some 65537 := hn9
  refine ⟨bm9, ?_, 16384, 65537, hD9', hn9', by rw [hE]; decide⟩
  exact File.Reachable.call bm (FileCall.allocate sysOk sysOk) (FileResult.page PageId.invalid)
    bm9 hr hs (by
      show (sampleFile.AllocatePage samplePages bm sysOk sysOk).map _ = _
      rw [hcall]
      rfl)
    (by
      intro n h
      rw [hn9'] at h
      have := Option.some.inj h
      omega)

theorem sampleAlloc1_call :
    sampleFile.call samplePages sampleFile0 (FileCall.allocate sysOk sysOk)
      = some (FileResult.page (PageId.make 3 0), sampleAlloc1) := by
  decide

theorem sampleFile0_reachable (limit : Nat) :
    File.Reachable samplePages limit sampleFile sampleFile0 :=
  File.Reachable.create (BufferManager.create 16 3) 2 sysOk sysOk sampleFile0
    (BufferManager.Reachable.create 3) (by decide) (by decide) (by decide) sampleFile0_create

theorem sampleAlloc1_reachable (limit : Nat) (h : 1 ≤ limit) :
    File.Reachable samplePages limit sampleFile sampleAlloc1 :=
  File.Reachable.call sampleFile0 (FileCall.allocate sysOk sysOk)
    (FileResult.page (PageId.make 3 0)) sampleAlloc1 (sampleFile0_reachable limit)
    ⟨by decide, 1000000, rfl, by decide⟩ sampleAlloc1_call
    (by
      intro n hn
      have h1 := hn.symm.trans (by decide : sampleAlloc1.GetPageCount sampleFile.id = some 1)
      have := Option.some.inj h1
      omega)

/-- C30 at the paged file of the examples after its constructor and one
`AllocatePage`: one directory page of four entries, one data page. -/
theorem C30_directory_spans_data_witness :
    samplePages.WellFormed ∧ File.Reachable samplePages 65536 sampleFile sampleAlloc1 ∧
    ∃ D n, sampleAlloc1.GetPageCount sampleFile.dir = some D ∧
      sampleAlloc1.GetPageCount sampleFile.id = some n ∧
      D * samplePages.entries_per_dir_page ≥ n :=
  ⟨samplePages_wf, sampleAlloc1_reachable 65536 (by decide),
    C30_directory_spans_data samplePages samplePages_wf sampleFile sampleAlloc1
      (sampleAlloc1_reachable 65536 (by decide))⟩

/-! ## The pool as its clients see it -/

theorem held_entry (PAGE_SIZE : Nat) (bm : BufferManager) (S : List Nat)
    (h : Held PAGE_SIZE bm S) (e : PageId × Nat) (he : e ∈ bm.page_map) :
    ∃ p, bm.frame e.2 = some p ∧ p.page_id = e.1 ∧ p.page_data.length = PAGE_SIZE ∧
      e.1.Proper ∧ (pageBytes PAGE_SIZE bm.file_map e.1).isSome = true ∧
      (e.2 ∈ S → p.pin_count = 1) ∧
      (e.2 ∉ S → p.pin_count = 0 ∧
        (p.is_dirty = true ∨ pageBytes PAGE_SIZE bm.file_map e.1 = some p.page_data)) := by
  obtain ⟨p, hp, hid⟩ := poolInv_frame bm h.1 e he
  obtain ⟨h1, h2, h3, h4⟩ := h.2.2.2.2 e he p hp
  exact ⟨p, hp, hid, sized_frame PAGE_SIZE bm h.2.1 _ p hp, h1, h2, h3, h4⟩

theorem values_nodup (bm : BufferManager) (h : PoolInv bm) :
    (bm.page_map.map (fun e => e.2)).Nodup := by
  apply List.Nodup.map_on
  · intro x hx y hy hxy
    exact poolInv_value bm h x y hx hy hxy
  · exact List.Nodup.of_map _ h.2.1

/-- A full pool in which fewer frames are held than it has room for caches a
page that is not held. -/
theorem held_room (PAGE_SIZE : Nat) (bm : BufferManager) (S : List Nat)
    (h : Held PAGE_SIZE bm S) (hroom : S.length < bm.page_count)
    (hfull : bm.page_map.length ≥ bm.page_count) : ∃ e ∈ bm.page_map, e.2 ∉ S := by
  by_contra hno
  push_neg at hno
  have hsub : bm.page_map.map (fun e => e.2) ⊆ S := by
    intro x hx
    obtain ⟨e, he, rfl⟩ := List.mem_map.mp hx
    exact hno e he
  have hlen := (List.subperm_of_subset (values_nodup bm h.1) hsub).length_le
  rw [List.length_map] at hlen
  omega

theorem view_hit (PAGE_SIZE : Nat) (bm : BufferManager) (q : PageId) (a : Nat) (p : Page)
    (hf : findPage bm.page_map q = some a) (hp : bm.frame a = some p) :
    bm.view PAGE_SIZE q = some p.page_data := by
  unfold BufferManager.view
  rw [hf]
  simp only [hp, Option.map_some']

theorem view_miss (PAGE_SIZE : Nat) (bm : BufferManager) (q : PageId)
    (hf : findPage bm.page_map q = none) :
    bm.view PAGE_SIZE q = pageBytes PAGE_SIZE bm.file_map q := by
  unfold BufferManager.view
  rw [hf]

theorem pageBytes_registered (PAGE_SIZE : Nat) (files : List BaseFile) (q : PageId)
    (h : (pageBytes PAGE_SIZE files q).isSome = true) :
    (findFile files (fileKey q)).isSome = true := by
  unfold pageBytes at h
  cases hf : findFile files (fileKey q) with
  | none => rw [hf] at h; cases h
  | some file => rfl

theorem writeBack_clean (PAGE_SIZE : Nat) (files : List BaseFile) (v : Page) (sys : SysOutcome)
    (files1 : List BaseFile) (hc : v.is_dirty = false)
    (hw : writeBack PAGE_SIZE files v sys = some files1) : files1 = files := by
  rcases writeBack_cases PAGE_SIZE files v sys files1 hw with h | ⟨_, _, _, hd, _⟩
  · exact h
  · rw [hc] at hd
    cases hd

theorem proper_ne (p q : PageId) (hp : p.Proper) (hq : q.Proper) (h : p ≠ q) :
    ¬ p.samePage q :=
  fun hs => h (proper_ext p q hp hq hs)

/-- The eviction of an unpinned frame keeps what the clients see. -/
theorem held_evict (PAGE_SIZE : Nat) (hPS : PAGE_SIZE ≤ 65536) (bm : BufferManager)
    (S : List Nat) (h : Held PAGE_SIZE bm S) (sys : SysOutcome) (hs : sys.Ok PAGE_SIZE)
    (pre rest : List Nat) (v : Nat) (pv : Page) (files : List BaseFile) (bm1 : BufferManager)
    (hl : bm.lru = pre ++ v :: rest)
    (hpre : ∀ a ∈ pre, ∀ p, bm.frame a = some p → p.pin_count ≠ 0)
    (hv : bm.frame v = some pv) (hz : pv.pin_count = 0)
    (hw : writeBack PAGE_SIZE bm.file_map pv sys = some files)
    (hbm1 : bm1 = { bm with
      file_map := files
      page_map := erasePage bm.page_map pv.page_id
      heap := bm.heap.set v none
      lru := rest }) :
    Held PAGE_SIZE bm1 S ∧ ViewLe PAGE_SIZE bm bm1 ∧ Kept S bm bm1 := by
  have hfm : bm1.file_map = files := by rw [hbm1]
  have hpm : bm1.page_map = erasePage bm.page_map pv.page_id := by rw [hbm1]
  have hhp : bm1.heap = bm.heap.set v none := by rw [hbm1]
  have hve : (pv.page_id, v) ∈ bm.page_map := poolInv_live bm h.1 v pv hv
  obtain ⟨pv1, hpv1, _, hlenv, hpropv, hbackv, hinv, houtv⟩ := held_entry PAGE_SIZE bm S h _ hve
  have hpveq : pv1 = pv := Option.some.inj (hpv1.symm.trans hv)
  rw [hpveq] at hinv houtv hlenv
  have hvS : v ∉ S := by
    intro hc
    have := hinv hc
    omega
  have hother : ∀ e ∈ bm.page_map, e.1 ≠ pv.page_id → e.2 ≠ v := by
    intro e he hne hc
    have := poolInv_value bm h.1 e (pv.page_id, v) he hve hc
    exact hne (congrArg Prod.fst this)
  have hbytes : ∀ q d, q.Proper → q ≠ pv.page_id →
      pageBytes PAGE_SIZE bm.file_map q = some d → pageBytes PAGE_SIZE files q = some d := by
    intro q d hq hne hd
    exact pageBytes_writeBack PAGE_SIZE hPS bm.file_map pv sys files q d hlenv hw
      (proper_ne q pv.page_id hq hpropv hne) hd
  have hvbytes : pageBytes PAGE_SIZE files pv.page_id = some pv.page_data := by
    cases hd : pv.is_dirty with
    | true =>
      exact pageBytes_written PAGE_SIZE bm.file_map pv sys files (proper_valid _ hpropv) hlenv hd
        (pageBytes_registered _ _ _ hbackv) hs hw
    | false =>
      rw [writeBack_clean PAGE_SIZE bm.file_map pv sys files hd hw]
      rcases (houtv hvS).2 with h1 | h1
      · rw [hd] at h1
        cases h1
      · exact h1
  refine ⟨⟨?_, ?_, h.2.2.1, ?_, ?_⟩, ?_, ?_⟩
  · rw [hbm1]
    exact poolInv_evicted bm h.1 pre rest v pv files hl hpre hv
  · exact sized_evicted PAGE_SIZE bm h.2.1 bm1 v hhp (frame_bound bm v pv hv)
  · intro s hs1
    obtain ⟨e, he, hes⟩ := List.mem_map.mp (h.2.2.2.1 s hs1)
    rw [hpm]
    refine List.mem_map.mpr ⟨e, (mem_erasePage _ _ _).mpr ⟨he, ?_⟩, hes⟩
    intro hc
    have := key_unique bm.page_map h.1.2.1 e (pv.page_id, v) he hve hc
    rw [this] at hes
    have hes1 : v = s := hes
    rw [hes1] at hvS
    exact hvS hs1
  · intro e he p hp
    rw [hpm, mem_erasePage] at he
    have hfr : bm1.frame e.2 = bm.frame e.2 :=
      frame_set_other bm bm1 v e.2 none (hother e he.1 he.2) hhp
    have hp1 : bm.frame e.2 = some p := hfr ▸ hp
    obtain ⟨h1, h2, h3, h4⟩ := h.2.2.2.2 e he.1 p hp1
    rw [hfm]
    refine ⟨h1, ?_, h3, ?_⟩
    · obtain ⟨d, hd⟩ := Option.isSome_iff_exists.mp h2
      rw [hbytes e.1 d h1 he.2 hd]
      rfl
    · intro hS
      refine ⟨(h4 hS).1, ?_⟩
      rcases (h4 hS).2 with h5 | h5
      · exact Or.inl h5
      · exact Or.inr (hbytes e.1 _ h1 he.2 h5)
  · intro q d hq hd
    cases hf : findPage bm.page_map q with
    | none =>
      rw [view_miss PAGE_SIZE bm q hf] at hd
      have hne : q ≠ pv.page_id := by
        intro hc
        exact (findPage_none _ _).mp hf _ hve hc.symm
      rw [view_miss PAGE_SIZE bm1 q (by rw [hpm]; exact erasePage_miss _ _ _ hf), hfm]
      exact hbytes q d hq hne hd
    | some a =>
      have hmem := findPage_mem _ _ _ hf
      by_cases hc : q = pv.page_id
      · have hav : a = v := by
          have := key_unique bm.page_map h.1.2.1 (q, a) (pv.page_id, v) hmem hve hc
          exact congrArg Prod.snd this
        rw [hav] at hf
        rw [view_hit PAGE_SIZE bm q v pv hf hv] at hd
        have hmiss : findPage bm1.page_map q = none := by
          rw [hpm, findPage_none]
          intro e he
          exact hc ▸ ((mem_erasePage _ _ _).mp he).2
        rw [view_miss PAGE_SIZE bm1 q hmiss, hfm, hc, hvbytes]
        exact hd
      · obtain ⟨p, hp, _⟩ := poolInv_frame bm h.1 (q, a) hmem
        rw [view_hit PAGE_SIZE bm q a p hf hp] at hd
        have hf1 : findPage bm1.page_map q = some a := by
          rw [hpm]
          exact erasePage_keeps _ h.1.2.1 q pv.page_id a hf hc
        have hfr : bm1.frame a = bm.frame a :=
          frame_set_other bm bm1 v a none (hother (q, a) hmem hc) hhp
        rw [view_hit PAGE_SIZE bm1 q a p hf1 (hfr.trans hp)]
        exact hd
  · intro k s hs1 hk
    rw [hpm]
    apply erasePage_keeps _ h.1.2.1 k pv.page_id s hk
    intro hc
    have := key_unique bm.page_map h.1.2.1 (k, s) (pv.page_id, v) (findPage_mem _ _ _ hk) hve hc
    have hsv : s = v := congrArg Prod.snd this
    rw [hsv] at hs1
    exact hvS hs1

/-! ## Pinning a page that the clients can see -/

theorem viewLe_trans (PAGE_SIZE : Nat) (bm bm1 bm2 : BufferManager)
    (h1 : ViewLe PAGE_SIZE bm bm1) (h2 : ViewLe PAGE_SIZE bm1 bm2) : ViewLe PAGE_SIZE bm bm2 :=
  fun q d hq hd => h2 q d hq (h1 q d hq hd)

theorem kept_trans (S : List Nat) (bm bm1 bm2 : BufferManager)
    (h1 : Kept S bm bm1) (h2 : Kept S bm1 bm2) : Kept S bm bm2 :=
  fun k s hs hk => h2 k s hs (h1 k s hs hk)

theorem kept_of_eq (S : List Nat) (bm bm1 : BufferManager) (h : bm1.page_map = bm.page_map) :
    Kept S bm bm1 := by
  intro k s _ hk
  rw [h]
  exact hk

theorem kept_mono (S S1 : List Nat) (bm bm1 : BufferManager) (h : Kept S bm bm1)
    (hsub : ∀ s ∈ S1, s ∈ S) : Kept S1 bm bm1 :=
  fun k s hs hk => h k s (hsub s hs) hk

theorem held_value_bound (PAGE_SIZE : Nat) (bm : BufferManager) (S : List Nat)
    (h : Held PAGE_SIZE bm S) (s : Nat) (hs : s ∈ S) : s < bm.heap.length := by
  obtain ⟨e, he, hes⟩ := List.mem_map.mp (h.2.2.2.1 s hs)
  obtain ⟨p, hp, _⟩ := poolInv_frame bm h.1 e he
  have hes1 : e.2 = s := hes
  rw [hes1] at hp
  exact frame_bound bm s p hp

/-- The load of a page that is in its file gives a frame with the bytes of
the file and keeps what the clients see. -/
theorem held_load (PAGE_SIZE : Nat) (bm : BufferManager) (S : List Nat)
    (h : Held PAGE_SIZE bm S) (q : PageId) (hq : q.Proper)
    (hmiss : findPage bm.page_map q = none) (d : List Nat)
    (hd : pageBytes PAGE_SIZE bm.file_map q = some d) (r : Option Nat) (bm1 : BufferManager)
    (hload : bm.load PAGE_SIZE q = (r, bm1)) :
    r = some bm.heap.length ∧ Held PAGE_SIZE bm1 (bm.heap.length :: S) ∧
    ViewLe PAGE_SIZE bm bm1 ∧ Kept S bm bm1 ∧
    findPage bm1.page_map q = some bm.heap.length ∧
    bm1.frame bm.heap.length = some ⟨false, 1, q, d⟩ ∧ bm1.file_map = bm.file_map := by
  rw [load_data PAGE_SIZE bm q d (proper_valid q hq) hd] at hload
  have hr : some bm.heap.length = r := congrArg Prod.fst hload
  have hb : (_ : BufferManager) = bm1 := congrArg Prod.snd hload
  have hfm : bm1.file_map = bm.file_map := by rw [← hb]
  have hpm : bm1.page_map = bm.page_map ++ [(q, bm.heap.length)] := by rw [← hb]
  have hhp : bm1.heap = bm.heap ++ [some ⟨false, 1, q, d⟩] := by rw [← hb]
  have hinv : PoolInv bm1 := by
    rw [← hb]
    exact poolInv_loaded bm h.1 q ⟨false, 1, q, d⟩ hmiss rfl
  have hnew : bm1.frame bm.heap.length = some ⟨false, 1, q, d⟩ := frame_append_new bm bm1 _ hhp
  have hold : ∀ e ∈ bm.page_map, e.2 < bm.heap.length := by
    intro e he
    obtain ⟨p, hp, _⟩ := poolInv_frame bm h.1 e he
    exact frame_bound bm e.2 p hp
  have hfq : findPage bm1.page_map q = some bm.heap.length := by
    apply findPage_of_mem _ hinv.2.1
    rw [hpm]
    exact List.mem_append_right _ (List.mem_singleton.mpr rfl)
  refine ⟨hr.symm, ⟨hinv, ?_, ?_, ?_, ?_⟩, ?_, ?_, hfq, hnew, hfm⟩
  · apply sized_append PAGE_SIZE bm h.2.1 bm1 _ hhp
    intro p hp
    cases hp
    exact pageBytes_length PAGE_SIZE bm.file_map q d hd
  · refine List.nodup_cons.mpr ⟨?_, h.2.2.1⟩
    intro hc
    exact Nat.lt_irrefl _ (held_value_bound PAGE_SIZE bm S h _ hc)
  · intro s hs
    rw [hpm, List.map_append]
    rcases List.mem_cons.mp hs with h1 | h1
    · rw [h1]
      exact List.mem_append_right _ (List.mem_singleton.mpr rfl)
    · exact List.mem_append_left _ (h.2.2.2.1 s h1)
  · intro e he p hp
    rw [hpm] at he
    rcases List.mem_append.mp he with h1 | h1
    · have hlt := hold e h1
      have hfr : bm1.frame e.2 = bm.frame e.2 := frame_append_old bm bm1 e.2 _ hlt hhp
      have hp1 : bm.frame e.2 = some p := hfr ▸ hp
      obtain ⟨g1, g2, g3, g4⟩ := h.2.2.2.2 e h1 p hp1
      rw [hfm]
      refine ⟨g1, g2, ?_, ?_⟩
      · intro hS
        rcases List.mem_cons.mp hS with h2 | h2
        · omega
        · exact g3 h2
      · intro hS
        exact g4 (fun hc => hS (List.mem_cons_of_mem _ hc))
    · have he1 : e = (q, bm.heap.length) := List.mem_singleton.mp h1
      rw [he1] at hp ⊢
      have hpe : p = ⟨false, 1, q, d⟩ := Option.some.inj (hp.symm.trans hnew)
      rw [hfm, hpe]
      refine ⟨hq, by rw [hd]; rfl, fun _ => rfl, ?_⟩
      intro hS
      exact absurd (List.mem_cons_self _ _) hS
  · intro q1 d1 hq1 hd1
    cases hf : findPage bm.page_map q1 with
    | none =>
      rw [view_miss PAGE_SIZE bm q1 hf] at hd1
      by_cases hc : q1 = q
      · rw [hc] at hd1 ⊢
        rw [view_hit PAGE_SIZE bm1 q _ _ hfq hnew]
        exact hd.symm.trans hd1
      · have hf1 : findPage bm1.page_map q1 = none := by
          rw [findPage_none] at hf ⊢
          intro e he
          rw [hpm] at he
          rcases List.mem_append.mp he with h1 | h1
          · exact hf e h1
          · rw [List.mem_singleton.mp h1]
            exact fun h2 => hc h2.symm
        rw [view_miss PAGE_SIZE bm1 q1 hf1, hfm]
        exact hd1
    | some a =>
      have hmem := findPage_mem _ _ _ hf
      obtain ⟨p, hp, _⟩ := poolInv_frame bm h.1 (q1, a) hmem
      rw [view_hit PAGE_SIZE bm q1 a p hf hp] at hd1
      have hf1 : findPage bm1.page_map q1 = some a := by
        rw [hpm]
        exact findPage_append_some _ _ _ _ hf
      have hfr : bm1.frame a = bm.frame a :=
        frame_append_old bm bm1 a _ (hold (q1, a) hmem) hhp
      rw [view_hit PAGE_SIZE bm1 q1 a p hf1 (hfr.trans hp)]
      exact hd1
  · intro k s _ hk
    rw [hpm]
    exact findPage_append_some _ _ _ _ hk

/-- A change of one cached frame that keeps `page_map` and the files: the
frame of page `q` at address `a` becomes `p1`, and `S1` is `S` up to `a`. -/
theorem held_store (PAGE_SIZE : Nat) (bm : BufferManager) (S S1 : List Nat)
    (h : Held PAGE_SIZE bm S) (bm1 : BufferManager) (a : Nat) (p1 : Page) (q : PageId)
    (hf : findPage bm.page_map q = some a)
    (hinv : PoolInv bm1) (hheap : bm1.heap = bm.heap.set a (some p1))
    (hpm : bm1.page_map = bm.page_map) (hfm : bm1.file_map = bm.file_map)
    (hlen : p1.page_data.length = PAGE_SIZE)
    (hnd : S1.Nodup) (hS1 : ∀ s, s ≠ a → (s ∈ S1 ↔ s ∈ S))
    (hin : a ∈ S1 → p1.pin_count = 1)
    (hout : a ∉ S1 → p1.pin_count = 0 ∧
      (p1.is_dirty = true ∨ pageBytes PAGE_SIZE bm.file_map q = some p1.page_data)) :
    Held PAGE_SIZE bm1 S1 ∧ bm1.frame a = some p1 ∧
    bm1.view PAGE_SIZE q = some p1.page_data ∧
    (∀ q1, q1 ≠ q → bm1.view PAGE_SIZE q1 = bm.view PAGE_SIZE q1) := by
  have hmem := findPage_mem _ _ _ hf
  obtain ⟨p, hp, _⟩ := poolInv_frame bm h.1 (q, a) hmem
  have hlt : a < bm.heap.length := frame_bound bm a p hp
  have hfa : bm1.frame a = some p1 := frame_set_same bm bm1 a _ hlt hheap
  have hfo : ∀ b, b ≠ a → bm1.frame b = bm.frame b :=
    fun b hb => frame_set_other bm bm1 a b _ hb hheap
  have hkey : ∀ e ∈ bm.page_map, e.2 = a → e = (q, a) :=
    fun e he hea => poolInv_value bm h.1 e (q, a) he hmem hea
  refine ⟨⟨hinv, ?_, hnd, ?_, ?_⟩, hfa, ?_, ?_⟩
  · apply sized_intro
    intro b pb hpb
    by_cases hb : b = a
    · rw [hb, hfa] at hpb
      cases hpb
      exact hlen
    · rw [hfo b hb] at hpb
      exact sized_frame PAGE_SIZE bm h.2.1 b pb hpb
  · intro s hs
    rw [hpm]
    by_cases hsa : s = a
    · rw [hsa]
      exact List.mem_map.mpr ⟨(q, a), hmem, rfl⟩
    · exact h.2.2.2.1 s ((hS1 s hsa).mp hs)
  · intro e he pe hpe
    rw [hpm] at he
    rw [hfm]
    by_cases hea : e.2 = a
    · have he1 := hkey e he hea
      rw [he1] at hpe ⊢
      have hpe1 : pe = p1 := Option.some.inj (hpe.symm.trans hfa)
      rw [hpe1]
      obtain ⟨_, _, _, _, g1, g2, _, _⟩ := held_entry PAGE_SIZE bm S h (q, a) hmem
      exact ⟨g1, g2, hin, hout⟩
    · have hpe1 : bm.frame e.2 = some pe := (hfo e.2 hea) ▸ hpe
      obtain ⟨g1, g2, g3, g4⟩ := h.2.2.2.2 e he pe hpe1
      exact ⟨g1, g2, fun hS => g3 ((hS1 e.2 hea).mp hS),
        fun hS => g4 (fun hc => hS ((hS1 e.2 hea).mpr hc))⟩
  · rw [view_hit PAGE_SIZE bm1 q a p1 (by rw [hpm]; exact hf) hfa]
  · intro q1 hq1
    unfold BufferManager.view
    rw [hpm, hfm]
    cases hf1 : findPage bm.page_map q1 with
    | none => rfl
    | some b =>
      have hb : b ≠ a := by
        intro hc
        have := hkey (q1, b) (findPage_mem _ _ _ hf1) hc
        exact hq1 (congrArg Prod.fst this)
      simp only [hfo b hb]

/-! ## The steps of a client on a frame it holds -/

theorem inc_fields (p : Page) (h : p.pin_count = 0) :
    p.IncPinCount.pin_count = 1 ∧ p.IncPinCount.page_data = p.page_data ∧
    p.IncPinCount.is_dirty = p.is_dirty := by
  refine ⟨?_, ?_, ?_⟩
  · unfold Page.IncPinCount
    simp only [h]
  · unfold Page.IncPinCount
    simp only []
  · unfold Page.IncPinCount
    simp only []

theorem dec_fields (p : Page) (h : p.pin_count = 1) :
    p.DecPinCount.pin_count = 0 ∧ p.DecPinCount.page_data = p.page_data ∧
    p.DecPinCount.is_dirty = p.is_dirty := by
  refine ⟨?_, ?_, ?_⟩
  · unfold Page.DecPinCount
    simp only [h]
  · unfold Page.DecPinCount
    simp only []
  · unfold Page.DecPinCount
    simp only []

/-- `PinPage` of a cached page that the client does not hold yet. -/
theorem held_hit (PAGE_SIZE : Nat) (bm : BufferManager) (S : List Nat)
    (h : Held PAGE_SIZE bm S) (q : PageId) (a : Nat)
    (hf : findPage bm.page_map q = some a) (ha : a ∉ S) (sys : SysOutcome) :
    ∃ p bm1, bm.frame a = some p ∧ bm.PinPage PAGE_SIZE q sys = some (some a, bm1) ∧
      Held PAGE_SIZE bm1 (a :: S) ∧ bm1.page_map = bm.page_map ∧
      bm1.file_map = bm.file_map ∧ bm1.frame a = some p.IncPinCount ∧
      (p.is_dirty = true ∨ pageBytes PAGE_SIZE bm.file_map q = some p.page_data) ∧
      (∀ q1, bm1.view PAGE_SIZE q1 = bm.view PAGE_SIZE q1) := by
  have hmem := findPage_mem _ _ _ hf
  obtain ⟨p, hp, _, hlen, hprop, _, _, hout⟩ := held_entry PAGE_SIZE bm S h (q, a) hmem
  obtain ⟨h0, hset⟩ := hout ha
  obtain ⟨i1, i2, i3⟩ := inc_fields p h0
  have hpin := PinPage_hit PAGE_SIZE bm q sys a p (proper_valid q hprop) hf hp
  have hinv := poolInv_PinPage PAGE_SIZE bm h.1 q sys _ _ hpin
  obtain ⟨g1, g2, g3, g4⟩ := held_store PAGE_SIZE bm S (a :: S) h _ a p.IncPinCount q hf hinv rfl
    rfl rfl (by rw [i2]; exact hlen) (List.nodup_cons.mpr ⟨ha, h.2.2.1⟩)
    (fun s hs => by simp [hs]) (fun _ => i1)
    (fun hc => absurd (List.mem_cons_self _ _) hc)
  refine ⟨p, _, hp, hpin, g1, rfl, rfl, g2, hset, ?_⟩
  intro q1
  by_cases hq1 : q1 = q
  · rw [hq1, g3, i2, view_hit PAGE_SIZE bm q a p hf hp]
  · exact g4 q1 hq1

/-- The client changes the bytes of a frame it holds. -/
theorem update_spec (PAGE_SIZE : Nat) (bm : BufferManager) (S : List Nat)
    (h : Held PAGE_SIZE bm S) (q : PageId) (a : Nat)
    (hf : findPage bm.page_map q = some a) (ha : a ∈ S) (g : List Nat → List Nat)
    (hg : ∀ d, d.length = PAGE_SIZE → (g d).length = PAGE_SIZE) :
    ∃ p bm1, bm.frame a = some p ∧ bm.update a g = some bm1 ∧ Held PAGE_SIZE bm1 S ∧
      bm1.page_map = bm.page_map ∧ bm1.file_map = bm.file_map ∧
      bm1.page_count = bm.page_count ∧
      bm1.frame a = some { p with page_data := g p.page_data } ∧
      bm1.view PAGE_SIZE q = some (g p.page_data) ∧
      (∀ q1, q1 ≠ q → bm1.view PAGE_SIZE q1 = bm.view PAGE_SIZE q1) := by
  have hmem := findPage_mem _ _ _ hf
  obtain ⟨p, hp, _, hlen, _, _, hin, _⟩ := held_entry PAGE_SIZE bm S h (q, a) hmem
  have hup : bm.update a g = some (bm.store a { p with page_data := g p.page_data }) := by
    unfold BufferManager.update
    rw [hp]
  have hinv := poolInv_update bm h.1 a g _ hup
  obtain ⟨g1, g2, g3, g4⟩ := held_store PAGE_SIZE bm S S h _ a
    { p with page_data := g p.page_data } q hf hinv rfl rfl rfl (hg _ hlen) h.2.2.1
    (fun s _ => Iff.rfl) (fun _ => hin ha) (fun hc => absurd ha hc)
  exact ⟨p, _, hp, hup, g1, rfl, rfl, rfl, g2, g3, g4⟩

/-- The client unpins a frame it holds, after it has set the dirty flag if it
has changed the bytes. -/
theorem unpin_spec (PAGE_SIZE : Nat) (bm : BufferManager) (S : List Nat)
    (h : Held PAGE_SIZE bm S) (q : PageId) (a : Nat)
    (hf : findPage bm.page_map q = some a) (ha : a ∈ S)
    (hset : ∀ p, bm.frame a = some p →
      p.is_dirty = true ∨ pageBytes PAGE_SIZE bm.file_map q = some p.page_data) :
    ∃ bm1, bm.UnpinPage (some a) = some bm1 ∧ Held PAGE_SIZE bm1 (S.erase a) ∧
      bm1.page_map = bm.page_map ∧ bm1.file_map = bm.file_map ∧
      bm1.page_count = bm.page_count ∧
      (∀ q1, bm1.view PAGE_SIZE q1 = bm.view PAGE_SIZE q1) := by
  have hmem := findPage_mem _ _ _ hf
  obtain ⟨p, hp, _, hlen, _, _, hin, _⟩ := held_entry PAGE_SIZE bm S h (q, a) hmem
  obtain ⟨d1, d2, d3⟩ := dec_fields p (hin ha)
  have hun := UnpinPage_live bm a p hp
  rw [if_pos d1] at hun
  have hex : ∃ bm1, bm.UnpinPage (some a) = some bm1 ∧ bm1.heap = bm.heap.set a (some p.DecPinCount) ∧
      bm1.page_map = bm.page_map ∧ bm1.file_map = bm.file_map ∧
      bm1.page_count = bm.page_count := by
    by_cases hl : a ∈ bm.lru
    · rw [if_pos hl] at hun
      exact ⟨_, hun, rfl, rfl, rfl, rfl⟩
    · rw [if_neg hl] at hun
      exact ⟨_, hun, rfl, rfl, rfl, rfl⟩
  obtain ⟨bm1, hun1, hheap, hpm, hfm, hpc⟩ := hex
  have hinv := poolInv_UnpinPage bm h.1 (some a) bm1 hun1
  have hnot : a ∉ S.erase a := List.Nodup.not_mem_erase h.2.2.1
  obtain ⟨g1, g2, g3, g4⟩ := held_store PAGE_SIZE bm S (S.erase a) h bm1 a p.DecPinCount q hf
    hinv hheap hpm hfm (by rw [d2]; exact hlen) (List.Nodup.erase a h.2.2.1)
    (fun s hs => List.mem_erase_of_ne hs) (fun hc => absurd hc hnot)
    (fun _ => ⟨d1, by rw [d2, d3]; exact hset p hp⟩)
  refine ⟨bm1, hun1, g1, hpm, hfm, hpc, ?_⟩
  intro q1
  by_cases hq1 : q1 = q
  · rw [hq1, g3, d2, view_hit PAGE_SIZE bm q a p hf hp]
  · exact g4 q1 hq1

/-- `PinPage` of a page that the clients can see, while the pool has room for
one frame more than the client holds: the frame holds the bytes seen, and
nothing else that is seen changes. -/
theorem pin_spec (PAGE_SIZE : Nat) (hPS : PAGE_SIZE ≤ 65536) (bm : BufferManager)
    (S : List Nat) (h : Held PAGE_SIZE bm S) (sys : SysOutcome) (hs : sys.Ok PAGE_SIZE)
    (q : PageId) (hq : q.Proper) (d : List Nat) (hd : bm.view PAGE_SIZE q = some d)
    (hroom : S.length < bm.page_count)
    (hfree : ∀ a, findPage bm.page_map q = some a → a ∉ S) :
    ∃ a bm1 p, bm.PinPage PAGE_SIZE q sys = some (some a, bm1) ∧
      Held PAGE_SIZE bm1 (a :: S) ∧ ViewLe PAGE_SIZE bm bm1 ∧ Kept S bm bm1 ∧
      findPage bm1.page_map q = some a ∧ bm1.frame a = some p ∧ p.page_data = d ∧
      (p.is_dirty = true ∨ pageBytes PAGE_SIZE bm1.file_map q = some p.page_data) := by
  cases hf : findPage bm.page_map q with
  | some a =>
    obtain ⟨p, bm1, hp, hpin, g1, g2, g3, g4, g5, g6⟩ :=
      held_hit PAGE_SIZE bm S h q a hf (hfree a hf) sys
    obtain ⟨i1, i2, i3⟩ := inc_fields p
      ((held_entry PAGE_SIZE bm S h (q, a) (findPage_mem _ _ _ hf)).elim
        (fun p1 hp1 => by
          have : p1 = p := Option.some.inj (hp1.1.symm.trans hp)
          rw [this] at hp1
          exact (hp1.2.2.2.2.2.2 (hfree a hf)).1))
    refine ⟨a, bm1, p.IncPinCount, hpin, g1, ?_, kept_of_eq S bm bm1 g2, by rw [g2]; exact hf,
      g4, ?_, ?_⟩
    · intro q1 d1 _ hd1
      rw [g6 q1]
      exact hd1
    · rw [i2]
      rw [view_hit PAGE_SIZE bm q a p hf hp] at hd
      exact Option.some.inj hd
    · rw [i2, i3, g3]
      exact g5
  | none =>
    rw [view_miss PAGE_SIZE bm q hf] at hd
    have hv := proper_valid q hq
    by_cases hfull : bm.page_map.length ≥ bm.page_count
    · rcases PinPage_full PAGE_SIZE bm h.1 q sys hv hf hfull with
        ⟨hall, _⟩ | ⟨pre, v, rest, pv, hl, hpre, hfv, hz, _, hgo⟩
      · exfalso
        obtain ⟨e, he, heS⟩ := held_room PAGE_SIZE bm S h hroom hfull
        obtain ⟨p, hp, _, _, _, _, _, hout⟩ := held_entry PAGE_SIZE bm S h e he
        have hz := (hout heS).1
        have hin : e.2 ∈ bm.lru := h.1.2.2.2.2.1 e he (by rw [hp]; simp [hz])
        exact hall e.2 hin p hp hz
      · obtain ⟨files, hw⟩ := writeBack_returns PAGE_SIZE bm.file_map pv sys hs.1
        have hpin := hgo files hw
        obtain ⟨bmE, hbmE⟩ : ∃ bmE : BufferManager, bmE = { bm with
            file_map := files
            page_map := erasePage bm.page_map pv.page_id
            heap := bm.heap.set v none
            lru := rest } := ⟨_, rfl⟩
        rw [← hbmE] at hpin
        obtain ⟨e1, e2, e3⟩ := held_evict PAGE_SIZE hPS bm S h sys hs pre rest v pv files bmE hl
          hpre hfv hz hw hbmE
        have hmiss1 : findPage bmE.page_map q = none := by
          rw [hbmE]
          exact erasePage_miss bm.page_map pv.page_id q hf
        have hd1 := e2 q d hq (by rw [view_miss PAGE_SIZE bm q hf]; exact hd)
        rw [view_miss PAGE_SIZE _ q hmiss1] at hd1
        cases hld : bmE.load PAGE_SIZE q with
        | mk r bm1 =>
          obtain ⟨l1, l2, l3, l4, l5, l6, l7⟩ :=
            held_load PAGE_SIZE bmE S e1 q hq hmiss1 d hd1 r bm1 hld
          rw [hpin, hld, l1]
          refine ⟨_, _, ⟨false, 1, q, d⟩, rfl, l2, viewLe_trans _ _ _ _ e2 l3,
            kept_trans _ _ _ _ e3 l4, l5, l6, rfl, Or.inr ?_⟩
          rw [l7]
          exact hd1
    · have hpin := PinPage_room PAGE_SIZE bm q sys hv hf hfull
      cases hld : bm.load PAGE_SIZE q with
      | mk r bm1 =>
        obtain ⟨l1, l2, l3, l4, l5, l6, l7⟩ := held_load PAGE_SIZE bm S h q hq hf d hd r bm1 hld
        rw [hpin, hld, l1]
        refine ⟨_, _, ⟨false, 1, q, d⟩, rfl, l2, l3, l4, l5, l6, rfl, Or.inr ?_⟩
        rw [l7]
        exact hd

/-! ## Directory entries as the clients of a paged file see them -/

theorem make_proper_int (fd : Int) (n : Nat) (h0 : 0 ≤ fd) (h1 : fd < 2147483648)
    (hn : n < 65536) : (PageId.make fd n).Proper := by
  obtain ⟨k, hk⟩ := Int.eq_ofNat_of_zero_le h0
  rw [hk] at h1 ⊢
  exact make_proper k n (by omega) hn

theorem make_pageNum_int (fd : Int) (n : Nat) (h0 : 0 ≤ fd) (h1 : fd < 2147483648)
    (hn : n < 65536) : (PageId.make fd n).GetPageNum = n :=
  (make_valid_int fd n h0 h1 hn).2

theorem viewLe_of_eq (PAGE_SIZE : Nat) (bm bm1 : BufferManager)
    (h : ∀ q, bm1.view PAGE_SIZE q = bm.view PAGE_SIZE q) : ViewLe PAGE_SIZE bm bm1 := by
  intro q d _ hd
  rw [h q]
  exact hd

theorem settled_of_frame (PAGE_SIZE : Nat) (bm : BufferManager) (a : Nat) (p : Page)
    (q : PageId) (hp : bm.frame a = some p)
    (hset : p.is_dirty = true ∨ pageBytes PAGE_SIZE bm.file_map q = some p.page_data) :
    ∀ p1, bm.frame a = some p1 →
      p1.is_dirty = true ∨ pageBytes PAGE_SIZE bm.file_map q = some p1.page_data := by
  intro p1 hp1
  have : p1 = p := Option.some.inj (hp1.symm.trans hp)
  rw [this]
  exact hset

/-- The latch calls of `Update` are balanced: from free latches every unlock
meets a held latch and all latches are free at the end. -/
theorem UpdateLatches_sample :
    runLatches [0, 0] sampleList.UpdateLatches = some [0, 0] := by
  decide

/-- C35 fails on the code for `Scan`: on the list of height 2 with keys 3 and
5, `Scan(&3, 1, true, out)` read-locks latch 1, unlocks it in the descent
(line 243), read-locks latch 0, and line 260 unlocks latch 1 a second time,
while it is not held. -/
theorem C35_scan_unlocks_twice :
    sampleList.Scan (some [3]) 1 true (some []) = some (some [([3], [30])]) ∧
    sampleList.ScanLatches (some [3]) 1 true (some [])
      = some [LatchOp.rdlock 1, LatchOp.unlock 1, LatchOp.rdlock 0, LatchOp.unlock 1,
          LatchOp.unlock 0] ∧
    runLatches [0, 0] [LatchOp.rdlock 1, LatchOp.unlock 1, LatchOp.rdlock 0]
      = some [1, 0] ∧
    runLatches [0, 0] [LatchOp.rdlock 1, LatchOp.unlock 1, LatchOp.rdlock 0, LatchOp.unlock 1,
      LatchOp.unlock 0] = none := by
  decide

theorem sampleShort_run :
    (File.create samplePages (BufferManager.create 16 1) 3 4 2 sysOk sysOk).bind
      (fun w => sampleFile.call samplePages w.2 (FileCall.pin (PageId.make 4 0) sysOk))
      = some (FileResult.frame (some 0), sampleShort) := by
  decide

/-- C36 fails on the code for `AllocatePage`: on a pool of one frame that
holds directory page 0, pinned once by another client, the call pins the
directory page for the entry of the new data page and unpins it (line 128),
fails to pin the new data page, and unpins the directory page a second time
(line 133); the pin count of the directory page is 1 on entry and 0 on
return. -/
theorem C36_allocate_unpins_twice :
    sampleFile.AllocatePage samplePages sampleShort sysOk sysOk
      = some (PageId.make 3 0, sampleShortAfter) ∧
    sampleShort.pinCount (PageId.make 4 0) = 1 ∧
    sampleShortAfter.pinCount (PageId.make 4 0) = 0 := by
  decide

/-- C40 fails on the code: two transactions take a shared lock on the same
record; the commit of the first returns true, the commit of the second
returns false and leaves it aborted, because `ReleaseLock` by the first has
entered the record a second time in the lock list of the second. -/
theorem C40_second_sharer_aborts :
    (Engine.run sampleLayout (Engine.start sampleLog) sharersCalls).map
        (fun x => (x.1, x.2.txs.map (fun t => (t.locks, t.state))))
      = some ([Outcome.val 0, Outcome.val 1, Outcome.ret true, Outcome.ret true,
          Outcome.ret true, Outcome.ret false],
        [([ridA], kStateCommitted), ([ridA, ridA], kStateAborted)]) := by
  decide

/-! ## `CreatePage` and the pages created before -/

theorem pwrite_at_end (file buf : List Nat) (n : Nat) :
    pwriteBytes file buf n file.length = file ++ buf.take n := by
  unfold pwriteBytes
  simp only [Nat.sub_self, List.replicate_zero, List.append_nil, List.take_length]
  rw [List.drop_of_length_le (by omega), List.append_nil]

theorem pread_append (file extra : List Nat) (n offset : Nat) (h : offset + n ≤ file.length) :
    preadBytes (file ++ extra) n offset = preadBytes file n offset := by
  unfold preadBytes
  rw [List.drop_append_of_le_length (by omega),
    List.take_append_of_le_length (by simp only [List.length_drop]; omega)]

/-- One `CreatePage` on a file holding exactly `c` pages, `c < 2^16`: if the
call returns a valid id, the file is the old file followed by a page of zero
bytes. -/
theorem BaseFile.CreatePage_appends (PAGE_SIZE : Nat) (hPS : PAGE_SIZE ≤ 65536) (f c : Nat)
    (hf : f < 4294967296) (hc : c < 65536) (bytes : List Nat)
    (hlen : bytes.length = c * PAGE_SIZE) (sys : SysOutcome) (pid : PageId) (bf' : BaseFile)
    (h : (BaseFile.mk (f : Int) c bytes).CreatePage PAGE_SIZE sys = some (pid, bf'))
    (hv : pid.IsValid = true) :
    bf'.bytes = bytes ++ List.replicate PAGE_SIZE 0 := by
  have hvalid := PageId.make_valid f c hf hc
  have hoff : pageOffset PAGE_SIZE (PageId.make (f : Int) c) = bytes.length := by
    rw [pageOffset_eq PAGE_SIZE hPS, PageId.make_pageNum f c hf hc, hlen]
  unfold BaseFile.CreatePage BaseFile.FlushPage at h
  dsimp only at h
  simp only [hvalid, Bool.not_true, Bool.false_eq_true, if_false, hoff] at h
  by_cases hfs : sys.fsync_ret < 0
  · simp [hfs] at h
  · simp only [hfs, if_false] at h
    cases hroom : sys.pwrite_room with
    | none =>
      simp only [hroom, Bool.not_false, if_true, Option.some.injEq, Prod.mk.injEq] at h
      rw [← h.1, PageId.invalid_not_valid] at hv
      exact absurd hv (by simp)
    | some room =>
      simp only [hroom] at h
      by_cases hmin : min room PAGE_SIZE = PAGE_SIZE
      · simp only [hmin, beq_self_eq_true, Bool.not_true, Bool.false_eq_true, if_false,
          Option.some.injEq, Prod.mk.injEq] at h
        obtain ⟨_, h2⟩ := h
        subst h2
        show pwriteBytes bytes (List.replicate PAGE_SIZE 0) PAGE_SIZE bytes.length = _
        rw [pwrite_at_end, List.take_of_length_le (by simp)]
      · have hb : (min room PAGE_SIZE == PAGE_SIZE) = false := by
          simp only [beq_eq_false_iff_ne, ne_eq]
          exact hmin
        simp only [hb, Bool.not_false, if_true, Option.some.injEq, Prod.mk.injEq] at h
        rw [← h.1, PageId.invalid_not_valid] at hv
        exact absurd hv (by simp)

/-- C38 (amended): on a base file that holds exactly `c` pages with `c < 2^16`
(`PAGE_SIZE ≤ 2^16`, descriptor in `[0, 2^31)`), a `CreatePage` that returns a
valid id returns `PageId(id, c)`, which differs from `PageId(id, m)` for every
page `m < c` created before; the file afterwards is the old file followed by
one page of zero bytes, the page count is `c + 1`, and `LoadPage` of every
earlier page reads what it read before. -/
theorem C38_create_appends (PAGE_SIZE : Nat) (hPS : PAGE_SIZE ≤ 65536) (fd : Int)
    (h0 : 0 ≤ fd) (h1 : fd < 2147483648) (c : Nat) (hc : c < 65536) (bytes : List Nat)
    (hlen : bytes.length = c * PAGE_SIZE) (sys : SysOutcome) (pid : PageId) (bf' : BaseFile)
    (h : (BaseFile.mk fd c bytes).CreatePage PAGE_SIZE sys = some (pid, bf'))
    (hv : pid.IsValid = true) :
    pid = PageId.make fd c ∧
    (∀ m, m < c → pid ≠ PageId.make fd m) ∧
    bf'.bytes = bytes ++ List.replicate PAGE_SIZE 0 ∧
    bf'.GetPageCount = c + 1 ∧
    ∀ m, m < c → ∀ out,
      bf'.LoadPage PAGE_SIZE (PageId.make fd m) out
        = (BaseFile.mk fd c bytes).LoadPage PAGE_SIZE (PageId.make fd m) out := by
  obtain ⟨f, rfl⟩ := Int.eq_ofNat_of_zero_le h0
  have hf : f < 4294967296 := by omega
  obtain ⟨e1, _, e3, _⟩ := BaseFile.CreatePage_valid PAGE_SIZE hPS f c hf hc bytes hlen sys pid bf'
    h hv
  have e5 := BaseFile.CreatePage_appends PAGE_SIZE hPS f c hf hc bytes hlen sys pid bf' h hv
  refine ⟨e1, ?_, e5, e3, ?_⟩
  · intro m hm heq
    rw [e1] at heq
    have := congrArg PageId.GetPageNum heq
    rw [PageId.make_pageNum f c hf hc, PageId.make_pageNum f m hf (by omega)] at this
    omega
  · intro m hm out
    have hvm := PageId.make_valid f m hf (by omega)
    have hoff : pageOffset PAGE_SIZE (PageId.make (f : Int) m) = m * PAGE_SIZE := by
      rw [pageOffset_eq PAGE_SIZE hPS, PageId.make_pageNum f m hf (by omega)]
    have hin : m * PAGE_SIZE + PAGE_SIZE ≤ bytes.length := by
      rw [hlen]
      calc m * PAGE_SIZE + PAGE_SIZE = (m + 1) * PAGE_SIZE := by ring
        _ ≤ c * PAGE_SIZE := Nat.mul_le_mul_right _ (by omega)
    unfold BaseFile.LoadPage
    simp only [hvm, Bool.not_true, Bool.false_eq_true, if_false, hoff, e5]
    rw [pread_append _ _ _ _ hin]

/-- Instance of C38 (amended): the third page of a file of 2-byte pages. -/
theorem C38_create_appends_witness :
    PageId.make 3 2 = PageId.make 3 2 ∧
    (∀ m, m < 2 → PageId.make 3 2 ≠ PageId.make 3 m) ∧
    (BaseFile.mk 3 3 [7, 7, 8, 8, 0, 0]).bytes = [7, 7, 8, 8] ++ List.replicate 2 0 ∧
    (BaseFile.mk 3 3 [7, 7, 8, 8, 0, 0]).GetPageCount = 2 + 1 ∧
    ∀ m, m < 2 → ∀ out,
      (BaseFile.mk 3 3 [7, 7, 8, 8, 0, 0]).LoadPage 2 (PageId.make 3 m) out
        = (BaseFile.mk 3 2 [7, 7, 8, 8]).LoadPage 2 (PageId.make 3 m) out :=
  C38_create_appends 2 (by decide) 3 (by decide) (by decide) 2 (by decide) [7, 7, 8, 8]
    (by decide) ⟨0, some 2⟩ (PageId.make 3 2) (BaseFile.mk 3 3 [7, 7, 8, 8, 0, 0]) (by decide)
    (by decide)

/-- C38 fails as stated at page count `2^16`: after 65536 successful
`CreatePage` calls on a fresh file with descriptor 3 and 4-byte pages, and a
`FlushPage` of `7 7 7 7` to page 0, the next `CreatePage` succeeds, returns
an id that was returned before (that of page 0), leaves the file at its
length instead of appending, and overwrites page 0: `LoadPage` of page 0
reads `7 7 7 7` before the call and `0 0 0 0` after it. -/
theorem C38_counterexample :
    ∃ (pids : List PageId) (bf1 bf2 bf3 : BaseFile) (pid : PageId),
      (BaseFile.create 3).bind
          (fun bf0 => BaseFile.CreatePages 4 bf0 (List.replicate 65536 ⟨0, some 4⟩))
        = some (pids, bf1) ∧
      bf1.GetPageCount = 65536 ∧
      bf1.FlushPage 4 (PageId.make 3 0) [7, 7, 7, 7] ⟨0, some 4⟩ = some (true, bf2) ∧
      bf2.CreatePage 4 ⟨0, some 4⟩ = some (pid, bf3) ∧
      pid.IsValid = true ∧
      pid ∈ pids ∧
      bf3.bytes.length = bf2.bytes.length ∧
      bf2.LoadPage 4 (PageId.make 3 0) [0, 0, 0, 0] = (true, [7, 7, 7, 7]) ∧
      bf3.LoadPage 4 (PageId.make 3 0) [0, 0, 0, 0] = (true, [0, 0, 0, 0]) := by
  obtain ⟨pids0, bf1, hrun0, hv0⟩ :=
    BaseFile.CreatePages_full 4 3 (by decide) 65536 0 [] (by decide)
  obtain ⟨e1, e2, e3, e4⟩ := BaseFile.CreatePages_valid 4 (by decide) 3 (by decide)
    (List.replicate 65536 ⟨0, some 4⟩) 0 [] pids0 bf1
    (by simp only [List.length_replicate]; decide) (by simp) hrun0
    hv0
  simp only [List.length_replicate, Nat.zero_add] at e1 e3 e4
  obtain ⟨id1, pc1, bytes1⟩ := bf1
  simp only at e2 e3 e4
  subst e2 e3
  have h3 : ((3 : Nat) : Int) = 3 := rfl
  rw [h3] at hrun0 e1
  have hlast : PageId.make 3 65536 = PageId.make 3 0 := by decide
  have hvl : (PageId.make 3 65536).IsValid = true := by decide
  have hv3 : (PageId.make 3 0).IsValid = true := by decide
  have hoff : pageOffset 4 (PageId.make 3 0) = 0 := by decide
  have hstep := BaseFile.CreatePage_full 4 3 65536
    (pwriteBytes bytes1 [7, 7, 7, 7] 4 0) hvl
  rw [hlast, hoff] at hstep
  have hl2 : (pwriteBytes bytes1 [7, 7, 7, 7] 4 0).length = bytes1.length :=
    pwrite_length_inside _ _ _ _ (by decide) (by omega)
  refine ⟨pids0, ⟨3, 65536, bytes1⟩,
    ⟨3, 65536, pwriteBytes bytes1 [7, 7, 7, 7] 4 0⟩,
    ⟨3, (65536 + 1) % 2 ^ 32,
      pwriteBytes (pwriteBytes bytes1 [7, 7, 7, 7] 4 0) (List.replicate 4 0) 4 0⟩,
    PageId.make 3 0, ?_, rfl, ?_, hstep, hv3, ?_, ?_, ?_, ?_⟩
  · have hc : BaseFile.create 3 = some (BaseFile.mk 3 0 []) := by decide
    rw [hc, Option.some_bind]
    exact hrun0
  · unfold BaseFile.FlushPage
    simp only [hv3, hoff]
    rfl
  · rw [e1]
    exact List.mem_map.mpr ⟨0, by rw [List.mem_range'_1]; omega, rfl⟩
  · show (pwriteBytes (pwriteBytes bytes1 [7, 7, 7, 7] 4 0) (List.replicate 4 0) 4 0).length = _
    rw [pwrite_length_inside _ _ _ _ (by decide) (by omega)]
  · unfold BaseFile.LoadPage
    simp only [hv3, hoff, Bool.not_true, Bool.false_eq_true, if_false]
    rw [pread_pwrite _ _ _ _ (by decide)]
    decide
  · unfold BaseFile.LoadPage
    simp only [hv3, hoff, Bool.not_true, Bool.false_eq_true, if_false]
    rw [pread_pwrite _ _ _ _ (by decide)]
    decide

/-! ## Calls on one key and searches for another -/

/-- `Search(k)` gives the same result in two represented lists when the
towers that hold `k` are the same in both, with the same payload. -/
theorem Repr.Search_frame {M : Nat} {s s' : SkipList} {L L' : List Nat} (h : Repr M s L)
    (h' : Repr M s' L') (eks : s'.key_size = s.key_size) (eps : s'.payload_size = s.payload_size)
    (k : List Nat) (hk : s.key_size ≤ k.length)
    (H1 : ∀ a ∈ L, s.keyAt a = k.take s.key_size →
      a ∈ L' ∧ s'.keyAt a = s.keyAt a ∧ s'.payloadAt a = s.payloadAt a)
    (H2 : ∀ a ∈ L', s'.keyAt a = k.take s.key_size → a ∈ L ∧ s.keyAt a = k.take s.key_size)
    (out : Option (List Nat)) : s'.Search k out = s.Search k out := by
  have hk2 : s'.key_size ≤ k.length := by rw [eks]; exact hk
  cases hc : s.contains k with
  | true =>
    obtain ⟨a, ha, e⟩ := (h.contains_iff k hk).mp hc
    obtain ⟨ha', e1, e2⟩ := H1 a ha e
    rw [h.Search_hit k hk a ha e out, h'.Search_hit k hk2 a ha' (by rw [e1, e, eks]) out, e2, eps]
  | false =>
    have hc' : s'.contains k = false := by
      cases hc2 : s'.contains k with
      | false => rfl
      | true =>
        obtain ⟨a, ha, e⟩ := (h'.contains_iff k hk2).mp hc2
        rw [eks] at e
        obtain ⟨ha0, e0⟩ := H2 a ha e
        have := (h.contains_iff k hk).mpr ⟨a, ha0, e0⟩
        rw [hc] at this
        exact absurd this (by simp)
    rw [h.Search_miss k hk hc out, h'.Search_miss k hk2 hc' out]

theorem Repr.Search_some {M : Nat} {s : SkipList} {L : List Nat} (h : Repr M s L)
    (k : List Nat) (hk : s.key_size ≤ k.length) (out : Option (List Nat)) :
    ∃ r, s.Search k out = some r := by
  cases hc : s.contains k with
  | true =>
    obtain ⟨a, ha, e⟩ := (h.contains_iff k hk).mp hc
    exact ⟨_, h.Search_hit k hk a ha e out⟩
  | false => exact ⟨_, h.Search_miss k hk hc out⟩

theorem Repr.InsertAt_frame {M : Nat} {s : SkipList} {L : List Nat} (h : Repr M s L)
    (k v : List Nat) (hk : s.key_size ≤ k.length) (hv : s.payload_size ≤ v.length)
    (k' : List Nat) (hk' : s.key_size ≤ k'.length)
    (hne : k.take s.key_size ≠ k'.take s.key_size)
    (nodeLevel : Nat) (h1 : 1 ≤ nodeLevel) (h2 : nodeLevel ≤ M) :
    ∃ ret s', s.InsertAt M nodeLevel k v = some (ret, s') ∧
      ∀ out, s'.Search k' out = s.Search k' out := by
  obtain ⟨A, B, hL, c⟩ := h.cut k hk
  subst hL
  cases hb : hitOf s k B with
  | some b => exact ⟨false, s, c.InsertAt_hit nodeLevel v b hb, fun _ => rfl⟩
  | none =>
    obtain ⟨s', e1, e2, e3, e4, e5, _, e7⟩ := c.InsertAt_miss nodeLevel v h1 h2 hv hb
    refine ⟨true, s', e1, fun out => h.Search_frame e2 e3 e4 k' hk' ?_ ?_ out⟩
    · intro a ha _
      refine ⟨?_, (e7 a ha).keyAt, (e7 a ha).payloadAt⟩
      rcases List.mem_append.mp ha with ha | ha
      · exact List.mem_append_left _ ha
      · exact List.mem_append_right _ (List.mem_cons_of_mem _ ha)
    · intro a ha e
      have hmem : a = s.heap.length ∨ a ∈ A ++ B := by
        rcases List.mem_append.mp ha with ha | ha
        · exact Or.inr (List.mem_append_left _ ha)
        · rcases List.mem_cons.mp ha with ha | ha
          · exact Or.inl ha
          · exact Or.inr (List.mem_append_right _ ha)
      rcases hmem with hn | hm
      · rw [hn, e5] at e
        exact absurd e hne
      · exact ⟨hm, by rw [← (e7 a hm).keyAt]; exact e⟩

theorem Repr.Update_frame {M : Nat} {s : SkipList} {L : List Nat} (h : Repr M s L)
    (k v : List Nat) (hk : s.key_size ≤ k.length) (hv : s.payload_size ≤ v.length)
    (k' : List Nat) (hk' : s.key_size ≤ k'.length)
    (hne : k.take s.key_size ≠ k'.take s.key_size) :
    ∃ ret s', s.Update k v = some (ret, s') ∧
      ∀ out, s'.Search k' out = s.Search k' out := by
  obtain ⟨A, B, hL, c⟩ := h.cut k hk
  subst hL
  cases hb : hitOf s k B with
  | none => exact ⟨false, s, c.Update_miss v hb, fun _ => rfl⟩
  | some b =>
    obtain ⟨s', g1, g2, g3, g4, g5, _, g7⟩ := c.Update_hit v hv b hb
    obtain ⟨_, hkb⟩ := c.key_of_hit b hb
    refine ⟨true, s', g1, fun out => h.Search_frame g2 g3 g4 k' hk' ?_ ?_ out⟩
    · intro a ha e
      refine ⟨ha, g5 a, g7 a ?_⟩
      intro hab
      rw [hab, hkb] at e
      exact hne e
    · intro a ha e
      exact ⟨ha, by rw [← g5 a]; exact e⟩

theorem Repr.Delete_frame {M : Nat} {s : SkipList} {L : List Nat} (h : Repr M s L)
    (k : List Nat) (hk : s.key_size ≤ k.length)
    (k' : List Nat) (hk' : s.key_size ≤ k'.length)
    (hne : k.take s.key_size ≠ k'.take s.key_size) :
    ∃ ret s', s.Delete M k = some (ret, s') ∧
      ∀ out, s'.Search k' out = s.Search k' out := by
  obtain ⟨A, B, hL, c⟩ := h.cut k hk
  subst hL
  cases hb : hitOf s k B with
  | none => exact ⟨false, s, c.Delete_miss hb, fun _ => rfl⟩
  | some b =>
    obtain ⟨B', hB, _⟩ := hitOf_some s k B b hb
    subst hB
    obtain ⟨_, hkb⟩ := c.key_of_hit b hb
    obtain ⟨s', g1, g2, g3, g4, g5⟩ := c.Delete_hit hb
    refine ⟨true, s', g1, fun out => h.Search_frame g2 g3 g4 k' hk' ?_ ?_ out⟩
    · intro a ha e
      have hmem : a ∈ A ++ B' := by
        rcases List.mem_append.mp ha with ha | ha
        · exact List.mem_append_left _ ha
        · rcases List.mem_cons.mp ha with ha | ha
          · rw [ha, hkb] at e
            exact absurd e hne
          · exact List.mem_append_right _ ha
      exact ⟨hmem, (g5 a hmem).keyAt, (g5 a hmem).payloadAt⟩
    · intro a ha e
      refine ⟨?_, by rw [← (g5 a ha).keyAt]; exact e⟩
      rcases List.mem_append.mp ha with ha | ha
      · exact List.mem_append_left _ ha
      · exact List.mem_append_right _ (List.mem_cons_of_mem _ ha)

/-- C37: in every state reached from the empty list by `Insert`/`Update`/
`Delete` calls, for keys `k` and `k'` that differ within their first
`key_size` bytes, each of `Insert(k, v)` (whatever the coin flips, and
whatever tower level in `[1, SKIP_LIST_MAX_LEVEL]` it draws), `Update(k, v)`
and `Delete(k)` returns, and `Search(k', out)` gives after the call what it
gives before it: the same flag and the same output buffer. -/
theorem C37_search_frame (M : Nat) (hM : 1 ≤ M) (s : SkipList) (hs : Reachable M s)
    (k v k' : List Nat) (hk : s.key_size ≤ k.length) (hv : s.payload_size ≤ v.length)
    (hk' : s.key_size ≤ k'.length) (hne : k.take s.key_size ≠ k'.take s.key_size) :
    (∀ out, ∃ r, s.Search k' out = some r) ∧
    (∀ coins, ∃ ret s', s.Insert M coins k v = some (ret, s') ∧
      ∀ out, s'.Search k' out = s.Search k' out) ∧
    (∀ nodeLevel, 1 ≤ nodeLevel → nodeLevel ≤ M →
      ∃ ret s', s.InsertAt M nodeLevel k v = some (ret, s') ∧
        ∀ out, s'.Search k' out = s.Search k' out) ∧
    (∃ ret s', s.Update k v = some (ret, s') ∧
      ∀ out, s'.Search k' out = s.Search k' out) ∧
    (∃ ret s', s.Delete M k = some (ret, s') ∧
      ∀ out, s'.Search k' out = s.Search k' out) := by
  obtain ⟨L, hr⟩ := hs.repr hM
  refine ⟨fun out => hr.Search_some k' hk' out, ?_, ?_, hr.Update_frame k v hk hv k' hk' hne,
    hr.Delete_frame k hk k' hk' hne⟩
  · intro coins
    obtain ⟨h1, h2⟩ := drawLevel_range M coins M 1 (Nat.le_refl 1) hM
    exact hr.InsertAt_frame k v hk hv k' hk' hne _ h1 h2
  · intro nodeLevel h1 h2
    exact hr.InsertAt_frame k v hk hv k' hk' hne nodeLevel h1 h2

/-- Instance of C37: calls on key 3 of `sampleList` and searches for key 5. -/
theorem C37_search_frame_witness :
    (∀ out, ∃ r, sampleList.Search [5] out = some r) ∧
    (∀ coins, ∃ ret s', sampleList.Insert 2 coins [3] [31] = some (ret, s') ∧
      ∀ out, s'.Search [5] out = sampleList.Search [5] out) ∧
    (∀ nodeLevel, 1 ≤ nodeLevel → nodeLevel ≤ 2 →
      ∃ ret s', sampleList.InsertAt 2 nodeLevel [3] [31] = some (ret, s') ∧
        ∀ out, s'.Search [5] out = sampleList.Search [5] out) ∧
    (∃ ret s', sampleList.Update [3] [31] = some (ret, s') ∧
      ∀ out, s'.Search [5] out = sampleList.Search [5] out) ∧
    (∃ ret s', sampleList.Delete 2 [3] = some (ret, s') ∧
      ∀ out, s'.Search [5] out = sampleList.Search [5] out) :=
  C37_search_frame 2 (by decide) sampleList sampleList_reachable [3] [31] [5] (by decide)
    (by decide) (by decide) (by decide)

/-! ## Lock heads: the shape kept by every call -/

theorem runInv_cons (x : LockRequest) (xs : List LockRequest) :
    RunInv (x :: xs)
      = if x.mode = Mode.SH then x.granted = true ∧ RunInv xs else NoGrant (x :: xs) := rfl

theorem RunInv.toTail {q : List LockRequest} (h : RunInv q) : TailInv q := by
  induction q with
  | nil => exact trivial
  | cons x xs ih =>
    rw [runInv_cons] at h
    rw [tailInv_cons]
    by_cases hx : x.mode = Mode.SH
    · rw [if_pos hx] at h ⊢
      exact ih h.2
    · rw [if_neg hx] at h ⊢
      exact h

theorem HeadInv.toQueue {h : LockHead} (hi : HeadInv h) : QueueInv h.requests := by
  obtain ⟨_, hs⟩ := hi
  cases hq : h.requests with
  | nil => exact trivial
  | cons r rest =>
    rw [hq] at hs
    obtain ⟨_, _, h3⟩ := hs
    rw [queueInv_cons]
    by_cases hx : r.mode = Mode.SH
    · rw [if_pos hx] at h3 ⊢
      exact h3.toTail
    · rw [if_neg hx] at h3 ⊢
      exact h3

theorem TailInv.grant_run {q : List LockRequest} (h : TailInv q) : RunInv (grantRun q) := by
  induction q with
  | nil => exact trivial
  | cons x xs ih =>
    rw [tailInv_cons] at h
    by_cases hx : x.mode = Mode.SH
    · rw [if_pos hx] at h
      rw [grantRun_shared x xs hx, runInv_cons]
      have hm : ({ x with granted := true } : LockRequest).mode = Mode.SH := hx
      rw [if_pos hm]
      exact ⟨rfl, ih h⟩
    · rw [if_neg hx] at h
      rw [grantRun_other x xs hx, runInv_cons, if_neg hx]
      exact h

theorem grantRun_modes (q : List LockRequest) (h : ∀ x ∈ q, x.mode ≠ Mode.NL) :
    ∀ x ∈ grantRun q, x.mode ≠ Mode.NL := by
  induction q with
  | nil => exact fun x hx => absurd hx (List.not_mem_nil _)
  | cons y ys ih =>
    by_cases hy : y.mode = Mode.SH
    · rw [grantRun_shared y ys hy]
      intro x hx
      rcases List.mem_cons.mp hx with hx | hx
      · rw [hx]
        exact h y (List.mem_cons_self _ _)
      · exact ih (fun z hz => h z (List.mem_cons_of_mem _ hz)) x hx
    · rw [grantRun_other y ys hy]
      exact h

/-- The head that `ReleaseLock` leaves has the shape `HeadInv`. -/
theorem HeadInv.released {h : LockHead} (hi : HeadInv h) (tx : Nat) :
    HeadInv (releaseLockSpec h.requests tx) := by
  have hq := (hi.toQueue).erase_queue (fun r => r.requester == tx)
  have hm : ∀ x ∈ h.requests.eraseP (fun r => r.requester == tx), x.mode ≠ Mode.NL :=
    fun x hx => hi.1 x (List.mem_of_mem_eraseP hx)
  unfold releaseLockSpec
  cases he : h.requests.eraseP (fun r => r.requester == tx) with
  | nil => exact ⟨fun x hx => absurd hx (List.not_mem_nil _), rfl⟩
  | cons first rest =>
    rw [he] at hq hm
    dsimp only
    rw [queueInv_cons] at hq
    by_cases hx : first.mode = Mode.XL
    · rw [if_pos hx]
      have hns : ¬ first.mode = Mode.SH := by rw [hx]; decide
      rw [if_neg hns] at hq
      refine ⟨?_, rfl, hx.symm, ?_⟩
      · intro x hx2
        rcases List.mem_cons.mp hx2 with hx2 | hx2
        · rw [hx2]
          exact hm first (List.mem_cons_self _ _)
        · exact hm x (List.mem_cons_of_mem _ hx2)
      · have hm2 : ¬ ({ first with granted := true } : LockRequest).mode = Mode.SH := hns
        rw [if_neg hm2]
        exact hq
    · rw [if_neg hx]
      have hs : first.mode = Mode.SH := by
        have := hm first (List.mem_cons_self _ _)
        cases hmode : first.mode
        · exact absurd hmode this
        · exact absurd hmode hx
        · rfl
      rw [if_pos hs] at hq
      refine ⟨grantRun_modes _ hm, ?_⟩
      rw [grantRun_shared first rest hs]
      dsimp only
      refine ⟨rfl, hs.symm, ?_⟩
      have hm2 : ({ first with granted := true } : LockRequest).mode = Mode.SH := hs
      rw [if_pos hm2]
      exact hq.grant_run

theorem RunInv.snoc_granted {q : List LockRequest} (h : RunInv q)
    (hs : ∀ x ∈ q, x.mode = Mode.SH) (t : Nat) : RunInv (q ++ [⟨Mode.SH, t, true⟩]) := by
  induction q with
  | nil =>
    rw [List.nil_append, runInv_cons]
    exact ⟨rfl, trivial⟩
  | cons x xs ih =>
    have hx := hs x (List.mem_cons_self _ _)
    rw [runInv_cons, if_pos hx] at h
    rw [List.cons_append, runInv_cons, if_pos hx]
    exact ⟨h.1, ih h.2 (fun y hy => hs y (List.mem_cons_of_mem _ hy))⟩

theorem RunInv.snoc_wait {q : List LockRequest} (h : RunInv q) (m : Mode) (t : Nat)
    (hn : ¬ (m = Mode.SH ∧ ∀ x ∈ q, x.mode = Mode.SH)) : RunInv (q ++ [⟨m, t, false⟩]) := by
  induction q with
  | nil =>
    have hm : ¬ m = Mode.SH := fun e => hn ⟨e, fun x hx => absurd hx (List.not_mem_nil _)⟩
    rw [List.nil_append, runInv_cons]
    have hm2 : ¬ (⟨m, t, false⟩ : LockRequest).mode = Mode.SH := hm
    rw [if_neg hm2]
    intro y hy
    rw [List.mem_singleton.mp hy]
  | cons x xs ih =>
    rw [List.cons_append]
    rw [runInv_cons] at h ⊢
    by_cases hx : x.mode = Mode.SH
    · rw [if_pos hx] at h ⊢
      refine ⟨h.1, ih h.2 ?_⟩
      rintro ⟨e, hall⟩
      refine hn ⟨e, ?_⟩
      intro y hy
      rcases List.mem_cons.mp hy with hy | hy
      · rw [hy]
        exact hx
      · exact hall y hy
    · rw [if_neg hx] at h ⊢
      have := NoGrant.snoc_noGrant h m t
      rw [List.cons_append] at this
      exact this

theorem HeadsInv.set_one {table : List (Nat × LockHead)} (ht : HeadsInv table) (k : Nat)
    (h : LockHead) (hq : HeadInv h) : HeadsInv (setHead table k h) := by
  intro p hp
  unfold setHead at hp
  obtain ⟨p0, hp0, rfl⟩ := List.mem_map.mp hp
  by_cases hk : p0.1 = k
  · rw [if_pos hk]
    exact hq
  · rw [if_neg hk]
    exact ht p0 hp0

theorem HeadsInv.lookup {table : List (Nat × LockHead)} (ht : HeadsInv table) (k : Nat)
    (h : LockHead) (hf : findHead table k = some h) : HeadInv h :=
  ht (k, h) (findHead_mem table k h hf)

theorem HeadsInv.emplaced {e : Engine} (ht : HeadsInv e.lock_table) (rvalue : Nat) :
    HeadsInv (e.findOrEmplace rvalue).2.lock_table := by
  unfold Engine.findOrEmplace
  cases hf : findHead e.lock_table rvalue with
  | some h => exact ht
  | none =>
    intro p hp
    rcases List.mem_append.mp hp with hp | hp
    · exact ht p hp
    · rw [List.mem_singleton.mp hp]
      exact ⟨fun x hx => absurd hx (List.not_mem_nil _), rfl⟩

theorem ReleaseLock_heads (e : Engine) (held : Option Nat) (tx : Nat) (rid : RID) (ok : Bool)
    (e' : Engine) (h : e.ReleaseLock held tx rid = some (ok, e'))
    (ht : HeadsInv e.lock_table) : HeadsInv e'.lock_table := by
  rcases ReleaseLock_spec e held tx rid ok e' h with ⟨_, rfl, _⟩ | ⟨_, hd, txs', hf, _, _, rfl⟩
  · exact ht
  · exact ht.set_one _ _ ((ht.lookup _ _ hf).released tx)

/-- `AcquireLock` with mode SH or XL keeps the shape of every lock head. -/
theorem AcquireLock_heads (L : LogLayout) (e : Engine) (tx : Nat) (rid : RID) (mode : Mode)
    (hmode : mode ≠ Mode.NL)
    (try_lock : Bool) (s1 s2 s3 : SysOutcome) (o : Outcome) (e' : Engine)
    (h : e.AcquireLock L tx rid mode try_lock s1 s2 s3 = some (o, e'))
    (ht : HeadsInv e.lock_table) : HeadsInv e'.lock_table := by
  unfold Engine.AcquireLock at h
  by_cases hv : (!rid.IsValid) = true
  · rw [if_pos hv] at h
    simp only [Option.some.injEq, Prod.mk.injEq] at h
    rw [← h.2]
    exact ht
  · rw [if_neg hv] at h
    dsimp only at h
    obtain ⟨hfind, _, _, _, _, _, _⟩ := findOrEmplace_spec e rid.value
    have ht1 := ht.emplaced rid.value
    have hq := ht1.lookup _ _ hfind
    generalize (e.findOrEmplace rid.value).1 = lock_head at h hfind hq
    generalize (e.findOrEmplace rid.value).2 = e1 at h hfind ht1
    by_cases h1 : (try_lock && !lock_head.requests.isEmpty) = true
    · rw [if_pos h1] at h
      simp only [Option.some.injEq, Prod.mk.injEq] at h
      rw [← h.2]
      exact ht1
    · rw [if_neg h1] at h
      by_cases h2 : lock_head.requests.any (fun req => req.requester == tx && req.mode == mode)
          = true
      · rw [if_pos h2] at h
        simp only [Option.some.injEq, Prod.mk.injEq] at h
        rw [← h.2]
        exact ht1
      · rw [if_neg h2] at h
        cases hm : mustAbort e1.txs tx mode lock_head.requests with
        | none =>
          rw [hm] at h
          exact absurd h (by simp)
        | some b =>
          rw [hm] at h
          cases b with
          | true =>
            dsimp only at h
            cases ha : e1.Abort L (some rid.value) tx s1 s2 s3 with
            | none =>
              rw [ha] at h
              exact absurd h (by simp)
            | some res =>
              obtain ⟨r, e2⟩ := res
              rw [ha] at h
              simp only [Option.some.injEq, Prod.mk.injEq] at h
              rw [← h.2]
              rcases Abort_table L e1 _ tx s1 s2 s3 r e2 ha with hs | ⟨lg, fuel, b, e3, hr, hs⟩
              · rw [hs]
                exact ht1
              · rw [hs]
                exact releaseAll_keeps HeadsInv ReleaseLock_heads _ _ _ _ _ _ _ _ hr ht1
          | false =>
            dsimp only at h
            obtain ⟨hmodes, hshape⟩ := hq
            have hmodes2 : ∀ g, ∀ x ∈ lock_head.requests ++ [⟨mode, tx, g⟩], x.mode ≠ Mode.NL := by
              intro g x hx
              rcases List.mem_append.mp hx with hx | hx
              · exact hmodes x hx
              · rw [List.mem_singleton.mp hx]
                exact hmode
            by_cases hg : (lock_head.requests.isEmpty ||
                (mode == Mode.SH && lock_head.requests.all (fun r => r.mode == Mode.SH))) = true
            · rw [if_pos hg] at h
              cases hp : pushLock e1.txs tx rid with
              | none =>
                rw [hp] at h
                exact absurd h (by simp)
              | some txs1 =>
                rw [hp] at h
                simp only [Option.some.injEq, Prod.mk.injEq] at h
                rw [← h.2]
                apply ht1.set_one
                rw [hg]
                refine ⟨hmodes2 true, ?_⟩
                cases hreq : lock_head.requests with
                | nil =>
                  dsimp only [List.nil_append]
                  refine ⟨rfl, rfl, ?_⟩
                  by_cases hms : mode = Mode.SH
                  · rw [if_pos hms]
                    exact trivial
                  · rw [if_neg hms]
                    exact fun y hy => absurd hy (List.not_mem_nil _)
                | cons r rest =>
                  rw [hreq] at hg hshape
                  have hs : (mode == Mode.SH &&
                      (r :: rest).all (fun r => r.mode == Mode.SH)) = true := by
                    simpa using hg
                  obtain ⟨hs1, hs2⟩ := Bool.and_eq_true _ _ |>.mp hs
                  have hmsh : mode = Mode.SH := by simpa using hs1
                  have hall : ∀ x ∈ r :: rest, x.mode = Mode.SH := by
                    intro x hx
                    have := List.all_eq_true.mp hs2 x hx
                    simpa using this
                  have hr := hall r (List.mem_cons_self _ _)
                  obtain ⟨g1, _, g3⟩ := hshape
                  rw [if_pos hr] at g3
                  dsimp only [List.cons_append]
                  refine ⟨g1, by rw [hr, hmsh], ?_⟩
                  rw [if_pos hr, hmsh]
                  exact g3.snoc_granted (fun y hy => hall y (List.mem_cons_of_mem _ hy)) tx
            · rw [if_neg hg] at h
              have hgf : (lock_head.requests.isEmpty ||
                (mode == Mode.SH && lock_head.requests.all (fun r => r.mode == Mode.SH))) = false :=
                Bool.eq_false_iff.mpr hg
              have hnew : HeadsInv (setHead e1.lock_table rid.value
                  ⟨lock_head.current_mode, lock_head.requests ++ [⟨mode, tx, false⟩]⟩) := by
                apply ht1.set_one
                refine ⟨hmodes2 false, ?_⟩
                cases hreq : lock_head.requests with
                | nil =>
                  rw [hreq] at hgf
                  simp at hgf
                | cons r rest =>
                  rw [hreq] at hgf hshape
                  obtain ⟨g1, g2, g3⟩ := hshape
                  dsimp only [List.cons_append]
                  refine ⟨g1, g2, ?_⟩
                  by_cases hr : r.mode = Mode.SH
                  · rw [if_pos hr] at g3 ⊢
                    apply g3.snoc_wait
                    rintro ⟨e1, hall⟩
                    have : (List.isEmpty (r :: rest) ||
                      (mode == Mode.SH && (r :: rest).all (fun r => r.mode == Mode.SH))) = true := by
                      simp only [List.isEmpty_cons, Bool.false_or, Bool.and_eq_true, beq_iff_eq,
                        List.all_eq_true]
                      refine ⟨e1, ?_⟩
                      intro x hx
                      rcases List.mem_cons.mp hx with hx | hx
                      · rw [hx]
                        exact hr
                      · exact hall x hx
                    rw [hgf] at this
                    exact absurd this (by simp)
                  · rw [if_neg hr] at g3 ⊢
                    exact g3.snoc_noGrant mode tx
              rw [hgf] at h
              by_cases hw : waitDone (lock_head.requests ++ [⟨mode, tx, false⟩]) tx = true
              · rw [if_pos hw] at h
                simp only [Option.some.injEq, Prod.mk.injEq] at h
                rw [← h.2]
                exact hnew
              · rw [if_neg hw] at h
                simp only [Option.some.injEq, Prod.mk.injEq] at h
                rw [← h.2]
                exact hnew

/-- Every call, the `AcquireLock` calls being made with mode SH or XL, keeps
the shape of every lock head. -/
theorem call_heads (L : LogLayout) (e : Engine) (c : Call) (hc : c.moded = true) (o : Outcome)
    (e' : Engine) (h : e.call L c = some (o, e')) (ht : HeadsInv e.lock_table) :
    HeadsInv e'.lock_table := by
  cases c with
  | begin =>
    have h : some (Outcome.val e.newTransaction.1, e.newTransaction.2) = some (o, e') := h
    simp only [Option.some.injEq, Prod.mk.injEq] at h
    rw [← h.2]
    exact ht
  | acquire tx rid mode try_lock s1 s2 s3 =>
    have hmode : mode ≠ Mode.NL := by
      intro hm
      rw [hm] at hc
      exact Bool.noConfusion hc
    exact AcquireLock_heads L e tx rid mode hmode try_lock s1 s2 s3 o e' h ht
  | release tx rid =>
    have h : (e.ReleaseLock none tx rid).map (fun r => (Outcome.ret r.1, r.2)) = some (o, e') := h
    cases hr : e.ReleaseLock none tx rid with
    | none =>
      rw [hr] at h
      exact absurd h (by simp)
    | some res =>
      rw [hr] at h
      simp only [Option.map_some', Option.some.injEq, Prod.mk.injEq] at h
      rw [← h.2]
      exact ReleaseLock_heads e none tx rid res.1 res.2 hr ht
  | commit tx s1 s2 s3 =>
    have h : (e.Commit L tx s1 s2 s3).map (fun r => (Outcome.ret r.1, r.2)) = some (o, e') := h
    cases hr : e.Commit L tx s1 s2 s3 with
    | none =>
      rw [hr] at h
      exact absurd h (by simp)
    | some res =>
      rw [hr] at h
      simp only [Option.map_some', Option.some.injEq, Prod.mk.injEq] at h
      rw [← h.2]
      rcases Commit_table L e tx s1 s2 s3 res.1 res.2 hr with hs | ⟨lg, fuel, b, e3, hl, hs⟩
      · rw [hs]
        exact ht
      · rw [hs]
        exact releaseAll_keeps HeadsInv ReleaseLock_heads _ _ _ _ _ _ _ _ hl ht
  | abort tx s1 s2 s3 =>
    have h : (e.Abort L none tx s1 s2 s3).map (fun r => (Outcome.val r.1, r.2)) = some (o, e') := h
    cases hr : e.Abort L none tx s1 s2 s3 with
    | none =>
      rw [hr] at h
      exact absurd h (by simp)
    | some res =>
      rw [hr] at h
      simp only [Option.map_some', Option.some.injEq, Prod.mk.injEq] at h
      rw [← h.2]
      rcases Abort_table L e none tx s1 s2 s3 res.1 res.2 hr with hs | ⟨lg, fuel, b, e3, hl, hs⟩
      · rw [hs]
        exact ht
      · rw [hs]
        exact releaseAll_keeps HeadsInv ReleaseLock_heads _ _ _ _ _ _ _ _ hl ht
  | log c =>
    have h : (e.log.call L c).map (fun r => (Outcome.ret r.1, { e with log := r.2 }))
        = some (o, e') := h
    cases hr : e.log.call L c with
    | none =>
      rw [hr] at h
      exact absurd h (by simp)
    | some res =>
      rw [hr] at h
      simp only [Option.map_some', Option.some.injEq, Prod.mk.injEq] at h
      rw [← h.2]
      exact ht

theorem Engine.Locking.heads {L : LogLayout} {e : Engine} (h : Engine.Locking L e) :
    HeadsInv e.lock_table := by
  induction h with
  | start lg => exact fun p hp => absurd hp (List.not_mem_nil _)
  | call e c o e' _ hm hc ih => exact call_heads L e c hm o e' hc ih

theorem Engine.Locking.after_calls {L : LogLayout} {e : Engine} (h : Engine.Locking L e)
    (calls : List Call) (hm : ∀ c ∈ calls, c.moded = true) (os : List Outcome) (e' : Engine)
    (hr : Engine.run L e calls = some (os, e')) : Engine.Locking L e' := by
  induction calls generalizing e os with
  | nil =>
    unfold Engine.run at hr
    simp only [Option.some.injEq, Prod.mk.injEq] at hr
    rw [← hr.2]
    exact h
  | cons c rest ih =>
    unfold Engine.run at hr
    cases hc : e.call L c with
    | none =>
      rw [hc] at hr
      exact absurd hr (by simp)
    | some res =>
      obtain ⟨o, e1⟩ := res
      rw [hc] at hr
      dsimp only at hr
      cases hrest : Engine.run L e1 rest with
      | none =>
        rw [hrest] at hr
        exact absurd hr (by simp)
      | some res2 =>
        obtain ⟨os2, e2⟩ := res2
        rw [hrest] at hr
        simp only [Option.some.injEq, Prod.mk.injEq] at hr
        have he := hr.2
        subst he
        exact ih (Engine.Locking.call e c o e1 h (hm c (List.mem_cons_self _ _)) hc)
          (fun c2 hc2 => hm c2 (List.mem_cons_of_mem _ hc2)) os2 hrest

/-- The granted requests of a queue of shape `RunInv` are a prefix of it, of
mode SH. -/
theorem RunInv.split {q : List LockRequest} (h : RunInv q) :
    ∃ pre post, q = pre ++ post ∧ (∀ x ∈ pre, x.granted = true ∧ x.mode = Mode.SH) ∧
      NoGrant post := by
  induction q with
  | nil => exact ⟨[], [], rfl, fun x hx => absurd hx (List.not_mem_nil _),
      fun x hx => absurd hx (List.not_mem_nil _)⟩
  | cons x xs ih =>
    rw [runInv_cons] at h
    by_cases hx : x.mode = Mode.SH
    · rw [if_pos hx] at h
      obtain ⟨pre, post, e1, e2, e3⟩ := ih h.2
      refine ⟨x :: pre, post, by rw [e1]; rfl, ?_, e3⟩
      intro y hy
      rcases List.mem_cons.mp hy with hy | hy
      · rw [hy]
        exact ⟨h.1, hx⟩
      · exact e2 y hy
    · rw [if_neg hx] at h
      exact ⟨[], x :: xs, rfl, fun y hy => absurd hy (List.not_mem_nil _), h⟩

/-- What the shape `HeadInv` says of a lock head, in the terms of queues. -/
theorem HeadInv.shape {h : LockHead} (hi : HeadInv h) :
    (∃ pre post, h.requests = pre ++ post ∧ (∀ x ∈ pre, x.granted = true) ∧
      (∀ x ∈ post, x.granted = false)) ∧
    (∀ r rest, h.requests = r :: rest → r.granted = true) ∧
    (h.current_mode = Mode.NL ↔ h.requests = []) ∧
    (∀ x ∈ h.requests, x.granted = true → x.mode = h.current_mode) := by
  obtain ⟨hm, hs⟩ := hi
  cases hq : h.requests with
  | nil =>
    rw [hq] at hs
    refine ⟨⟨[], [], rfl, fun x hx => absurd hx (List.not_mem_nil _),
      fun x hx => absurd hx (List.not_mem_nil _)⟩, fun r rest e => absurd e (by simp),
      ⟨fun _ => rfl, fun _ => hs⟩, fun x hx => absurd hx (List.not_mem_nil _)⟩
  | cons r rest =>
    rw [hq] at hs hm
    obtain ⟨g1, g2, g3⟩ := hs
    have hr := hm r (List.mem_cons_self _ _)
    by_cases hx : r.mode = Mode.SH
    · rw [if_pos hx] at g3
      obtain ⟨pre, post, e1, e2, e3⟩ := g3.split
      refine ⟨⟨r :: pre, post, by rw [e1]; rfl, ?_, e3⟩, ?_, ?_, ?_⟩
      · intro y hy
        rcases List.mem_cons.mp hy with hy | hy
        · rw [hy]
          exact g1
        · exact (e2 y hy).1
      · intro r2 rest2 e
        rw [← (List.cons.inj e).1]
        exact g1
      · rw [g2]
        exact ⟨fun e => absurd e hr, fun e => absurd e (by simp)⟩
      · intro y hy hg
        rcases List.mem_cons.mp hy with hy | hy
        · rw [hy, g2]
        · rw [e1] at hy
          rcases List.mem_append.mp hy with hy | hy
          · rw [(e2 y hy).2, g2, hx]
          · rw [e3 y hy] at hg
            exact absurd hg (by simp)
    · rw [if_neg hx] at g3
      refine ⟨⟨[r], rest, rfl, ?_, g3⟩, ?_, ?_, ?_⟩
      · intro y hy
        rw [List.mem_singleton.mp hy]
        exact g1
      · intro r2 rest2 e
        rw [← (List.cons.inj e).1]
        exact g1
      · rw [g2]
        exact ⟨fun e => absurd e hr, fun e => absurd e (by simp)⟩
      · intro y hy hg
        rcases List.mem_cons.mp hy with hy | hy
        · rw [hy, g2]
        · rw [g3 y hy] at hg
          exact absurd hg (by simp)

/-- C39: in every state reached from start-up by `AcquireLock` calls with mode
SH or XL and `ReleaseLock`, `Commit` and `Abort` calls (and constructions of
transactions), in every lock head: the queue is a run of granted requests
followed by requests that are not granted; the first request of a non-empty
queue is granted; `current_mode` is NL if and only if the queue is empty;
and every granted request has the mode `current_mode`. -/
theorem C39_lock_head_shape (L : LogLayout) (e : Engine) (h : Engine.Locking L e)
    (rvalue : Nat) (head : LockHead) (hh : (rvalue, head) ∈ e.lock_table) :
    (∃ pre post, head.requests = pre ++ post ∧ (∀ x ∈ pre, x.granted = true) ∧
      (∀ x ∈ post, x.granted = false)) ∧
    (∀ r rest, head.requests = r :: rest → r.granted = true) ∧
    (head.current_mode = Mode.NL ↔ head.requests = []) ∧
    (∀ x ∈ head.requests, x.granted = true → x.mode = head.current_mode) :=
  (h.heads (rvalue, head) hh).shape

theorem sampleQueued_locking : Engine.Locking sampleLayout sampleQueued :=
  (Engine.Locking.start sampleLog).after_calls queuedCalls (by decide) _ _ sampleQueued_run

/-- Instance of C39: the lock head of `ridA` in `sampleQueued`, where
transaction 1 holds the lock in mode SH and transaction 0 waits for mode XL. -/
theorem C39_lock_head_shape_witness :
    (∃ pre post, [(⟨Mode.SH, 1, true⟩ : LockRequest), ⟨Mode.XL, 0, false⟩] = pre ++ post ∧
      (∀ x ∈ pre, x.granted = true) ∧ (∀ x ∈ post, x.granted = false)) ∧
    (∀ r rest, [(⟨Mode.SH, 1, true⟩ : LockRequest), ⟨Mode.XL, 0, false⟩] = r :: rest →
      r.granted = true) ∧
    (Mode.SH = Mode.NL ↔ [(⟨Mode.SH, 1, true⟩ : LockRequest), ⟨Mode.XL, 0, false⟩] = []) ∧
    (∀ x ∈ [(⟨Mode.SH, 1, true⟩ : LockRequest), ⟨Mode.XL, 0, false⟩],
      x.granted = true → x.mode = Mode.SH) :=
  C39_lock_head_shape sampleLayout sampleQueued sampleQueued_locking 1
    ⟨Mode.SH, [⟨Mode.SH, 1, true⟩, ⟨Mode.XL, 0, false⟩]⟩ (by decide)

/-! ## Table: the existence test of `Read`, the count of free slots -/

set_option maxRecDepth 100000 in
theorem sampleWorld_create :
    (Table.create samplePages (BufferManager.create 16 3) 3 4 8 sysOk sysOk).map
        (fun x => World.mk x.1 x.2 sampleLog) = some sampleWorld := by
  decide

set_option maxRecDepth 100000 in
/-- C31 fails on the code: with four entries per directory page and data
pages that take one record, `Table("t", 8)` and six `Insert` calls, all
system calls succeeding, return six valid RIDs, one per data page 0..5; the
directory entry of data page 1 then is allocated with `free_slots` 1, the
capacity, while page 1 holds one live record. -/
theorem C31_free_slots_reset :
    (World.run samplePages sampleData sampleLayout sampleWorld
        [insertA, insertA, insertA, insertA, insertA, insertA]).map
      (fun x => (x.1, x.2.table.file.entry samplePages x.2.pool 1,
        x.2.pool.view 16 (PageId.make 3 1)))
      = some ([TableResult.rid (RID.make (PageId.make 3 0) 0),
          TableResult.rid (RID.make (PageId.make 3 1) 0),
          TableResult.rid (RID.make (PageId.make 3 2) 0),
          TableResult.rid (RID.make (PageId.make 3 3) 0),
          TableResult.rid (RID.make (PageId.make 3 4) 0),
          TableResult.rid (RID.make (PageId.make 3 5) 0)],
        some ⟨1, true, true⟩, some pageA) ∧
    (RID.make (PageId.make 3 1) 0).IsValid = true ∧
    samplePages.GetCapacity 8 = 1 ∧
    sampleData.Read pageA (RID.make (PageId.make 3 1) 0) (List.replicate 8 0)
      = (true, recordA, pageA) := by
  decide

theorem RID.pageNum_lt (rid : RID) : rid.GetPageNum < 65536 := by
  unfold RID.GetPageNum
  rw [and_mask32, Nat.shiftRight_eq_div_pow]
  omega

set_option maxRecDepth 100000 in
/-- C33 fails on the code: the page id that `Read` hands to `PageExists` is
made from the number `rid.GetPageNum()` by the constructor `PageId(uint64_t)`,
so its own page number is 0 whatever the RID, and `PageExists` reads the entry
of data page 0. After `Table("t", 8)`, two `Insert` calls that fill pages 0
and 1, and `DeallocatePage` of page 0, the entry of page 1 is allocated and
page 1 holds the record, and `Read` of the record of page 1 returns false. -/
theorem C33_read_checks_page_zero :
    (∀ (rid : RID) (p : PageId), PageId.ofValue rid.GetPageNum = some p → p.GetPageNum = 0) ∧
    (World.run samplePages sampleData sampleLayout sampleWorld
        [insertA, insertA, TableCall.deallocate (PageId.make 3 0) sysOk,
          TableCall.read (RID.make (PageId.make 3 1) 0) (List.replicate 8 0) sysOk]).map
      (fun x => (x.1, x.2.table.file.entry samplePages x.2.pool 1,
        x.2.table.file.entry samplePages x.2.pool 0,
        x.2.pool.view 16 (PageId.make 3 1)))
      = some ([TableResult.rid (RID.make (PageId.make 3 0) 0),
          TableResult.rid (RID.make (PageId.make 3 1) 0),
          TableResult.flag true [],
          TableResult.flag false (List.replicate 8 0)],
        some ⟨0, true, true⟩, some ⟨0, false, true⟩, some pageA) ∧
    (RID.make (PageId.make 3 1) 0).IsValid = true ∧
    (RID.make (PageId.make 3 1) 0).GetPageNum = 1 := by
  refine ⟨?_, by decide, by decide, by decide⟩
  intro rid p h
  unfold PageId.ofValue at h
  split at h
  · simp only [Option.some.injEq] at h
    rw [← h]
    have := rid.pageNum_lt
    show (rid.GetPageNum &&& 0xffffffff) >>> 16 = 0
    rw [and_mask32, Nat.shiftRight_eq_div_pow]
    omega
  · exact absurd h (by simp)

/-! ## Table: a log append that fails -/

/-- `UnpinPage` of a frame that the client holds: the call returns and
nothing that is seen changes. -/
theorem unpin_views (PAGE_SIZE : Nat) (bm : BufferManager) (S : List Nat)
    (h : Held PAGE_SIZE bm S) (q : PageId) (a : Nat)
    (hf : findPage bm.page_map q = some a) (ha : a ∈ S) :
    ∃ bm1, bm.UnpinPage (some a) = some bm1 ∧ PoolInv bm1 ∧
      bm1.page_map = bm.page_map ∧ bm1.file_map = bm.file_map ∧
      bm1.page_count = bm.page_count ∧
      (∀ q1, bm1.view PAGE_SIZE q1 = bm.view PAGE_SIZE q1) := by
  have hmem := findPage_mem _ _ _ hf
  obtain ⟨p, hp, _, hlen, _, _, hin, _⟩ := held_entry PAGE_SIZE bm S h (q, a) hmem
  obtain ⟨d1, d2, d3⟩ := dec_fields p (hin ha)
  have hun := UnpinPage_live bm a p hp
  rw [if_pos d1] at hun
  have hex : ∃ bm1, bm.UnpinPage (some a) = some bm1 ∧
      bm1.heap = bm.heap.set a (some p.DecPinCount) ∧
      bm1.page_map = bm.page_map ∧ bm1.file_map = bm.file_map ∧
      bm1.page_count = bm.page_count := by
    by_cases hl : a ∈ bm.lru
    · rw [if_pos hl] at hun
      exact ⟨_, hun, rfl, rfl, rfl, rfl⟩
    · rw [if_neg hl] at hun
      exact ⟨_, hun, rfl, rfl, rfl, rfl⟩
  obtain ⟨bm1, hun1, hheap, hpm, hfm, hpc⟩ := hex
  have hinv := poolInv_UnpinPage bm h.1 (some a) bm1 hun1
  have hlt : a < bm.heap.length := frame_bound bm a p hp
  have hfa : bm1.frame a = some p.DecPinCount := frame_set_same bm bm1 a _ hlt hheap
  have hfo : ∀ b, b ≠ a → bm1.frame b = bm.frame b :=
    fun b hb => frame_set_other bm bm1 a b _ hb hheap
  refine ⟨bm1, hun1, hinv, hpm, hfm, hpc, ?_⟩
  intro q1
  unfold BufferManager.view
  rw [hpm, hfm]
  cases hf1 : findPage bm.page_map q1 with
  | none => rfl
  | some b =>
    by_cases hb : b = a
    · simp only [hb, hfa, hp, Option.map_some', d2]
    · simp only [hfo b hb]

/-- `Delete` when the log append fails: the call returns false and what is
seen of the pages is as before. -/
theorem Delete_log_fails (G : PageLayout) (D : DataPageOps) (L : LogLayout) (t : Table)
    (bm : BufferManager) (lg : LogManager) (rid : RID) (sysf sysl : SysOutcome)
    (d : List Nat) (lg1 : LogManager)
    (hPS : G.PAGE_SIZE ≤ 65536) (h : Held G.PAGE_SIZE bm []) (hpc : 1 ≤ bm.page_count)
    (hs : sysf.Ok G.PAGE_SIZE) (hv : rid.IsValid = true) (hq : rid.page.Proper)
    (hd : bm.view G.PAGE_SIZE rid.page = some d)
    (hlog : lg.LogDelete L rid sysl = some (false, lg1)) :
    ∃ bm1, t.Delete G D L bm lg rid sysf sysl = some (false, bm1, lg1) ∧
      Held G.PAGE_SIZE bm1 [] ∧ ViewLe G.PAGE_SIZE bm bm1 := by
  obtain ⟨a, bm1, p, hpin, h1, v1, _, hf1, hp1, _, hset⟩ := pin_spec G.PAGE_SIZE hPS bm [] h
    sysf hs rid.page hq d hd (by simpa using hpc) (fun a _ => List.not_mem_nil a)
  obtain ⟨bm2, hun, h2, _, _, _, v2⟩ := unpin_spec G.PAGE_SIZE bm1 [a] h1 rid.page a hf1
    (List.mem_cons_self _ _) (settled_of_frame G.PAGE_SIZE bm1 a p rid.page hp1 hset)
  refine ⟨bm2, ?_, by simpa using h2,
    viewLe_trans _ _ _ _ v1 (viewLe_of_eq _ _ _ v2)⟩
  unfold Table.Delete
  simp only [hv, Bool.not_true, Bool.false_eq_true, if_false, hpin, hp1, hlog, Bool.false_and,
    hun]

/-- `Update` when the log append fails: the call returns false and what is
seen of the pages is as before. -/
theorem Update_log_fails (G : PageLayout) (D : DataPageOps) (L : LogLayout) (t : Table)
    (bm : BufferManager) (lg : LogManager) (rid : RID) (record : List Nat)
    (sysf sysl : SysOutcome) (d : List Nat) (lg1 : LogManager)
    (hPS : G.PAGE_SIZE ≤ 65536) (h : Held G.PAGE_SIZE bm []) (hpc : 1 ≤ bm.page_count)
    (hs : sysf.Ok G.PAGE_SIZE) (hv : rid.IsValid = true) (hq : rid.page.Proper)
    (hd : bm.view G.PAGE_SIZE rid.page = some d)
    (hlog : lg.LogUpdate L rid (some record) t.record_size sysl = some (false, lg1)) :
    ∃ bm1, t.Update G D L bm lg rid record sysf sysl = some (false, bm1, lg1) ∧
      Held G.PAGE_SIZE bm1 [] ∧ ViewLe G.PAGE_SIZE bm bm1 := by
  obtain ⟨a, bm1, p, hpin, h1, v1, _, hf1, hp1, _, hset⟩ := pin_spec G.PAGE_SIZE hPS bm [] h
    sysf hs rid.page hq d hd (by simpa using hpc) (fun a _ => List.not_mem_nil a)
  obtain ⟨bm2, hun, h2, _, _, _, v2⟩ := unpin_spec G.PAGE_SIZE bm1 [a] h1 rid.page a hf1
    (List.mem_cons_self _ _) (settled_of_frame G.PAGE_SIZE bm1 a p rid.page hp1 hset)
  refine ⟨bm2, ?_, by simpa using h2,
    viewLe_trans _ _ _ _ v1 (viewLe_of_eq _ _ _ v2)⟩
  unfold Table.Update
  simp only [hv, Bool.not_true, Bool.false_eq_true, if_false, hpin, hp1, hlog, Bool.false_and,
    hun]

/-- `Insert` into a page with room when the log append fails: the call
returns an invalid RID; the page holds what `DataPage::Insert` left, every
other page is seen as before. -/
theorem Insert_log_fails (G : PageLayout) (D : DataPageOps) (L : LogLayout) (t : Table)
    (bm : BufferManager) (lg : LogManager) (record : List Nat) (fuel : Nat)
    (sysc sysf sysl : SysOutcome) (d : List Nat) (lg1 : LogManager)
    (hPS : G.PAGE_SIZE ≤ 65536) (hD : D.Sized G.PAGE_SIZE) (h : Held G.PAGE_SIZE bm [])
    (hpc : 1 ≤ bm.page_count) (hs : sysf.Ok G.PAGE_SIZE)
    (hq : t.next_free_pid.Proper) (hd : bm.view G.PAGE_SIZE t.next_free_pid = some d)
    (hins : (D.Insert d record).1 = true)
    (hlog : lg.LogInsert L (RID.make t.next_free_pid (D.Insert d record).2.1) (some record)
      t.record_size sysl = some (false, lg1)) :
    ∃ bm1, t.Insert G D L bm lg record (fuel + 1) sysc sysf sysl
        = some (RID.invalid, t, bm1, lg1) ∧
      bm1.view G.PAGE_SIZE t.next_free_pid = some (D.Insert d record).2.2 ∧
      ∀ q dq, q.Proper → q ≠ t.next_free_pid → bm.view G.PAGE_SIZE q = some dq →
        bm1.view G.PAGE_SIZE q = some dq := by
  obtain ⟨a, bm1, p, hpin, h1, v1, _, hf1, hp1, hpd, _⟩ := pin_spec G.PAGE_SIZE hPS bm [] h
    sysf hs t.next_free_pid hq d hd (by simpa using hpc) (fun a _ => List.not_mem_nil a)
  obtain ⟨p2, bm2, hp2, hup, h2, hpm2, _, _, _, hv2, hvo2⟩ := update_spec G.PAGE_SIZE bm1 [a] h1
    t.next_free_pid a hf1 (List.mem_cons_self _ _) (fun x => (D.Insert x record).2.2)
    (fun x hx => hD.1 x record hx)
  have hpp : p2 = p := Option.some.inj (hp2.symm.trans hp1)
  rw [hpp, hpd] at hv2
  obtain ⟨bm3, hun, _, _, _, _, v3⟩ := unpin_views G.PAGE_SIZE bm2 [a] h2 t.next_free_pid a
    (by rw [hpm2]; exact hf1) (List.mem_cons_self _ _)
  refine ⟨bm3, ?_, by rw [v3, hv2], ?_⟩
  · unfold Table.Insert Table.insertLoop
    simp only [hpin, hp1, hpd, hup, hins, Bool.not_true, Bool.false_eq_true, if_false, hlog, hun]
  · intro q dq hqp hne hdq
    rw [v3, hvo2 q hne]
    exact v1 q dq hqp hdq

/-- A log append that fails, on a pool where nothing is pinned, with at least
one frame and successful system calls of a write-back, for a page that is
there: `Update` and `Delete` append their log record before they change the
page, and when the append fails they return false and every page, of the data
file and of the directory, is seen as before the call. `Insert` calls
`DataPage::Insert` before it appends the log record; when the page has room
and the append fails it returns an invalid RID, the table object and every
other page are as before, and the page holds what `DataPage::Insert` left. -/
theorem failed_log_append (G : PageLayout) (D : DataPageOps) (L : LogLayout) (t : Table)
    (bm : BufferManager) (lg lg1 : LogManager) (sysf sysl : SysOutcome)
    (hPS : G.PAGE_SIZE ≤ 65536) (hD : D.Sized G.PAGE_SIZE) (h : Held G.PAGE_SIZE bm [])
    (hpc : 1 ≤ bm.page_count) (hs : sysf.Ok G.PAGE_SIZE) :
    (∀ rid record d, rid.IsValid = true → rid.page.Proper →
      bm.view G.PAGE_SIZE rid.page = some d →
      lg.LogUpdate L rid (some record) t.record_size sysl = some (false, lg1) →
      ∃ bm1, t.Update G D L bm lg rid record sysf sysl = some (false, bm1, lg1) ∧
        Held G.PAGE_SIZE bm1 [] ∧ ViewLe G.PAGE_SIZE bm bm1) ∧
    (∀ rid d, rid.IsValid = true → rid.page.Proper →
      bm.view G.PAGE_SIZE rid.page = some d →
      lg.LogDelete L rid sysl = some (false, lg1) →
      ∃ bm1, t.Delete G D L bm lg rid sysf sysl = some (false, bm1, lg1) ∧
        Held G.PAGE_SIZE bm1 [] ∧ ViewLe G.PAGE_SIZE bm bm1) ∧
    (∀ record d fuel sysc, t.next_free_pid.Proper →
      bm.view G.PAGE_SIZE t.next_free_pid = some d → (D.Insert d record).1 = true →
      lg.LogInsert L (RID.make t.next_free_pid (D.Insert d record).2.1) (some record)
        t.record_size sysl = some (false, lg1) →
      ∃ bm1, t.Insert G D L bm lg record (fuel + 1) sysc sysf sysl
          = some (RID.invalid, t, bm1, lg1) ∧
        bm1.view G.PAGE_SIZE t.next_free_pid = some (D.Insert d record).2.2 ∧
        ∀ q dq, q.Proper → q ≠ t.next_free_pid → bm.view G.PAGE_SIZE q = some dq →
          bm1.view G.PAGE_SIZE q = some dq) :=
  ⟨fun rid record d hv hq hd hlog =>
      Update_log_fails G D L t bm lg rid record sysf sysl d lg1 hPS h hpc hs hv hq hd hlog,
    fun rid d hv hq hd hlog =>
      Delete_log_fails G D L t bm lg rid sysf sysl d lg1 hPS h hpc hs hv hq hd hlog,
    fun record d fuel sysc hq hd hins hlog =>
      Insert_log_fails G D L t bm lg record fuel sysc sysf sysl d lg1 hPS hD h hpc hs hq hd
        hins hlog⟩

theorem sampleWorld_held : Held 16 sampleWorld.pool [] := by
  unfold Held PoolInv Sized PageId.Proper
  decide

theorem sysOk_fine : sysOk.Ok 16 :=
  ⟨by decide, 1000000, rfl, by decide⟩

theorem sampleData_sized : sampleData.Sized 16 := by
  refine ⟨?_, ?_, ?_, ?_⟩
  · intro d record hd
    show (match (List.range (12 / slotSize d)).find? (fun i => !slotUsed d i) with
      | none => (false, 0, d)
      | some i =>
        (true, i, pwriteBytes (d.set 2 ((d.getD 2 0 + 1) % 256)) (1 :: record) (slotSize d)
          (slotAt d i))).2.2.length = 16
    cases hfind : (List.range (12 / slotSize d)).find? (fun i => !slotUsed d i) with
    | none => exact hd
    | some i =>
      have hi := List.mem_range.mp (List.mem_of_find?_eq_some hfind)
      have hpos : 0 < slotSize d := by unfold slotSize; omega
      have h1 : (i + 1) * slotSize d ≤ 12 := by
        have := (Nat.le_div_iff_mul_le hpos).mp (Nat.succ_le_of_lt hi)
        exact this
      show (pwriteBytes _ _ _ _).length = 16
      unfold pwriteBytes slotAt
      simp only [List.length_append, List.length_take, List.length_drop, List.length_set,
        List.length_replicate, List.length_cons, hd]
      have h2 : (i + 1) * slotSize d = i * slotSize d + slotSize d := by ring
      omega
  · intro d rid out hd
    show (if slotUsed d rid.GetSlotId then
        (true, overwrite out (preadBytes d (slotSize d - 1) (slotAt d rid.GetSlotId + 1)), d)
      else (false, out, d)).2.2.length = 16
    split
    · exact hd
    · exact hd
  · intro d rid hd
    show (if slotUsed d rid.GetSlotId then
        (true, (d.set (slotAt d rid.GetSlotId) 0).set 2 ((d.getD 2 0 + 255) % 256))
      else (false, d)).2.length = 16
    split
    · simp only [List.length_set, hd]
    · exact hd
  · intro d rid record hd
    show (if slotUsed d rid.GetSlotId then
        (true, pwriteBytes d record (slotSize d - 1) (slotAt d rid.GetSlotId + 1))
      else (false, d)).2.length = 16
    split
    · rename_i hu
      unfold slotUsed at hu
      simp only [Bool.and_eq_true, decide_eq_true_eq] at hu
      have hpos : 0 < slotSize d := by unfold slotSize; omega
      have h1 : (rid.GetSlotId + 1) * slotSize d ≤ 12 :=
        (Nat.le_div_iff_mul_le hpos).mp (Nat.succ_le_of_lt hu.1)
      show (pwriteBytes _ _ _ _).length = 16
      unfold pwriteBytes slotAt
      simp only [List.length_append, List.length_take, List.length_drop,
        List.length_replicate, hd]
      have h2 : (rid.GetSlotId + 1) * slotSize d = rid.GetSlotId * slotSize d + slotSize d := by
        ring
      omega
    · exact hd

theorem sampleLogFull_update (rid : RID) (record : List Nat) :
    sampleLogFull.LogUpdate sampleLayout rid (some record) 8 sysFail
      = some (false, sampleLogFull) ∨ rid.IsValid = false := by
  by_cases hv : rid.IsValid = false
  · exact Or.inr hv
  · left
    unfold LogManager.LogUpdate LogManager.place LogManager.Flush
    simp [hv, sampleLogFull, sysFail, logSize, sampleLayout]

theorem sampleLogFull_delete (rid : RID) :
    sampleLogFull.LogDelete sampleLayout rid sysFail = some (false, sampleLogFull) ∨
      rid.IsValid = false := by
  by_cases hv : rid.IsValid = false
  · exact Or.inr hv
  · left
    unfold LogManager.LogDelete LogManager.place LogManager.Flush
    simp [hv, sampleLogFull, sysFail, logSize, sampleLayout]

theorem sampleLogFull_insert (rid : RID) (record : List Nat) :
    sampleLogFull.LogInsert sampleLayout rid (some record) 8 sysFail
      = some (false, sampleLogFull) ∨ rid.IsValid = false := by
  by_cases hv : rid.IsValid = false
  · exact Or.inr hv
  · left
    unfold LogManager.LogInsert LogManager.place LogManager.Flush
    simp [hv, sampleLogFull, sysFail, logSize, sampleLayout]

theorem ridZero_proper : ridZero.page.Proper := by
  unfold PageId.Proper
  decide

theorem pageZero_proper : sampleWorld.table.next_free_pid.Proper := by
  unfold PageId.Proper
  decide

set_option maxRecDepth 100000 in
/-- The table `sampleWorld` with a log buffer that is full and a flush that
fails: `Update` and `Delete` of slot 0 of page 0 return false, `Insert`
returns an invalid RID and leaves the record in page 0. -/
theorem failed_log_append_sample :
    (∃ bm1, sampleWorld.table.Update samplePages sampleData sampleLayout sampleWorld.pool
          sampleLogFull ridZero recordB sysOk sysFail = some (false, bm1, sampleLogFull) ∧
        Held 16 bm1 [] ∧ ViewLe 16 sampleWorld.pool bm1) ∧
    (∃ bm1, sampleWorld.table.Delete samplePages sampleData sampleLayout sampleWorld.pool
          sampleLogFull ridZero sysOk sysFail = some (false, bm1, sampleLogFull) ∧
        Held 16 bm1 [] ∧ ViewLe 16 sampleWorld.pool bm1) ∧
    (∃ bm1, sampleWorld.table.Insert samplePages sampleData sampleLayout sampleWorld.pool
          sampleLogFull recordA (0 + 1) sysOk sysOk sysFail
          = some (RID.invalid, sampleWorld.table, bm1, sampleLogFull) ∧
        bm1.view 16 (PageId.make 3 0) = some (sampleData.Insert pageEmpty recordA).2.2 ∧
        ∀ q dq, q.Proper → q ≠ PageId.make 3 0 → sampleWorld.pool.view 16 q = some dq →
          bm1.view 16 q = some dq) ∧
    (sampleData.Insert pageEmpty recordA).2.2 = pageA :=
  ⟨(failed_log_append samplePages sampleData sampleLayout sampleWorld.table sampleWorld.pool
      sampleLogFull sampleLogFull sysOk sysFail (by decide) sampleData_sized sampleWorld_held
      (by decide) sysOk_fine).1 ridZero recordB pageEmpty (by decide) ridZero_proper (by decide)
      ((sampleLogFull_update ridZero recordB).resolve_right (by decide)),
    (failed_log_append samplePages sampleData sampleLayout sampleWorld.table sampleWorld.pool
      sampleLogFull sampleLogFull sysOk sysFail (by decide) sampleData_sized sampleWorld_held
      (by decide) sysOk_fine).2.1 ridZero pageEmpty (by decide) ridZero_proper (by decide)
      ((sampleLogFull_delete ridZero).resolve_right (by decide)),
    (failed_log_append samplePages sampleData sampleLayout sampleWorld.table sampleWorld.pool
      sampleLogFull sampleLogFull sysOk sysFail (by decide) sampleData_sized sampleWorld_held
      (by decide) sysOk_fine).2.2 recordA pageEmpty 0 sysOk pageZero_proper (by decide)
      (by decide)
      ((sampleLogFull_insert (RID.make (PageId.make 3 0) (sampleData.Insert pageEmpty recordA).2.1)
        recordA).resolve_right (by decide)),
    by decide⟩

set_option maxRecDepth 100000 in
/-- C34 fails on the code, for `Insert`: on the table that `Table("t", 8)`
constructs on a pool of three frames, with the log manager of
`LogManager("log", 0)`, whose buffer takes no record, the append of
`Insert(recordA)` fails and the call returns an invalid RID, yet data page 0,
empty before the call, holds the record after it, in a frame that is marked
dirty: `DataPage::Insert` ran before `LogInsert` (lines 36 and 54), and the
branch of the failed append (lines 54-59) leaves the page as it is. -/
theorem C34_insert_before_log :
    (Table.create samplePages (BufferManager.create 16 3) 3 4 8 sysOk sysOk)
      = some (sampleWorld.table, sampleWorld.pool) ∧
    sampleLogZero.LogInsert sampleLayout ridZero (some recordA) 8 sysOk
      = some (false, sampleLogZero) ∧
    sampleWorld.pool.view 16 (PageId.make 3 0) = some pageEmpty ∧
    (sampleWorld.table.Insert samplePages sampleData sampleLayout sampleWorld.pool sampleLogZero
        recordA 1 sysOk sysOk sysOk).map
      (fun x => (x.1, x.2.2.1.view 16 (PageId.make 3 0),
        (x.2.2.1.frame 1).map (fun p => (p.page_id, p.is_dirty))))
      = some (RID.invalid, some pageA, some (PageId.make 3 0, true)) ∧
    pageA ≠ pageEmpty := by
  decide

/-! ## Pages of a table in the pool -/

theorem rid_value (pid : PageId) (hp : pid.Proper) (s : Nat) :
    (RID.make pid s).value = pid.value + s % 65536 := by
  unfold RID.make
  obtain ⟨k, hk⟩ : ∃ k, pid.value = 2 ^ 16 * k := ⟨pid.value / 65536, by
    have := hp.2
    omega⟩
  show pid.value ||| s % 2 ^ 16 = pid.value + s % 65536
  rw [hk]
  exact (Nat.mul_add_lt_is_or (Nat.mod_lt _ (by norm_num)) k).symm

theorem rid_pageNum (pid : PageId) (hp : pid.Proper) (s : Nat) :
    (RID.make pid s).GetPageNum = pid.GetPageNum := by
  have := hp.2
  unfold RID.GetPageNum
  rw [getPageNum_eq, and_mask32, Nat.shiftRight_eq_div_pow, rid_value pid hp s]
  omega

theorem rid_fileKey (pid : PageId) (hp : pid.Proper) (s : Nat) :
    fileKey ⟨(RID.make pid s).value⟩ = fileKey pid := by
  have h1 := hp.1
  have h2 := hp.2
  have hv := rid_value pid hp s
  unfold fileKey
  rw [getFileId_eq ⟨(RID.make pid s).value⟩ (by simp only [hv]; omega),
    getFileId_eq pid (by omega)]
  have : (RID.make pid s).value / 4294967296 = pid.value / 4294967296 := by
    rw [hv]
    omega
  simp only [this]

/-- The page id that `Read`, `Delete` and `Update` make from the RID of a slot
of a page is the id of the page. -/
theorem rid_page (fd : Int) (m s : Nat) (h0 : 0 ≤ fd) (h1 : fd < 2147483648)
    (hm : m < 65536) : (RID.make (PageId.make fd m) s).page = PageId.make fd m := by
  have hp := make_proper_int fd m h0 h1 hm
  unfold RID.page
  rw [rid_fileKey _ hp s, rid_pageNum _ hp s, make_fileKey_int fd m h0 h1 hm,
    make_pageNum_int fd m h0 h1 hm]

theorem sampleValid_list (a2 a3 a4 a5 a6 a7 a8 a9 a10 a11 a12 a13 a14 a15 : Nat) :
    sampleValid [8, 0, a2, a3, a4, a5, a6, a7, a8, a9, a10, a11, a12, a13, a14, a15] :=
  ⟨rfl, rfl, rfl⟩

theorem sysLog_fine : sysLog.Ok 16 :=
  ⟨by decide, 1048576, rfl, by decide⟩

end yase
